import Mathlib

/-! # SLUB allocator (mm/slub.c): cache geometry and the single-CPU allocator

A shallow embedding of the parts of `mm/slub.c` that decide block order and
object layout (`order_objects`, `oo_make`, `slab_order`, `calculate_order`,
`calculate_sizes`) and of the allocation and free paths (`slab_alloc_node`,
`__slab_alloc`, `new_slab_objects`, `get_partial_node`, `deactivate_slab`,
`put_cpu_partial`, `unfreeze_partials`, `slab_free`, `__slab_free`) and of
`flush_all`, `__kmem_cache_shrink` and `kmem_cache_close` as they run on one
CPU, one memory node, for a cache without debug flags.  Two parts are modelled
closer to the memory: the loop of `new_slab` that threads the free pointers
through a fresh slab, on a map from addresses to words, and
`__cmpxchg_double_slab`, on the pair of `page->freelist` and `page->counters`.
The checks of a cache with debug flags (`check_slab`, `check_object`,
`on_freelist`, `alloc_debug_processing`, `free_debug_processing`) and the
`__slab_free` that runs them are modelled on the bytes of one slab.  The last
part is `memblock_add_range` of `mm/memblock.c`, on the list of the regions of
a `struct memblock_type`.

Conventions of the embedding.

* C `int` and `unsigned long` sizes and counts are natural numbers; the sizes a
  cache can be opened with stay far below the word size, so no wrap-around is
  modelled for them.  The decrements of the bit-field `page->inuse` and of
  `n->nr_partial` do wrap, as in C.
* A pointer to an object is the pair of its slab page and its index in the
  slab; `virt_to_head_page` is the first projection.
* A chain of free objects threaded through the objects themselves
  (`get_freepointer`/`set_freepointer`) is the list of the objects it visits,
  `NULL` being the empty list.  The `lru` list of a node and the `next` chain
  of the per-CPU partial pages are lists of pages.
* On one CPU nothing runs between the read of `page->freelist`,
  `page->counters` and the `cmpxchg_double` that follows, so every
  compare-and-swap succeeds on its first pass and is written as an assignment.
* The page allocator is not part of the sources: each allocation call carries
  the answer the page allocator would give (`PageSource`).
* `slabs` (the pages the cache holds) and `requests` (the calls of
  `allocate_slab`) are bookkeeping of the embedding, not fields of the source.
* `CONFIG_SLUB_DEBUG` is built in: the node counts its slabs and `slabs_node`
  reads that count.
-/

namespace Slub

/-! ## Build configuration and tunables -/

/-- Modelled from the spec: the constants `mm/slub.c` takes from headers that
are not part of the sources at hand (`PAGE_SHIFT`, `MAX_ORDER`, the width of a
machine word, the build options, and `need_reserve_slab_rcu`, which compares
the sizes of two structures declared elsewhere) together with the boot-time
tunables `slub_min_order`, `slub_max_order`, `slub_min_objects` and
`nr_cpu_ids`.  `CONFIG_HAVE_CMPXCHG_DOUBLE` stands for the test
`defined(CONFIG_HAVE_CMPXCHG_DOUBLE) && defined(CONFIG_HAVE_ALIGNED_STRUCT_PAGE)`
and, in `kmem_cache_open`, for `system_has_cmpxchg_double()` with it. -/
structure Kconfig where
  PAGE_SHIFT : Nat
  MAX_ORDER : Nat
  CONFIG_64BIT : Bool
  CONFIG_STACKTRACE : Bool
  CONFIG_SLUB_CPU_PARTIAL : Bool
  CONFIG_HAVE_CMPXCHG_DOUBLE : Bool
  need_reserve_slab_rcu : Bool
  slub_min_order : Nat
  slub_max_order : Nat
  slub_min_objects : Nat
  nr_cpu_ids : Nat
  deriving DecidableEq, Repr

/-- The configuration the sources are annotated for: a 32-bit ARM board with
four CPUs, 4 KiB pages, `MAX_ORDER = 11`, `slub_max_order =
PAGE_ALLOC_COSTLY_ORDER = 3` and the other tunables at their defaults. -/
def rpi2 : Kconfig :=
  { PAGE_SHIFT := 12, MAX_ORDER := 11, CONFIG_64BIT := false,
    CONFIG_STACKTRACE := false, CONFIG_SLUB_CPU_PARTIAL := true,
    CONFIG_HAVE_CMPXCHG_DOUBLE := false, need_reserve_slab_rcu := false,
    slub_min_order := 0, slub_max_order := 3, slub_min_objects := 0,
    nr_cpu_ids := 4 }

/-- `PAGE_SIZE`, that is `1UL << PAGE_SHIFT`. -/
def PAGE_SIZE (k : Kconfig) : Nat := 1 <<< k.PAGE_SHIFT

/-- `sizeof(void *)`, also `sizeof(unsigned long)`. -/
def sizeof_ptr (k : Kconfig) : Nat := if k.CONFIG_64BIT then 8 else 4

/-- `sizeof(struct track)`: `addr`, the optional `addrs[TRACK_ADDRS_COUNT]`,
the two `int`s `cpu` and `pid`, and `when`. -/
def sizeof_track (k : Kconfig) : Nat :=
  sizeof_ptr k + (if k.CONFIG_STACKTRACE then 16 * sizeof_ptr k else 0) + 4 + 4 + sizeof_ptr k

/-- Modelled from the spec: `sizeof(struct rcu_head)` (two pointers), the only
non-zero value `kmem_cache_open` gives `s->reserved`. -/
def sizeof_rcu_head (k : Kconfig) : Nat := 2 * sizeof_ptr k

def OO_SHIFT : Nat := 16

def OO_MASK : Nat := (1 <<< OO_SHIFT) - 1

def MAX_OBJS_PER_PAGE : Nat := 32767

def MIN_PARTIAL : Nat := 5

def MAX_PARTIAL : Nat := 10

def ENOSYS : Int := 38

def EINVAL : Int := 22

/-! ## Bit helpers -/

/-- Bit length of `x`, computed by halving at most `fuel` times. -/
def flsAux : Nat → Nat → Nat
  | 0, _ => 0
  | fuel + 1, x => if x = 0 then 0 else flsAux fuel (x / 2) + 1

/-- Modelled from the spec: `fls` of `linux/bitops.h` on a 32-bit `int`: the
position of the most significant set bit counted from 1, and 0 for 0 (the
annotation in `calculate_order` records `fls(4) = 3`). -/
def fls (x : Nat) : Nat := flsAux 32 x

/-- Modelled from the spec: `fls64` of `linux/bitops.h`. -/
def fls64 (x : Nat) : Nat := flsAux 64 x

/-- Modelled from the spec: `get_order` of `asm-generic/getorder.h` for a
non-constant argument: `size--; size >>= PAGE_SHIFT;` and then `fls` (`fls64`
on a 64-bit build). -/
def get_order (k : Kconfig) (size : Nat) : Nat :=
  if k.CONFIG_64BIT then fls64 ((size - 1) >>> k.PAGE_SHIFT)
  else fls ((size - 1) >>> k.PAGE_SHIFT)

/-- Modelled from the spec: the macro `ALIGN(x, a)` of `linux/kernel.h`,
`(x + (a - 1)) & ~(a - 1)`; clearing the bits of the mask `a - 1` is written
as subtracting them. -/
def ALIGN (x a : Nat) : Nat := (x + (a - 1)) - ((x + (a - 1)) &&& (a - 1))

/-- Modelled from the spec: `ilog2` of `linux/log2.h` for a positive argument. -/
def ilog2 (x : Nat) : Nat := fls64 x - 1

/-! ## Order and object count of a slab -/

/-- The type `struct kmem_cache_order_objects`: one word holding the order in
its upper part and the object count in the lower 16 bits. -/
structure kmem_cache_order_objects where
  x : Nat
  deriving DecidableEq, Repr

def order_objects (k : Kconfig) (order size reserved : Nat) : Nat :=
  ((PAGE_SIZE k <<< order) - reserved) / size

def oo_make (k : Kconfig) (order size reserved : Nat) : kmem_cache_order_objects :=
  { x := (order <<< OO_SHIFT) + order_objects k order size reserved }

def oo_order (x : kmem_cache_order_objects) : Nat := x.x >>> OO_SHIFT

def oo_objects (x : kmem_cache_order_objects) : Nat := x.x &&& OO_MASK

/-- The `for` loop of `slab_order`: `fuel` is the number of orders left up to
`max_order`; the value returned when it runs out is the first order above
`max_order`. -/
def slab_order_loop (k : Kconfig) (size min_objects fract_leftover reserved : Nat) :
    Nat → Nat → Nat
  | 0, order => order
  | fuel + 1, order =>
    let slab_size := PAGE_SIZE k <<< order
    if slab_size < min_objects * size + reserved then
      slab_order_loop k size min_objects fract_leftover reserved fuel (order + 1)
    else if (slab_size - reserved) % size ≤ slab_size / fract_leftover then
      order
    else
      slab_order_loop k size min_objects fract_leftover reserved fuel (order + 1)

def slab_order (k : Kconfig) (size min_objects max_order fract_leftover reserved : Nat) : Int :=
  let min_order := k.slub_min_order
  if order_objects k min_order size reserved > MAX_OBJS_PER_PAGE then
    (get_order k (size * MAX_OBJS_PER_PAGE) : Int) - 1
  else
    let start := max min_order (fls (min_objects * size - 1) - k.PAGE_SHIFT)
    (slab_order_loop k size min_objects fract_leftover reserved (max_order + 1 - start) start : Nat)

/-- The inner `while (fraction >= 4)` loop of `calculate_order`; `fraction`
takes the values 16, 8 and 4, passed as the list of values still to try. -/
def calculate_order_fraction (k : Kconfig) (size reserved min_objects : Nat) :
    List Nat → Option Int
  | [] => none
  | fraction :: rest =>
    let order := slab_order k size min_objects k.slub_max_order fraction reserved
    if order ≤ (k.slub_max_order : Int) then some order
    else calculate_order_fraction k size reserved min_objects rest

/-- The outer `while (min_objects > 1)` loop of `calculate_order`. -/
def calculate_order_search (k : Kconfig) (size reserved : Nat) : Nat → Option Int
  | 0 => none
  | min_objects + 1 =>
    if min_objects + 1 > 1 then
      match calculate_order_fraction k size reserved (min_objects + 1) [16, 8, 4] with
      | some order => some order
      | none => calculate_order_search k size reserved min_objects
    else none

/-- The number of objects per slab `calculate_order` starts its search with. -/
def calculate_order_min_objects (k : Kconfig) (size reserved : Nat) : Nat :=
  let min_objects := if k.slub_min_objects = 0 then 4 * (fls k.nr_cpu_ids + 1)
    else k.slub_min_objects
  let max_objects := order_objects k k.slub_max_order size reserved
  min min_objects max_objects

def calculate_order (k : Kconfig) (size reserved : Nat) : Int :=
  match calculate_order_search k size reserved (calculate_order_min_objects k size reserved) with
  | some order => order
  | none =>
    let order := slab_order k size 1 k.slub_max_order 1 reserved
    if order ≤ (k.slub_max_order : Int) then order
    else
      let order := slab_order k size 1 k.MAX_ORDER 1 reserved
      if order < (k.MAX_ORDER : Int) then order
      else -ENOSYS

/-! ## The cache descriptor and its setup -/

/-- The bits of `s->flags` that `mm/slub.c` tests, one field per flag. -/
structure SlabFlags where
  SLAB_DEBUG_FREE : Bool := false
  SLAB_RED_ZONE : Bool := false
  SLAB_POISON : Bool := false
  SLAB_STORE_USER : Bool := false
  SLAB_TRACE : Bool := false
  SLAB_DESTROY_BY_RCU : Bool := false
  SLAB_CACHE_DMA : Bool := false
  SLAB_RECLAIM_ACCOUNT : Bool := false
  SLAB_PANIC : Bool := false
  __OBJECT_POISON : Bool := false
  __CMPXCHG_DOUBLE : Bool := false
  deriving DecidableEq, Repr

/-- The bits of `s->allocflags` set by `calculate_sizes`. -/
structure AllocFlags where
  __GFP_COMP : Bool := false
  GFP_DMA : Bool := false
  __GFP_RECLAIMABLE : Bool := false
  deriving DecidableEq, Repr

/-- The fields of `struct kmem_cache` used by cache setup and by the
allocation and free paths; `ctor` records whether a constructor is set. -/
structure kmem_cache where
  flags : SlabFlags := {}
  min_partial : Nat := 0
  size : Nat := 0
  object_size : Nat := 0
  offset : Nat := 0
  cpu_partial : Nat := 0
  oo : kmem_cache_order_objects := { x := 0 }
  max : kmem_cache_order_objects := { x := 0 }
  min : kmem_cache_order_objects := { x := 0 }
  allocflags : AllocFlags := {}
  inuse : Nat := 0
  align : Nat := 0
  reserved : Nat := 0
  ctor : Bool := false
  deriving DecidableEq, Repr

/-- `s->flags & SLAB_DEBUG_FLAGS`, with `CONFIG_SLUB_DEBUG` built in. -/
def kmem_cache_debug (s : kmem_cache) : Bool :=
  s.flags.SLAB_RED_ZONE || s.flags.SLAB_POISON || s.flags.SLAB_STORE_USER ||
    s.flags.SLAB_TRACE || s.flags.SLAB_DEBUG_FREE

def kmem_cache_has_cpu_partial (k : Kconfig) (s : kmem_cache) : Bool :=
  if k.CONFIG_SLUB_CPU_PARTIAL then !kmem_cache_debug s else false

def set_min_partial (s : kmem_cache) (min : Nat) : kmem_cache :=
  let min := if min < MIN_PARTIAL then MIN_PARTIAL
    else if min > MAX_PARTIAL then MAX_PARTIAL else min
  { s with min_partial := min }

/-- The first half of `calculate_sizes`, up to the final alignment of `size`:
the descriptor with `flags`, `inuse` and `offset` set, and the size reached.
`CONFIG_SLUB_DEBUG` is built in. -/
def calculate_sizes_object (k : Kconfig) (s : kmem_cache) : kmem_cache × Nat :=
  let flags := s.flags
  let size := s.object_size
  let size := ALIGN size (sizeof_ptr k)
  let s := { s with flags := { s.flags with
    __OBJECT_POISON := flags.SLAB_POISON && !flags.SLAB_DESTROY_BY_RCU && !s.ctor } }
  let size := if flags.SLAB_RED_ZONE && size == s.object_size then size + sizeof_ptr k else size
  let s := { s with inuse := size }
  let relocate := flags.SLAB_DESTROY_BY_RCU || flags.SLAB_POISON || s.ctor
  let s := if relocate then { s with offset := size } else s
  let size := if relocate then size + sizeof_ptr k else size
  let size := if flags.SLAB_STORE_USER then size + 2 * sizeof_track k else size
  let size := if flags.SLAB_RED_ZONE then size + sizeof_ptr k else size
  (s, size)

/-- The function `calculate_sizes`: the updated descriptor and the value
returned (0 on failure, 1 on success). -/
def calculate_sizes (k : Kconfig) (s : kmem_cache) (forced_order : Int) : kmem_cache × Nat :=
  let r := calculate_sizes_object k s
  let size := ALIGN r.2 r.1.align
  let s := { r.1 with size := size }
  let order : Int := if forced_order ≥ 0 then forced_order else calculate_order k size s.reserved
  if order < 0 then (s, 0)
  else
    let s := { s with allocflags :=
      { __GFP_COMP := order != 0, GFP_DMA := s.flags.SLAB_CACHE_DMA,
        __GFP_RECLAIMABLE := s.flags.SLAB_RECLAIM_ACCOUNT } }
    let s := { s with oo := oo_make k order.toNat size s.reserved }
    let s := { s with min := oo_make k (get_order k size) size s.reserved }
    let s := if oo_objects s.oo > oo_objects s.max then { s with max := s.oo } else s
    (s, if oo_objects s.oo = 0 then 0 else 1)

/-- The function `kmem_cache_open`, with `slub_debug` and
`disable_higher_order_debug` at 0 (no `slub_debug=` boot option), so that
`kmem_cache_flags` returns `flags` as given.  `nodes_ok` and `cpus_ok` say
whether `init_kmem_cache_nodes` and `alloc_kmem_cache_cpus` got their memory.
The result is `none` when the function ends in `panic`, otherwise the
descriptor and the value returned (0 or `-EINVAL`). -/
def kmem_cache_open (k : Kconfig) (s : kmem_cache) (flags : SlabFlags)
    (nodes_ok cpus_ok : Bool) : Option (kmem_cache × Int) :=
  let s := { s with flags := flags }
  let s := { s with reserved := 0 }
  let s := if k.need_reserve_slab_rcu && flags.SLAB_DESTROY_BY_RCU
    then { s with reserved := sizeof_rcu_head k } else s
  let r := calculate_sizes k s (-1)
  if r.2 = 0 then (if flags.SLAB_PANIC then none else some (r.1, -EINVAL))
  else
    let s := r.1
    let s := if k.CONFIG_HAVE_CMPXCHG_DOUBLE && !kmem_cache_debug s
      then { s with flags := { s.flags with __CMPXCHG_DOUBLE := true } } else s
    let s := set_min_partial s (ilog2 s.size / 2)
    let s := { s with cpu_partial :=
      if ! kmem_cache_has_cpu_partial k s then 0
      else if s.size ≥ PAGE_SIZE k then 2
      else if s.size ≥ 1024 then 6
      else if s.size ≥ 256 then 13
      else 30 }
    if nodes_ok && cpus_ok then some (s, 0)
    else if flags.SLAB_PANIC then none else some (s, -EINVAL)

/-! ## Slab pages, the per-CPU cache and the node -/

/-- A pointer to an object: the slab page it lies in (`virt_to_head_page`)
and its index in that slab (`slab_index`). -/
structure Obj where
  page : Nat
  idx : Nat
  deriving DecidableEq, Repr

/-- The fields of `struct page` a slab uses.  `freelist` is the chain of
free objects starting at `page->freelist`; `pfmemalloc` is the flag tested by
`PageSlabPfmemalloc`; `order` is `compound_order(page)`. -/
structure Page where
  freelist : List Obj := []
  inuse : Nat := 0
  objects : Nat := 0
  frozen : Bool := false
  pages : Int := 0
  pobjects : Int := 0
  pfmemalloc : Bool := false
  order : Nat := 0
  deriving DecidableEq, Repr

/-- The type `struct kmem_cache_cpu` of the one CPU: `freelist` is the
lockless chain at `c->freelist`, `partial_` the chain of pages starting at
`c->partial` and linked by `page->next`. -/
structure kmem_cache_cpu where
  freelist : List Obj := []
  tid : Nat := 0
  page : Option Nat := none
  partial_ : List Nat := []
  deriving DecidableEq, Repr

/-- The type `struct kmem_cache_node` of the one node: `partial_` is the
list headed by `n->partial`, in list order. -/
structure kmem_cache_node where
  nr_partial : Nat := 0
  partial_ : List Nat := []
  nr_slabs : Int := 0
  total_objects : Int := 0
  deriving DecidableEq, Repr

/-- The memory the allocator works on: the per-CPU structure, the node, the
`struct page` of every page frame, and on the side of the page allocator the
pages it has handed to this cache and not got back (`slabs`) and the number of
times `allocate_slab` asked it for a slab (`requests`). -/
structure State where
  c : kmem_cache_cpu := {}
  n : kmem_cache_node := {}
  mem : Nat → Page := fun _ => {}
  slabs : List Nat := []
  requests : Nat := 0

/-- What the page allocator answers to `allocate_slab`: the page (and its
`pfmemalloc` mark) for the order of `s->oo`, and the one for the order of
`s->min`, which is asked for only when the first request fails.  `stale` is
what the memory of the page handed out holds where `new_slab` writes nothing:
the chain of pointers that starts at the free pointer of the first object when
no free pointer has been set. -/
structure PageSource where
  pref : Option (Nat × Bool) := none
  min : Option (Nat × Bool) := none
  stale : List Obj := []
  deriving DecidableEq, Repr

def setPage (st : State) (page : Nat) (pg : Page) : State :=
  { st with mem := fun q => if q = page then pg else st.mem q }

/-- The decrement `new.inuse--` of the 16-bit field `inuse`. -/
def dec16 (x : Nat) : Nat := (x + 65535) % 65536

/-- The decrement of an `unsigned long` counter. -/
def dec_ulong (k : Kconfig) (x : Nat) : Nat :=
  if x = 0 then (if k.CONFIG_64BIT then 2 ^ 64 - 1 else 2 ^ 32 - 1) else x - 1

/-- `TID_STEP` without `CONFIG_PREEMPT`. -/
def TID_STEP : Nat := 1

def next_tid (tid : Nat) : Nat := tid + TID_STEP

def init_tid (cpu : Nat) : Nat := cpu

def pfmemalloc_match (pg : Page) (gfp_pfmemalloc_allowed : Bool) : Bool :=
  if pg.pfmemalloc then gfp_pfmemalloc_allowed else true

def inc_slabs_node (n : kmem_cache_node) (objects : Nat) : kmem_cache_node :=
  { n with nr_slabs := n.nr_slabs + 1, total_objects := n.total_objects + objects }

def dec_slabs_node (n : kmem_cache_node) (objects : Nat) : kmem_cache_node :=
  { n with nr_slabs := n.nr_slabs - 1, total_objects := n.total_objects - objects }

/-- The function `add_partial`; `tail` stands for `tail == DEACTIVATE_TO_TAIL`. -/
def add_partial (n : kmem_cache_node) (page : Nat) (tail : Bool) : kmem_cache_node :=
  { n with nr_partial := n.nr_partial + 1,
           partial_ := if tail then n.partial_ ++ [page] else page :: n.partial_ }

def remove_partial (k : Kconfig) (n : kmem_cache_node) (page : Nat) : kmem_cache_node :=
  { n with partial_ := n.partial_.erase page, nr_partial := dec_ulong k n.nr_partial }

/-- The function `discard_slab`: `dec_slabs_node`, then `free_slab` gives the
page back to the page allocator. -/
def discard_slab (st : State) (page : Nat) : State :=
  { st with n := dec_slabs_node st.n (st.mem page).objects,
            slabs := st.slabs.erase page }

/-- The function `allocate_slab`: the answer of the page allocator for the
order of `s->oo`, else for that of `s->min`; `page->objects` is a 15-bit field. -/
def allocate_slab (s : kmem_cache) (src : PageSource) (st : State) : State × Option Nat :=
  let st := { st with requests := st.requests + 1 }
  let got : Option ((Nat × Bool) × kmem_cache_order_objects) :=
    match src.pref with
    | some a => some (a, s.oo)
    | none =>
      match src.min with
      | some a => some (a, s.min)
      | none => none
  match got with
  | none => (st, none)
  | some (a, oo) =>
    let pg := { st.mem a.1 with objects := oo_objects oo % 32768, order := oo_order oo,
                                pfmemalloc := a.2 }
    ({ setPage st a.1 pg with slabs := a.1 :: st.slabs }, some a.1)

/-- The function `new_slab`: the loop sets the free pointers of the
`page->objects` objects in address order, `page->freelist` is `start`, and the
page starts with `inuse = objects` and frozen.  With `page->objects == 0` the
loop makes no pass, and the chain is the first object followed by whatever its
unset free pointer leads to. -/
def new_slab (s : kmem_cache) (src : PageSource) (st : State) : State × Option Nat :=
  match allocate_slab s src st with
  | (st, none) => (st, none)
  | (st, some page) =>
    let pg := st.mem page
    let st := { st with n := inc_slabs_node st.n pg.objects }
    let pg := { pg with freelist := if pg.objects = 0 then Obj.mk page 0 :: src.stale
                          else (List.range pg.objects).map (fun i => Obj.mk page i),
                        inuse := pg.objects, frozen := true }
    (setPage st page pg, some page)

/-- The loop of `unfreeze_partials` over the chain `c->partial`: each page is
unfrozen and either put on the list of pages to discard or added to the tail of
the node list.  Returns the state and the discard list. -/
def unfreeze_partials_loop (s : kmem_cache) : List Nat → State → List Nat → State × List Nat
  | [], st, discard_page => (st, discard_page)
  | page :: next, st, discard_page =>
    let st := { st with c := { st.c with partial_ := next } }
    let new := { st.mem page with frozen := false }
    let st := setPage st page new
    if new.inuse = 0 ∧ st.n.nr_partial ≥ s.min_partial then
      unfreeze_partials_loop s next st (page :: discard_page)
    else
      unfreeze_partials_loop s next { st with n := add_partial st.n page true } discard_page

def unfreeze_partials (k : Kconfig) (s : kmem_cache) (st : State) : State :=
  if k.CONFIG_SLUB_CPU_PARTIAL then
    let r := unfreeze_partials_loop s st.c.partial_ st []
    r.2.foldl discard_slab r.1
  else st

/-- The function `put_cpu_partial`; the `this_cpu_cmpxchg` on `c->partial`
succeeds on its first pass. -/
def put_cpu_partial (k : Kconfig) (s : kmem_cache) (st : State) (page : Nat) (drain : Bool) :
    State :=
  if k.CONFIG_SLUB_CPU_PARTIAL then
    let full := match st.c.partial_ with
      | [] => false
      | oldpage :: _ => drain && decide ((st.mem oldpage).pobjects > (s.cpu_partial : Int))
    let st := if full then unfreeze_partials k s st else st
    let pages : Int := match st.c.partial_ with
      | [] => 0
      | oldpage :: _ => (st.mem oldpage).pages
    let pobjects : Int := match st.c.partial_ with
      | [] => 0
      | oldpage :: _ => (st.mem oldpage).pobjects
    let pg := st.mem page
    let pg := { pg with pages := pages + 1,
                        pobjects := pobjects + ((pg.objects : Int) - (pg.inuse : Int)) }
    let st := setPage st page pg
    let st := { st with c := { st.c with partial_ := page :: st.c.partial_ } }
    if s.cpu_partial = 0 then unfreeze_partials k s st else st
  else st

/-- Stage one of `deactivate_slab`: every object of the per-CPU chain but the
last is pushed onto `page->freelist`. -/
def deactivate_slab_drain (pg : Page) : List Obj → Page × List Obj
  | a :: b :: rest =>
    deactivate_slab_drain { pg with freelist := a :: pg.freelist, inuse := dec16 pg.inuse }
      (b :: rest)
  | freelist => (pg, freelist)

/-- The function `deactivate_slab` for a cache without debug flags (`add_full`
and `remove_full` do nothing). -/
def deactivate_slab (s : kmem_cache) (st : State) (page : Nat) (freelist : List Obj) : State :=
  let tail := decide ((st.mem page).freelist ≠ [])
  let r := deactivate_slab_drain (st.mem page) freelist
  let old := r.1
  let new : Page := match r.2 with
    | [] => { old with frozen := false }
    | object :: _ =>
      { old with inuse := dec16 old.inuse, freelist := object :: old.freelist, frozen := false }
  if new.inuse = 0 ∧ st.n.nr_partial ≥ s.min_partial then
    discard_slab (setPage st page new) page
  else if new.freelist ≠ [] then
    { setPage st page new with n := add_partial st.n page tail }
  else
    setPage st page new

def flush_slab (s : kmem_cache) (st : State) : State :=
  match st.c.page with
  | none => st
  | some page =>
    let st := deactivate_slab s st page st.c.freelist
    { st with c := { st.c with tid := next_tid st.c.tid, page := none, freelist := [] } }

def get_freelist (st : State) (page : Nat) : State × List Obj :=
  let pg := st.mem page
  let freelist := pg.freelist
  (setPage st page { pg with freelist := [], inuse := pg.objects,
                             frozen := decide (freelist ≠ []) }, freelist)

/-- The function `acquire_slab`: the state, the chain returned and the value
stored in `*objects`. -/
def acquire_slab (k : Kconfig) (st : State) (page : Nat) (mode : Bool) :
    State × List Obj × Int :=
  let pg := st.mem page
  let freelist := pg.freelist
  let objects : Int := (pg.objects : Int) - (pg.inuse : Int)
  let new : Page :=
    if mode then { pg with inuse := pg.objects, freelist := [], frozen := true }
    else { pg with frozen := true }
  let st := setPage st page new
  ({ st with n := remove_partial k st.n page }, freelist, objects)

/-- The loop of `get_partial_node` over the pages of `n->partial`. -/
def get_partial_node_loop (k : Kconfig) (s : kmem_cache) (allowed : Bool) :
    List Nat → State → List Obj → Int → State × List Obj
  | [], st, object, _ => (st, object)
  | page :: rest, st, object, available =>
    if !pfmemalloc_match (st.mem page) allowed then
      get_partial_node_loop k s allowed rest st object available
    else
      let r := acquire_slab k st page (decide (object = []))
      let st := r.1
      let t := r.2.1
      if t = [] then (st, object)
      else
        let available := available + r.2.2
        let st := if object = [] then { st with c := { st.c with page := some page } }
          else put_cpu_partial k s st page false
        let object := if object = [] then t else object
        if ! kmem_cache_has_cpu_partial k s ||
            decide (available > ((s.cpu_partial / 2 : Nat) : Int))
        then (st, object)
        else get_partial_node_loop k s allowed rest st object available

def get_partial_node (k : Kconfig) (s : kmem_cache) (allowed : Bool) (st : State) :
    State × List Obj :=
  if st.n.nr_partial = 0 then (st, [])
  else get_partial_node_loop k s allowed st.n.partial_ st [] 0

/-- The function `get_partial` on a machine with one node: `get_any_partial`
finds nothing. -/
def get_partial (k : Kconfig) (s : kmem_cache) (allowed : Bool) (st : State) :
    State × List Obj :=
  get_partial_node k s allowed st

def new_slab_objects (k : Kconfig) (s : kmem_cache) (allowed : Bool) (src : PageSource)
    (st : State) : State × List Obj :=
  let r := get_partial k s allowed st
  if r.2 ≠ [] then r
  else
    match new_slab s src r.1 with
    | (st, none) => (st, [])
    | (st, some page) =>
      let st := if st.c.page.isSome then flush_slab s st else st
      let freelist := (st.mem page).freelist
      let st := setPage st page { st.mem page with freelist := [] }
      ({ st with c := { st.c with page := some page } }, freelist)

/-- The label `load_freelist` of `__slab_alloc`. -/
def load_freelist (st : State) : List Obj → State × Option Obj
  | [] => (st, none)
  | object :: next =>
    ({ st with c := { st.c with freelist := next, tid := next_tid st.c.tid } }, some object)

/-- The part of `__slab_alloc` from the label `redo` on, for the CPU slab
`page`: it ends at `load_freelist` with an object, or with `none` at the jump
to `new_slab`. -/
def slab_alloc_redo (s : kmem_cache) (allowed : Bool) (st : State) (page : Nat) :
    State × Option Obj :=
  if !pfmemalloc_match (st.mem page) allowed then
    let st := deactivate_slab s st page st.c.freelist
    ({ st with c := { st.c with page := none, freelist := [] } }, none)
  else if st.c.freelist ≠ [] then load_freelist st st.c.freelist
  else
    let r := get_freelist st page
    if r.2 = [] then ({ r.1 with c := { r.1.c with page := none } }, none)
    else load_freelist r.1 r.2

/-- The part of `__slab_alloc` from the label `new_slab` on; the first
argument is the chain `c->partial`, shortened by one page on every pass. -/
def slab_alloc_new_slab (k : Kconfig) (s : kmem_cache) (allowed : Bool) (src : PageSource) :
    List Nat → State → State × Option Obj
  | page :: next, st =>
    let st := { st with c := { st.c with page := some page, partial_ := next, freelist := [] } }
    match slab_alloc_redo s allowed st page with
    | (st, some object) => (st, some object)
    | (st, none) => slab_alloc_new_slab k s allowed src next st
  | [], st =>
    let r := new_slab_objects k s allowed src st
    match r.2, r.1.c.page with
    | [], _ => (r.1, none)
    | _ :: _, none => (r.1, none)
    | object :: next, some page =>
      if pfmemalloc_match (r.1.mem page) allowed then load_freelist r.1 (object :: next)
      else
        let st := deactivate_slab s r.1 page next
        ({ st with c := { st.c with page := none, freelist := [] } }, some object)

def __slab_alloc (k : Kconfig) (s : kmem_cache) (allowed : Bool) (src : PageSource)
    (st : State) : State × Option Obj :=
  match st.c.page with
  | none => slab_alloc_new_slab k s allowed src st.c.partial_ st
  | some page =>
    match slab_alloc_redo s allowed st page with
    | (st, some object) => (st, some object)
    | (st, none) => slab_alloc_new_slab k s allowed src st.c.partial_ st

/-- The function `slab_alloc_node` called with `NUMA_NO_NODE` on a machine
with one node (`node_match` is true). -/
def slab_alloc_node (k : Kconfig) (s : kmem_cache) (allowed : Bool) (src : PageSource)
    (st : State) : State × Option Obj :=
  match st.c.freelist with
  | [] => __slab_alloc k s allowed src st
  | object :: next_object =>
    ({ st with c := { st.c with freelist := next_object, tid := next_tid st.c.tid } },
      some object)

def kmem_cache_alloc (k : Kconfig) (s : kmem_cache) (allowed : Bool) (src : PageSource)
    (st : State) : State × Option Obj :=
  slab_alloc_node k s allowed src st

/-- The function `__slab_free` for a cache without debug flags: the test
`kmem_cache_debug(s) && !free_debug_processing(...)` at its entry is false and
`remove_full` does nothing.  For a cache with debug flags the function is
`__slab_free_debug`. -/
def __slab_free (k : Kconfig) (s : kmem_cache) (st : State) (page : Nat) (x : Obj) : State :=
  let pg := st.mem page
  let prior := pg.freelist
  let was_frozen := pg.frozen
  let inuse := dec16 pg.inuse
  let first := (decide (inuse = 0) || decide (prior = [])) && !was_frozen
  let freeze := first && kmem_cache_has_cpu_partial k s && decide (prior = [])
  let locked := first && !freeze
  let new : Page :=
    { pg with freelist := x :: prior, inuse := inuse, frozen := was_frozen || freeze }
  let st := setPage st page new
  if !locked then
    if new.frozen && !was_frozen then put_cpu_partial k s st page true else st
  else if new.inuse = 0 ∧ st.n.nr_partial ≥ s.min_partial then
    let st := if prior ≠ [] then { st with n := remove_partial k st.n page } else st
    discard_slab st page
  else if ! kmem_cache_has_cpu_partial k s && decide (prior = []) then
    { st with n := add_partial st.n page true }
  else st

def slab_free (k : Kconfig) (s : kmem_cache) (st : State) (page : Nat) (x : Obj) : State :=
  if st.c.page = some page then
    { st with c := { st.c with freelist := x :: st.c.freelist, tid := next_tid st.c.tid } }
  else __slab_free k s st page x

def kmem_cache_free (k : Kconfig) (s : kmem_cache) (st : State) (x : Obj) : State :=
  slab_free k s st x.page x

/-! ## Sequences of calls -/

/-- A call of the public interface, with what the environment answers:
`alloc` carries `gfp_pfmemalloc_allowed(gfpflags)` and the page allocator. -/
inductive Op where
  | alloc (allowed : Bool) (src : PageSource)
  | free (x : Obj)
  deriving DecidableEq, Repr

/-- The allocator state together with the objects handed out by
`kmem_cache_alloc` and not yet given back. -/
structure Run where
  st : State := {}
  live : List Obj := []

def step (k : Kconfig) (s : kmem_cache) (r : Run) : Op → Run
  | Op.alloc allowed src =>
    match kmem_cache_alloc k s allowed src r.st with
    | (st, some object) => { st := st, live := object :: r.live }
    | (st, none) => { st := st, live := r.live }
  | Op.free x => { st := kmem_cache_free k s r.st x, live := r.live.erase x }

def run (k : Kconfig) (s : kmem_cache) (r : Run) (ops : List Op) : Run :=
  ops.foldl (step k s) r

/-- The cache right after `kmem_cache_open`: `init_kmem_cache_node` and
`init_kmem_cache_cpus` (CPU 0) have run, no page is a slab. -/
def fresh : Run := { st := { c := { tid := init_tid 0 } }, live := [] }

/-! ## The invariant of the single-CPU allocator -/

/-- The caches the invariant of the single-CPU allocator is stated for: no
debug flag is set, and a slab of either order holds at least one object
(`new_slab` puts the first object on the free chain without a test) and at
most `MAX_OBJS_PER_PAGE` (the 15-bit field `page->objects` holds the count).
`kmem_cache_open` leaves such a descriptor when the boot parameters are at
their defaults (`Opened.of_kmem_cache_open`), but not for every value of them:
`slab_order` compares the object count with `MAX_OBJS_PER_PAGE` only for the
block of order `slub_min_order` (`open_cache8_not_opened`). -/
def Opened (s : kmem_cache) : Prop :=
  kmem_cache_debug s = false ∧
  1 ≤ oo_objects s.oo ∧ oo_objects s.oo ≤ MAX_OBJS_PER_PAGE ∧
  1 ≤ oo_objects s.min ∧ oo_objects s.min ≤ MAX_OBJS_PER_PAGE

/-- A slab page is consistent: `inuse` counts the objects not on
`page->freelist`, `objects` and `order` are those of one of the two
configurations of the cache, and the free chain consists of distinct objects
of this page. -/
def PageWf (s : kmem_cache) (p : Nat) (pg : Page) : Prop :=
  pg.inuse + pg.freelist.length = pg.objects ∧
  ((pg.objects = oo_objects s.oo ∧ pg.order = oo_order s.oo) ∨
   (pg.objects = oo_objects s.min ∧ pg.order = oo_order s.min)) ∧
  pg.freelist.Nodup ∧ ∀ x ∈ pg.freelist, x.page = p ∧ x.idx < pg.objects

/-- The invariant, stated for a state in the middle of an operation: `cfl` is
the chain that is (or is about to become) `c->freelist`, `live` the objects
handed out, `t` a page that has just been frozen and is on its way to the
per-CPU partial list, `d` the pages `unfreeze_partials` has set aside to
discard. -/
structure InvG (s : kmem_cache) (st : State) (cfl live : List Obj) (t : Option Nat)
    (d : List Nat) : Prop where
  slabs_nodup : st.slabs.Nodup
  wf : ∀ p ∈ st.slabs, PageWf s p (st.mem p)
  cpage : ∀ p, st.c.page = some p →
    p ∈ st.slabs ∧ (st.mem p).frozen = true ∧ p ∉ st.c.partial_
  cnone : st.c.page = none → cfl = []
  cfl_nodup : cfl.Nodup
  cfl_ok : ∀ x ∈ cfl, st.c.page = some x.page ∧ x.idx < (st.mem x.page).objects ∧
    x ∉ (st.mem x.page).freelist
  cpart_nodup : st.c.partial_.Nodup
  cpart : ∀ p ∈ st.c.partial_,
    p ∈ st.slabs ∧ (st.mem p).frozen = true ∧ (st.mem p).freelist ≠ []
  npart_nodup : st.n.partial_.Nodup
  npart : ∀ p ∈ st.n.partial_,
    p ∈ st.slabs ∧ (st.mem p).frozen = false ∧ (st.mem p).freelist ≠ []
  transit : ∀ p, t = some p → p ∈ st.slabs ∧ (st.mem p).frozen = true ∧
    (st.mem p).freelist ≠ [] ∧ st.c.page ≠ some p ∧ p ∉ st.c.partial_
  pending_nodup : d.Nodup
  pending : ∀ p ∈ d, p ∈ st.slabs ∧ (st.mem p).frozen = false ∧ (st.mem p).inuse = 0 ∧
    p ∉ st.n.partial_
  frozen_owned : ∀ p ∈ st.slabs, (st.mem p).frozen = true →
    st.c.page = some p ∨ p ∈ st.c.partial_ ∨ t = some p
  unfrozen_listed : ∀ p ∈ st.slabs, (st.mem p).frozen = false → (st.mem p).freelist ≠ [] →
    p ∈ st.n.partial_ ∨ p ∈ d
  nr_partial : st.n.nr_partial = st.n.partial_.length
  live_nodup : live.Nodup
  live_ok : ∀ x ∈ live, x.page ∈ st.slabs ∧ x.idx < (st.mem x.page).objects ∧
    x ∉ (st.mem x.page).freelist ∧ x ∉ cfl
  nr_slabs : st.n.nr_slabs = (st.slabs.length : Int)
  total_objects : st.n.total_objects = (st.slabs.map (fun p => ((st.mem p).objects : Int))).sum

/-- The invariant between two calls. -/
def Inv (s : kmem_cache) (r : Run) : Prop := InvG s r.st r.st.c.freelist r.live none []

/-- The page the page allocator hands out, if any: the one of the preferred
order, else the one of the minimum order. -/
def PageSource.got (src : PageSource) : Option (Nat × Bool) :=
  match src.pref with
  | some a => some a
  | none => src.min

/-- The page the page allocator would hand out is not a slab of the cache. -/
def SrcOk (st : State) (src : PageSource) : Prop := ∀ a ∈ src.got, a.1 ∉ st.slabs

instance SrcOk.decidable (st : State) (src : PageSource) : Decidable (SrcOk st src) :=
  inferInstanceAs (Decidable (∀ a ∈ src.got, a.1 ∉ st.slabs))

/-- A call is well-formed: the page allocator hands out a page the cache does
not hold; a freed pointer is live. -/
def OpOk (r : Run) : Op → Prop
  | Op.alloc _ src => SrcOk r.st src
  | Op.free x => x ∈ r.live

instance OpOk.decidable (r : Run) : (op : Op) → Decidable (OpOk r op)
  | Op.alloc _ src => inferInstanceAs (Decidable (SrcOk r.st src))
  | Op.free x => inferInstanceAs (Decidable (x ∈ r.live))

/-- Every call of the sequence is well-formed in the state it is made in. -/
def TraceOk (k : Kconfig) (s : kmem_cache) : Run → List Op → Prop
  | _, [] => True
  | r, op :: ops => OpOk r op ∧ TraceOk k s (step k s r op) ops

instance TraceOk.decidable (k : Kconfig) (s : kmem_cache) :
    (ops : List Op) → (r : Run) → Decidable (TraceOk k s r ops)
  | [], _ => isTrue trivial
  | op :: ops, r =>
    @instDecidableAnd _ _ (OpOk.decidable r op) (TraceOk.decidable k s ops (step k s r op))

/-! ## Order calculation -/

/-- The value `rem` of `slab_order`: the trailing bytes of a block of order
`order` that hold no object. -/
def slab_waste (k : Kconfig) (order size reserved : Nat) : Nat :=
  ((PAGE_SIZE k <<< order) - reserved) % size

/-- A descriptor as `kmem_cache_create` passes it to `kmem_cache_open`: objects
of 48 bytes aligned to 8. -/
def cache48 : kmem_cache := { object_size := 48, align := 8 }

/-- The descriptor `kmem_cache_open` leaves for a cache without flags. -/
def open_cache (k : Kconfig) (s : kmem_cache) : kmem_cache :=
  match kmem_cache_open k s {} true true with
  | some r => r.1
  | none => s

/-! ## The steady state of a single-object workload -/

/-- One pass of the loop `p = kmem_cache_alloc(s); kmem_cache_free(s, p);`
(the free is skipped when the allocation returns `NULL`); `e` is what the
environment answers to the allocation. -/
def round_trip (k : Kconfig) (s : kmem_cache) (r : Run) (e : Bool × PageSource) : Run :=
  match (kmem_cache_alloc k s e.1 e.2 r.st).2 with
  | some p => step k s (step k s r (Op.alloc e.1 e.2)) (Op.free p)
  | none => step k s r (Op.alloc e.1 e.2)

def round_trips (k : Kconfig) (s : kmem_cache) (r : Run) (env : List (Bool × PageSource)) : Run :=
  env.foldl (round_trip k s) r

/-- The page allocator marks a page `pfmemalloc` only for a caller entitled
to the reserves (`gfp_pfmemalloc_allowed`). -/
def PfmemallocOk (e : Bool × PageSource) : Prop :=
  ∀ a, e.2.got = some a → a.2 = true → e.1 = true

/-- No slab yet: the per-CPU cache and the lists are empty. -/
def Idle (r : Run) : Prop :=
  r.st.slabs = [] ∧ r.st.c.page = none ∧ r.st.c.freelist = [] ∧ r.st.c.partial_ = [] ∧
  r.st.n.partial_ = []

/-- One slab, which is the CPU slab, and the per-CPU free list starts with an
object of it. -/
def Steady (r : Run) : Prop :=
  ∃ a x l, r.st.slabs = [a] ∧ r.st.c.page = some a ∧ r.st.c.freelist = x :: l ∧ x.page = a

/-! ## Scenario A: allocate, then free in reverse order -/

/-- The answer of a page allocator that never fails and never reuses a page:
request number `i` gets page `i` at the preferred order, not from the reserves. -/
def bump_source (r : Run) : PageSource := { pref := some (r.st.requests, false) }

/-- The caller allocates `n` objects one after the other. -/
def alloc_n (k : Kconfig) (s : kmem_cache) : Nat → Run → Run
  | 0, r => r
  | n + 1, r => alloc_n k s n (step k s r (Op.alloc false (bump_source r)))

/-- The caller frees the objects of the list, first to last. -/
def free_all (k : Kconfig) (s : kmem_cache) : List Obj → Run → Run
  | [], r => r
  | x :: rest, r => free_all k s rest (step k s r (Op.free x))

/-- The workload of scenario A: `n` allocations, then every object is freed,
the one allocated last first (`live` lists the objects handed out, the most
recent first). -/
def scenario_A (k : Kconfig) (s : kmem_cache) (n : Nat) : Run :=
  free_all k s (alloc_n k s n fresh).live (alloc_n k s n fresh)

/-! ## An empty slab on the node partial list -/

/-- A descriptor for objects of 16 KiB: two objects per slab of order 3. -/
def cache16k : kmem_cache := { object_size := 16384, align := 8 }

/-- Nine allocations fill the slabs 1, 2, 3, 4 and take one object of slab 5;
then both objects of slab 1 and one object each of the slabs 2, 3 and 4 are
freed. -/
def ops16k : List Op :=
  [Op.alloc false { pref := some (1, false) }, Op.alloc false {},
   Op.alloc false { pref := some (2, false) }, Op.alloc false {},
   Op.alloc false { pref := some (3, false) }, Op.alloc false {},
   Op.alloc false { pref := some (4, false) }, Op.alloc false {},
   Op.alloc false { pref := some (5, false) },
   Op.free ⟨1, 0⟩, Op.free ⟨1, 1⟩, Op.free ⟨2, 0⟩, Op.free ⟨3, 0⟩, Op.free ⟨4, 0⟩]

/-- The facts about a step that the callers rely on besides the invariant:
it leaves `c->page` and the per-CPU free list alone, only adds to the node
list, and hands no new page to the cache. -/
structure Frame (st st' : State) : Prop where
  cpage : st'.c.page = st.c.page
  cfl : st'.c.freelist = st.c.freelist
  npart : ∀ q ∈ st.n.partial_, q ∈ st'.n.partial_
  slabs : ∀ q ∈ st'.slabs, q ∈ st.slabs
  requests : st'.requests = st.requests

/-- The page after the two stages of `deactivate_slab`: the whole per-CPU
chain is back on `page->freelist`. -/
def deactivate_slab_page (pg : Page) (freelist : List Obj) : Page :=
  { pg with freelist := freelist.reverse ++ pg.freelist, inuse := pg.inuse - freelist.length,
            frozen := false }

/-- The outcome of an allocation path: an object that was not handed out
before, or none, and the invariant for the new state. -/
def AllocOk (s : kmem_cache) (live : List Obj) (r : State × Option Obj) : Prop :=
  match r.2 with
  | some x => InvG s r.1 r.1.c.freelist (x :: live) none [] ∧ x ∉ live
  | none => InvG s r.1 r.1.c.freelist live none []

/-! ## Invariants of the reachable states -/

/-- Every pointer a slab can hand out: the objects `0 .. objects - 1` of each
slab page of the cache. -/
def all_objects (st : State) : List Obj :=
  st.slabs.flatMap (fun p => (List.range (st.mem p).objects).map (fun i => Obj.mk p i))

/-- A short workload: two allocations served from a new page, then the first
object is freed. -/
def trace3 : List Op :=
  [Op.alloc false { pref := some (1, false) }, Op.alloc false {}, Op.free ⟨1, 0⟩]

/-- The null pointer. -/
def NULL : Nat := 0

/-- The function `get_freepointer` on a memory of pointer-sized words, one per
address: `*(void **)(object + s->offset)`. -/
def get_freepointer (s : kmem_cache) (mem : Nat → Nat) (object : Nat) : Nat :=
  mem (object + s.offset)

/-- The function `set_freepointer`: `*(void **)(object + s->offset) = fp`. -/
def set_freepointer (s : kmem_cache) (mem : Nat → Nat) (object fp : Nat) : Nat → Nat :=
  fun a => if a = object + s.offset then fp else mem a

/-- The function `slab_index`: `(p - addr) / s->size`. -/
def slab_index (s : kmem_cache) (p addr : Nat) : Nat := (p - addr) / s.size

/-- The loop `for_each_object_idx(p, idx, s, start, page->objects)` of
`new_slab` with its body; `setup_object` is what the function of that name
writes for the object at `p` (debug patterns, the constructor).  `fuel` bounds
the number of passes. -/
def new_slab_chain_loop (s : kmem_cache) (setup_object : Nat → (Nat → Nat) → (Nat → Nat))
    (objects : Nat) : Nat → Nat → Nat → (Nat → Nat) → (Nat → Nat)
  | 0, _, _, mem => mem
  | fuel + 1, p, idx, mem =>
    if idx ≤ objects then
      let mem := setup_object p mem
      let mem := if idx < objects then set_freepointer s mem p (p + s.size)
        else set_freepointer s mem p NULL
      new_slab_chain_loop s setup_object objects fuel (p + s.size) (idx + 1) mem
    else mem

/-- The memory after the loop of `new_slab` over a slab at address `start`
with `objects` objects: the loop makes `objects` passes. -/
def new_slab_chain (s : kmem_cache) (setup_object : Nat → (Nat → Nat) → (Nat → Nat))
    (start objects : Nat) (mem : Nat → Nat) : Nat → Nat :=
  new_slab_chain_loop s setup_object objects objects start 1 mem

/-- The objects reached from `p` by following the free pointers until `NULL`,
at most `fuel` of them. -/
def freelist_walk (s : kmem_cache) (mem : Nat → Nat) : Nat → Nat → List Nat
  | 0, _ => []
  | fuel + 1, p => if p = NULL then [] else p :: freelist_walk s mem fuel (get_freepointer s mem p)

/-! ## The compare-and-exchange of a slab's free list and counters -/

/-- The word `page->counters`: as the comment in `set_page_slub_counters` says,
it covers the bit-fields `frozen`, `inuse` and `objects` as well as
`page->_count`; `_count` stands for the bits of the word outside the three
bit-fields. -/
structure slub_counters where
  inuse : Nat := 0
  objects : Nat := 0
  frozen : Bool := false
  _count : Nat := 0
  deriving DecidableEq, Repr

/-- The fields of `struct page` that `__cmpxchg_double_slab` reads and writes:
`freelist`, `counters` and the bit `PG_locked` of `flags`. -/
structure slab_page where
  freelist : Nat := 0
  counters : slub_counters := {}
  PG_locked : Bool := false
  deriving DecidableEq, Repr

/-- The function `slab_lock`, `bit_spin_lock(PG_locked, &page->flags)`, entered
with the bit clear. -/
def slab_lock (page : slab_page) : slab_page := { page with PG_locked := true }

/-- The function `slab_unlock`, `__bit_spin_unlock(PG_locked, &page->flags)`. -/
def slab_unlock (page : slab_page) : slab_page := { page with PG_locked := false }

def set_page_slub_counters (page : slab_page) (counters_new : slub_counters) : slab_page :=
  let tmp := counters_new
  { page with counters :=
      { page.counters with frozen := tmp.frozen, inuse := tmp.inuse, objects := tmp.objects } }

/-- Modelled from the spec: `cmpxchg_double` of the architecture, an atomic
compare-and-swap spanning the two adjacent words `page->freelist` and
`page->counters`: when both hold the expected values both are replaced. -/
def cmpxchg_double (page : slab_page) (freelist_old : Nat) (counters_old : slub_counters)
    (freelist_new : Nat) (counters_new : slub_counters) : slab_page × Bool :=
  if page.freelist = freelist_old ∧ page.counters = counters_old then
    ({ page with freelist := freelist_new, counters := counters_new }, true)
  else (page, false)

/-- The function `__cmpxchg_double_slab`: the page afterwards and the value
returned. -/
def __cmpxchg_double_slab (k : Kconfig) (s : kmem_cache) (page : slab_page)
    (freelist_old : Nat) (counters_old : slub_counters)
    (freelist_new : Nat) (counters_new : slub_counters) : slab_page × Bool :=
  if k.CONFIG_HAVE_CMPXCHG_DOUBLE && s.flags.__CMPXCHG_DOUBLE then
    cmpxchg_double page freelist_old counters_old freelist_new counters_new
  else
    let page := slab_lock page
    if page.freelist = freelist_old ∧ page.counters = counters_old then
      let page := { page with freelist := freelist_new }
      let page := set_page_slub_counters page counters_new
      (slab_unlock page, true)
    else (slab_unlock page, false)

/-! ## `__slab_free` on a page that is not frozen -/

/-- A descriptor for objects of 32 KiB: one object per slab of order 3. -/
def cache32k : kmem_cache := { object_size := 32768, align := 8 }

/-- Twelve allocations, each served from a new slab (pages 1 to 12), then the
objects of the pages 1 to 10 are freed. -/
def ops32k : List Op :=
  (List.range 12).map (fun i => Op.alloc false { pref := some (i + 1, false) }) ++
  (List.range 10).map (fun i => Op.free ⟨i + 1, 0⟩)

/-- The page `__slab_free` writes back for a page that was not frozen and is
not frozen by the call. -/
def slab_free_page (pg : Page) (x : Obj) : Page :=
  { pg with freelist := x :: pg.freelist, inuse := dec16 pg.inuse, frozen := false }

/-! ## Closed forms for `put_cpu_partial` -/

/-- The test `oldpage && drain && pobjects > s->cpu_partial` of
`put_cpu_partial`. -/
def cpu_partial_full (s : kmem_cache) (st : State) (drain : Bool) : Bool :=
  match st.c.partial_ with
  | [] => false
  | oldpage :: _ => drain && decide ((st.mem oldpage).pobjects > (s.cpu_partial : Int))

/-- The value `pages` of `put_cpu_partial` before `pages++`. -/
def cpu_partial_pages (st : State) : Int :=
  match st.c.partial_ with
  | [] => 0
  | oldpage :: _ => (st.mem oldpage).pages

/-- The value `pobjects` of `put_cpu_partial` before the free objects of the
page are added. -/
def cpu_partial_pobjects (st : State) : Int :=
  match st.c.partial_ with
  | [] => 0
  | oldpage :: _ => (st.mem oldpage).pobjects

/-- The state after `put_cpu_partial` has linked `page` in front of
`c->partial`. -/
def cpu_partial_link (st : State) (page : Nat) : State :=
  { setPage st page { st.mem page with
      pages := cpu_partial_pages st + 1,
      pobjects := cpu_partial_pobjects st +
        (((st.mem page).objects : Int) - ((st.mem page).inuse : Int)) } with
    c := { st.c with partial_ := page :: st.c.partial_ } }

/-! ## What `get_partial_node` takes off the node partial list -/

/-- The function `count_free`: `page->objects - page->inuse`. -/
def count_free (pg : Page) : Nat := pg.objects - pg.inuse

/-- The number of pages to take: the least `k` such that `acc` plus the first
`k` counts of the list exceeds `half`, and the length of the list when there is
no such `k`. -/
def partial_pages_taken (half : Nat) : List Nat → Nat → Nat
  | [], _ => 0
  | f :: rest, acc => if acc + f > half then 1 else partial_pages_taken half rest (acc + f) + 1

/-- A page of the node partial list as `get_partial_node` expects it: it has a
free object, `inuse < objects`, and the caller may use it. -/
def PartialPageOk (st : State) (allowed : Bool) (q : Nat) : Prop :=
  (st.mem q).freelist ≠ [] ∧ (st.mem q).inuse < (st.mem q).objects ∧
  pfmemalloc_match (st.mem q) allowed = true

instance PartialPageOk.decidable (st : State) (allowed : Bool) (q : Nat) :
    Decidable (PartialPageOk st allowed q) :=
  inferInstanceAs (Decidable (_ ∧ _ ∧ _))

/-- The state after `get_partial_node` has taken a further page: frozen by
`acquire_slab`, off `n->partial`, in front of `c->partial`. -/
def partial_page_more (k : Kconfig) (st : State) (page : Nat) : State :=
  cpu_partial_link
    { setPage st page { st.mem page with frozen := true } with
      n := remove_partial k st.n page } page

/-- The state after `get_partial_node` has taken its first page: the page is
the CPU slab, its free list handed over. -/
def partial_page_first (k : Kconfig) (st : State) (page : Nat) : State :=
  { setPage st page { st.mem page with
        inuse := (st.mem page).objects, freelist := [], frozen := true } with
    n := remove_partial k st.n page,
    c := { st.c with page := some page } }

/-- The number of pages `get_partial_node` takes off `n->partial`: one for a
cache without per-CPU partial support, else as many as it takes for their free
objects to exceed `s->cpu_partial / 2`. -/
def partial_pages_to_take (k : Kconfig) (s : kmem_cache) (st : State) : Nat :=
  if kmem_cache_has_cpu_partial k s then
    partial_pages_taken (s.cpu_partial / 2)
      (st.n.partial_.map (fun q => count_free (st.mem q))) 0
  else 1

/-- A node partial list of four pages of 85 objects with 5, 7, 9 and 11 free
objects. -/
def partial4 : State :=
  { mem := fun q =>
      { freelist := (List.range (2 * q + 3)).map (fun i => ⟨q, i⟩),
        inuse := 85 - (2 * q + 3), objects := 85 },
    n := { nr_partial := 4, partial_ := [1, 2, 3, 4], nr_slabs := 4, total_objects := 340 },
    slabs := [1, 2, 3, 4] }

/-! ## The page counts of the per-CPU partial list -/

/-- Along a chain of pages, `page->pages` is the number of pages from that
page to the end of the chain. -/
def chain_ok (mem : Nat → Page) : List Nat → Prop
  | [] => True
  | p :: rest => (mem p).pages = (rest.length : Int) + 1 ∧ chain_ok mem rest

/-- The field `page->pages` of every page of `c->partial` is the length of the
list from that page on. -/
structure ChainOk (st : State) : Prop where
  ok : chain_ok st.mem st.c.partial_

/-- Two states with the same list `c->partial` and the same fields
`page->pages`. -/
def SameChain (st st' : State) : Prop :=
  st'.c.partial_ = st.c.partial_ ∧ ∀ q, (st'.mem q).pages = (st.mem q).pages

/-! ## Flushing, shrinking and closing a cache -/

/-- The test `has_cpu_slab` of `flush_all`: `c->page || c->partial`. -/
def has_cpu_slab (st : State) : Bool := st.c.page.isSome || !st.c.partial_.isEmpty

/-- The function `__flush_cpu_slab` for the one CPU. -/
def __flush_cpu_slab (k : Kconfig) (s : kmem_cache) (st : State) : State :=
  let st := if st.c.page.isSome then flush_slab s st else st
  unfreeze_partials k s st

/-- The function `flush_all` on a machine with one CPU: `on_each_cpu_cond`
runs `flush_cpu_slab` if `has_cpu_slab` holds. -/
def flush_all (k : Kconfig) (s : kmem_cache) (st : State) : State :=
  if has_cpu_slab st then __flush_cpu_slab k s st else st

/-- The function `slabs_node`, with `CONFIG_SLUB_DEBUG` built in:
`atomic_long_read(&n->nr_slabs)`. -/
def slabs_node (st : State) : Int := st.n.nr_slabs

def SHRINK_PROMOTE_MAX : Nat := 32

/-- The lists `__kmem_cache_shrink` sorts the pages of `n->partial` into:
`keep` are the pages that stay on `n->partial`, in list order, `discard` and
`promote[i]` the local list heads, and `nr_partial` is `n->nr_partial`. -/
structure ShrinkLists where
  keep : List Nat := []
  discard : List Nat := []
  promote : Nat → List Nat := fun _ => []
  nr_partial : Nat := 0

/-- The first loop of `__kmem_cache_shrink` over the pages of `n->partial`;
`none` is `BUG_ON(free <= 0)`.  `list_move` puts a page at the head of the
list it goes to. -/
def shrink_loop (k : Kconfig) (mem : Nat → Page) : List Nat → ShrinkLists → Option ShrinkLists
  | [], l => some l
  | page :: rest, l =>
    let free : Int := ((mem page).objects : Int) - ((mem page).inuse : Int)
    if free ≤ 0 then none
    else if free = ((mem page).objects : Int) then
      shrink_loop k mem rest
        { l with discard := page :: l.discard, nr_partial := dec_ulong k l.nr_partial }
    else if free ≤ (SHRINK_PROMOTE_MAX : Int) then
      shrink_loop k mem rest
        { l with promote := fun i =>
            if i = (free - 1).toNat then page :: l.promote i else l.promote i }
    else shrink_loop k mem rest { l with keep := l.keep ++ [page] }

/-- The second loop of `__kmem_cache_shrink`, `for (i = SHRINK_PROMOTE_MAX - 1;
i >= 0; i--) list_splice(promote + i, &n->partial)`, with `i + 1` lists still
to splice. -/
def shrink_splice (promote : Nat → List Nat) : Nat → List Nat → List Nat
  | 0, partial_ => partial_
  | i + 1, partial_ => shrink_splice promote i (promote i ++ partial_)

/-- The function `__kmem_cache_shrink` on a machine with one CPU and one node:
the descriptor with the fields it writes, the state and the return value;
`none` is the `BUG_ON`. -/
def __kmem_cache_shrink (k : Kconfig) (s : kmem_cache) (st : State) (deactivate : Bool) :
    Option (kmem_cache × State × Int) :=
  let s := if deactivate then { s with cpu_partial := 0, min_partial := 0 } else s
  let st := flush_all k s st
  match shrink_loop k st.mem st.n.partial_ { nr_partial := st.n.nr_partial } with
  | none => none
  | some l =>
    let st := { st with n := { st.n with
      partial_ := shrink_splice l.promote SHRINK_PROMOTE_MAX l.keep,
      nr_partial := l.nr_partial } }
    let st := l.discard.foldl discard_slab st
    some (s, st, if slabs_node st ≠ 0 then 1 else 0)

/-- The loop of `free_partial` over the pages of `n->partial`;
`list_slab_objects` only reports. -/
def free_partial_loop (k : Kconfig) : List Nat → State → State
  | [], st => st
  | page :: rest, st =>
    if (st.mem page).inuse = 0 then
      free_partial_loop k rest (discard_slab { st with n := remove_partial k st.n page } page)
    else free_partial_loop k rest st

def free_partial (k : Kconfig) (st : State) : State :=
  free_partial_loop k st.n.partial_ st

/-- What `kmem_cache_close` leaves: the state, the return value, and whether
`free_percpu(s->cpu_slab)` and `free_kmem_cache_nodes(s)` have run. -/
structure CloseResult where
  st : State
  ret : Int
  cpu_slab_freed : Bool
  nodes_freed : Bool

/-- The function `kmem_cache_close` on a machine with one CPU and one node. -/
def kmem_cache_close (k : Kconfig) (s : kmem_cache) (st : State) : CloseResult :=
  let st := flush_all k s st
  let st := free_partial k st
  if st.n.nr_partial ≠ 0 ∨ slabs_node st ≠ 0 then
    { st := st, ret := 1, cpu_slab_freed := false, nodes_freed := false }
  else { st := st, ret := 0, cpu_slab_freed := true, nodes_freed := true }

/-- The number of pages on the lists `promote[0 .. n-1]`. -/
def promote_length (promote : Nat → List Nat) : Nat → Nat
  | 0 => 0
  | i + 1 => promote_length promote i + (promote i).length

/-- What holds of the lists of `__kmem_cache_shrink` while the pages `rest` of
the node partial list `orig` are still to be looked at. -/
def ShrinkInv (mem : Nat → Page) (rest orig : List Nat) (a : ShrinkLists) : Prop :=
  (∀ p ∈ a.keep, (mem p).inuse ≠ 0 ∧ p ∈ orig) ∧
  (∀ i, ∀ p ∈ a.promote i, (mem p).inuse ≠ 0 ∧ p ∈ orig) ∧
  a.nr_partial = a.keep.length + promote_length a.promote SHRINK_PROMOTE_MAX + rest.length ∧
  a.discard.Nodup ∧
  (∀ p ∈ a.discard, p ∉ rest ∧ p ∈ orig ∧ (mem p).inuse = 0) ∧
  (∀ p ∈ orig, (mem p).inuse = 0 → p ∈ a.discard ∨ p ∈ rest)

/-! ## `__slab_free` freezing a page for the per-CPU partial list -/

/-- Both objects of the first slab of the 16 KiB cache are handed out. -/
def ops16k_full : List Op :=
  [Op.alloc false { pref := some (1, false) }, Op.alloc false {}]

/-- The descriptor and the state `__kmem_cache_shrink(s, true)` leaves after
the calls of `ops16k_full`. -/
def shrunk16k : kmem_cache × State :=
  match __kmem_cache_shrink rpi2 (open_cache rpi2 cache16k)
      (run rpi2 (open_cache rpi2 cache16k) fresh ops16k_full).st true with
  | some r => (r.1, r.2.1)
  | none => (open_cache rpi2 cache16k, {})

/-- Fourteen allocations of the 32 KiB cache, each served from a new slab
(pages 1 to 14), then the objects of the pages 1 to 12 are freed. -/
def ops32k_drain : List Op :=
  (List.range 14).map (fun i => Op.alloc false { pref := some (i + 1, false) }) ++
  (List.range 12).map (fun i => Op.free ⟨i + 1, 0⟩)

/-! ## Transaction ids on a preemptible kernel -/

/-- Modelled from the spec: `roundup_pow_of_two` of `linux/log2.h` for an
argument of at least 1, `1UL << fls_long(n - 1)`. -/
def roundup_pow_of_two (n : Nat) : Nat := 1 <<< flsAux 64 (n - 1)

/-- The width of `unsigned long`. -/
def BITS_PER_LONG (k : Kconfig) : Nat := if k.CONFIG_64BIT then 64 else 32

/-- `TID_STEP` with `CONFIG_PREEMPT`: `roundup_pow_of_two(CONFIG_NR_CPUS)`. -/
def TID_STEP_preempt (CONFIG_NR_CPUS : Nat) : Nat := roundup_pow_of_two CONFIG_NR_CPUS

/-- The function `next_tid` with `CONFIG_PREEMPT`, on an `unsigned long`. -/
def next_tid_preempt (k : Kconfig) (CONFIG_NR_CPUS tid : Nat) : Nat :=
  (tid + TID_STEP_preempt CONFIG_NR_CPUS) % 2 ^ BITS_PER_LONG k

/-- The function `tid_to_cpu` with `CONFIG_PREEMPT`; the value is below
`TID_STEP`, so the conversion to `unsigned int` keeps it when `TID_STEP` is at
most `2^32`. -/
def tid_to_cpu (CONFIG_NR_CPUS tid : Nat) : Nat := tid % TID_STEP_preempt CONFIG_NR_CPUS

/-- The function `tid_to_event` with `CONFIG_PREEMPT`. -/
def tid_to_event (CONFIG_NR_CPUS tid : Nat) : Nat := tid / TID_STEP_preempt CONFIG_NR_CPUS

/-- The transaction id of a CPU after `j` steps of `next_tid` from
`init_tid(cpu)`. -/
def tid_after (k : Kconfig) (CONFIG_NR_CPUS cpu : Nat) : Nat → Nat
  | 0 => init_tid cpu
  | j + 1 => next_tid_preempt k CONFIG_NR_CPUS (tid_after k CONFIG_NR_CPUS cpu j)

/-! ## The debug checks, on the bytes of a slab

The checks of `CONFIG_SLUB_DEBUG` compare and fill single bytes.  In this part
the memory is a map from addresses to bytes, and a free pointer is the
little-endian word of `sizeof(void *)` bytes at `object + s->offset`.  What
the checks print is left out; what they repair is kept. -/

/-- Modelled from the spec: the byte `SLUB_RED_INACTIVE` of `linux/poison.h`,
which fills the red zone of a free object. -/
def SLUB_RED_INACTIVE : Nat := 0xbb

/-- Modelled from the spec: the byte `SLUB_RED_ACTIVE` of `linux/poison.h`,
which fills the red zone of an allocated object. -/
def SLUB_RED_ACTIVE : Nat := 0xcc

/-- Modelled from the spec: the byte `POISON_INUSE` of `linux/poison.h`, which
fills the padding. -/
def POISON_INUSE : Nat := 0x5a

/-- Modelled from the spec: the byte `POISON_FREE` of `linux/poison.h`, which
fills a free object. -/
def POISON_FREE : Nat := 0x6b

/-- Modelled from the spec: the byte `POISON_END` of `linux/poison.h`, the last
byte of a free object. -/
def POISON_END : Nat := 0xa5

/-- Modelled from the spec: the library function `memset(p, c, n)`. -/
def memset (mem : Nat → Nat) (p c n : Nat) : Nat → Nat :=
  fun a => if p ≤ a ∧ a < p + n then c % 256 else mem a

/-- Modelled from the spec: the library function `memchr_inv(start, c, bytes)`,
the address of the first byte of the range that differs from `c`, `none` for
`NULL`. -/
def memchr_inv (mem : Nat → Nat) : Nat → Nat → Nat → Option Nat
  | _, _, 0 => none
  | start, c, bytes + 1 =>
    if mem start ≠ c % 256 then some start else memchr_inv mem (start + 1) c bytes

/-- A pointer read from memory: the little-endian value of `n` bytes at `a`. -/
def load_bytes (mem : Nat → Nat) : Nat → Nat → Nat
  | _, 0 => 0
  | a, n + 1 => mem a + 256 * load_bytes mem (a + 1) n

/-- A pointer written to memory: the `n` bytes at `a` get the little-endian
digits of `v`. -/
def store_bytes (mem : Nat → Nat) (a v n : Nat) : Nat → Nat :=
  fun x => if a ≤ x ∧ x < a + n then v / 256 ^ (x - a) % 256 else mem x

/-- The function `get_freepointer` on bytes: `*(void **)(object + s->offset)`. -/
def get_freepointer_bytes (k : Kconfig) (s : kmem_cache) (mem : Nat → Nat) (object : Nat) : Nat :=
  load_bytes mem (object + s.offset) (sizeof_ptr k)

/-- The function `set_freepointer` on bytes: `*(void **)(object + s->offset) = fp`. -/
def set_freepointer_bytes (k : Kconfig) (s : kmem_cache) (mem : Nat → Nat) (object fp : Nat) :
    Nat → Nat :=
  store_bytes mem (object + s.offset) fp (sizeof_ptr k)

/-- The fields of `struct page` the debug checks read and write, for a page
given by its `struct page`: `address` is `page_address(page)`, `slab_cache`
the address of the cache descriptor the page points back to. -/
structure debug_page where
  PageSlab : Bool := true
  address : Nat := 0
  compound_order : Nat := 0
  slab_cache : Nat := 0
  freelist : Nat := 0
  inuse : Nat := 0
  objects : Nat := 0
  frozen : Bool := false
  deriving DecidableEq, Repr

/-- A slab as the debug checks see it: the `struct page` and the memory. -/
structure SlabMem where
  page : debug_page
  mem : Nat → Nat

/-- The function `check_valid_pointer`. -/
def check_valid_pointer (s : kmem_cache) (page : debug_page) (object : Nat) : Bool :=
  if object = NULL then true
  else
    let base := page.address
    if object < base ∨ object ≥ base + page.objects * s.size ∨ (object - base) % s.size ≠ 0
    then false else true

/-- The loop `while (end > fault && end[-1] == value) end--` of
`check_bytes_and_report` and `slab_pad_check`; the last argument is
`end - fault`, the result the final `end`. -/
def fault_end (mem : Nat → Nat) (value fault : Nat) : Nat → Nat
  | 0 => fault
  | n + 1 => if mem (fault + n) = value then fault_end mem value fault n else fault + n + 1

/-- The function `restore_bytes`: `memset(from, data, to - from)`. -/
def restore_bytes (mem : Nat → Nat) (data from_ to_ : Nat) : Nat → Nat :=
  memset mem from_ data (to_ - from_)

/-- The function `check_bytes_and_report`: the memory it leaves and the value
it returns. -/
def check_bytes_and_report (mem : Nat → Nat) (start value bytes : Nat) : (Nat → Nat) × Bool :=
  match memchr_inv mem start value bytes with
  | none => (mem, true)
  | some fault =>
    let end_ := fault_end mem value fault (start + bytes - fault)
    (restore_bytes mem value fault end_, false)

/-- The function `check_pad_bytes`. -/
def check_pad_bytes (k : Kconfig) (s : kmem_cache) (mem : Nat → Nat) (p : Nat) :
    (Nat → Nat) × Bool :=
  let off := s.inuse
  let off := if s.offset ≠ 0 then off + sizeof_ptr k else off
  let off := if s.flags.SLAB_STORE_USER then off + 2 * sizeof_track k else off
  if s.size = off then (mem, true)
  else check_bytes_and_report mem (p + off) POISON_INUSE (s.size - off)

/-- The function `slab_pad_check`.  After the loop has moved `end` down to
the last faulty byte, `restore_bytes` is given `end - remainder` and `end`. -/
def slab_pad_check (k : Kconfig) (s : kmem_cache) (page : debug_page) (mem : Nat → Nat) :
    (Nat → Nat) × Bool :=
  if !s.flags.SLAB_POISON then (mem, true)
  else
    let start := page.address
    let length := (PAGE_SIZE k <<< page.compound_order) - s.reserved
    let end_ := start + length
    let remainder := length % s.size
    if remainder = 0 then (mem, true)
    else
      match memchr_inv mem (end_ - remainder) POISON_INUSE remainder with
      | none => (mem, true)
      | some fault =>
        let end_ := fault_end mem POISON_INUSE fault (end_ - fault)
        (restore_bytes mem POISON_INUSE (end_ - remainder) end_, false)

/-- The function `check_object`. -/
def check_object (k : Kconfig) (s : kmem_cache) (page : debug_page) (mem : Nat → Nat)
    (object val : Nat) : (Nat → Nat) × Bool :=
  let p := object
  let endobject := object + s.object_size
  let r :=
    if s.flags.SLAB_RED_ZONE then
      check_bytes_and_report mem endobject val (s.inuse - s.object_size)
    else if s.flags.SLAB_POISON && decide (s.object_size < s.inuse) then
      ((check_bytes_and_report mem endobject POISON_INUSE (s.inuse - s.object_size)).1, true)
    else (mem, true)
  if !r.2 then (r.1, false)
  else
    let mem := r.1
    let r :=
      if s.flags.SLAB_POISON then
        if val ≠ SLUB_RED_ACTIVE ∧ s.flags.__OBJECT_POISON = true then
          let c := check_bytes_and_report mem p POISON_FREE (s.object_size - 1)
          if !c.2 then (c.1, false)
          else
            let c := check_bytes_and_report c.1 (p + s.object_size - 1) POISON_END 1
            if !c.2 then (c.1, false)
            else ((check_pad_bytes k s c.1 p).1, true)
        else ((check_pad_bytes k s mem p).1, true)
      else (mem, true)
    if !r.2 then (r.1, false)
    else
      let mem := r.1
      if s.offset = 0 ∧ val = SLUB_RED_ACTIVE then (mem, true)
      else if !check_valid_pointer s page (get_freepointer_bytes k s mem p) then
        (set_freepointer_bytes k s mem p NULL, false)
      else (mem, true)

/-- The function `check_slab`. -/
def check_slab (k : Kconfig) (s : kmem_cache) (page : debug_page) (mem : Nat → Nat) :
    (Nat → Nat) × Bool :=
  if !page.PageSlab then (mem, false)
  else
    let maxobj := order_objects k page.compound_order s.size s.reserved
    if page.objects > maxobj then (mem, false)
    else if page.inuse > page.objects then (mem, false)
    else ((slab_pad_check k s page mem).1, true)

/-- How the loop of `on_freelist` ends: `found` is the `return 1` inside it,
`cleared` the branch that clears the free list and returns 0, `done` the exit
at the loop condition or at `break`.  Each carries `nr`, the number of free
pointers followed. -/
inductive FreelistWalk where
  | found (nr : Nat)
  | cleared (nr : Nat)
  | done (mem : Nat → Nat) (nr : Nat)

/-- The loop `while (fp && nr <= page->objects)` of `on_freelist`.  The first
argument is `page->objects + 1 - nr`, which is positive exactly when
`nr <= page->objects`. -/
def on_freelist_loop (k : Kconfig) (s : kmem_cache) (page : debug_page) (search : Nat) :
    Nat → (Nat → Nat) → Nat → Nat → Nat → FreelistWalk
  | 0, mem, _, _, nr => .done mem nr
  | left + 1, mem, fp, object, nr =>
    if fp ≠ NULL then
      if fp = search then .found nr
      else if !check_valid_pointer s page fp then
        if object ≠ NULL then .done (set_freepointer_bytes k s mem object NULL) nr
        else .cleared nr
      else on_freelist_loop k s page search left mem (get_freepointer_bytes k s mem fp) fp (nr + 1)
    else .done mem nr

/-- The number of free pointers `on_freelist` has followed when it returns. -/
def FreelistWalk.links : FreelistWalk → Nat
  | .found nr => nr
  | .cleared nr => nr
  | .done _ nr => nr

/-- The function `on_freelist`: the slab it leaves and the value it returns.
`page->objects - nr` is computed in `int` and stored in the 16-bit field
`inuse`. -/
def on_freelist (k : Kconfig) (s : kmem_cache) (page : debug_page) (mem : Nat → Nat)
    (search : Nat) : SlabMem × Bool :=
  match on_freelist_loop k s page search (page.objects + 1) mem page.freelist NULL 0 with
  | .found _ => ({ page := page, mem := mem }, true)
  | .cleared _ =>
    ({ page := { page with freelist := NULL, inuse := page.objects }, mem := mem }, false)
  | .done mem nr =>
    let max_objects := order_objects k page.compound_order s.size s.reserved
    let max_objects := if max_objects > MAX_OBJS_PER_PAGE then MAX_OBJS_PER_PAGE else max_objects
    let page := if page.objects ≠ max_objects then { page with objects := max_objects } else page
    let counted : Int := (page.objects : Int) - (nr : Int)
    let page := if (page.inuse : Int) ≠ counted
      then { page with inuse := (counted % 65536).toNat } else page
    ({ page := page, mem := mem }, decide (search = NULL))

/-- The links `on_freelist` follows: the free pointers it reads. -/
def on_freelist_links (k : Kconfig) (s : kmem_cache) (page : debug_page) (mem : Nat → Nat)
    (search : Nat) : Nat :=
  (on_freelist_loop k s page search (page.objects + 1) mem page.freelist NULL 0).links

/-- The function `init_object`. -/
def init_object (s : kmem_cache) (mem : Nat → Nat) (object val : Nat) : Nat → Nat :=
  let p := object
  let mem := if s.flags.__OBJECT_POISON then
      let mem := memset mem p POISON_FREE (s.object_size - 1)
      fun a => if a = p + s.object_size - 1 then POISON_END else mem a
    else mem
  if s.flags.SLAB_RED_ZONE then memset mem (p + s.object_size) val (s.inuse - s.object_size)
  else mem

/-- The function `get_track`; `alloc` is 0 for `TRACK_ALLOC`, 1 for `TRACK_FREE`. -/
def get_track (k : Kconfig) (s : kmem_cache) (object alloc : Nat) : Nat :=
  let p := if s.offset ≠ 0 then object + s.offset + sizeof_ptr k else object + s.inuse
  p + alloc * sizeof_track k

/-- The function `set_track`: with `addr` set the record is filled from the
caller, the CPU, the process and the clock, whose bytes are `record`; with
`addr == 0` it is cleared. -/
def set_track (k : Kconfig) (s : kmem_cache) (mem : Nat → Nat) (object alloc addr : Nat)
    (record : Nat → Nat) : Nat → Nat :=
  let p := get_track k s object alloc
  if addr ≠ 0 then fun a => if p ≤ a ∧ a < p + sizeof_track k then record (a - p) % 256 else mem a
  else memset mem p 0 (sizeof_track k)

/-- The function `alloc_debug_processing`: the slab it leaves and the value it
returns. -/
def alloc_debug_processing (k : Kconfig) (s : kmem_cache) (page : debug_page) (mem : Nat → Nat)
    (object addr : Nat) (record : Nat → Nat) : SlabMem × Bool :=
  let bad (mem : Nat → Nat) : SlabMem × Bool :=
    ({ page := if page.PageSlab then { page with inuse := page.objects, freelist := NULL }
               else page,
       mem := mem }, false)
  let c := check_slab k s page mem
  if !c.2 then bad c.1
  else if !check_valid_pointer s page object then bad c.1
  else
    let o := check_object k s page c.1 object SLUB_RED_INACTIVE
    if !o.2 then bad o.1
    else
      let mem := o.1
      let mem := if s.flags.SLAB_STORE_USER then set_track k s mem object 0 addr record else mem
      ({ page := page, mem := init_object s mem object SLUB_RED_ACTIVE }, true)

/-- The function `free_debug_processing`; `sp` is the pointer `s`.  The
value is `true` when the node is returned and `false` when `NULL` is. -/
def free_debug_processing (k : Kconfig) (s : kmem_cache) (sp : Nat) (page : debug_page)
    (mem : Nat → Nat) (object addr : Nat) (record : Nat → Nat) : SlabMem × Bool :=
  let c := check_slab k s page mem
  if !c.2 then ({ page := page, mem := c.1 }, false)
  else if !check_valid_pointer s page object then ({ page := page, mem := c.1 }, false)
  else
    let f := on_freelist k s page c.1 object
    if f.2 then (f.1, false)
    else
      let page := f.1.page
      let o := check_object k s page f.1.mem object SLUB_RED_ACTIVE
      if !o.2 then ({ page := page, mem := o.1 }, true)
      else if sp ≠ page.slab_cache then ({ page := page, mem := o.1 }, false)
      else
        let mem := o.1
        let mem := if s.flags.SLAB_STORE_USER then set_track k s mem object 1 addr record else mem
        ({ page := page, mem := init_object s mem object SLUB_RED_INACTIVE }, true)

/-- Where `__slab_alloc` goes after `new_slab_objects` has given it a slab. -/
inductive SlabAllocNext where
  | load_freelist
  | new_slab
  | deactivate_and_return (object : Nat)
  deriving DecidableEq, Repr

/-- The lines of `__slab_alloc` between the call of `new_slab_objects`, which
returned `freelist` in the CPU slab `page`, and the call of `deactivate_slab`:
the slab they leave and where the function goes next. `pfmemalloc_ok` is
`pfmemalloc_match(page, gfpflags)`. -/
def slab_alloc_got_slab (k : Kconfig) (s : kmem_cache) (page : debug_page) (mem : Nat → Nat)
    (freelist addr : Nat) (record : Nat → Nat) (pfmemalloc_ok : Bool) :
    SlabMem × SlabAllocNext :=
  if !kmem_cache_debug s && pfmemalloc_ok then ({ page := page, mem := mem }, .load_freelist)
  else if kmem_cache_debug s then
    let r := alloc_debug_processing k s page mem freelist addr record
    if !r.2 then (r.1, .new_slab) else (r.1, .deactivate_and_return freelist)
  else ({ page := page, mem := mem }, .deactivate_and_return freelist)

/-- The state `__slab_free` works on for a cache with debug flags: the slab,
the node with its partial list, and the list `n->full`. -/
structure DebugState where
  page : debug_page
  mem : Nat → Nat
  n : kmem_cache_node := {}
  full : List Nat := []

/-- The function `add_full`. -/
def add_full (s : kmem_cache) (full : List Nat) (page : Nat) : List Nat :=
  if !s.flags.SLAB_STORE_USER then full else page :: full

/-- The function `remove_full`. -/
def remove_full (s : kmem_cache) (full : List Nat) (page : Nat) : List Nat :=
  if !s.flags.SLAB_STORE_USER then full else full.erase page

/-- The loop `for_each_object(p, s, page_address(page), page->objects)` of
`__free_slab` with its body `check_object(s, page, p, SLUB_RED_INACTIVE)`;
the first argument bounds the number of passes. -/
def free_slab_check_objects (k : Kconfig) (s : kmem_cache) (page : debug_page) :
    Nat → Nat → (Nat → Nat) → (Nat → Nat)
  | 0, _, mem => mem
  | fuel + 1, p, mem =>
    if p < page.address + page.objects * s.size then
      free_slab_check_objects k s page fuel (p + s.size)
        (check_object k s page mem p SLUB_RED_INACTIVE).1
    else mem

/-- The function `discard_slab` for a cache with debug flags: `dec_slabs_node`,
then `free_slab`, which hands the page to RCU when `SLAB_DESTROY_BY_RCU` is
set and otherwise runs the checks of `__free_slab` and clears `PageSlab`. -/
def discard_slab_debug (k : Kconfig) (s : kmem_cache) (st : DebugState) : DebugState :=
  let st := { st with n := dec_slabs_node st.n st.page.objects }
  if s.flags.SLAB_DESTROY_BY_RCU then st
  else
    let mem := (slab_pad_check k s st.page st.mem).1
    let mem := free_slab_check_objects k s st.page st.page.objects st.page.address mem
    { st with mem := mem, page := { st.page with PageSlab := false } }

/-- The function `__slab_free` for a cache with debug flags, which has no
per-CPU partial slabs: `pg` is the pointer `page`, `x` the object, `sp` the
pointer `s`. -/
def __slab_free_debug (k : Kconfig) (s : kmem_cache) (sp : Nat) (st : DebugState) (pg : Nat)
    (x addr : Nat) (record : Nat → Nat) : DebugState :=
  let r := free_debug_processing k s sp st.page st.mem x addr record
  if !r.2 then { st with page := r.1.page, mem := r.1.mem }
  else
    let page := r.1.page
    let prior := page.freelist
    let mem := set_freepointer_bytes k s r.1.mem x prior
    let was_frozen := page.frozen
    let inuse := dec16 page.inuse
    let locked := (decide (inuse = 0) || decide (prior = NULL)) && !was_frozen
    let page := { page with freelist := x, inuse := inuse }
    let st := { st with page := page, mem := mem }
    if !locked then st
    else if inuse = 0 ∧ st.n.nr_partial ≥ s.min_partial then
      let st := if prior ≠ NULL then { st with n := remove_partial k st.n pg }
        else { st with full := remove_full s st.full pg }
      discard_slab_debug k s st
    else if prior = NULL then
      { st with full := remove_full s st.full pg, n := add_partial st.n pg true }
    else st

/-- A cache of 32-byte objects opened with `SLAB_POISON` on the `rpi2`
configuration: slots of 40 bytes with the free pointer at offset 32, 102
objects in a page and 16 bytes of slab padding. -/
def cache_poison : kmem_cache :=
  match kmem_cache_open rpi2 { object_size := 32, align := 8 } { SLAB_POISON := true } true true with
  | some (s, _) => s
  | none => {}

/-- A slab of `cache_poison` at address `0x10000` whose free chain is the
last object (at `0x10fc8`), then the first (at `0x10000`), then the second (at
`0x10028`), with 99 objects allocated. -/
def page_padding_hit : debug_page :=
  { address := 0x10000, slab_cache := 1, freelist := 0x10fc8, inuse := 99, objects := 102 }

/-- The bytes of that slab: the three free objects are poisoned and linked,
the padding of every slot is intact, and the first of the 16 bytes of slab
padding (at `0x10ff0`) has been overwritten with `0x41`. -/
def mem_padding_hit : Nat → Nat := fun a =>
  if a = 0x10ff0 then 0x41
  else if 0x10ff0 < a ∧ a < 0x11000 then POISON_INUSE
  else if a = 0x10fc8 + 32 + 2 then 1
  else if a = 0x10000 + 32 then 0x28
  else if a = 0x10000 + 32 + 2 then 1
  else if (0x10000 ≤ a ∧ a < 0x10000 + 31) ∨ (0x10028 ≤ a ∧ a < 0x10028 + 31) ∨
      (0x10fc8 ≤ a ∧ a < 0x10fc8 + 31) then POISON_FREE
  else if a = 0x10000 + 31 ∨ a = 0x10028 + 31 ∨ a = 0x10fc8 + 31 then POISON_END
  else if 0x10000 ≤ a ∧ a < 0x10ff0 ∧ 36 ≤ (a - 0x10000) % 40 then POISON_INUSE
  else 0

/-- The state of the node around that slab: the page (number 7) is on the
partial list. -/
def state_padding_hit : DebugState :=
  { page := page_padding_hit, mem := mem_padding_hit,
    n := { nr_partial := 1, partial_ := [7], nr_slabs := 1, total_objects := 102 } }

/-- A slab of `cache_poison` at address `0x10000` whose free list starts at
the first object, with 100 objects counted as allocated. -/
def page_cycle : debug_page :=
  { address := 0x10000, slab_cache := 1, freelist := 0x10000, inuse := 100, objects := 102 }

/-- Bytes in which the free pointer of the first object (at `0x10000`) points
to the second (at `0x10028`) and that of the second back to the first. -/
def mem_cycle : Nat → Nat := fun a =>
  if a = 0x10000 + 32 then 0x28
  else if a = 0x10000 + 32 + 2 ∨ a = 0x10028 + 32 + 2 then 1
  else 0

/-- A cache of 32-byte objects opened with `SLAB_RED_ZONE` and `SLAB_POISON`
on the `rpi2` configuration: slots of 48 bytes, the red zone in bytes 32 to
35, the free pointer at offset 36, 85 objects in a page and 16 bytes of slab
padding. -/
def cache_red : kmem_cache :=
  match kmem_cache_open rpi2 { object_size := 32, align := 8 }
    { SLAB_RED_ZONE := true, SLAB_POISON := true } true true with
  | some (s, _) => s
  | none => {}

/-- A slab of `cache_red` at address `0x10000` with one free object, the third
(at `0x10060`). -/
def page_red : debug_page :=
  { address := 0x10000, slab_cache := 1, freelist := 0x10060, inuse := 84, objects := 85 }

/-- Bytes of that slab: the slab padding is intact, the first byte of the red
zone of the first object (at `0x10020`) has been overwritten with 0, the rest
of that red zone and the red zone of the second object are intact, and the
free pointer of the third object is `NULL`. -/
def mem_red : Nat → Nat := fun a =>
  if 0x10ff0 ≤ a then POISON_INUSE
  else if 0x10021 ≤ a ∧ a < 0x10024 then SLUB_RED_ACTIVE
  else if 0x10050 ≤ a ∧ a < 0x10054 then SLUB_RED_ACTIVE
  else 0

/-! ## The debug checks on a well-formed free chain -/

/-- The free chain starting at the pointer `fp` runs through the objects of
the list, in order, and ends with `NULL`. -/
def ChainAt (k : Kconfig) (s : kmem_cache) (mem : Nat → Nat) : List Nat → Nat → Prop
  | [], fp => fp = NULL
  | c :: cs, fp => fp = c ∧ c ≠ NULL ∧ ChainAt k s mem cs (get_freepointer_bytes k s mem c)

/-- The address `c` is that of an object of the slab: `page_address(page)`
plus a multiple of `s->size` below `page->objects`. -/
def ValidObj (s : kmem_cache) (page : debug_page) (c : Nat) : Prop :=
  ∃ i, i < page.objects ∧ c = page.address + i * s.size

/-- The bytes behind the last object slot that fits in the slab, which
`slab_pad_check` expects to hold `POISON_INUSE`. -/
def PaddingIntact (k : Kconfig) (s : kmem_cache) (page : debug_page) (mem : Nat → Nat) : Prop :=
  ∀ a, page.address + order_objects k page.compound_order s.size s.reserved * s.size ≤ a →
    a < page.address + ((PAGE_SIZE k <<< page.compound_order) - s.reserved) →
    mem a = POISON_INUSE

/-! ## The early region allocator: `memblock_add_range`

The regions of a `struct memblock_type` are the first `cnt` slots of its
array; they are modelled as a list, so `type->cnt` is the length of the list
and `type->regions[i]` its element `i`.  Physical addresses are numbers below
`2 ^ phys_addr_bits`, and the arithmetic of `phys_addr_t` wraps at that bound. -/

/-- What the build fixes for `mm/memblock.c`: the width of `phys_addr_t` and
whether a region records its node (`CONFIG_HAVE_MEMBLOCK_NODE_MAP`). -/
structure MemblockConfig where
  phys_addr_bits : Nat := 32
  CONFIG_HAVE_MEMBLOCK_NODE_MAP : Bool := false
  deriving DecidableEq, Repr

/-- The type `struct memblock_region`; without `CONFIG_HAVE_MEMBLOCK_NODE_MAP`
the field `nid` does not exist and is kept at 0. -/
structure memblock_region where
  base : Nat := 0
  size : Nat := 0
  flags : Nat := 0
  nid : Int := 0
  deriving DecidableEq, Repr

/-- The type `struct memblock_type`; `regions` holds the slots below `cnt`. -/
structure memblock_type where
  max : Nat := 128
  total_size : Nat := 0
  regions : List memblock_region := [{}]
  deriving DecidableEq, Repr

/-- The field `type->cnt`. -/
def memblock_type.cnt (type : memblock_type) : Nat := type.regions.length

/-- The largest value of `phys_addr_t`, `(phys_addr_t)ULLONG_MAX`. -/
def PHYS_ADDR_MAX (cfg : MemblockConfig) : Nat := 2 ^ cfg.phys_addr_bits - 1

/-- The function `memblock_get_region_node`. -/
def memblock_get_region_node (cfg : MemblockConfig) (r : memblock_region) : Int :=
  if cfg.CONFIG_HAVE_MEMBLOCK_NODE_MAP then r.nid else 0

/-- The function `memblock_set_region_node`. -/
def memblock_set_region_node (cfg : MemblockConfig) (r : memblock_region) (nid : Int) :
    memblock_region :=
  if cfg.CONFIG_HAVE_MEMBLOCK_NODE_MAP then { r with nid := nid } else r

/-- The function `memblock_cap_size`: `min(*size, (phys_addr_t)ULLONG_MAX - base)`. -/
def memblock_cap_size (cfg : MemblockConfig) (base size : Nat) : Nat :=
  min size (PHYS_ADDR_MAX cfg - base)

/-- The region `memblock_insert_region` writes into the slot it has opened. -/
def memblock_new_region (cfg : MemblockConfig) (base size : Nat) (nid : Int) (flags : Nat) :
    memblock_region :=
  memblock_set_region_node cfg { base := base, size := size, flags := flags } nid

/-- The function `memblock_insert_region`: the slots from `idx` on move up by
one, the new region takes slot `idx`, and `total_size` grows by `size`. -/
def memblock_insert_region (cfg : MemblockConfig) (type : memblock_type) (idx base size : Nat)
    (nid : Int) (flags : Nat) : memblock_type :=
  { type with
    regions := type.regions.take idx ++
      memblock_new_region cfg base size nid flags :: type.regions.drop idx,
    total_size := (type.total_size + size) % 2 ^ cfg.phys_addr_bits }

/-- The loop of `memblock_merge_regions` from index `i` on: the argument list
holds the regions from `this` on, the result what the loop leaves in their
place.  The first argument is `type->cnt - 1 - i`, which is positive exactly
when the loop condition `i < type->cnt - 1` holds and goes down by one in each
pass, whether `i` goes up or `cnt` goes down. -/
def memblock_merge_regions_loop (cfg : MemblockConfig) :
    Nat → List memblock_region → List memblock_region
  | left + 1, this :: next :: rest =>
    if (this.base + this.size) % 2 ^ cfg.phys_addr_bits ≠ next.base ∨
        memblock_get_region_node cfg this ≠ memblock_get_region_node cfg next ∨
        this.flags ≠ next.flags then
      this :: memblock_merge_regions_loop cfg left (next :: rest)
    else
      memblock_merge_regions_loop cfg left
        ({ this with size := (this.size + next.size) % 2 ^ cfg.phys_addr_bits } :: rest)
  | _, l => l

/-- The function `memblock_merge_regions`. -/
def memblock_merge_regions (cfg : MemblockConfig) (type : memblock_type) : memblock_type :=
  { type with regions := memblock_merge_regions_loop cfg (type.cnt - 1) type.regions }

/-- What a pass of the loop of `memblock_add_range` hands on: the regions from
the current index on, `nr_new`, and `type->total_size`. -/
structure AddRangePass where
  regions : List memblock_region
  nr_new : Nat
  total_size : Nat
  deriving DecidableEq, Repr

/-- The lines of `memblock_add_range` after its loop, with the regions from
index `i` on: the rest of the new range, if any, is counted and, in the
second pass, inserted at `i`. -/
def memblock_add_range_rest (cfg : MemblockConfig) (insert : Bool) (end_ : Nat) (nid : Int)
    (flags : Nat) (l : List memblock_region) (base nr_new total : Nat) : AddRangePass :=
  if base < end_ then
    if insert then
      { regions := memblock_new_region cfg base (end_ - base) nid flags :: l,
        nr_new := nr_new + 1,
        total_size := (total + (end_ - base)) % 2 ^ cfg.phys_addr_bits }
    else { regions := l, nr_new := nr_new + 1, total_size := total }
  else { regions := l, nr_new := nr_new, total_size := total }

/-- The loop `for (i = 0; i < type->cnt; i++)` of `memblock_add_range`
together with the lines after it, from the current index on: the list holds
the regions from `rgn` on, `base` is the start of what is left of the new
range.  With `insert` the part of the new range below `rgn` is inserted in
front of it. -/
def memblock_add_range_loop (cfg : MemblockConfig) (insert : Bool) (end_ : Nat) (nid : Int)
    (flags : Nat) : List memblock_region → Nat → Nat → Nat → AddRangePass
  | [], base, nr_new, total => memblock_add_range_rest cfg insert end_ nid flags [] base nr_new total
  | rgn :: rest, base, nr_new, total =>
    let rbase := rgn.base
    let rend := (rbase + rgn.size) % 2 ^ cfg.phys_addr_bits
    if rbase ≥ end_ then
      memblock_add_range_rest cfg insert end_ nid flags (rgn :: rest) base nr_new total
    else if rend ≤ base then
      let r := memblock_add_range_loop cfg insert end_ nid flags rest base nr_new total
      { r with regions := rgn :: r.regions }
    else if rbase > base then
      if insert then
        let r := memblock_add_range_loop cfg insert end_ nid flags rest (min rend end_)
          (nr_new + 1) ((total + (rbase - base)) % 2 ^ cfg.phys_addr_bits)
        { r with regions := memblock_new_region cfg base (rbase - base) nid flags :: rgn ::
            r.regions }
      else
        let r := memblock_add_range_loop cfg insert end_ nid flags rest (min rend end_)
          (nr_new + 1) total
        { r with regions := rgn :: r.regions }
    else
      let r := memblock_add_range_loop cfg insert end_ nid flags rest (min rend end_)
        nr_new total
      { r with regions := rgn :: r.regions }

/-- The function `memblock_add_range`: the type it leaves and the value it
returns.  The result is `none` when the array has no room for the new regions
and `memblock_double_array` is called, and for a type with `cnt == 0`, which
the code never leaves behind. -/
def memblock_add_range (cfg : MemblockConfig) (type : memblock_type) (base size : Nat)
    (nid : Int) (flags : Nat) : Option (memblock_type × Int) :=
  let size := memblock_cap_size cfg base size
  let end_ := (base + size) % 2 ^ cfg.phys_addr_bits
  if size = 0 then some (type, 0)
  else
    match type.regions with
    | [] => none
    | first :: others =>
      if first.size = 0 then
        some ({ type with
          regions := memblock_set_region_node cfg
            { first with base := base, size := size, flags := flags } nid :: others,
          total_size := size }, 0)
      else
        let count := memblock_add_range_loop cfg false end_ nid flags type.regions base 0
          type.total_size
        if type.cnt + count.nr_new > type.max then none
        else
          let pass := memblock_add_range_loop cfg true end_ nid flags type.regions base 0
            type.total_size
          some (memblock_merge_regions cfg
            { type with regions := pass.regions, total_size := pass.total_size }, 0)

/-- A `memblock_type` with the two regions `[0x4000, 0x8000)` and
`[0x10000, 0x11000)`, both with flags 0. -/
def memblock_two : memblock_type :=
  { total_size := 0x5000,
    regions := [{ base := 0x4000, size := 0x4000 }, { base := 0x10000, size := 0x1000 }] }

/-! ## What `memblock_add_range` keeps and establishes -/

/-- The address `a` lies in the region `r`. -/
def region_covers (r : memblock_region) (a : Nat) : Prop := r.base ≤ a ∧ a < r.base + r.size

/-- The address `a` lies in a region of the list. -/
def Covers (l : List memblock_region) (a : Nat) : Prop := ∃ r ∈ l, region_covers r a

/-- The address `a` lies in a region of the list with node `nid` and flags
`flags`. -/
def HasAttr (cfg : MemblockConfig) (l : List memblock_region) (a : Nat) (nid : Int)
    (flags : Nat) : Prop :=
  ∃ r ∈ l, region_covers r a ∧ memblock_get_region_node cfg r = nid ∧ r.flags = flags

/-- Every region ends where or before each later one starts. -/
def OrderedRegions (l : List memblock_region) : Prop :=
  l.Pairwise (fun a b => a.base + a.size ≤ b.base)

/-- No two neighbouring regions abut with equal node and flags. -/
def MinimalRegions (cfg : MemblockConfig) (l : List memblock_region) : Prop :=
  l.Chain' (fun a b => ¬ (a.base + a.size = b.base ∧
    memblock_get_region_node cfg a = memblock_get_region_node cfg b ∧ a.flags = b.flags))

/-- The sum of the sizes of the regions. -/
def sum_sizes (l : List memblock_region) : Nat := (l.map (fun r => r.size)).sum

/-- What the inserting pass of `memblock_add_range` has made of the regions
`l` from the current index on, with `b` the start of what was left of the new
range, `e` its end and `t` the `total_size` before. -/
structure LoopSpec (cfg : MemblockConfig) (e : Nat) (l : List memblock_region) (b t : Nat)
    (out : AddRangePass) : Prop where
  shape : ∀ x ∈ out.regions, x ∈ l ∨ (b ≤ x.base ∧ 0 < x.size ∧ x.base + x.size ≤ e)
  ordered : OrderedRegions out.regions
  covers : ∀ a, Covers out.regions a ↔ Covers l a ∨ (b ≤ a ∧ a < e)
  keeps : ∀ r ∈ l, r ∈ out.regions
  total : ∃ d, sum_sizes out.regions = sum_sizes l + d ∧
    out.total_size = (t + d) % 2 ^ cfg.phys_addr_bits

/-- The regions `a` and `b` have the same start, node and flags, and `b` is at
least as large. -/
def SameStart (cfg : MemblockConfig) (a b : memblock_region) : Prop :=
  a.base = b.base ∧ memblock_get_region_node cfg a = memblock_get_region_node cfg b ∧
    a.flags = b.flags ∧ a.size ≤ b.size

/-- What `memblock_merge_regions` makes of the regions `l`. -/
structure MergeSpec (cfg : MemblockConfig) (l out : List memblock_region) : Prop where
  ordered : OrderedRegions out
  range : ∀ r ∈ out, r.base + r.size < 2 ^ cfg.phys_addr_bits
  covers : ∀ a nid flags, HasAttr cfg out a nid flags ↔ HasAttr cfg l a nid flags
  minimal : MinimalRegions cfg out
  total : sum_sizes out = sum_sizes l
  starts : ∀ x ∈ out, ∃ y ∈ l, SameStart cfg y x
  first : ∀ x, out.head? = some x → ∃ y, l.head? = some y ∧ SameStart cfg y x

/-! ## A cache whose slabs hold 32768 objects

`slab_order` compares the object count with `MAX_OBJS_PER_PAGE` only for the
block of order `slub_min_order`; the order its loop arrives at is not compared
again.  With the boot parameters `slub_max_order=6 slub_min_objects=20000` a
cache of 8-byte objects gets slabs of order 6, which hold 32768 objects, one
more than the 15-bit field `page->objects` can count. -/

/-- The board booted with `slub_max_order=6 slub_min_objects=20000`
(`setup_slub_max_order` keeps an order below `MAX_ORDER`). -/
def boot_order6 : Kconfig := { rpi2 with slub_max_order := 6, slub_min_objects := 20000 }

/-- A descriptor for objects of 8 bytes aligned to 8. -/
def cache8 : kmem_cache := { object_size := 8, align := 8 }

/-- Two allocations, each served with a zeroed block of order 6 (pages 1 and
2), then the free of the first object. -/
def ops_order6 : List Op :=
  [Op.alloc false { pref := some (1, false) }, Op.alloc false { pref := some (2, false) },
   Op.free ⟨1, 0⟩]

/-- Two allocations: the first is served with a zeroed block (page 1); the
block of the second (page 2) is not zeroed, and the word at its start holds
the address of the first object of page 1. -/
def ops_stale : List Op :=
  [Op.alloc false { pref := some (1, false) },
   Op.alloc false { pref := some (2, false), stale := [⟨1, 0⟩] }]

/-- The descriptor and the state `__kmem_cache_shrink(s, true)` leaves when it
is called on the freshly opened `cache8`. -/
def shrunk_order6 : kmem_cache × State :=
  match __kmem_cache_shrink boot_order6 (open_cache boot_order6 cache8) fresh.st true with
  | some r => (r.1, r.2.1)
  | none => (open_cache boot_order6 cache8, {})

/-! ## `__slab_free` on a page that is not frozen, with and without debug flags -/

/-- A full slab of `cache_poison` at address `0x10000`: its 102 objects are
all allocated and `page->freelist` is `NULL`. -/
def page_full : debug_page :=
  { address := 0x10000, slab_cache := 1, freelist := NULL, inuse := 102, objects := 102 }

/-- Bytes of that slab: the 16 bytes of slab padding are intact. -/
def mem_full : Nat → Nat := fun a => if 0x10ff0 ≤ a ∧ a < 0x11000 then POISON_INUSE else 0

/-- The state of the node around that slab (page number 7): no page is on
the partial list. -/
def state_full : DebugState :=
  { page := page_full, mem := mem_full, n := { nr_slabs := 1, total_objects := 102 } }

/-! # Theorems -/

/-! ### Basic facts -/

@[simp] theorem setPage_mem_same (st : State) (p : Nat) (pg : Page) :
    (setPage st p pg).mem p = pg := by simp [setPage]

theorem setPage_mem_ne (st : State) (p q : Nat) (pg : Page) (h : q ≠ p) :
    (setPage st p pg).mem q = st.mem q := by simp [setPage, h]

theorem setPage_mem (st : State) (p q : Nat) (pg : Page) :
    (setPage st p pg).mem q = if q = p then pg else st.mem q := rfl

@[simp] theorem setPage_c (st : State) (p : Nat) (pg : Page) : (setPage st p pg).c = st.c := rfl

@[simp] theorem setPage_n (st : State) (p : Nat) (pg : Page) : (setPage st p pg).n = st.n := rfl

@[simp] theorem setPage_slabs (st : State) (p : Nat) (pg : Page) :
    (setPage st p pg).slabs = st.slabs := rfl

@[simp] theorem setPage_requests (st : State) (p : Nat) (pg : Page) :
    (setPage st p pg).requests = st.requests := rfl

theorem dec16_pos (x : Nat) (h1 : 1 ≤ x) (h2 : x ≤ 65535) : dec16 x = x - 1 := by
  unfold dec16; omega

/-- Distinct objects of one page with indices below `n` are at most `n`. -/
theorem pigeon (p n : Nat) (l : List Obj) (hn : l.Nodup)
    (hv : ∀ x ∈ l, x.page = p ∧ x.idx < n) : l.length ≤ n := by
  have h1 : (l.map Obj.idx).Nodup := by
    rw [List.nodup_map_iff_inj_on hn]
    intro x hx y hy hxy
    cases x; cases y
    simp only at hxy
    have := (hv _ hx).1; have := (hv _ hy).1
    simp_all
  have h2 : l.map Obj.idx ⊆ List.range n := by
    intro i hi
    simp only [List.mem_map] at hi
    obtain ⟨x, hx, rfl⟩ := hi
    simp [(hv x hx).2]
  have := (List.subperm_of_subset h1 h2).length_le
  simpa using this

/-- The invariant reads the state only through `c->page`, `c->partial`, the
node, the pages and the set of slabs. -/
theorem InvG.congr {s : kmem_cache} {st st' : State} {cfl live : List Obj} {t : Option Nat}
    {d : List Nat} (h : InvG s st cfl live t d)
    (h1 : st'.c.page = st.c.page) (h2 : st'.c.partial_ = st.c.partial_) (h3 : st'.n = st.n)
    (h4 : st'.mem = st.mem) (h5 : st'.slabs = st.slabs) : InvG s st' cfl live t d := by
  rcases st with ⟨⟨cf, ct, cp, cpa⟩, n, mem, slabs, req⟩
  rcases st' with ⟨⟨cf', ct', cp', cpa'⟩, n', mem', slabs', req'⟩
  simp only at h1 h2 h3 h4 h5
  subst h1 h2 h3 h4 h5
  exact ⟨h.slabs_nodup, h.wf, h.cpage, h.cnone, h.cfl_nodup, h.cfl_ok, h.cpart_nodup, h.cpart,
    h.npart_nodup, h.npart, h.transit, h.pending_nodup, h.pending, h.frozen_owned,
    h.unfrozen_listed, h.nr_partial, h.live_nodup, h.live_ok, h.nr_slabs, h.total_objects⟩

/-- Taking the first object off the per-CPU chain hands it out. -/
theorem InvG.pop {s : kmem_cache} {st : State} {x : Obj} {cfl live : List Obj} {t : Option Nat}
    {d : List Nat} (h : InvG s st (x :: cfl) live t d) :
    InvG s st cfl (x :: live) t d ∧ x ∉ live := by
  have hx := h.cfl_ok x (List.mem_cons_self _ _)
  have hnd := List.nodup_cons.mp h.cfl_nodup
  have hxl : x ∉ live := fun hm => (h.live_ok x hm).2.2.2 (List.mem_cons_self _ _)
  refine ⟨⟨h.slabs_nodup, h.wf, h.cpage, ?_, hnd.2, ?_, h.cpart_nodup, h.cpart,
    h.npart_nodup, h.npart, h.transit, h.pending_nodup, h.pending, h.frozen_owned,
    h.unfrozen_listed, h.nr_partial, ?_, ?_, h.nr_slabs, h.total_objects⟩, hxl⟩
  · intro hn; rw [hn] at hx; exact absurd hx.1 (by simp)
  · intro y hy; exact h.cfl_ok y (List.mem_cons_of_mem _ hy)
  · exact List.nodup_cons.mpr ⟨hxl, h.live_nodup⟩
  · intro y hy
    rcases List.mem_cons.mp hy with rfl | hy
    · exact ⟨(h.cpage _ hx.1).1, hx.2.1, hx.2.2, hnd.1⟩
    · have := h.live_ok y hy
      exact ⟨this.1, this.2.1, this.2.2.1, fun hm => this.2.2.2 (List.mem_cons_of_mem _ hm)⟩

/-- Putting a live object of the CPU slab back on the per-CPU chain. -/
theorem InvG.push {s : kmem_cache} {st : State} {x : Obj} {cfl live : List Obj} {t : Option Nat}
    {d : List Nat} (h : InvG s st cfl live t d) (hx : x ∈ live) (hp : st.c.page = some x.page) :
    InvG s st (x :: cfl) (live.erase x) t d := by
  have hl := h.live_ok x hx
  refine ⟨h.slabs_nodup, h.wf, h.cpage, ?_, ?_, ?_, h.cpart_nodup, h.cpart,
    h.npart_nodup, h.npart, h.transit, h.pending_nodup, h.pending, h.frozen_owned,
    h.unfrozen_listed, h.nr_partial, ?_, ?_, h.nr_slabs, h.total_objects⟩
  · intro hn; rw [hn] at hp; exact absurd hp (by simp)
  · exact List.nodup_cons.mpr ⟨hl.2.2.2, h.cfl_nodup⟩
  · intro y hy
    rcases List.mem_cons.mp hy with rfl | hy
    · exact ⟨hp, hl.2.1, hl.2.2.1⟩
    · exact h.cfl_ok y hy
  · exact h.live_nodup.erase x
  · intro y hy
    have hy1 : y ∈ live := List.mem_of_mem_erase hy
    have hne : y ≠ x := fun e => by
      subst e; exact (List.Nodup.not_mem_erase h.live_nodup) hy
    have := h.live_ok y hy1
    refine ⟨this.1, this.2.1, this.2.2.1, ?_⟩
    intro hm
    rcases List.mem_cons.mp hm with e | hm
    · exact hne e
    · exact this.2.2.2 hm

/-- No object of a slab with `inuse = 0` is handed out. -/
theorem InvG.no_live_of_empty {s : kmem_cache} {st : State} {cfl live : List Obj}
    {t : Option Nat} {d : List Nat} (h : InvG s st cfl live t d) {p : Nat} (hp : p ∈ st.slabs)
    (h0 : (st.mem p).inuse = 0) : ∀ x ∈ live, x.page ≠ p := by
  intro x hx hxp
  have hl := h.live_ok x hx
  have hw := h.wf p hp
  rw [hxp] at hl
  have := pigeon p (st.mem p).objects (x :: (st.mem p).freelist)
    (List.nodup_cons.mpr ⟨hl.2.2.1, hw.2.2.1⟩) (by
      intro y hy
      rcases List.mem_cons.mp hy with rfl | hy
      · exact ⟨hxp, hl.2.1⟩
      · exact hw.2.2.2 y hy)
  have h1 := hw.1
  simp only [List.length_cons] at this
  omega

theorem sum_map_erase (l : List Nat) (f : Nat → Int) (a : Nat) (h : a ∈ l) :
    ((l.erase a).map f).sum = (l.map f).sum - f a := by
  have hp : l.Perm (a :: l.erase a) := List.perm_cons_erase h
  have := (hp.map f).sum_eq
  simp only [List.map_cons, List.sum_cons] at this
  omega

theorem sum_map_congr (l : List Nat) (f g : Nat → Int) (h : ∀ a ∈ l, f a = g a) :
    (l.map f).sum = (l.map g).sum := by
  rw [List.map_congr_left h]

/-- Giving back to the page allocator a slab set aside for it. -/
theorem InvG.discard {s : kmem_cache} {st : State} {cfl live : List Obj} {t : Option Nat}
    {d : List Nat} {p : Nat} (h : InvG s st cfl live t (p :: d)) :
    InvG s (discard_slab st p) cfl live t d := by
  obtain ⟨hp, hfr, h0, hnp⟩ := h.pending p (List.mem_cons_self _ _)
  have hdn := List.nodup_cons.mp h.pending_nodup
  have hc : st.c.page ≠ some p := fun e => by
    have := (h.cpage p e).2.1; rw [hfr] at this; exact absurd this (by simp)
  have hcp : p ∉ st.c.partial_ := fun e => by
    have := (h.cpart p e).2.1; rw [hfr] at this; exact absurd this (by simp)
  have ht : t ≠ some p := fun e => by
    have := (h.transit p e).2.1; rw [hfr] at this; exact absurd this (by simp)
  have hne : ∀ q, q ∈ st.slabs.erase p ↔ q ∈ st.slabs ∧ q ≠ p := by
    intro q
    rw [h.slabs_nodup.mem_erase_iff]; tauto
  have hmem : ∀ q, q ∈ st.slabs.erase p → q ∈ st.slabs := fun q hq => ((hne q).mp hq).1
  have hin : ∀ q, q ∈ st.slabs → q ≠ p → q ∈ st.slabs.erase p := fun q h1 h2 => (hne q).mpr ⟨h1, h2⟩
  have hlen : ((st.slabs.erase p).length : Int) = (st.slabs.length : Int) - 1 := by
    have h1 := List.length_erase_of_mem hp
    have h2 : 0 < st.slabs.length := List.length_pos_of_mem hp
    omega
  refine ⟨h.slabs_nodup.erase p, ?_, ?_, h.cnone, h.cfl_nodup, h.cfl_ok, h.cpart_nodup, ?_,
    h.npart_nodup, ?_, ?_, hdn.2, ?_, ?_, ?_, h.nr_partial, h.live_nodup, ?_, ?_, ?_⟩
  · intro q hq; exact h.wf q (hmem q hq)
  · intro q hq
    have := h.cpage q hq
    exact ⟨hin q this.1 (fun e => hc (e ▸ hq)), this.2⟩
  · intro q hq
    have := h.cpart q hq
    exact ⟨hin q this.1 (fun e => hcp (e ▸ hq)), this.2⟩
  · intro q hq
    have := h.npart q hq
    exact ⟨hin q this.1 (fun e => hnp (e ▸ hq)), this.2⟩
  · intro q hq
    have := h.transit q hq
    exact ⟨hin q this.1 (fun e => ht (e ▸ hq)), this.2⟩
  · intro q hq
    have := h.pending q (List.mem_cons_of_mem _ hq)
    exact ⟨hin q this.1 (fun e => hdn.1 (e ▸ hq)), this.2⟩
  · intro q hq; exact h.frozen_owned q (hmem q hq)
  · intro q hq h1 h2
    rcases h.unfrozen_listed q (hmem q hq) h1 h2 with h3 | h3
    · exact Or.inl h3
    · rcases List.mem_cons.mp h3 with e | h3
      · exact absurd e ((hne q).mp hq).2
      · exact Or.inr h3
  · intro x hx
    have := h.live_ok x hx
    exact ⟨hin _ this.1 (h.no_live_of_empty hp h0 x hx), this.2⟩
  · show st.n.nr_slabs - 1 = ((st.slabs.erase p).length : Int)
    rw [h.nr_slabs, hlen]
  · show st.n.total_objects - ((st.mem p).objects : Int) =
      ((st.slabs.erase p).map (fun q => ((st.mem q).objects : Int))).sum
    rw [h.total_objects, sum_map_erase _ _ _ hp]

/-- The effect on the invariant of a step that changes the data of one slab
`p` and the lists only as far as `p` is concerned. -/
theorem InvG.update {s : kmem_cache} {st st' : State} {cfl cfl' live live' : List Obj}
    {t t' : Option Nat} {d d' : List Nat} (h : InvG s st cfl live t d) (p : Nat)
    (hp : p ∈ st.slabs) (hslabs : st'.slabs = st.slabs)
    (hmem : ∀ q, q ≠ p → st'.mem q = st.mem q)
    (hobj : (st'.mem p).objects = (st.mem p).objects)
    (hwf : PageWf s p (st'.mem p))
    (hcpage : ∀ q, q ≠ p → (st'.c.page = some q ↔ st.c.page = some q))
    (hcpart : ∀ q, q ≠ p → (q ∈ st'.c.partial_ ↔ q ∈ st.c.partial_))
    (hnpart : ∀ q, q ≠ p → (q ∈ st'.n.partial_ ↔ q ∈ st.n.partial_))
    (ht : ∀ q, q ≠ p → (t' = some q ↔ t = some q))
    (hd : ∀ q, q ≠ p → (q ∈ d' ↔ q ∈ d))
    (hcpn : st'.c.partial_.Nodup) (hnpn : st'.n.partial_.Nodup) (hdn : d'.Nodup)
    (hnr : st'.n.nr_partial = st'.n.partial_.length)
    (hns : st'.n.nr_slabs = st.n.nr_slabs) (hto : st'.n.total_objects = st.n.total_objects)
    (r1 : st'.c.page = some p → (st'.mem p).frozen = true ∧ p ∉ st'.c.partial_)
    (r2 : p ∈ st'.c.partial_ → (st'.mem p).frozen = true ∧ (st'.mem p).freelist ≠ [])
    (r3 : p ∈ st'.n.partial_ → (st'.mem p).frozen = false ∧ (st'.mem p).freelist ≠ [])
    (r4 : t' = some p → (st'.mem p).frozen = true ∧ (st'.mem p).freelist ≠ [] ∧
      st'.c.page ≠ some p ∧ p ∉ st'.c.partial_)
    (r5 : p ∈ d' → (st'.mem p).frozen = false ∧ (st'.mem p).inuse = 0 ∧ p ∉ st'.n.partial_)
    (r6 : (st'.mem p).frozen = true → st'.c.page = some p ∨ p ∈ st'.c.partial_ ∨ t' = some p)
    (r7 : (st'.mem p).frozen = false → (st'.mem p).freelist ≠ [] →
      p ∈ st'.n.partial_ ∨ p ∈ d')
    (hcnone : st'.c.page = none → cfl' = [])
    (hcfl_nodup : cfl'.Nodup)
    (hcfl_other : ∀ x ∈ cfl', x.page ≠ p → x ∈ cfl)
    (hcfl_p : ∀ x ∈ cfl', x.page = p → st'.c.page = some p ∧ x.idx < (st'.mem p).objects ∧
      x ∉ (st'.mem p).freelist)
    (hlive_nodup : live'.Nodup)
    (hlive_other : ∀ x ∈ live', x.page ≠ p → x ∈ live)
    (hlive_p : ∀ x ∈ live', x.page = p → x.idx < (st'.mem p).objects ∧
      x ∉ (st'.mem p).freelist)
    (hlive_cfl : ∀ x ∈ live', x ∉ cfl') :
    InvG s st' cfl' live' t' d' := by
  refine ⟨by rw [hslabs]; exact h.slabs_nodup, ?_, ?_, hcnone, hcfl_nodup, ?_, hcpn, ?_,
    hnpn, ?_, ?_, hdn, ?_, ?_, ?_, hnr, hlive_nodup, ?_, ?_, ?_⟩
  · intro q hq
    rw [hslabs] at hq
    by_cases e : q = p
    · subst e; exact hwf
    · rw [hmem q e]; exact h.wf q hq
  · intro q hq
    by_cases e : q = p
    · subst e; exact ⟨by rw [hslabs]; exact hp, r1 hq⟩
    · have := h.cpage q ((hcpage q e).mp hq)
      rw [hslabs, hmem q e, hcpart q e]; exact this
  · intro x hx
    by_cases e : x.page = p
    · have := hcfl_p x hx e
      rw [e]; exact this
    · have := h.cfl_ok x (hcfl_other x hx e)
      rw [hmem _ e, hcpage _ e]; exact this
  · intro q hq
    by_cases e : q = p
    · subst e; exact ⟨by rw [hslabs]; exact hp, r2 hq⟩
    · have := h.cpart q ((hcpart q e).mp hq)
      rw [hslabs, hmem q e]; exact this
  · intro q hq
    by_cases e : q = p
    · subst e; exact ⟨by rw [hslabs]; exact hp, r3 hq⟩
    · have := h.npart q ((hnpart q e).mp hq)
      rw [hslabs, hmem q e]; exact this
  · intro q hq
    by_cases e : q = p
    · subst e; exact ⟨by rw [hslabs]; exact hp, r4 hq⟩
    · have := h.transit q ((ht q e).mp hq)
      rw [hslabs, hmem q e, hcpart q e]
      exact ⟨this.1, this.2.1, this.2.2.1, fun hc => this.2.2.2.1 ((hcpage q e).mp hc),
        this.2.2.2.2⟩
  · intro q hq
    by_cases e : q = p
    · subst e; exact ⟨by rw [hslabs]; exact hp, r5 hq⟩
    · have := h.pending q ((hd q e).mp hq)
      rw [hslabs, hmem q e, hnpart q e]; exact this
  · intro q hq hf
    rw [hslabs] at hq
    by_cases e : q = p
    · subst e; exact r6 hf
    · rw [hmem q e] at hf
      rw [hcpage q e, hcpart q e, ht q e]
      exact h.frozen_owned q hq hf
  · intro q hq hf hl
    rw [hslabs] at hq
    by_cases e : q = p
    · subst e; exact r7 hf hl
    · rw [hmem q e] at hf hl
      rw [hnpart q e, hd q e]
      exact h.unfrozen_listed q hq hf hl
  · intro x hx
    by_cases e : x.page = p
    · have := hlive_p x hx e
      rw [e, hslabs]
      exact ⟨hp, this.1, this.2, hlive_cfl x hx⟩
    · have := h.live_ok x (hlive_other x hx e)
      rw [hslabs, hmem _ e]
      exact ⟨this.1, this.2.1, this.2.2.1, hlive_cfl x hx⟩
  · rw [hns, hslabs]; exact h.nr_slabs
  · rw [hto, hslabs, h.total_objects]
    apply sum_map_congr
    intro q _
    by_cases e : q = p
    · subst e; rw [hobj]
    · rw [hmem q e]

/-- C9: with `PAGE_SIZE = 4096`, `slub_min_order = 0`, `slub_max_order = 3`,
`slub_min_objects = 0` and four CPUs, `calculate_order(64, 0)` returns order 0;
that block hosts 64 objects (at least 12) with no trailing waste (at most 1/16
of the block), and no smaller order meets the two conditions. -/
theorem calculate_order_size64 :
    PAGE_SIZE rpi2 = 4096 ∧ rpi2.slub_min_order = 0 ∧ rpi2.slub_max_order = 3 ∧
    rpi2.slub_min_objects = 0 ∧ rpi2.nr_cpu_ids = 4 ∧
    calculate_order rpi2 64 0 = 0 ∧
    order_objects rpi2 0 64 0 = 64 ∧ 12 ≤ order_objects rpi2 0 64 0 ∧
    slab_waste rpi2 0 64 0 = 0 ∧ slab_waste rpi2 0 64 0 ≤ (PAGE_SIZE rpi2 <<< 0) / 16 ∧
    ∀ o : Nat, 12 ≤ order_objects rpi2 o 64 0 →
      slab_waste rpi2 o 64 0 ≤ (PAGE_SIZE rpi2 <<< o) / 16 →
      calculate_order rpi2 64 0 ≤ (o : Int) := by
  have h0 : calculate_order rpi2 64 0 = 0 := by decide
  refine ⟨by decide, rfl, rfl, rfl, rfl, h0, by decide, by decide, by decide, by decide, ?_⟩
  intro o _ _
  rw [h0]
  exact Int.ofNat_nonneg o

/-! ## Object layout -/

theorem ALIGN_eq (x j : Nat) : ALIGN x (2 ^ j) = (x + (2 ^ j - 1)) / 2 ^ j * 2 ^ j := by
  unfold ALIGN
  rw [Nat.and_pow_two_sub_one_eq_mod]
  have := Nat.div_add_mod (x + (2 ^ j - 1)) (2 ^ j)
  rw [Nat.mul_comm] at this
  omega

theorem ALIGN_dvd (x j : Nat) : 2 ^ j ∣ ALIGN x (2 ^ j) := by
  rw [ALIGN_eq]; exact Nat.dvd_mul_left _ _

theorem ALIGN_ge (x j : Nat) : x ≤ ALIGN x (2 ^ j) := by
  unfold ALIGN
  rw [Nat.and_pow_two_sub_one_eq_mod]
  have h1 : 0 < 2 ^ j := Nat.pow_pos (by decide)
  have h2 := Nat.mod_lt (x + (2 ^ j - 1)) h1
  omega

theorem ALIGN_of_dvd (x j : Nat) (h : 2 ^ j ∣ x) : ALIGN x (2 ^ j) = x := by
  unfold ALIGN
  rw [Nat.and_pow_two_sub_one_eq_mod]
  have h1 : 0 < 2 ^ j := Nat.pow_pos (by decide)
  obtain ⟨c, rfl⟩ := h
  have : (2 ^ j * c + (2 ^ j - 1)) % 2 ^ j = 2 ^ j - 1 := by
    rw [Nat.mul_add_mod]
    exact Nat.mod_eq_of_lt (by omega)
  omega

/-- Aligning a multiple of `2 ^ i` to a power of two keeps it a multiple of `2 ^ i`. -/
theorem ALIGN_dvd_of_dvd (x i j : Nat) (h : 2 ^ i ∣ x) : 2 ^ i ∣ ALIGN x (2 ^ j) := by
  rcases Nat.le_total i j with hij | hji
  · exact Nat.dvd_trans (Nat.pow_dvd_pow 2 hij) (ALIGN_dvd x j)
  · rw [ALIGN_of_dvd x j (Nat.dvd_trans (Nat.pow_dvd_pow 2 hji) h)]
    exact h

theorem sizeof_ptr_pow (k : Kconfig) : ∃ i, sizeof_ptr k = 2 ^ i := by
  unfold sizeof_ptr
  split
  · exact ⟨3, rfl⟩
  · exact ⟨2, rfl⟩

theorem sizeof_ptr_dvd_track (k : Kconfig) : sizeof_ptr k ∣ sizeof_track k := by
  unfold sizeof_track sizeof_ptr
  split <;> split <;> decide

theorem oo_objects_make_le (k : Kconfig) (order size reserved : Nat) :
    oo_objects (oo_make k order size reserved) ≤ order_objects k order size reserved := by
  unfold oo_objects oo_make OO_MASK OO_SHIFT
  simp only []
  rw [show (1 <<< 16) - 1 = 2 ^ 16 - 1 by decide, Nat.and_pow_two_sub_one_eq_mod,
    Nat.shiftLeft_eq, Nat.mul_comm, Nat.mul_add_mod]
  exact Nat.mod_le _ _

theorem oo_order_make_ge (k : Kconfig) (order size reserved : Nat) :
    order ≤ oo_order (oo_make k order size reserved) := by
  unfold oo_order oo_make OO_SHIFT
  simp only []
  rw [Nat.shiftRight_eq_div_pow, Nat.shiftLeft_eq, Nat.le_div_iff_mul_le (by decide)]
  exact Nat.le_add_right _ _

/-- The objects recorded in a packed order/objects word, and the reserved
bytes, fit the block of the recorded order whenever at least one object is
recorded. -/
theorem oo_make_fits (k : Kconfig) (order size reserved : Nat)
    (h : oo_objects (oo_make k order size reserved) ≠ 0) :
    oo_objects (oo_make k order size reserved) * size + reserved ≤
      PAGE_SIZE k <<< oo_order (oo_make k order size reserved) := by
  have h1 := oo_objects_make_le k order size reserved
  have h2 := oo_order_make_ge k order size reserved
  have h3 : order_objects k order size reserved * size ≤ (PAGE_SIZE k <<< order) - reserved := by
    unfold order_objects
    exact Nat.div_mul_le_self _ _
  have h4 : 0 < order_objects k order size reserved := by omega
  have h5 : reserved ≤ PAGE_SIZE k <<< order := by
    by_contra hc
    have : (PAGE_SIZE k <<< order) - reserved = 0 := by omega
    unfold order_objects at h4
    rw [this] at h4
    simp at h4
  have h6 : PAGE_SIZE k <<< order ≤
      PAGE_SIZE k <<< oo_order (oo_make k order size reserved) := by
    rw [Nat.shiftLeft_eq, Nat.shiftLeft_eq]
    exact Nat.mul_le_mul_left _ (Nat.pow_le_pow_right (by decide) h2)
  have h7 : oo_objects (oo_make k order size reserved) * size ≤
      order_objects k order size reserved * size := Nat.mul_le_mul_right _ h1
  omega

theorem calculate_sizes_object_spec (k : Kconfig) (s : kmem_cache) :
    (calculate_sizes_object k s).1.inuse ≤ (calculate_sizes_object k s).2 ∧
    sizeof_ptr k ∣ (calculate_sizes_object k s).2 ∧
    (calculate_sizes_object k s).1.align = s.align ∧
    (calculate_sizes_object k s).1.reserved = s.reserved := by
  obtain ⟨i, hi⟩ := sizeof_ptr_pow k
  have htr := sizeof_ptr_dvd_track k
  have h1 : sizeof_ptr k ∣ ALIGN s.object_size (sizeof_ptr k) := by
    rw [hi]; exact ALIGN_dvd _ _
  have h2 : sizeof_ptr k ∣ 2 * sizeof_track k := Dvd.dvd.mul_left htr 2
  unfold calculate_sizes_object
  simp only []
  generalize ALIGN s.object_size (sizeof_ptr k) = a at h1 ⊢
  generalize (s.flags.SLAB_DESTROY_BY_RCU || s.flags.SLAB_POISON || s.ctor) = reloc
  generalize (s.flags.SLAB_RED_ZONE && a == s.object_size) = b
  generalize 2 * sizeof_track k = tr at h2 ⊢
  have h3 : sizeof_ptr k ∣ a + sizeof_ptr k := Nat.dvd_add h1 (dvd_refl _)
  rcases reloc <;> rcases b <;> rcases s.flags.SLAB_STORE_USER <;> rcases s.flags.SLAB_RED_ZONE <;>
    simp only [Bool.false_eq_true, if_true, if_false] <;>
    refine ⟨by omega, ?_, by trivial, by trivial⟩ <;>
    simp [Nat.dvd_add, h1, h2, h3]

/-- C10: for a cache with `object_size >= 1` and a power-of-two `align` for
which `calculate_sizes(s, -1)` succeeds, `inuse <= size`, `size` is a multiple
of `sizeof(void *)` and of `align`, and the objects of a slab together with the
reserved bytes fit the block: `oo_objects(oo) * size + reserved <= PAGE_SIZE <<
oo_order(oo)`. -/
theorem calculate_sizes_layout (k : Kconfig) (s : kmem_cache) (_hobj : 1 ≤ s.object_size)
    (halign : ∃ j, s.align = 2 ^ j) (hret : (calculate_sizes k s (-1)).2 ≠ 0) :
    (calculate_sizes k s (-1)).1.inuse ≤ (calculate_sizes k s (-1)).1.size ∧
    sizeof_ptr k ∣ (calculate_sizes k s (-1)).1.size ∧
    (calculate_sizes k s (-1)).1.align ∣ (calculate_sizes k s (-1)).1.size ∧
    oo_objects (calculate_sizes k s (-1)).1.oo * (calculate_sizes k s (-1)).1.size +
        (calculate_sizes k s (-1)).1.reserved ≤
      PAGE_SIZE k <<< oo_order (calculate_sizes k s (-1)).1.oo := by
  obtain ⟨j, hj⟩ := halign
  obtain ⟨i, hi⟩ := sizeof_ptr_pow k
  obtain ⟨h1, h2, h3, h4⟩ := calculate_sizes_object_spec k s
  rw [hi] at h2
  unfold calculate_sizes at hret ⊢
  simp only [h3, h4, hj] at hret ⊢
  generalize (calculate_sizes_object k s).2 = sz at h1 h2 hret ⊢
  generalize (calculate_sizes_object k s).1 = s1 at h1 h3 h4 hret ⊢
  have ha1 := ALIGN_ge sz j
  have ha2 := ALIGN_dvd sz j
  have ha3 := ALIGN_dvd_of_dvd sz i j h2
  generalize ALIGN sz (2 ^ j) = size at ha1 ha2 ha3 hret ⊢
  generalize (if (-1 : Int) ≥ 0 then (-1 : Int) else calculate_order k size s.reserved) = ord
    at hret ⊢
  by_cases hord : ord < 0
  · rw [if_pos hord] at hret
    exact absurd rfl hret
  · rw [if_neg hord] at hret ⊢
    have hoo : oo_objects (oo_make k ord.toNat size s.reserved) ≠ 0 := by
      intro h0
      apply hret
      by_cases hmax : oo_objects (oo_make k ord.toNat size s.reserved) > oo_objects s1.max
      · rw [if_pos hmax]; simp only [h0, if_true]
      · rw [if_neg hmax]; simp only [h0, if_true]
    have hfit := oo_make_fits k ord.toNat size s.reserved hoo
    by_cases hmax : oo_objects (oo_make k ord.toNat size s.reserved) > oo_objects s1.max
    · simp only [if_pos hmax]
      exact ⟨le_trans h1 ha1, hi ▸ ha3, ha2, hfit⟩
    · simp only [if_neg hmax]
      exact ⟨le_trans h1 ha1, hi ▸ ha3, ha2, hfit⟩

theorem calculate_sizes_layout_witness :
    (calculate_sizes rpi2 cache48 (-1)).1.inuse ≤ (calculate_sizes rpi2 cache48 (-1)).1.size ∧
    sizeof_ptr rpi2 ∣ (calculate_sizes rpi2 cache48 (-1)).1.size ∧
    (calculate_sizes rpi2 cache48 (-1)).1.align ∣ (calculate_sizes rpi2 cache48 (-1)).1.size ∧
    oo_objects (calculate_sizes rpi2 cache48 (-1)).1.oo * (calculate_sizes rpi2 cache48 (-1)).1.size +
        (calculate_sizes rpi2 cache48 (-1)).1.reserved ≤
      PAGE_SIZE rpi2 <<< oo_order (calculate_sizes rpi2 cache48 (-1)).1.oo :=
  calculate_sizes_layout rpi2 cache48 (by decide) ⟨3, by decide⟩ (by decide)

/-! ## Failure of the page allocator -/

theorem get_partial_node_empty (k : Kconfig) (s : kmem_cache) (allowed : Bool) (st : State)
    (h : st.n.partial_ = []) : get_partial_node k s allowed st = (st, []) := by
  unfold get_partial_node
  split
  · rfl
  · rw [h]; rfl

theorem new_slab_fail (s : kmem_cache) (src : PageSource) (st : State)
    (h1 : src.pref = none) (h2 : src.min = none) :
    new_slab s src st = ({ st with requests := st.requests + 1 }, none) := by
  unfold new_slab allocate_slab
  simp [h1, h2]

theorem new_slab_objects_fail (k : Kconfig) (s : kmem_cache) (allowed : Bool) (src : PageSource)
    (st : State) (hn : st.n.partial_ = []) (h1 : src.pref = none) (h2 : src.min = none) :
    new_slab_objects k s allowed src st = ({ st with requests := st.requests + 1 }, []) := by
  unfold new_slab_objects get_partial
  rw [get_partial_node_empty k s allowed st hn]
  simp [new_slab_fail s src st h1 h2]

theorem slab_alloc_new_slab_fail (k : Kconfig) (s : kmem_cache) (allowed : Bool)
    (src : PageSource) (st : State) (hn : st.n.partial_ = []) (h1 : src.pref = none)
    (h2 : src.min = none) :
    slab_alloc_new_slab k s allowed src [] st = ({ st with requests := st.requests + 1 }, none) := by
  unfold slab_alloc_new_slab
  rw [new_slab_objects_fail k s allowed src st hn h1 h2]

theorem deactivate_slab_exhausted (s : kmem_cache) (st : State) (p : Nat)
    (h : (st.mem p).freelist = []) :
    (deactivate_slab s st p []).n.partial_ = st.n.partial_ ∧
    (deactivate_slab s st p []).n.nr_partial = st.n.nr_partial ∧
    (deactivate_slab s st p []).c = st.c := by
  unfold deactivate_slab
  simp only [deactivate_slab_drain, h]
  split
  · exact ⟨rfl, rfl, rfl⟩
  · simp

theorem slab_alloc_redo_exhausted (s : kmem_cache) (allowed : Bool) (st : State) (p : Nat)
    (hfl : st.c.freelist = []) (h : (st.mem p).freelist = []) :
    (slab_alloc_redo s allowed st p).2 = none ∧
    (slab_alloc_redo s allowed st p).1.c.page = none ∧
    (slab_alloc_redo s allowed st p).1.c.freelist = [] ∧
    (slab_alloc_redo s allowed st p).1.c.partial_ = st.c.partial_ ∧
    (slab_alloc_redo s allowed st p).1.n.partial_ = st.n.partial_ ∧
    (slab_alloc_redo s allowed st p).1.n.nr_partial = st.n.nr_partial := by
  obtain ⟨d1, d2, d3⟩ := deactivate_slab_exhausted s st p h
  unfold slab_alloc_redo
  split
  · simp only [hfl]
    refine ⟨trivial, trivial, trivial, ?_, d1, d2⟩
    rw [d3]
  · simp [hfl, get_freelist, h]

/-- C7, first half, from the label `new_slab` on. -/
theorem slab_alloc_fail_aux (k : Kconfig) (s : kmem_cache) (allowed : Bool) (src : PageSource)
    (st : State) (hfl : st.c.freelist = [])
    (hpage : st.c.page = none ∨ ∃ p, st.c.page = some p ∧ (st.mem p).freelist = [])
    (hcp : st.c.partial_ = []) (hnp : st.n.partial_ = [])
    (h1 : src.pref = none) (h2 : src.min = none) :
    (__slab_alloc k s allowed src st).2 = none ∧
    (__slab_alloc k s allowed src st).1.c.page = none ∧
    (__slab_alloc k s allowed src st).1.c.freelist = [] ∧
    (__slab_alloc k s allowed src st).1.c.partial_ = [] ∧
    (__slab_alloc k s allowed src st).1.n.partial_ = [] ∧
    (__slab_alloc k s allowed src st).1.n.nr_partial = st.n.nr_partial := by
  unfold __slab_alloc
  rcases hpage with hp | ⟨p, hp, hpf⟩
  · simp only [hp, hcp]
    rw [slab_alloc_new_slab_fail k s allowed src st hnp h1 h2]
    exact ⟨rfl, hp, hfl, hcp, hnp, rfl⟩
  · simp only [hp]
    obtain ⟨r1, r2, r3, r4, r5, r6⟩ := slab_alloc_redo_exhausted s allowed st p hfl hpf
    generalize slab_alloc_redo s allowed st p = r at r1 r2 r3 r4 r5 r6
    rcases r with ⟨st1, o⟩
    simp only at r1 r2 r3 r4 r5 r6
    subst r1
    simp only [r4, hcp]
    rw [slab_alloc_new_slab_fail k s allowed src st1 (r5.trans hnp) h1 h2]
    exact ⟨rfl, r2, r3, r4.trans hcp, r5.trans hnp, r6⟩

theorem range_map_ne_nil (n : Nat) (f : Nat → Obj) (h : 1 ≤ n) : (List.range n).map f ≠ [] := by
  intro hc
  have := congrArg List.length hc
  simp at this
  omega

/-- The chain `new_slab` leaves in `page->freelist` starts at the first object
of the page, whatever the object count of the cache. -/
theorem new_slab_chain_head (page n : Nat) (stale : List Obj) :
    ∃ l, (if n = 0 then Obj.mk page 0 :: stale
      else (List.range n).map (fun i => Obj.mk page i)) = Obj.mk page 0 :: l := by
  by_cases hz : n = 0
  · exact ⟨stale, by rw [if_pos hz]⟩
  · obtain ⟨m, rfl⟩ := Nat.exists_eq_succ_of_ne_zero hz
    rw [if_neg hz, List.range_succ_eq_map]
    exact ⟨_, rfl⟩

theorem new_slab_success (s : kmem_cache) (src : PageSource) (st : State)
    (a : Nat × Bool) (h : src.got = some a) :
    ∃ st1 l, new_slab s src st = (st1, some a.1) ∧
      (st1.mem a.1).freelist = Obj.mk a.1 0 :: l ∧ (st1.mem a.1).pfmemalloc = a.2 ∧
      st1.c = st.c ∧ st1.slabs = a.1 :: st.slabs ∧ st1.requests = st.requests + 1 ∧
      st1.n.partial_ = st.n.partial_ := by
  have fin : ∀ oo : kmem_cache_order_objects,
      allocate_slab s src st = ({ setPage { st with requests := st.requests + 1 } a.1
              { st.mem a.1 with objects := oo_objects oo % 32768, order := oo_order oo,
                                pfmemalloc := a.2 } with slabs := a.1 :: st.slabs }, some a.1) →
      ∃ st1 l, new_slab s src st = (st1, some a.1) ∧
      (st1.mem a.1).freelist = Obj.mk a.1 0 :: l ∧ (st1.mem a.1).pfmemalloc = a.2 ∧
      st1.c = st.c ∧ st1.slabs = a.1 :: st.slabs ∧ st1.requests = st.requests + 1 ∧
      st1.n.partial_ = st.n.partial_ := by
    intro oo e
    obtain ⟨l, hl⟩ := new_slab_chain_head a.1 (oo_objects oo % 32768) src.stale
    unfold new_slab
    rw [e]
    refine ⟨_, l, rfl, ?_, ?_, rfl, rfl, rfl, rfl⟩
    · simp only [setPage_mem_same]
      exact hl
    · simp only [setPage_mem_same]
  unfold PageSource.got at h
  rcases hp : src.pref with _ | b
  · rw [hp] at h
    simp only at h
    apply fin s.min
    unfold allocate_slab
    simp only [hp, h]
  · rw [hp] at h
    simp only [Option.some.injEq] at h
    subst h
    apply fin s.oo
    unfold allocate_slab
    simp only [hp]

theorem got_of_ne_none (src : PageSource) (h : src.pref ≠ none ∨ src.min ≠ none) :
    ∃ a, src.got = some a := by
  unfold PageSource.got
  rcases hp : src.pref with _ | b
  · rcases hm : src.min with _ | b
    · rw [hp, hm] at h; simp at h
    · exact ⟨b, rfl⟩
  · exact ⟨b, rfl⟩

/-- An allocation that finds the per-CPU cache and the node list empty takes
a new slab from the page allocator and returns its first object; if the page
may be used by this caller it becomes the CPU slab. -/
theorem kmem_cache_alloc_new_slab (k : Kconfig) (s : kmem_cache) (allowed : Bool)
    (src : PageSource) (st : State) (a : Nat × Bool) (h : src.got = some a)
    (hfl : st.c.freelist = []) (hp : st.c.page = none) (hcp : st.c.partial_ = [])
    (hnp : st.n.partial_ = []) :
    ∃ x, (kmem_cache_alloc k s allowed src st).2 = some x ∧ x.page = a.1 ∧
      ((a.2 = true → allowed = true) →
        (kmem_cache_alloc k s allowed src st).1.slabs = a.1 :: st.slabs ∧
        (kmem_cache_alloc k s allowed src st).1.requests = st.requests + 1 ∧
        (kmem_cache_alloc k s allowed src st).1.c.page = some a.1 ∧
        (kmem_cache_alloc k s allowed src st).1.c.partial_ = [] ∧
        (kmem_cache_alloc k s allowed src st).1.n.partial_ = []) := by
  obtain ⟨st1, l, e1, e2, e4, e5, e6, e7, e8⟩ := new_slab_success s src st a h
  unfold kmem_cache_alloc slab_alloc_node
  simp only [hfl]
  unfold __slab_alloc
  simp only [hp, hcp]
  unfold slab_alloc_new_slab new_slab_objects get_partial
  rw [get_partial_node_empty k s allowed st hnp]
  simp only [ne_eq, not_true_eq_false, if_false, e1, e5, hp, Option.isSome_none,
    Bool.false_eq_true, setPage_mem_same, e2]
  simp only [pfmemalloc_match, e4, setPage_mem_same]
  by_cases hm : (a.2 = true → allowed = true)
  · have : (if a.2 = true then allowed else true) = true := by
      by_cases ha : a.2 = true
      · simp [ha, hm ha]
      · simp [ha]
    simp only [this, if_true, load_freelist]
    exact ⟨_, rfl, rfl, fun _ => ⟨e6, e7, trivial, by simp [e5, hcp], by simp [e8, hnp]⟩⟩
  · have : (if a.2 = true then allowed else true) = false := by
      by_cases ha : a.2 = true
      · simp only [ha, if_true]
        by_contra hc
        exact hm (fun _ => by simpa using hc)
      · exact absurd (fun h => absurd h ha) hm
    simp only [this, Bool.false_eq_true, if_false]
    exact ⟨_, rfl, rfl, fun h => absurd h hm⟩

theorem kmem_cache_alloc_after_fail (k : Kconfig) (s : kmem_cache) (allowed : Bool)
    (src : PageSource) (st : State) (h : src.pref ≠ none ∨ src.min ≠ none)
    (hfl : st.c.freelist = []) (hp : st.c.page = none) (hcp : st.c.partial_ = [])
    (hnp : st.n.partial_ = []) :
    (kmem_cache_alloc k s allowed src st).2 ≠ none := by
  obtain ⟨a, ha⟩ := got_of_ne_none src h
  obtain ⟨x, hx, _⟩ := kmem_cache_alloc_new_slab k s allowed src st a ha hfl hp hcp hnp
  rw [hx]
  simp

/-- C7: for a cache without debug flags, if the per-CPU free list is empty,
the CPU slab is absent or has no free object, the per-CPU partial list and the
node partial list are empty and the page allocator fails for both orders,
`__slab_alloc` returns `NULL`, leaves `c->page == NULL` and
`c->freelist == NULL` and the lists as they were; a following
`kmem_cache_alloc` for which the page allocator succeeds returns an object,
whatever the object count of the cache. -/
theorem slab_alloc_page_allocator_fails (k : Kconfig) (s : kmem_cache) (allowed : Bool)
    (src : PageSource) (st : State) (_hd : kmem_cache_debug s = false)
    (hfl : st.c.freelist = [])
    (hpage : st.c.page = none ∨ ∃ p, st.c.page = some p ∧ (st.mem p).freelist = [])
    (hcp : st.c.partial_ = []) (hnp : st.n.partial_ = [])
    (h1 : src.pref = none) (h2 : src.min = none) :
    (__slab_alloc k s allowed src st).2 = none ∧
    (__slab_alloc k s allowed src st).1.c.page = none ∧
    (__slab_alloc k s allowed src st).1.c.freelist = [] ∧
    (__slab_alloc k s allowed src st).1.c.partial_ = st.c.partial_ ∧
    (__slab_alloc k s allowed src st).1.n.partial_ = st.n.partial_ ∧
    (__slab_alloc k s allowed src st).1.n.nr_partial = st.n.nr_partial ∧
    ∀ (allowed2 : Bool) (src2 : PageSource), (src2.pref ≠ none ∨ src2.min ≠ none) →
      (kmem_cache_alloc k s allowed2 src2 (__slab_alloc k s allowed src st).1).2 ≠ none := by
  obtain ⟨r1, r2, r3, r4, r5, r6⟩ := slab_alloc_fail_aux k s allowed src st hfl hpage hcp hnp h1 h2
  refine ⟨r1, r2, r3, r4.trans hcp.symm, r5.trans hnp.symm, r6, ?_⟩
  intro allowed2 src2 h
  exact kmem_cache_alloc_after_fail k s allowed2 src2 _ h r3 r2 r4 r5

theorem open_cache48_opened : Opened (open_cache rpi2 cache48) := by
  unfold Opened
  decide

theorem slab_alloc_page_allocator_fails_witness :
    (__slab_alloc rpi2 (open_cache rpi2 cache48) false {} fresh.st).2 = none ∧
    (__slab_alloc rpi2 (open_cache rpi2 cache48) false {} fresh.st).1.c.page = none ∧
    (__slab_alloc rpi2 (open_cache rpi2 cache48) false {} fresh.st).1.c.freelist = [] ∧
    (__slab_alloc rpi2 (open_cache rpi2 cache48) false {} fresh.st).1.c.partial_ =
      fresh.st.c.partial_ ∧
    (__slab_alloc rpi2 (open_cache rpi2 cache48) false {} fresh.st).1.n.partial_ =
      fresh.st.n.partial_ ∧
    (__slab_alloc rpi2 (open_cache rpi2 cache48) false {} fresh.st).1.n.nr_partial =
      fresh.st.n.nr_partial ∧
    ∀ (allowed2 : Bool) (src2 : PageSource), (src2.pref ≠ none ∨ src2.min ≠ none) →
      (kmem_cache_alloc rpi2 (open_cache rpi2 cache48) allowed2 src2
        (__slab_alloc rpi2 (open_cache rpi2 cache48) false {} fresh.st).1).2 ≠ none :=
  slab_alloc_page_allocator_fails rpi2 (open_cache rpi2 cache48) false {} fresh.st
    (by decide) rfl (Or.inl rfl) rfl rfl rfl rfl

theorem step_alloc_some (k : Kconfig) (s : kmem_cache) (r : Run) (allowed : Bool)
    (src : PageSource) (x : Obj) (h : (kmem_cache_alloc k s allowed src r.st).2 = some x) :
    step k s r (Op.alloc allowed src) =
      { st := (kmem_cache_alloc k s allowed src r.st).1, live := x :: r.live } := by
  simp only [step]
  generalize kmem_cache_alloc k s allowed src r.st = res at h ⊢
  rcases res with ⟨st1, o⟩
  simp only at h
  subst h
  rfl

theorem step_alloc_none (k : Kconfig) (s : kmem_cache) (r : Run) (allowed : Bool)
    (src : PageSource) (h : (kmem_cache_alloc k s allowed src r.st).2 = none) :
    step k s r (Op.alloc allowed src) =
      { st := (kmem_cache_alloc k s allowed src r.st).1, live := r.live } := by
  simp only [step]
  generalize kmem_cache_alloc k s allowed src r.st = res at h ⊢
  rcases res with ⟨st1, o⟩
  simp only at h
  subst h
  rfl

theorem round_trip_some (k : Kconfig) (s : kmem_cache) (r : Run) (e : Bool × PageSource)
    (x : Obj) (h : (kmem_cache_alloc k s e.1 e.2 r.st).2 = some x) :
    round_trip k s r e =
      { st := kmem_cache_free k s (kmem_cache_alloc k s e.1 e.2 r.st).1 x,
        live := (x :: r.live).erase x } := by
  unfold round_trip
  rw [h, step_alloc_some k s r e.1 e.2 x h]
  rfl

theorem round_trip_none (k : Kconfig) (s : kmem_cache) (r : Run) (e : Bool × PageSource)
    (h : (kmem_cache_alloc k s e.1 e.2 r.st).2 = none) :
    round_trip k s r e = { st := (kmem_cache_alloc k s e.1 e.2 r.st).1, live := r.live } := by
  unfold round_trip
  rw [h, step_alloc_none k s r e.1 e.2 h]

theorem kmem_cache_free_fast (k : Kconfig) (s : kmem_cache) (st : State) (x : Obj)
    (h : st.c.page = some x.page) :
    kmem_cache_free k s st x =
      { st with c := { st.c with freelist := x :: st.c.freelist, tid := next_tid st.c.tid } } := by
  unfold kmem_cache_free slab_free
  rw [if_pos h]

theorem round_trip_steady (k : Kconfig) (s : kmem_cache) (r : Run) (e : Bool × PageSource)
    (h : Steady r) :
    Steady (round_trip k s r e) ∧ (round_trip k s r e).st.requests = r.st.requests := by
  obtain ⟨a, x, l, h1, h2, hf, hx⟩ := h
  have e1 : kmem_cache_alloc k s e.1 e.2 r.st =
      ({ r.st with c := { r.st.c with freelist := l, tid := next_tid r.st.c.tid } }, some x) := by
    unfold kmem_cache_alloc slab_alloc_node
    simp only [hf]
  rw [round_trip_some k s r e x (by rw [e1]), e1, kmem_cache_free_fast _ _ _ _ (by rw [hx]; exact h2)]
  exact ⟨⟨a, x, l, h1, h2, rfl, hx⟩, rfl⟩

theorem round_trip_idle_fail (k : Kconfig) (s : kmem_cache) (r : Run) (e : Bool × PageSource)
    (h : Idle r) (hs : e.2.got = none) :
    Idle (round_trip k s r e) ∧ (round_trip k s r e).st.requests = r.st.requests + 1 := by
  obtain ⟨h1, h2, h3, h4, h5⟩ := h
  have hp : e.2.pref = none ∧ e.2.min = none := by
    unfold PageSource.got at hs
    rcases hp : e.2.pref with _ | b
    · rw [hp] at hs; exact ⟨rfl, hs⟩
    · rw [hp] at hs; simp at hs
  have e1 : kmem_cache_alloc k s e.1 e.2 r.st =
      ({ r.st with requests := r.st.requests + 1 }, none) := by
    unfold kmem_cache_alloc slab_alloc_node
    simp only [h3]
    unfold __slab_alloc
    simp only [h2, h4]
    exact slab_alloc_new_slab_fail k s e.1 e.2 r.st h5 hp.1 hp.2
  rw [round_trip_none k s r e (by rw [e1]), e1]
  exact ⟨⟨h1, h2, h3, h4, h5⟩, rfl⟩

theorem round_trip_idle_success (k : Kconfig) (s : kmem_cache) (r : Run)
    (e : Bool × PageSource) (h : Idle r) (a : Nat × Bool)
    (hs : e.2.got = some a) (hpf : PfmemallocOk e) :
    Steady (round_trip k s r e) ∧ (round_trip k s r e).st.requests = r.st.requests + 1 := by
  obtain ⟨h1, h2, h3, h4, h5⟩ := h
  obtain ⟨x, hx, hxp, hrest⟩ := kmem_cache_alloc_new_slab k s e.1 e.2 r.st a hs h3 h2 h4 h5
  obtain ⟨q1, q2, q3, q4, q5⟩ := hrest (hpf a hs)
  rw [round_trip_some k s r e x hx, kmem_cache_free_fast _ _ _ _ (by rw [hxp]; exact q3)]
  exact ⟨⟨a.1, x, _, by rw [← h1]; exact q1, q3, rfl, hxp⟩, q2⟩

/-- C4: starting from a freshly opened cache without debug flags, whatever
its object count, after `N >= 1` passes of
`p = kmem_cache_alloc(s); kmem_cache_free(s, p);` the cache holds at most one
slab page; when the page allocator serves the first request, the cache holds
exactly that page and the page allocator has been asked once. -/
theorem round_trips_one_slab (k : Kconfig) (s : kmem_cache) (_hd : kmem_cache_debug s = false)
    (e : Bool × PageSource) (env : List (Bool × PageSource))
    (hpf : ∀ e1 ∈ e :: env, PfmemallocOk e1) :
    (round_trips k s fresh (e :: env)).st.slabs.length ≤ 1 ∧
    (e.2.got ≠ none →
      (round_trips k s fresh (e :: env)).st.slabs.length = 1 ∧
      (round_trips k s fresh (e :: env)).st.requests = 1) := by
  have hsteady : ∀ (l : List (Bool × PageSource)) (r : Run), Steady r →
      Steady (round_trips k s r l) ∧ (round_trips k s r l).st.requests = r.st.requests := by
    intro l
    induction l with
    | nil => intro r hr; exact ⟨hr, rfl⟩
    | cons e1 l ih =>
      intro r hr
      have h1 := round_trip_steady k s r e1 hr
      have h2 := ih (round_trip k s r e1) h1.1
      exact ⟨h2.1, h2.2.trans h1.2⟩
  have hidle : ∀ (l : List (Bool × PageSource)) (r : Run), Idle r →
      (∀ e1 ∈ l, PfmemallocOk e1) →
      Idle (round_trips k s r l) ∨ Steady (round_trips k s r l) := by
    intro l
    induction l with
    | nil => intro r hr _; exact Or.inl hr
    | cons e1 l ih =>
      intro r hr hl
      rcases hg : e1.2.got with _ | a
      · exact ih _ (round_trip_idle_fail k s r e1 hr hg).1
          (fun e2 he2 => hl e2 (List.mem_cons_of_mem _ he2))
      · exact Or.inr (hsteady l _ (round_trip_idle_success k s r e1 hr a hg
          (hl e1 (List.mem_cons_self _ _))).1).1
  have hfresh : Idle fresh := ⟨rfl, rfl, rfl, rfl, rfl⟩
  constructor
  · rcases hidle (e :: env) fresh hfresh hpf with h | ⟨a, x, l, h, _⟩
    · rw [h.1]; exact Nat.zero_le _
    · rw [h]; exact Nat.le_refl _
  · intro hg
    rcases hg2 : e.2.got with _ | a
    · exact absurd hg2 hg
    · have h1 := round_trip_idle_success k s fresh e hfresh a hg2 (hpf e (List.mem_cons_self _ _))
      have h2 := hsteady env _ h1.1
      obtain ⟨b, x, l, hb, _⟩ := h2.1
      refine ⟨?_, ?_⟩
      · show (round_trips k s (round_trip k s fresh e) env).st.slabs.length = 1
        rw [hb]; rfl
      · show (round_trips k s (round_trip k s fresh e) env).st.requests = 1
        rw [h2.2, h1.2]; rfl

/-- Two passes on `cache8` under `boot_order6`, whose slabs have
`page->objects == 0`: the first allocation is served the block 7, the second
is told the page allocator has nothing. -/
theorem round_trips_one_slab_witness :
    (round_trips boot_order6 (open_cache boot_order6 cache8) fresh
      [(false, { pref := some (7, false) }), (false, {})]).st.slabs.length ≤ 1 ∧
    ((false, ({ pref := some (7, false) } : PageSource)).2.got ≠ none →
      (round_trips boot_order6 (open_cache boot_order6 cache8) fresh
        [(false, { pref := some (7, false) }), (false, {})]).st.slabs.length = 1 ∧
      (round_trips boot_order6 (open_cache boot_order6 cache8) fresh
        [(false, { pref := some (7, false) }), (false, {})]).st.requests = 1) :=
  round_trips_one_slab boot_order6 (open_cache boot_order6 cache8) (by decide)
    (false, { pref := some (7, false) }) [(false, {})]
    (by intro e1 he1 a ha hb
        simp only [List.mem_cons, List.mem_singleton, List.not_mem_nil, or_false] at he1
        rcases he1 with rfl | rfl
        · simp [PageSource.got] at ha; subst ha; simp at hb
        · simp [PageSource.got] at ha)

/-- C6 as stated fails: for the cache of 48-byte objects (85 objects per
order-0 slab), after 1000 allocations and the free of all 1000 objects in
reverse order, more than one slab page is resident. -/
theorem scenario_A_not_one_slab :
    (open_cache rpi2 cache48).size = 48 ∧ oo_objects (open_cache rpi2 cache48).oo = 85 ∧
    ¬ ((scenario_A rpi2 (open_cache rpi2 cache48) 1000).st.slabs.length ≤ 1 ∧
       (scenario_A rpi2 (open_cache rpi2 cache48) 1000).live = []) := by
  decide!

/-- C6 amended: after the 1000 allocations and the 1000 frees in reverse
order no object is live, and the cache still holds all 12 slab pages it
obtained: the CPU slab, whose 85 objects are all on the per-CPU free list, and
11 frozen pages without an object in use on the per-CPU partial list; the node
partial list is empty and no page went back to the page allocator. -/
theorem scenario_A_resident_slabs :
    (open_cache rpi2 cache48).size = 48 ∧ oo_objects (open_cache rpi2 cache48).oo = 85 ∧
    oo_order (open_cache rpi2 cache48).oo = 0 ∧
    (scenario_A rpi2 (open_cache rpi2 cache48) 1000).live = [] ∧
    (scenario_A rpi2 (open_cache rpi2 cache48) 1000).st.requests = 12 ∧
    (scenario_A rpi2 (open_cache rpi2 cache48) 1000).st.slabs.length = 12 ∧
    (scenario_A rpi2 (open_cache rpi2 cache48) 1000).st.n.nr_slabs = 12 ∧
    (scenario_A rpi2 (open_cache rpi2 cache48) 1000).st.c.page = some 11 ∧
    (scenario_A rpi2 (open_cache rpi2 cache48) 1000).st.c.freelist.length = 85 ∧
    (scenario_A rpi2 (open_cache rpi2 cache48) 1000).st.c.partial_.length = 11 ∧
    (∀ p ∈ (scenario_A rpi2 (open_cache rpi2 cache48) 1000).st.c.partial_,
      ((scenario_A rpi2 (open_cache rpi2 cache48) 1000).st.mem p).inuse = 0 ∧
      ((scenario_A rpi2 (open_cache rpi2 cache48) 1000).st.mem p).frozen = true) ∧
    (scenario_A rpi2 (open_cache rpi2 cache48) 1000).st.n.partial_ = [] := by
  decide!

/-! ### `unfreeze_partials` -/

theorem InvG.frozen_not_npart {s : kmem_cache} {st : State} {cfl live : List Obj}
    {t : Option Nat} {d : List Nat} (h : InvG s st cfl live t d) {p : Nat}
    (hf : (st.mem p).frozen = true) : p ∉ st.n.partial_ := fun e => by
  have := (h.npart p e).2.1; rw [hf] at this; exact absurd this (by simp)

theorem InvG.frozen_not_pending {s : kmem_cache} {st : State} {cfl live : List Obj}
    {t : Option Nat} {d : List Nat} (h : InvG s st cfl live t d) {p : Nat}
    (hf : (st.mem p).frozen = true) : p ∉ d := fun e => by
  have := (h.pending p e).2.1; rw [hf] at this; exact absurd this (by simp)

theorem InvG.cpart_not_cpage {s : kmem_cache} {st : State} {cfl live : List Obj}
    {t : Option Nat} {d : List Nat} (h : InvG s st cfl live t d) {p : Nat}
    (hm : p ∈ st.c.partial_) : st.c.page ≠ some p := fun e => (h.cpage p e).2.2 hm

theorem InvG.cpart_not_transit {s : kmem_cache} {st : State} {cfl live : List Obj}
    {t : Option Nat} {d : List Nat} (h : InvG s st cfl live t d) {p : Nat}
    (hm : p ∈ st.c.partial_) : t ≠ some p := fun e => (h.transit p e).2.2.2.2 hm

/-- One pass of the loop of `unfreeze_partials` keeps the invariant. -/
theorem InvG.unfreeze_step {s : kmem_cache} {st : State} {cfl live : List Obj}
    {t : Option Nat} {d : List Nat} {page : Nat} {next : List Nat}
    (h : InvG s st cfl live t d) (hc : st.c.partial_ = page :: next) :
    (((st.mem page).inuse = 0 ∧ st.n.nr_partial ≥ s.min_partial) →
      InvG s (setPage { st with c := { st.c with partial_ := next } } page
        { st.mem page with frozen := false }) cfl live t (page :: d)) ∧
    (¬ ((st.mem page).inuse = 0 ∧ st.n.nr_partial ≥ s.min_partial) →
      InvG s { setPage { st with c := { st.c with partial_ := next } } page
          { st.mem page with frozen := false } with
        n := add_partial st.n page true } cfl live t d) := by
  have hm : page ∈ st.c.partial_ := by rw [hc]; exact List.mem_cons_self _ _
  obtain ⟨hp, hfr, hfl⟩ := h.cpart page hm
  have hnd := List.nodup_cons.mp (hc ▸ h.cpart_nodup)
  have hnp := h.frozen_not_npart hfr
  have hpd := h.frozen_not_pending hfr
  have hcp := h.cpart_not_cpage hm
  have htr := h.cpart_not_transit hm
  have hwf := h.wf page hp
  constructor
  · intro hb
    refine h.update page hp rfl (fun q hq => setPage_mem_ne _ _ _ _ hq) (by simp) (by simpa using hwf)
      (fun q _ => Iff.rfl) ?_ (fun q _ => Iff.rfl) (fun q _ => Iff.rfl) ?_ hnd.2 h.npart_nodup
      (List.nodup_cons.mpr ⟨hpd, h.pending_nodup⟩) h.nr_partial rfl rfl
      ?_ ?_ ?_ ?_ ?_ ?_ ?_ h.cnone h.cfl_nodup (fun x hx _ => hx) ?_ h.live_nodup
      (fun x hx _ => hx) ?_ (fun x hx => (h.live_ok x hx).2.2.2)
    · intro q hq; simp [hc, hq]
    · intro q hq; simp [hq]
    · intro e; exact absurd e hcp
    · intro e; exact absurd e hnd.1
    · intro e; exact absurd e hnp
    · intro e; exact absurd e htr
    · intro _; exact ⟨by simp, by simpa using hb.1, hnp⟩
    · intro e; simp at e
    · intro _ _; exact Or.inr (List.mem_cons_self _ _)
    · intro x hx e
      exact absurd (e ▸ (h.cfl_ok x hx).1) hcp
    · intro x hx e
      have := h.live_ok x hx
      rw [e] at this
      simpa using ⟨this.2.1, this.2.2.1⟩
  · intro _
    refine h.update page hp rfl (fun q hq => setPage_mem_ne _ _ _ _ hq) (by simp) (by simpa using hwf)
      (fun q _ => Iff.rfl) ?_ ?_ (fun q _ => Iff.rfl) (fun q _ => Iff.rfl) hnd.2 ?_
      h.pending_nodup ?_ rfl rfl
      ?_ ?_ ?_ ?_ ?_ ?_ ?_ h.cnone h.cfl_nodup (fun x hx _ => hx) ?_ h.live_nodup
      (fun x hx _ => hx) ?_ (fun x hx => (h.live_ok x hx).2.2.2)
    · intro q hq; simp [hc, hq]
    · intro q hq; simp [ add_partial, hq]
    · simp only [ add_partial, if_true]
      exact List.Nodup.append h.npart_nodup (List.nodup_singleton _) (by simpa using hnp)
    · simp [ add_partial, h.nr_partial]
    · intro e; exact absurd e hcp
    · intro e; exact absurd e hnd.1
    · intro _; exact ⟨by simp, by simpa using hfl⟩
    · intro e; exact absurd e htr
    · intro e; exact absurd e hpd
    · intro e; simp at e
    · intro _ _; exact Or.inl (by simp [ add_partial])
    · intro x hx e
      exact absurd (e ▸ (h.cfl_ok x hx).1) hcp
    · intro x hx e
      have := h.live_ok x hx
      rw [e] at this
      simpa using ⟨this.2.1, this.2.2.1⟩

theorem Frame.refl (st : State) : Frame st st := ⟨rfl, rfl, fun _ h => h, fun _ h => h, rfl⟩

theorem Frame.trans {a b c : State} (h1 : Frame a b) (h2 : Frame b c) : Frame a c :=
  ⟨h2.cpage.trans h1.cpage, h2.cfl.trans h1.cfl, fun q h => h2.npart q (h1.npart q h),
    fun q h => h1.slabs q (h2.slabs q h), h2.requests.trans h1.requests⟩

theorem InvG.unfreeze_loop {s : kmem_cache} {cfl live : List Obj} {t : Option Nat} :
    ∀ (chain : List Nat) (st : State) (d : List Nat), InvG s st cfl live t d →
      st.c.partial_ = chain →
      InvG s (unfreeze_partials_loop s chain st d).1 cfl live t
        (unfreeze_partials_loop s chain st d).2 ∧
      (unfreeze_partials_loop s chain st d).1.c.partial_ = [] ∧
      Frame st (unfreeze_partials_loop s chain st d).1 := by
  intro chain
  induction chain with
  | nil =>
    intro st d h hc
    exact ⟨h, hc, Frame.refl st⟩
  | cons page next ih =>
    intro st d h hc
    have hs := h.unfreeze_step hc
    unfold unfreeze_partials_loop
    simp only [setPage_mem_same, setPage_n]
    by_cases hb : (st.mem page).inuse = 0 ∧ st.n.nr_partial ≥ s.min_partial
    · rw [if_pos hb]
      obtain ⟨i1, i2, i3⟩ := ih _ (page :: d) (hs.1 hb) rfl
      exact ⟨i1, i2, ⟨i3.cpage, i3.cfl, fun q hq => i3.npart q hq, i3.slabs, i3.requests⟩⟩
    · rw [if_neg hb]
      obtain ⟨i1, i2, i3⟩ := ih _ d (hs.2 hb) rfl
      refine ⟨i1, i2, ⟨i3.cpage, i3.cfl, fun q hq => i3.npart q ?_, i3.slabs, i3.requests⟩⟩
      simp [ add_partial, hq]

theorem InvG.discard_all {s : kmem_cache} {cfl live : List Obj} {t : Option Nat} :
    ∀ (d : List Nat) (st : State), InvG s st cfl live t d →
      InvG s (d.foldl discard_slab st) cfl live t [] ∧
      (d.foldl discard_slab st).c = st.c ∧
      (d.foldl discard_slab st).n.partial_ = st.n.partial_ ∧
      (d.foldl discard_slab st).requests = st.requests ∧
      ∀ q ∈ (d.foldl discard_slab st).slabs, q ∈ st.slabs := by
  intro d
  induction d with
  | nil => intro st h; exact ⟨h, rfl, rfl, rfl, fun _ h => h⟩
  | cons p d ih =>
    intro st h
    obtain ⟨i1, i2, i3, i4, i5⟩ := ih (discard_slab st p) h.discard
    refine ⟨i1, i2, i3, i4, ?_⟩
    intro q hq
    exact List.mem_of_mem_erase (i5 q hq)

/-- The function `unfreeze_partials` keeps the invariant and empties the
per-CPU partial list. -/
theorem InvG.unfreeze {k : Kconfig} {s : kmem_cache} {st : State} {cfl live : List Obj}
    {t : Option Nat} (h : InvG s st cfl live t []) (hk : k.CONFIG_SLUB_CPU_PARTIAL = true) :
    InvG s (unfreeze_partials k s st) cfl live t [] ∧
    (unfreeze_partials k s st).c.partial_ = [] ∧ Frame st (unfreeze_partials k s st) := by
  unfold unfreeze_partials
  rw [if_pos hk]
  obtain ⟨i1, i2, i3⟩ := InvG.unfreeze_loop st.c.partial_ st [] h rfl
  obtain ⟨j1, j2, j3, j4, j5⟩ := InvG.discard_all _ _ i1
  refine ⟨j1, by rw [j2]; exact i2, ?_⟩
  exact ⟨by rw [j2]; exact i3.cpage, by rw [j2]; exact i3.cfl,
    fun q hq => by rw [j3]; exact i3.npart q hq,
    fun q hq => i3.slabs q (j5 q hq), j4.trans i3.requests⟩

/-! ### `put_cpu_partial` -/

/-- Linking a page in transit into the per-CPU partial list. -/
theorem InvG.link_cpu_partial {s : kmem_cache} {st : State} {cfl live : List Obj} {p : Nat}
    (h : InvG s st cfl live (some p) []) (pages pobjects : Int) :
    InvG s { setPage st p { st.mem p with pages := pages, pobjects := pobjects } with
      c := { st.c with partial_ := p :: st.c.partial_ } } cfl live none [] := by
  obtain ⟨hp, hfr, hfl, hcp, hnm⟩ := h.transit p rfl
  have hnp := h.frozen_not_npart hfr
  have hwf := h.wf p hp
  refine h.update p hp rfl (fun q hq => setPage_mem_ne _ _ _ _ hq) (by simp) (by simpa using hwf)
    (fun q _ => Iff.rfl) ?_ (fun q _ => Iff.rfl) ?_ (fun q _ => Iff.rfl) ?_ h.npart_nodup
    List.nodup_nil h.nr_partial rfl rfl
    ?_ ?_ ?_ ?_ ?_ ?_ ?_ h.cnone h.cfl_nodup (fun x hx _ => hx) ?_ h.live_nodup
    (fun x hx _ => hx) ?_ (fun x hx => (h.live_ok x hx).2.2.2)
  · intro q hq; simp [hq]
  · intro q hq
    constructor
    · intro e; simp at e
    · intro e; exact absurd (Option.some.inj e).symm hq
  · exact List.nodup_cons.mpr ⟨hnm, h.cpart_nodup⟩
  · intro e; exact absurd e hcp
  · intro _; exact ⟨by simpa using hfr, by simpa using hfl⟩
  · intro e; exact absurd e hnp
  · intro e; simp at e
  · intro e; simp at e
  · intro _; exact Or.inr (Or.inl (List.mem_cons_self _ _))
  · intro e; simp [hfr] at e
  · intro x hx e
    exact absurd (e ▸ (h.cfl_ok x hx).1) hcp
  · intro x hx e
    have := h.live_ok x hx
    rw [e] at this
    simpa using ⟨this.2.1, this.2.2.1⟩

/-- The function `put_cpu_partial` moves the page in transit to the per-CPU
partial list and keeps the invariant. -/
theorem InvG.put_partial_ok {k : Kconfig} {s : kmem_cache} {st : State} {cfl live : List Obj}
    {p : Nat} (h : InvG s st cfl live (some p) []) (hk : k.CONFIG_SLUB_CPU_PARTIAL = true)
    (drain : Bool) :
    InvG s ( put_cpu_partial k s st p drain) cfl live none [] ∧
    Frame st ( put_cpu_partial k s st p drain) := by
  unfold put_cpu_partial
  rw [if_pos hk]
  simp only []
  generalize (match st.c.partial_ with
      | [] => false
      | oldpage :: _ => drain && decide ((st.mem oldpage).pobjects > (s.cpu_partial : Int))) = full
  have h1 : InvG s (if full = true then unfreeze_partials k s st else st) cfl live (some p) [] ∧
      Frame st (if full = true then unfreeze_partials k s st else st) := by
    by_cases hf : full = true
    · rw [if_pos hf]
      exact ⟨(h.unfreeze hk).1, (h.unfreeze hk).2.2⟩
    · rw [if_neg hf]
      exact ⟨h, Frame.refl st⟩
  generalize (if full = true then unfreeze_partials k s st else st) = st1 at h1
  obtain ⟨h1, f1⟩ := h1
  have h2 := h1.link_cpu_partial
    ((match st1.c.partial_ with
      | [] => (0 : Int)
      | oldpage :: _ => (st1.mem oldpage).pages) + 1)
    ((match st1.c.partial_ with
      | [] => (0 : Int)
      | oldpage :: _ => (st1.mem oldpage).pobjects) +
        (((st1.mem p).objects : Int) - ((st1.mem p).inuse : Int)))
  have f2 : Frame st1 { setPage st1 p { st1.mem p with
      pages := (match st1.c.partial_ with
        | [] => (0 : Int)
        | oldpage :: _ => (st1.mem oldpage).pages) + 1,
      pobjects := (match st1.c.partial_ with
        | [] => (0 : Int)
        | oldpage :: _ => (st1.mem oldpage).pobjects) +
          (((st1.mem p).objects : Int) - ((st1.mem p).inuse : Int)) } with
      c := { st1.c with partial_ := p :: st1.c.partial_ } } :=
    ⟨rfl, rfl, fun _ hq => hq, fun _ hq => hq, rfl⟩
  by_cases hz : s.cpu_partial = 0
  · rw [if_pos hz]
    exact ⟨(h2.unfreeze hk).1, (f1.trans f2).trans (h2.unfreeze hk).2.2⟩
  · rw [if_neg hz]
    exact ⟨h2, f1.trans f2⟩

/-! ### `__slab_free` -/

theorem Opened.objects_le {s : kmem_cache} (hg : Opened s) {p : Nat} {pg : Page}
    (hwf : PageWf s p pg) : 1 ≤ pg.objects ∧ pg.objects ≤ 32767 := by
  obtain ⟨_, o1, o2, o3, o4⟩ := hg
  unfold MAX_OBJS_PER_PAGE at o2 o4
  rcases hwf.2.1 with ⟨e, _⟩ | ⟨e, _⟩ <;> rw [e] <;> exact ⟨by assumption, by assumption⟩

/-- A live object is counted in `inuse` of its slab. -/
theorem InvG.inuse_pos {s : kmem_cache} {st : State} {cfl live : List Obj} {t : Option Nat}
    {d : List Nat} (h : InvG s st cfl live t d) (hg : Opened s) {x : Obj} (hx : x ∈ live) :
    1 ≤ (st.mem x.page).inuse ∧ dec16 (st.mem x.page).inuse = (st.mem x.page).inuse - 1 := by
  obtain ⟨hp, hidx, hnf, _⟩ := h.live_ok x hx
  have hwf := h.wf x.page hp
  have := pigeon x.page (st.mem x.page).objects (x :: (st.mem x.page).freelist)
    (List.nodup_cons.mpr ⟨hnf, hwf.2.2.1⟩) (by
      intro y hy
      rcases List.mem_cons.mp hy with rfl | hy
      · exact ⟨rfl, hidx⟩
      · exact hwf.2.2.2 y hy)
  simp only [List.length_cons] at this
  have h1 := hwf.1
  have h2 := hg.objects_le hwf
  have h3 : 1 ≤ (st.mem x.page).inuse := by omega
  exact ⟨h3, dec16_pos _ h3 (by omega)⟩

/-- The common part of the cases of `__slab_free`: the object goes onto the
free chain of its page, which is not the CPU slab. -/
theorem InvG.free_update {s : kmem_cache} {st st' : State} {cfl live : List Obj} {x : Obj}
    {t' : Option Nat} {d' : List Nat} (h : InvG s st cfl live none []) (hg : Opened s)
    (hx : x ∈ live) (hc : st.c.page ≠ some x.page) (fz : Bool)
    (hslabs : st'.slabs = st.slabs) (hmem : ∀ q, q ≠ x.page → st'.mem q = st.mem q)
    (hpg : st'.mem x.page = { st.mem x.page with
      freelist := x :: (st.mem x.page).freelist, inuse := dec16 (st.mem x.page).inuse,
      frozen := fz })
    (hcs : st'.c = st.c)
    (hnpart : ∀ q, q ≠ x.page → (q ∈ st'.n.partial_ ↔ q ∈ st.n.partial_))
    (hnpn : st'.n.partial_.Nodup) (hnr : st'.n.nr_partial = st'.n.partial_.length)
    (hns : st'.n.nr_slabs = st.n.nr_slabs) (hto : st'.n.total_objects = st.n.total_objects)
    (ht : t' = none ∨ t' = some x.page) (hd : d' = [] ∨ d' = [x.page])
    (r2 : x.page ∈ st.c.partial_ → fz = true)
    (r3 : x.page ∈ st'.n.partial_ → fz = false)
    (r4 : t' = some x.page → fz = true ∧ x.page ∉ st.c.partial_)
    (r5 : x.page ∈ d' → fz = false ∧ dec16 (st.mem x.page).inuse = 0 ∧
      x.page ∉ st'.n.partial_)
    (r6 : fz = true → x.page ∈ st.c.partial_ ∨ t' = some x.page)
    (r7 : fz = false → x.page ∈ st'.n.partial_ ∨ x.page ∈ d') :
    InvG s st' cfl (live.erase x) t' d' := by
  obtain ⟨hp, hidx, hnf, hncfl⟩ := h.live_ok x hx
  have hwf := h.wf x.page hp
  obtain ⟨hpos, hdec⟩ := h.inuse_pos hg hx
  have hne : ∀ y ∈ live.erase x, y ≠ x := fun y hy e => by
    subst e; exact (List.Nodup.not_mem_erase h.live_nodup) hy
  refine h.update x.page hp hslabs hmem (by rw [hpg]) ?_ (fun q _ => by rw [hcs])
    (fun q _ => by rw [hcs]) hnpart ?_ ?_ (by rw [hcs]; exact h.cpart_nodup) hnpn ?_ hnr hns hto
    ?_ ?_ ?_ ?_ ?_ ?_ ?_ (by rw [hcs]; exact h.cnone) h.cfl_nodup (fun y hy _ => hy) ?_
    (h.live_nodup.erase x) (fun y hy _ => List.mem_of_mem_erase hy) ?_
    (fun y hy => (h.live_ok y (List.mem_of_mem_erase hy)).2.2.2)
  · rw [hpg]
    refine ⟨?_, hwf.2.1, List.nodup_cons.mpr ⟨hnf, hwf.2.2.1⟩, ?_⟩
    · have := hwf.1
      simp only [List.length_cons, hdec]
      omega
    · intro y hy
      rcases List.mem_cons.mp hy with rfl | hy
      · exact ⟨rfl, hidx⟩
      · exact hwf.2.2.2 y hy
  · intro q hq
    rcases ht with e | e <;> rw [e]
    · constructor
      · intro e2; exact absurd (Option.some.inj e2).symm hq
      · intro e2; simp at e2
  · intro q hq
    rcases hd with e | e <;> rw [e]
    · simp only [List.mem_singleton]
      constructor
      · intro e2; exact absurd e2 hq
      · intro e2; simp at e2
  · rcases hd with e | e <;> rw [e]
    · exact List.nodup_nil
    · exact List.nodup_singleton _
  · intro e; rw [hcs] at e; exact absurd e hc
  · intro e; rw [hcs] at e; rw [hpg]; exact ⟨r2 e, by simp⟩
  · intro e; rw [hpg]; exact ⟨r3 e, by simp⟩
  · intro e; rw [hpg, hcs]; exact ⟨(r4 e).1, by simp, hc, (r4 e).2⟩
  · intro e; rw [hpg]; exact ⟨(r5 e).1, (r5 e).2.1, (r5 e).2.2⟩
  · intro e
    rw [hpg] at e; rw [hcs]
    exact Or.inr (r6 e)
  · intro e _
    rw [hpg] at e
    exact r7 e
  · intro y hy e
    exact absurd (e ▸ (h.cfl_ok y hy).1) hc
  · intro y hy e
    have := h.live_ok y (List.mem_of_mem_erase hy)
    rw [hpg]
    rw [e] at this
    refine ⟨this.2.1, ?_⟩
    intro hm
    rcases List.mem_cons.mp hm with e2 | hm
    · exact hne y hy e2
    · exact this.2.2.1 hm

theorem InvG.slab_free_slow {k : Kconfig} {s : kmem_cache} {st : State} {cfl live : List Obj}
    {x : Obj} (h : InvG s st cfl live none []) (hg : Opened s) (hx : x ∈ live)
    (hc : st.c.page ≠ some x.page) :
    InvG s (__slab_free k s st x.page x) cfl (live.erase x) none [] ∧
    (__slab_free k s st x.page x).c.freelist = st.c.freelist ∧
    (__slab_free k s st x.page x).c.page = st.c.page := by
  obtain ⟨hp, hidx, hnf, hncfl⟩ := h.live_ok x hx
  have hdbg : kmem_cache_debug s = false := hg.1
  have hmemne : ∀ (pg : Page) (q : Nat), q ≠ x.page → (setPage st x.page pg).mem q = st.mem q :=
    fun pg q hq => setPage_mem_ne st x.page q pg hq
  unfold __slab_free
  simp only []
  by_cases hfz : (st.mem x.page).frozen = true
  · simp [hfz]
    have hcp : x.page ∈ st.c.partial_ := by
      rcases h.frozen_owned x.page hp hfz with e | e | e
      · exact absurd e hc
      · exact e
      · simp at e
    exact h.free_update hg hx hc true rfl (hmemne _) (by simp) rfl (fun _ _ => Iff.rfl)
      h.npart_nodup h.nr_partial rfl rfl (Or.inl rfl) (Or.inl rfl) (fun _ => rfl)
      (fun e => absurd hfz (by rw [(h.npart _ e).2.1]; simp)) (fun e => by simp at e)
      (fun e => by simp at e) (fun _ => Or.inl hcp) (fun e => by simp at e)
  · have hfz' : (st.mem x.page).frozen = false := by simpa using hfz
    have hncp : x.page ∉ st.c.partial_ := fun e => by
      have := (h.cpart _ e).2.1; rw [hfz'] at this; simp at this
    by_cases hprior : (st.mem x.page).freelist = []
    · have hnnp : x.page ∉ st.n.partial_ := fun e => (h.npart _ e).2.2 hprior
      by_cases hcp : k.CONFIG_SLUB_CPU_PARTIAL = true
      · simp [hprior, hcp, hfz, hdbg, kmem_cache_has_cpu_partial]
        have h1 : InvG s (setPage st x.page { st.mem x.page with
            freelist := [x], inuse := dec16 (st.mem x.page).inuse, frozen := true })
            cfl (live.erase x) (some x.page) [] :=
          h.free_update hg hx hc true rfl (hmemne _) (by simp [hprior]) rfl (fun _ _ => Iff.rfl)
            h.npart_nodup h.nr_partial rfl rfl (Or.inr rfl) (Or.inl rfl) (fun _ => rfl)
            (fun e => absurd e hnnp) (fun _ => ⟨rfl, hncp⟩)
            (fun e => by simp at e) (fun _ => Or.inr rfl) (fun e => by simp at e)
        have h2 := h1.put_partial_ok hcp true
        exact ⟨h2.1, h2.2.cfl, h2.2.cpage⟩
      · simp [hprior, hcp, hfz, hdbg, kmem_cache_has_cpu_partial]
        split
        · rename_i h0
          have h1 : InvG s (setPage st x.page { st.mem x.page with
              freelist := [x], inuse := dec16 (st.mem x.page).inuse, frozen := false })
              cfl (live.erase x) none [x.page] :=
            h.free_update hg hx hc false rfl (hmemne _) (by simp [hprior]) rfl
              (fun _ _ => Iff.rfl)
              h.npart_nodup h.nr_partial rfl rfl (Or.inl rfl) (Or.inr rfl) (fun e => absurd e hncp)
              (fun _ => rfl) (fun e => by simp at e)
              (fun _ => ⟨rfl, h0.1, hnnp⟩) (fun e => by simp at e)
              (fun _ => Or.inr (List.mem_singleton.mpr rfl))
          exact ⟨h1.discard, rfl, rfl⟩
        · refine ⟨?_, rfl, rfl⟩
          refine h.free_update hg hx hc false rfl (hmemne _) (by simp [hprior]) rfl ?_ ?_ ?_
            rfl rfl (Or.inl rfl) (Or.inl rfl) (fun e => absurd e hncp)
            (fun _ => rfl) (fun e => by simp at e) (fun e => by simp at e)
            (fun e => by simp at e) (fun _ => Or.inl (by simp [ add_partial]))
          · intro q hq
            simp [ add_partial, hq]
          · simp only [ add_partial, if_true]
            exact List.Nodup.append h.npart_nodup (List.nodup_singleton _)
              (by simpa using hnnp)
          · simp [ add_partial, h.nr_partial]
    · have hnp : x.page ∈ st.n.partial_ := by
        rcases h.unfrozen_listed x.page hp hfz' hprior with e | e
        · exact e
        · simp at e
      simp [hprior, hfz, hdbg, kmem_cache_has_cpu_partial]
      have hstay : InvG s (setPage st x.page { st.mem x.page with
            freelist := x :: (st.mem x.page).freelist, inuse := dec16 (st.mem x.page).inuse,
            frozen := false }) cfl (live.erase x) none [] :=
        h.free_update hg hx hc false rfl (hmemne _) (by simp) rfl (fun _ _ => Iff.rfl)
          h.npart_nodup h.nr_partial rfl rfl (Or.inl rfl) (Or.inl rfl) (fun e => absurd e hncp)
          (fun _ => rfl) (fun e => by simp at e) (fun e => by simp at e)
          (fun e => by simp at e) (fun _ => Or.inl hnp)
      split
      · split
        · rename_i h0
          have hlen : 1 ≤ st.n.partial_.length := List.length_pos_of_mem hnp
          have h1 : InvG s { setPage st x.page { st.mem x.page with
                freelist := x :: (st.mem x.page).freelist,
                inuse := dec16 (st.mem x.page).inuse, frozen := false } with
                n := remove_partial k st.n x.page }
              cfl (live.erase x) none [x.page] := by
            refine h.free_update hg hx hc false rfl (hmemne _) (by simp [setPage]) rfl ?_ ?_ ?_
              rfl rfl (Or.inl rfl) (Or.inr rfl) (fun e => absurd e hncp)
              (fun _ => rfl) (fun e => by simp at e) ?_ (fun e => by simp at e)
              (fun _ => Or.inr (List.mem_singleton.mpr rfl))
            · intro q hq
              simp only [ remove_partial]
              exact List.mem_erase_of_ne hq
            · exact h.npart_nodup.erase _
            · simp only [ remove_partial, dec_ulong, h.nr_partial]
              rw [List.length_erase_of_mem hnp]
              have : st.n.partial_.length - 1 + 1 = st.n.partial_.length := by omega
              split <;> omega
            · intro _
              exact ⟨rfl, h0.1, h.npart_nodup.not_mem_erase⟩
          exact ⟨h1.discard, rfl, rfl⟩
        · exact ⟨hstay, rfl, rfl⟩
      · exact ⟨hstay, rfl, rfl⟩

/-- The function `kmem_cache_free` keeps the invariant when it is given a
pointer that is handed out. -/
theorem Inv.free_ok {k : Kconfig} {s : kmem_cache} {r : Run} (h : Inv s r) (hg : Opened s)
    {x : Obj} (hx : x ∈ r.live) : Inv s (step k s r (Op.free x)) := by
  unfold Inv at h ⊢
  simp only [step, kmem_cache_free, slab_free]
  by_cases hc : r.st.c.page = some x.page
  · rw [if_pos hc]
    exact (h.push hx hc).congr rfl rfl rfl rfl rfl
  · rw [if_neg hc]
    have h1 := h.slab_free_slow (k := k) hg hx hc
    rw [h1.2.1]
    exact h1.1

/-! ### The allocation slow path -/

/-- The function `get_freelist` on the CPU slab whose per-CPU chain is used up:
a chain found on the page becomes the per-CPU chain. -/
theorem InvG.get_freelist_some {s : kmem_cache} {st : State} {live : List Obj} {p : Nat}
    (h : InvG s st [] live none []) (hc : st.c.page = some p)
    (hfl : (get_freelist st p).2 ≠ []) :
    InvG s (get_freelist st p).1 (get_freelist st p).2 live none [] := by
  obtain ⟨hp, hfz, hncp⟩ := h.cpage p hc
  have hwf := h.wf p hp
  have hfl' : (st.mem p).freelist ≠ [] := hfl
  have hpg : ((get_freelist st p).1.mem p) = { st.mem p with
      freelist := [], inuse := (st.mem p).objects, frozen := true } := by
    simp [get_freelist, hfl']
  refine h.update p hp rfl (fun q hq => setPage_mem_ne st p q _ hq) (by rw [hpg]) ?_
    (fun _ _ => Iff.rfl) (fun _ _ => Iff.rfl) (fun _ _ => Iff.rfl) (fun _ _ => Iff.rfl)
    (fun _ _ => Iff.rfl) h.cpart_nodup h.npart_nodup List.nodup_nil h.nr_partial rfl rfl
    ?_ ?_ ?_ ?_ ?_ ?_ ?_ ?_ hwf.2.2.1 ?_ ?_ h.live_nodup (fun y hy _ => hy) ?_ ?_
  · rw [hpg]
    exact ⟨by simp, hwf.2.1, List.nodup_nil, by simp⟩
  · intro _; rw [hpg]; exact ⟨rfl, hncp⟩
  · intro e; exact absurd e hncp
  · intro e; exact absurd hfz (by rw [(h.npart p e).2.1]; simp)
  · intro e; simp at e
  · intro e; simp at e
  · intro _; exact Or.inl hc
  · rw [hpg]; intro e; simp at e
  · intro e
    have : (get_freelist st p).1.c.page = st.c.page := rfl
    rw [this, hc] at e; simp at e
  · intro y hy hne
    exact absurd (hwf.2.2.2 y hy).1 hne
  · intro y hy _
    rw [hpg]
    exact ⟨hc, (hwf.2.2.2 y hy).2, by simp⟩
  · intro y hy e
    rw [hpg]
    have := h.live_ok y hy
    rw [e] at this
    exact ⟨this.2.1, by simp⟩
  · intro y hy hm
    have e := (hwf.2.2.2 y hm).1
    have := (h.live_ok y hy).2.2.1
    rw [e] at this
    exact this hm

/-- The function `get_freelist` finds nothing: the slab is fully handed out,
it is unfrozen and leaves the CPU. -/
theorem InvG.get_freelist_none {s : kmem_cache} {st : State} {live : List Obj} {p : Nat}
    (h : InvG s st [] live none []) (hc : st.c.page = some p)
    (hfl : (get_freelist st p).2 = []) :
    InvG s { (get_freelist st p).1 with c := { (get_freelist st p).1.c with page := none } }
      [] live none [] := by
  obtain ⟨hp, hfz, hncp⟩ := h.cpage p hc
  have hwf := h.wf p hp
  have hfl' : (st.mem p).freelist = [] := hfl
  have hpg : ({ (get_freelist st p).1 with
      c := { (get_freelist st p).1.c with page := none } } : State).mem p = { st.mem p with
      freelist := [], inuse := (st.mem p).objects, frozen := false } := by
    simp [get_freelist, hfl']
  refine h.update p hp rfl (fun q hq => setPage_mem_ne st p q _ hq) (by rw [hpg]) ?_
    ?_ (fun _ _ => Iff.rfl) (fun _ _ => Iff.rfl) (fun _ _ => Iff.rfl)
    (fun _ _ => Iff.rfl) h.cpart_nodup h.npart_nodup List.nodup_nil h.nr_partial rfl rfl
    ?_ ?_ ?_ ?_ ?_ ?_ ?_ (fun _ => rfl) List.nodup_nil ?_ ?_ h.live_nodup (fun y hy _ => hy)
    ?_ ?_
  · rw [hpg]
    exact ⟨by simp, hwf.2.1, List.nodup_nil, by simp⟩
  · intro q hq
    show (none = some q ↔ st.c.page = some q)
    rw [hc]
    constructor
    · intro e; simp at e
    · intro e; exact absurd (Option.some.inj e).symm hq
  · intro e
    have : (none : Option Nat) = some p := e
    simp at this
  · intro e; exact absurd e hncp
  · intro e; exact absurd hfz (by rw [(h.npart p e).2.1]; simp)
  · intro e; simp at e
  · intro e; simp at e
  · rw [hpg]; intro e; simp at e
  · rw [hpg]; intro _ e; simp at e
  · intro y hy; simp at hy
  · intro y hy; simp at hy
  · intro y hy e
    rw [hpg]
    have := h.live_ok y hy
    rw [e] at this
    exact ⟨this.2.1, by simp⟩
  · intro y _ hm; simp at hm

/-! ### `deactivate_slab` -/

theorem deactivate_slab_drain_spec (last : Obj) (init : List Obj) : ∀ pg : Page,
    init.length + 1 ≤ pg.inuse → pg.inuse ≤ 65535 →
    deactivate_slab_drain pg (init ++ [last]) =
      ({ pg with freelist := init.reverse ++ pg.freelist, inuse := pg.inuse - init.length },
        [last]) := by
  induction init with
  | nil =>
    intro pg _ _
    simp [deactivate_slab_drain]
  | cons a init ih =>
    intro pg h1 h2
    have hd : dec16 pg.inuse = pg.inuse - 1 := dec16_pos _ (by omega) h2
    cases init with
    | nil =>
      simp [deactivate_slab_drain, hd]
    | cons b init =>
      have := ih { pg with freelist := a :: pg.freelist, inuse := dec16 pg.inuse }
        (by simp only [List.length_cons] at h1 ⊢; rw [hd]; omega) (by simp only [hd]; omega)
      simp only [List.cons_append] at this ⊢
      show deactivate_slab_drain
        { pg with freelist := a :: pg.freelist, inuse := dec16 pg.inuse }
        (b :: (init ++ [last])) = _
      rw [this]
      have e1 : dec16 pg.inuse - (b :: init).length = pg.inuse - (a :: b :: init).length := by
        rw [hd]; simp only [List.length_cons]; omega
      have e2 : (b :: init).reverse ++ a :: pg.freelist = (a :: b :: init).reverse ++ pg.freelist := by
        simp
      rw [e1, e2]

theorem deactivate_slab_eq (s : kmem_cache) (st : State) (p : Nat) (fl : List Obj)
    (h1 : fl.length ≤ (st.mem p).inuse) (h2 : (st.mem p).inuse ≤ 65535) :
    deactivate_slab s st p fl =
      if (deactivate_slab_page (st.mem p) fl).inuse = 0 ∧ st.n.nr_partial ≥ s.min_partial then
        discard_slab (setPage st p (deactivate_slab_page (st.mem p) fl)) p
      else if (deactivate_slab_page (st.mem p) fl).freelist ≠ [] then
        { setPage st p (deactivate_slab_page (st.mem p) fl) with
          n := add_partial st.n p (decide ((st.mem p).freelist ≠ [])) }
      else setPage st p (deactivate_slab_page (st.mem p) fl) := by
  rcases List.eq_nil_or_concat fl with e | ⟨init, last, e⟩
  · subst e
    unfold deactivate_slab
    simp [deactivate_slab_drain, deactivate_slab_page]
  · subst e
    simp only [List.concat_eq_append] at *
    have hlen : (init ++ [last]).length = init.length + 1 := by simp
    rw [hlen] at h1
    have hd : dec16 ((st.mem p).inuse - init.length) = (st.mem p).inuse - (init.length + 1) := by
      rw [dec16_pos _ (by omega) (by omega)]; omega
    unfold deactivate_slab
    rw [deactivate_slab_drain_spec last init (st.mem p) h1 h2]
    simp [deactivate_slab_page, hd]

/-- The objects of the per-CPU chain are counted in `inuse` of the CPU slab. -/
theorem InvG.cfl_le_inuse {s : kmem_cache} {st : State} {cfl live : List Obj} {t : Option Nat}
    {d : List Nat} (h : InvG s st cfl live t d) (hg : Opened s) {p : Nat}
    (hc : st.c.page = some p) :
    cfl.length ≤ (st.mem p).inuse ∧ (st.mem p).inuse ≤ 65535 ∧
    (cfl.reverse ++ (st.mem p).freelist).Nodup := by
  obtain ⟨hp, _, _⟩ := h.cpage p hc
  have hwf := h.wf p hp
  have hpage : ∀ y ∈ cfl, y.page = p := fun y hy => by
    have := (h.cfl_ok y hy).1
    rw [hc] at this
    exact (Option.some.inj this).symm
  have hnd : (cfl.reverse ++ (st.mem p).freelist).Nodup := by
    refine List.Nodup.append (List.nodup_reverse.mpr h.cfl_nodup) hwf.2.2.1 ?_
    intro y hy1 hy2
    have e := hpage y (List.mem_reverse.mp hy1)
    have := (h.cfl_ok y (List.mem_reverse.mp hy1)).2.2
    rw [e] at this
    exact this hy2
  have := pigeon p (st.mem p).objects _ hnd (by
    intro y hy
    rcases List.mem_append.mp hy with hy | hy
    · have e := hpage y (List.mem_reverse.mp hy)
      have := (h.cfl_ok y (List.mem_reverse.mp hy)).2.1
      rw [e] at this
      exact ⟨e, this⟩
    · exact hwf.2.2.2 y hy)
  simp only [List.length_append, List.length_reverse] at this
  have h1 := hwf.1
  have h2 := hg.objects_le hwf
  exact ⟨by omega, by omega, hnd⟩

/-- The common part of the cases of `deactivate_slab`: the CPU slab gets its
per-CPU chain back, is unfrozen and leaves the CPU. -/
theorem InvG.deactivate_update {s : kmem_cache} {st st' : State} {cfl live : List Obj}
    {p : Nat} {d' : List Nat} (h : InvG s st cfl live none []) (hg : Opened s)
    (hc : st.c.page = some p)
    (hslabs : st'.slabs = st.slabs) (hmem : ∀ q, q ≠ p → st'.mem q = st.mem q)
    (hpg : st'.mem p = deactivate_slab_page (st.mem p) cfl)
    (hcp : st'.c.page = none) (hcpart : st'.c.partial_ = st.c.partial_)
    (hnpart : ∀ q, q ≠ p → (q ∈ st'.n.partial_ ↔ q ∈ st.n.partial_))
    (hnpn : st'.n.partial_.Nodup) (hnr : st'.n.nr_partial = st'.n.partial_.length)
    (hns : st'.n.nr_slabs = st.n.nr_slabs) (hto : st'.n.total_objects = st.n.total_objects)
    (hd : d' = [] ∨ d' = [p])
    (r3 : p ∈ st'.n.partial_ → (deactivate_slab_page (st.mem p) cfl).freelist ≠ [])
    (r5 : p ∈ d' → (deactivate_slab_page (st.mem p) cfl).inuse = 0 ∧ p ∉ st'.n.partial_)
    (r7 : (deactivate_slab_page (st.mem p) cfl).freelist ≠ [] → p ∈ st'.n.partial_ ∨ p ∈ d') :
    InvG s st' [] live none d' := by
  obtain ⟨hp, hfz, hncp⟩ := h.cpage p hc
  have hwf := h.wf p hp
  obtain ⟨hle, _, hnd⟩ := h.cfl_le_inuse hg hc
  have hpage : ∀ y ∈ cfl, y.page = p := fun y hy => by
    have := (h.cfl_ok y hy).1
    rw [hc] at this
    exact (Option.some.inj this).symm
  refine h.update p hp hslabs hmem (by rw [hpg]; rfl) ?_ ?_ (fun q _ => by rw [hcpart]) hnpart
    (fun _ _ => Iff.rfl) ?_ (by rw [hcpart]; exact h.cpart_nodup) hnpn ?_ hnr hns hto
    ?_ ?_ ?_ ?_ ?_ ?_ ?_ (fun _ => rfl) List.nodup_nil ?_ ?_ h.live_nodup (fun y hy _ => hy)
    ?_ ?_
  · rw [hpg]
    refine ⟨?_, hwf.2.1, hnd, ?_⟩
    · have := hwf.1
      simp only [deactivate_slab_page, List.length_append, List.length_reverse]
      omega
    · intro y hy
      rcases List.mem_append.mp hy with hy | hy
      · have e := hpage y (List.mem_reverse.mp hy)
        have := (h.cfl_ok y (List.mem_reverse.mp hy)).2.1
        rw [e] at this
        exact ⟨e, this⟩
      · exact hwf.2.2.2 y hy
  · intro q hq
    rw [hcp, hc]
    constructor
    · intro e; simp at e
    · intro e; exact absurd (Option.some.inj e).symm hq
  · intro q hq
    rcases hd with e | e <;> rw [e]
    · simp only [List.mem_singleton]
      constructor
      · intro e2; exact absurd e2 hq
      · intro e2; simp at e2
  · rcases hd with e | e <;> rw [e]
    · exact List.nodup_nil
    · exact List.nodup_singleton _
  · intro e; rw [hcp] at e; simp at e
  · intro e; rw [hcpart] at e; exact absurd e hncp
  · intro e; rw [hpg]; exact ⟨rfl, r3 e⟩
  · intro e; simp at e
  · intro e; rw [hpg]; exact ⟨rfl, (r5 e).1, (r5 e).2⟩
  · rw [hpg]; intro e; simp [deactivate_slab_page] at e
  · rw [hpg]; intro _ e; exact r7 e
  · intro y hy; simp at hy
  · intro y hy; simp at hy
  · intro y hy e
    rw [hpg]
    have := h.live_ok y hy
    rw [e] at this
    refine ⟨this.2.1, ?_⟩
    intro hm
    rcases List.mem_append.mp hm with hm | hm
    · exact this.2.2.2 (List.mem_reverse.mp hm)
    · exact this.2.2.1 hm
  · intro y _ hm; simp at hm

/-- The function `deactivate_slab` on the CPU slab with the per-CPU chain,
followed by the reset of `c->page` and `c->freelist`. -/
theorem InvG.deactivate {s : kmem_cache} {st : State} {cfl live : List Obj} {p : Nat}
    (h : InvG s st cfl live none []) (hg : Opened s) (hc : st.c.page = some p) (st2 : State)
    (h1 : st2.c.page = none) (h2 : st2.c.partial_ = (deactivate_slab s st p cfl).c.partial_)
    (h3 : st2.n = (deactivate_slab s st p cfl).n) (h4 : st2.mem = (deactivate_slab s st p cfl).mem)
    (h5 : st2.slabs = (deactivate_slab s st p cfl).slabs) :
    InvG s st2 [] live none [] ∧ st2.c.partial_ = st.c.partial_ ∧
    (∀ q ∈ st2.slabs, q ∈ st.slabs) ∧
    (deactivate_slab s st p cfl).requests = st.requests := by
  obtain ⟨hp, hfz, hncp⟩ := h.cpage p hc
  obtain ⟨hle, hle2, hnd⟩ := h.cfl_le_inuse hg hc
  have hnnp : p ∉ st.n.partial_ := fun e => absurd hfz (by rw [(h.npart p e).2.1]; simp)
  have hmemne : ∀ (pg : Page) (q : Nat), q ≠ p → (setPage st p pg).mem q = st.mem q :=
    fun pg q hq => setPage_mem_ne st p q pg hq
  rw [deactivate_slab_eq s st p cfl hle hle2] at h2 h3 h4 h5 ⊢
  split at h2
  · rename_i h0
    rw [if_pos h0] at h3 h4 h5 ⊢
    have hi : InvG s { setPage st p (deactivate_slab_page (st.mem p) cfl) with
        c := { st.c with page := none } } [] live none [p] :=
      h.deactivate_update hg hc rfl (hmemne _) (by simp) rfl rfl (fun _ _ => Iff.rfl)
        h.npart_nodup h.nr_partial rfl rfl (Or.inr rfl) (fun e => absurd e hnnp)
        (fun _ => ⟨h0.1, hnnp⟩) (fun _ => Or.inr (List.mem_singleton.mpr rfl))
    refine ⟨hi.discard.congr h1 h2 h3 h4 h5, h2, ?_, rfl⟩
    intro q hq
    rw [h5] at hq
    exact List.mem_of_mem_erase hq
  · rename_i h0
    rw [if_neg h0] at h3 h4 h5 ⊢
    split at h2
    · rename_i hf
      rw [if_pos hf] at h3 h4 h5 ⊢
      refine ⟨?_, h2, fun q hq => by rw [h5] at hq; exact hq, rfl⟩
      refine h.deactivate_update hg hc h5 (fun q hq => by rw [h4]; exact hmemne _ q hq)
        (by rw [h4]; simp) h1 h2 ?_ ?_ ?_ (by rw [h3]; rfl) (by rw [h3]; rfl) (Or.inl rfl)
        (fun _ => hf) (fun e => by simp at e) (fun _ => Or.inl ?_)
      · intro q hq
        rw [h3]
        simp only [ add_partial]
        split <;> simp [hq]
      · rw [h3]
        simp only [ add_partial]
        split
        · exact List.Nodup.append h.npart_nodup (List.nodup_singleton _) (by simpa using hnnp)
        · exact List.nodup_cons.mpr ⟨hnnp, h.npart_nodup⟩
      · rw [h3]
        simp only [ add_partial, h.nr_partial]
        split <;> simp
      · rw [h3]
        simp only [ add_partial]
        split <;> simp
    · rename_i hf
      rw [if_neg hf] at h3 h4 h5 ⊢
      refine ⟨?_, h2, fun q hq => by rw [h5] at hq; exact hq, rfl⟩
      exact h.deactivate_update hg hc h5 (fun q hq => by rw [h4]; exact hmemne _ q hq)
        (by rw [h4]; simp) h1 h2 (fun q _ => by rw [h3]; exact Iff.rfl)
        (by rw [h3]; exact h.npart_nodup) (by rw [h3]; exact h.nr_partial) (by rw [h3]; rfl)
        (by rw [h3]; rfl) (Or.inl rfl) (fun e => by rw [h3] at e; exact absurd e hnnp)
        (fun e => by simp at e) (fun e => absurd e hf)

/-! ### `get_partial_node` -/

theorem InvG.npart_length_pos {s : kmem_cache} {st : State} {cfl live : List Obj}
    {t : Option Nat} {d : List Nat} (h : InvG s st cfl live t d) {p : Nat}
    (hp : p ∈ st.n.partial_) (k : Kconfig) :
    kmem_cache_node.nr_partial ( remove_partial k st.n p) =
      ( remove_partial k st.n p).partial_.length := by
  have hlen : 1 ≤ st.n.partial_.length := List.length_pos_of_mem hp
  simp only [ remove_partial, dec_ulong, h.nr_partial]
  rw [List.length_erase_of_mem hp]
  split <;> omega

/-- The function `acquire_slab` in mode 1 takes a page of `n->partial` as the
CPU slab; its free chain becomes the per-CPU chain. -/
theorem InvG.acquire_first {k : Kconfig} {s : kmem_cache} {st : State} {live : List Obj}
    {p : Nat} (h : InvG s st [] live none []) (hc : st.c.page = none)
    (hp : p ∈ st.n.partial_) :
    (acquire_slab k st p true).2.1 ≠ [] ∧
    InvG s { (acquire_slab k st p true).1 with
        c := { (acquire_slab k st p true).1.c with page := some p } }
      (acquire_slab k st p true).2.1 live none [] := by
  obtain ⟨hps, hfz, hfl⟩ := h.npart p hp
  have hwf := h.wf p hps
  have hncp : p ∉ st.c.partial_ := fun e => by
    have := (h.cpart _ e).2.1; rw [hfz] at this; simp at this
  refine ⟨hfl, ?_⟩
  have hpg : ({ (acquire_slab k st p true).1 with
      c := { (acquire_slab k st p true).1.c with page := some p } } : State).mem p =
      { st.mem p with inuse := (st.mem p).objects, freelist := [], frozen := true } := by
    simp [acquire_slab, setPage]
  refine h.update p hps rfl (fun q hq => setPage_mem_ne st p q _ hq) (by rw [hpg]) ?_
    ?_ (fun _ _ => Iff.rfl) ?_ (fun _ _ => Iff.rfl)
    (fun _ _ => Iff.rfl) h.cpart_nodup (h.npart_nodup.erase _) List.nodup_nil
    (h.npart_length_pos hp k) rfl rfl
    ?_ ?_ ?_ ?_ ?_ ?_ ?_ ?_ hwf.2.2.1 ?_ ?_ h.live_nodup (fun y hy _ => hy) ?_ ?_
  · rw [hpg]
    exact ⟨by simp, hwf.2.1, List.nodup_nil, by simp⟩
  · intro q hq
    show (some p = some q ↔ st.c.page = some q)
    rw [hc]
    constructor
    · intro e; exact absurd (Option.some.inj e).symm hq
    · intro e; simp at e
  · intro q hq
    exact List.mem_erase_of_ne hq
  · intro _; rw [hpg]; exact ⟨rfl, hncp⟩
  · intro e; exact absurd e hncp
  · intro e; exact absurd e h.npart_nodup.not_mem_erase
  · intro e; simp at e
  · intro e; simp at e
  · intro _; exact Or.inl rfl
  · rw [hpg]; intro e; simp at e
  · intro e
    have : (some p : Option Nat) = none := e
    simp at this
  · intro y hy hne
    exact absurd (hwf.2.2.2 y hy).1 hne
  · intro y hy _
    rw [hpg]
    exact ⟨rfl, (hwf.2.2.2 y hy).2, by simp⟩
  · intro y hy e
    rw [hpg]
    have := h.live_ok y hy
    rw [e] at this
    exact ⟨this.2.1, by simp⟩
  · intro y hy hm
    have e := (hwf.2.2.2 y hm).1
    have := (h.live_ok y hy).2.2.1
    rw [e] at this
    exact this hm

/-- The function `acquire_slab` in mode 0 freezes a page of `n->partial`, which
is then on its way to the per-CPU partial list. -/
theorem InvG.acquire_more {k : Kconfig} {s : kmem_cache} {st : State} {cfl live : List Obj}
    {p : Nat} (h : InvG s st cfl live none []) (hp : p ∈ st.n.partial_) :
    (acquire_slab k st p false).2.1 ≠ [] ∧
    InvG s (acquire_slab k st p false).1 cfl live (some p) [] := by
  obtain ⟨hps, hfz, hfl⟩ := h.npart p hp
  have hwf := h.wf p hps
  have hncp : p ∉ st.c.partial_ := fun e => by
    have := (h.cpart _ e).2.1; rw [hfz] at this; simp at this
  have hnc : st.c.page ≠ some p := fun e => by
    have := (h.cpage _ e).2.1; rw [hfz] at this; simp at this
  refine ⟨hfl, ?_⟩
  have hpg : (acquire_slab k st p false).1.mem p = { st.mem p with frozen := true } := by
    simp [acquire_slab, setPage]
  refine h.update p hps rfl (fun q hq => setPage_mem_ne st p q _ hq) (by rw [hpg]) ?_
    (fun _ _ => Iff.rfl) (fun _ _ => Iff.rfl) ?_ ?_
    (fun _ _ => Iff.rfl) h.cpart_nodup (h.npart_nodup.erase _) List.nodup_nil
    (h.npart_length_pos hp k) rfl rfl
    ?_ ?_ ?_ ?_ ?_ ?_ ?_ h.cnone h.cfl_nodup (fun y hy _ => hy) ?_ h.live_nodup
    (fun y hy _ => hy) ?_ (fun y hy => (h.live_ok y hy).2.2.2)
  · rw [hpg]
    exact hwf
  · intro q hq
    exact List.mem_erase_of_ne hq
  · intro q hq
    constructor
    · intro e; exact absurd (Option.some.inj e).symm hq
    · intro e; simp at e
  · intro e; exact absurd e hnc
  · intro e; exact absurd e hncp
  · intro e; exact absurd e h.npart_nodup.not_mem_erase
  · intro _; rw [hpg]; exact ⟨rfl, hfl, hnc, hncp⟩
  · intro e; simp at e
  · intro _; exact Or.inr (Or.inr rfl)
  · rw [hpg]; intro e; simp at e
  · intro y hy e
    exact absurd (e ▸ (h.cfl_ok y hy).1) hnc
  · intro y hy e
    rw [hpg]
    have := h.live_ok y hy
    rw [e] at this
    exact ⟨this.2.1, this.2.2.1⟩

theorem has_cpu_partial_config {k : Kconfig} {s : kmem_cache}
    (h : kmem_cache_has_cpu_partial k s = true) : k.CONFIG_SLUB_CPU_PARTIAL = true := by
  unfold kmem_cache_has_cpu_partial at h
  by_cases e : k.CONFIG_SLUB_CPU_PARTIAL = true
  · exact e
  · rw [if_neg e] at h; simp at h

/-- The loop of `get_partial_node`: the first page taken becomes the CPU slab,
further ones go to the per-CPU partial list. -/
theorem InvG.get_partial_loop {k : Kconfig} {s : kmem_cache} {allowed : Bool}
    {live : List Obj} : ∀ (l : List Nat) (st : State) (object : List Obj) (available : Int),
    InvG s st object live none [] → l.Nodup → (∀ q ∈ l, q ∈ st.n.partial_) →
    (object = [] → st.c.page = none) → (object ≠ [] → k.CONFIG_SLUB_CPU_PARTIAL = true) →
    InvG s (get_partial_node_loop k s allowed l st object available).1
      (get_partial_node_loop k s allowed l st object available).2 live none [] ∧
    ((get_partial_node_loop k s allowed l st object available).2 = [] →
      (get_partial_node_loop k s allowed l st object available).1.c.page = none) ∧
    (∀ q ∈ (get_partial_node_loop k s allowed l st object available).1.slabs, q ∈ st.slabs) ∧
    (get_partial_node_loop k s allowed l st object available).1.requests = st.requests ∧
    (get_partial_node_loop k s allowed l st object available).1.c.freelist = st.c.freelist := by
  intro l
  induction l with
  | nil =>
    intro st object available h _ _ hcn _
    exact ⟨h, hcn, fun q hq => hq, rfl, rfl⟩
  | cons p rest ih =>
    intro st object available h hnd hsub hcn hk
    have hp : p ∈ st.n.partial_ := hsub p (List.mem_cons_self _ _)
    have hnd' := List.nodup_cons.mp hnd
    have hrest : ∀ q ∈ rest, q ∈ st.n.partial_.erase p := fun q hq =>
      (List.mem_erase_of_ne (fun (e : q = p) => hnd'.1 (by rw [← e]; exact hq))).mpr
        (hsub q (List.mem_cons_of_mem _ hq))
    rw [get_partial_node_loop]
    split
    · exact ih st object available h hnd'.2 (fun q hq => hsub q (List.mem_cons_of_mem _ hq))
        hcn hk
    · by_cases ho : object = []
      · subst ho
        obtain ⟨hne, hi⟩ := h.acquire_first (k := k) (hcn rfl) hp
        simp only [decide_True, if_true]
        rw [if_neg hne]
        split
        · exact ⟨hi, fun e => absurd e hne, fun q hq => hq, rfl, rfl⟩
        · rename_i hbrk
          have hhas : kmem_cache_has_cpu_partial k s = true := by
            cases hh : kmem_cache_has_cpu_partial k s
            · rw [hh] at hbrk; simp at hbrk
            · rfl
          exact ih _ _ _ hi hnd'.2 hrest (fun e => absurd e hne)
            (fun _ => has_cpu_partial_config hhas)
      · obtain ⟨hne, hi⟩ := h.acquire_more (k := k) hp
        have h2 := hi.put_partial_ok (hk ho) false
        simp only [ho, decide_False, if_false]
        rw [if_neg hne]
        split
        · exact ⟨h2.1, fun e => absurd e ho, h2.2.slabs, h2.2.requests, h2.2.cfl⟩
        · have h3 := ih _ _ (available + (acquire_slab k st p false).2.2) h2.1 hnd'.2
            (fun q hq => h2.2.npart q (hrest q hq)) (fun e => absurd e ho) hk
          exact ⟨h3.1, h3.2.1, fun q hq => h2.2.slabs q (h3.2.2.1 q hq),
            h3.2.2.2.1.trans h2.2.requests, h3.2.2.2.2.trans h2.2.cfl⟩

/-- The function `get_partial` called without a CPU slab. -/
theorem InvG.get_partial_ok {s : kmem_cache} {st : State} {live : List Obj}
    (h : InvG s st [] live none []) (k : Kconfig) (allowed : Bool) (hc : st.c.page = none) :
    InvG s ( get_partial k s allowed st).1 ( get_partial k s allowed st).2 live none [] ∧
    (( get_partial k s allowed st).2 = [] → ( get_partial k s allowed st).1.c.page = none) ∧
    (∀ q ∈ ( get_partial k s allowed st).1.slabs, q ∈ st.slabs) ∧
    ( get_partial k s allowed st).1.requests = st.requests ∧
    ( get_partial k s allowed st).1.c.freelist = st.c.freelist := by
  unfold get_partial get_partial_node
  split
  · exact ⟨h, fun _ => hc, fun q hq => hq, rfl, rfl⟩
  · exact InvG.get_partial_loop _ st [] 0 h h.npart_nodup (fun q hq => hq) (fun _ => hc)
      (fun e => absurd rfl e)

/-! ### `new_slab` -/

/-- A page fresh from the page allocator becomes the CPU slab, all its objects
on the per-CPU chain. -/
theorem InvG.new_page {s : kmem_cache} {st : State} {live : List Obj} {a : Nat}
    (h : InvG s st [] live none []) (st' : State) (hc : st.c.page = none) (ha : a ∉ st.slabs)
    (hslabs : st'.slabs = a :: st.slabs) (hmem : ∀ q, q ≠ a → st'.mem q = st.mem q)
    (hfl : (st'.mem a).freelist = []) (hin : (st'.mem a).inuse = (st'.mem a).objects)
    (hfz : (st'.mem a).frozen = true)
    (hgeo : ((st'.mem a).objects = oo_objects s.oo ∧ (st'.mem a).order = oo_order s.oo) ∨
      ((st'.mem a).objects = oo_objects s.min ∧ (st'.mem a).order = oo_order s.min))
    (hcp : st'.c.page = some a) (hcpart : st'.c.partial_ = st.c.partial_)
    (hnp : st'.n.partial_ = st.n.partial_) (hnr : st'.n.nr_partial = st.n.nr_partial)
    (hns : st'.n.nr_slabs = st.n.nr_slabs + 1)
    (hto : st'.n.total_objects = st.n.total_objects + ((st'.mem a).objects : Int)) :
    InvG s st' ((List.range (st'.mem a).objects).map (fun i => Obj.mk a i)) live none [] := by
  have hne : ∀ q ∈ st.slabs, q ≠ a := fun q hq e => ha (e ▸ hq)
  refine ⟨?_, ?_, ?_, ?_, ?_, ?_, ?_, ?_, ?_, ?_, ?_, List.nodup_nil, ?_, ?_, ?_, ?_,
    h.live_nodup, ?_, ?_, ?_⟩
  · rw [hslabs]; exact List.nodup_cons.mpr ⟨ha, h.slabs_nodup⟩
  · intro q hq
    rw [hslabs] at hq
    rcases List.mem_cons.mp hq with e | hq
    · subst e
      refine ⟨by rw [hfl, hin]; rfl, hgeo, by rw [hfl]; exact List.nodup_nil, ?_⟩
      intro x hx; rw [hfl] at hx; simp at hx
    · rw [hmem q (hne q hq)]; exact h.wf q hq
  · intro q hq
    rw [hcp] at hq
    have e : a = q := Option.some.inj hq
    subst e
    refine ⟨by rw [hslabs]; exact List.mem_cons_self _ _, hfz, ?_⟩
    rw [hcpart]
    intro hm
    exact ha (h.cpart _ hm).1
  · intro e; rw [hcp] at e; simp at e
  · refine List.Nodup.map ?_ (List.nodup_range _)
    intro i j e
    exact congrArg Obj.idx e
  · intro x hx
    simp only [List.mem_map, List.mem_range] at hx
    obtain ⟨i, hi, rfl⟩ := hx
    refine ⟨hcp, hi, ?_⟩
    show _ ∉ (st'.mem a).freelist
    rw [hfl]; simp
  · rw [hcpart]; exact h.cpart_nodup
  · intro q hq
    rw [hcpart] at hq
    have := h.cpart q hq
    rw [hslabs, hmem q (hne q this.1)]
    exact ⟨List.mem_cons_of_mem _ this.1, this.2⟩
  · rw [hnp]; exact h.npart_nodup
  · intro q hq
    rw [hnp] at hq
    have := h.npart q hq
    rw [hslabs, hmem q (hne q this.1)]
    exact ⟨List.mem_cons_of_mem _ this.1, this.2⟩
  · intro q hq; simp at hq
  · intro q hq; simp at hq
  · intro q hq hf
    rw [hslabs] at hq
    rcases List.mem_cons.mp hq with e | hq
    · subst e; exact Or.inl hcp
    · rw [hmem q (hne q hq)] at hf
      rcases h.frozen_owned q hq hf with e | e | e
      · rw [hc] at e; simp at e
      · rw [hcpart]; exact Or.inr (Or.inl e)
      · simp at e
  · intro q hq hf hl
    rw [hslabs] at hq
    rcases List.mem_cons.mp hq with e | hq
    · subst e; rw [hfz] at hf; simp at hf
    · rw [hmem q (hne q hq)] at hf hl
      rw [hnp]
      exact h.unfrozen_listed q hq hf hl
  · rw [hnr, hnp]; exact h.nr_partial
  · intro x hx
    have := h.live_ok x hx
    have e := hne _ this.1
    rw [hslabs, hmem _ e]
    refine ⟨List.mem_cons_of_mem _ this.1, this.2.1, this.2.2.1, ?_⟩
    intro hm
    simp only [List.mem_map] at hm
    obtain ⟨i, _, rfl⟩ := hm
    exact e rfl
  · rw [hns, hslabs, h.nr_slabs]
    simp
  · rw [hto, hslabs, h.total_objects]
    simp only [List.map_cons, List.sum_cons]
    rw [sum_map_congr st.slabs (fun p => ((st'.mem p).objects : Int))
      (fun p => ((st.mem p).objects : Int)) (fun q hq => by simp only; rw [hmem q (hne q hq)])]
    omega

theorem new_slab_spec (s : kmem_cache) (src : PageSource) (st : State) (ho : Opened s)
    (a : Nat × Bool) (h : src.got = some a) :
    ∃ st1 oo, new_slab s src st = (st1, some a.1) ∧ (oo = s.oo ∨ oo = s.min) ∧
      st1.mem a.1 = { st.mem a.1 with
        objects := oo_objects oo, order := oo_order oo, pfmemalloc := a.2,
        freelist := (List.range (oo_objects oo)).map (fun i => Obj.mk a.1 i),
        inuse := oo_objects oo, frozen := true } ∧
      (∀ q, q ≠ a.1 → st1.mem q = st.mem q) ∧ st1.c = st.c ∧ st1.slabs = a.1 :: st.slabs ∧
      st1.n = inc_slabs_node st.n (oo_objects oo) := by
  obtain ⟨_, o1, o2, o3, o4⟩ := ho
  unfold MAX_OBJS_PER_PAGE at o2 o4
  have fin : ∀ oo : kmem_cache_order_objects, (oo = s.oo ∨ oo = s.min) →
      1 ≤ oo_objects oo → oo_objects oo ≤ 32767 →
      allocate_slab s src st = ({ setPage { st with requests := st.requests + 1 } a.1
              { st.mem a.1 with objects := oo_objects oo % 32768, order := oo_order oo,
                                pfmemalloc := a.2 } with slabs := a.1 :: st.slabs }, some a.1) →
      ∃ st1 oo, new_slab s src st = (st1, some a.1) ∧ (oo = s.oo ∨ oo = s.min) ∧
      st1.mem a.1 = { st.mem a.1 with
        objects := oo_objects oo, order := oo_order oo, pfmemalloc := a.2,
        freelist := (List.range (oo_objects oo)).map (fun i => Obj.mk a.1 i),
        inuse := oo_objects oo, frozen := true } ∧
      (∀ q, q ≠ a.1 → st1.mem q = st.mem q) ∧ st1.c = st.c ∧ st1.slabs = a.1 :: st.slabs ∧
      st1.n = inc_slabs_node st.n (oo_objects oo) := by
    intro oo hoo h1 h2 e
    have hm : oo_objects oo % 32768 = oo_objects oo := Nat.mod_eq_of_lt (by omega)
    have hz : ¬ (oo_objects oo = 0) := by omega
    unfold new_slab
    rw [e]
    refine ⟨_, oo, rfl, hoo, ?_, ?_, rfl, rfl, ?_⟩
    · simp only [setPage_mem_same, hm, if_neg hz]
    · intro q hq
      simp only [setPage_mem_ne _ _ _ _ hq]
    · simp [setPage, hm]
  unfold PageSource.got at h
  rcases hp : src.pref with _ | b
  · rw [hp] at h
    simp only at h
    apply fin s.min (Or.inr rfl) o3 o4
    unfold allocate_slab
    simp only [hp, h]
  · rw [hp] at h
    simp only [Option.some.injEq] at h
    subst h
    apply fin s.oo (Or.inl rfl) o1 o2
    unfold allocate_slab
    simp only [hp]

/-! ### `__slab_alloc` -/

/-- The function `new_slab_objects` called without a CPU slab: the chain it
returns is that of the new CPU slab. -/
theorem InvG.new_slab_objects_ok {s : kmem_cache} {src : PageSource} {st : State}
    {live : List Obj} (h : InvG s st [] live none []) (k : Kconfig) (allowed : Bool)
    (hg : Opened s) (hc : st.c.page = none) (hsrc : SrcOk st src) :
    InvG s (new_slab_objects k s allowed src st).1 (new_slab_objects k s allowed src st).2
      live none [] ∧
    ((new_slab_objects k s allowed src st).2 = [] →
      (new_slab_objects k s allowed src st).1.c.page = none ∧
      (new_slab_objects k s allowed src st).1.c.freelist = st.c.freelist) := by
  obtain ⟨g1, g2, g3, _, g5⟩ := h.get_partial_ok k allowed hc
  unfold new_slab_objects
  simp only []
  split
  · rename_i hne
    exact ⟨g1, fun e => absurd e hne⟩
  · rename_i hnil
    have hnil' : ( get_partial k s allowed st).2 = [] := by simpa using hnil
    rw [hnil'] at g1
    have gc := g2 hnil'
    rcases hgot : src.got with _ | a
    · have hp : src.pref = none ∧ src.min = none := by
        unfold PageSource.got at hgot
        rcases hp : src.pref with _ | b
        · rw [hp] at hgot; exact ⟨rfl, hgot⟩
        · rw [hp] at hgot; simp at hgot
      rw [new_slab_fail s src _ hp.1 hp.2]
      exact ⟨g1.congr rfl rfl rfl rfl rfl, fun _ => ⟨gc, g5⟩⟩
    · have ha : a.1 ∉ ( get_partial k s allowed st).1.slabs := fun hm =>
        hsrc a hgot (g3 _ hm)
      obtain ⟨st1, oo, e1, hoo, e2, e3, e4, e5, e6⟩ :=
        new_slab_spec s src ( get_partial k s allowed st).1 hg a hgot
      rw [e1]
      have hcn : st1.c.page = none := by rw [e4]; exact gc
      simp only [hcn, Option.isSome_none, Bool.false_eq_true, if_false]
      have hobj : (st1.mem a.1).objects = oo_objects oo := by rw [e2]
      have hfl : (st1.mem a.1).freelist =
          (List.range (oo_objects oo)).map (fun i => Obj.mk a.1 i) := by rw [e2]
      rw [hfl]
      have hi := g1.new_page { setPage st1 a.1 { st1.mem a.1 with freelist := [] } with
          c := { st1.c with page := some a.1 } } gc ha e5
        (fun q hq => by
          show (setPage st1 a.1 _).mem q = _
          rw [setPage_mem_ne _ _ _ _ hq]; exact e3 q hq)
        (by simp [setPage]) (by simp [setPage, e2]) (by simp [setPage, e2])
        (by
          simp only [setPage, if_true, e2]
          rcases hoo with e | e <;> rw [e]
          · exact Or.inl ⟨rfl, rfl⟩
          · exact Or.inr ⟨rfl, rfl⟩)
        rfl (by simp [e4]) (by simp [e6, inc_slabs_node]) (by simp [e6, inc_slabs_node])
        (by simp [e6, inc_slabs_node]) (by simp [setPage, e6, inc_slabs_node, e2])
      have hobj2 : (({ setPage st1 a.1 { st1.mem a.1 with freelist := [] } with
          c := { st1.c with page := some a.1 } } : State).mem a.1).objects = oo_objects oo := by
        simp [setPage, e2]
      rw [hobj2] at hi
      refine ⟨hi, fun e => ?_⟩
      exact absurd e (range_map_ne_nil _ _ (by
        rcases hoo with e | e <;> rw [e]
        · exact hg.2.1
        · exact hg.2.2.2.1))

theorem InvG.load_freelist_ok {s : kmem_cache} {st : State} {x : Obj} {next live : List Obj}
    (h : InvG s st (x :: next) live none []) : AllocOk s live (load_freelist st (x :: next)) := by
  obtain ⟨h1, h2⟩ := h.pop
  exact ⟨h1.congr rfl rfl rfl rfl rfl, h2⟩

/-- The part of `__slab_alloc` from `redo` on: it hands out an object of the
CPU slab, or leaves the CPU without a slab. -/
theorem InvG.slab_alloc_redo_ok {s : kmem_cache} {st : State} {live : List Obj} {p : Nat}
    (h : InvG s st st.c.freelist live none []) (allowed : Bool) (hg : Opened s)
    (hc : st.c.page = some p) :
    AllocOk s live (slab_alloc_redo s allowed st p) ∧
    ((slab_alloc_redo s allowed st p).2 = none →
      (slab_alloc_redo s allowed st p).1.c.page = none ∧
      (slab_alloc_redo s allowed st p).1.c.freelist = [] ∧
      (slab_alloc_redo s allowed st p).1.c.partial_ = st.c.partial_ ∧
      ∀ q ∈ (slab_alloc_redo s allowed st p).1.slabs, q ∈ st.slabs) := by
  unfold slab_alloc_redo
  split
  · obtain ⟨d1, d2, d3, _⟩ := h.deactivate hg hc { deactivate_slab s st p st.c.freelist with
      c := { (deactivate_slab s st p st.c.freelist).c with page := none, freelist := [] } }
      rfl rfl rfl rfl rfl
    exact ⟨d1, fun _ => ⟨rfl, rfl, d2, d3⟩⟩
  · split
    · rename_i hne
      rcases hfl : st.c.freelist with _ | ⟨x, next⟩
      · exact absurd hfl hne
      · rw [hfl] at h
        refine ⟨h.load_freelist_ok, fun e => ?_⟩
        simp [load_freelist] at e
    · rename_i hnil
      have hnil' : st.c.freelist = [] := by simpa using hnil
      rw [hnil'] at h
      simp only []
      split
      · rename_i hfl
        have := h.get_freelist_none hc hfl
        refine ⟨?_, fun _ => ⟨rfl, hnil', rfl, fun q hq => hq⟩⟩
        show InvG s _ st.c.freelist live none []
        rw [hnil']
        exact this
      · rename_i hfl
        have := h.get_freelist_some hc hfl
        rcases hr : (get_freelist st p).2 with _ | ⟨x, next⟩
        · exact absurd hr hfl
        · rw [hr] at this
          refine ⟨this.load_freelist_ok, fun e => ?_⟩
          simp [load_freelist] at e

/-- The first page of `c->partial` becomes the CPU slab. -/
theorem InvG.take_cpu_partial {s : kmem_cache} {st : State} {live : List Obj} {p : Nat}
    {next : List Nat} (h : InvG s st [] live none []) (hc : st.c.page = none)
    (hp : st.c.partial_ = p :: next) :
    InvG s { st with c := { st.c with page := some p, partial_ := next, freelist := [] } }
      [] live none [] := by
  have hnd := List.nodup_cons.mp (hp ▸ h.cpart_nodup)
  obtain ⟨hps, hfz, hfl⟩ := h.cpart p (by rw [hp]; exact List.mem_cons_self _ _)
  refine h.update p hps rfl (fun _ _ => rfl) rfl (h.wf p hps) ?_ ?_ (fun _ _ => Iff.rfl)
    (fun _ _ => Iff.rfl) (fun _ _ => Iff.rfl) hnd.2 h.npart_nodup List.nodup_nil h.nr_partial
    rfl rfl ?_ ?_ ?_ ?_ ?_ ?_ ?_ (fun _ => rfl) List.nodup_nil ?_ ?_ h.live_nodup
    (fun y hy _ => hy) ?_ ?_
  · intro q hq
    show (some p = some q ↔ st.c.page = some q)
    rw [hc]
    constructor
    · intro e; exact absurd (Option.some.inj e).symm hq
    · intro e; simp at e
  · intro q hq
    show (q ∈ next ↔ q ∈ st.c.partial_)
    rw [hp]
    simp [hq]
  · intro _; exact ⟨hfz, hnd.1⟩
  · intro e; exact absurd e hnd.1
  · intro e; exact absurd hfz (by rw [(h.npart p e).2.1]; simp)
  · intro e; simp at e
  · intro e; simp at e
  · intro _; exact Or.inl rfl
  · intro e
    have : (st.mem p).frozen = false := e
    rw [hfz] at this; simp at this
  · intro y hy; simp at hy
  · intro y hy; simp at hy
  · intro y hy e
    have := h.live_ok y hy
    rw [e] at this
    exact ⟨this.2.1, this.2.2.1⟩
  · intro y _ hm; simp at hm

/-- The part of `__slab_alloc` from `new_slab` on, entered without a CPU slab. -/
theorem InvG.slab_alloc_new_slab_ok {k : Kconfig} {s : kmem_cache} {allowed : Bool}
    {src : PageSource} {live : List Obj} (hg : Opened s) : ∀ (chain : List Nat) (st : State),
    InvG s st [] live none [] → st.c.page = none → st.c.freelist = [] →
    st.c.partial_ = chain → SrcOk st src →
    AllocOk s live (slab_alloc_new_slab k s allowed src chain st) := by
  intro chain
  induction chain with
  | nil =>
    intro st h hc hfl _ hsrc
    obtain ⟨n1, n2⟩ := h.new_slab_objects_ok k allowed hg hc hsrc
    rw [slab_alloc_new_slab]
    simp only []
    split
    · rename_i e
      rw [e] at n1
      have := n2 e
      show InvG s _ (new_slab_objects k s allowed src st).1.c.freelist live none []
      rw [this.2, hfl]
      exact n1
    · rename_i object next e1 e2
      rw [e1] at n1
      have := n1.cnone e2
      simp at this
    · rename_i object next page e1 e2
      rw [e1] at n1
      split
      · exact n1.load_freelist_ok
      · obtain ⟨p1, p2⟩ := n1.pop
        obtain ⟨d1, _⟩ := p1.deactivate hg e2 { deactivate_slab s
            (new_slab_objects k s allowed src st).1 page next with
          c := { (deactivate_slab s (new_slab_objects k s allowed src st).1 page next).c with
            page := none, freelist := [] } } rfl rfl rfl rfl rfl
        exact ⟨d1, p2⟩
  | cons p next ih =>
    intro st h hc hfl hp hsrc
    have h1 : InvG s
        { st with c := { st.c with page := some p, partial_ := next, freelist := [] } }
        ({ st with c := { st.c with page := some p, partial_ := next, freelist := [] } } :
          State).c.freelist live none [] := h.take_cpu_partial hc hp
    obtain ⟨r1, r2⟩ := h1.slab_alloc_redo_ok allowed hg rfl
    rw [slab_alloc_new_slab]
    simp only []
    split
    · rename_i st' object e
      rw [e] at r1
      exact r1
    · rename_i st' e
      rw [e] at r1 r2
      obtain ⟨c1, c2, c3, c4⟩ := r2 rfl
      have r1' : InvG s st' st'.c.freelist live none [] := r1
      rw [c2] at r1'
      exact ih st' r1' c1 c2 c3 (fun a ha hm => hsrc a ha (c4 _ hm))

theorem InvG.slab_alloc_ok {k : Kconfig} {s : kmem_cache} {allowed : Bool}
    {src : PageSource} {st : State} {live : List Obj} (h : InvG s st st.c.freelist live none [])
    (hg : Opened s) (hfl : st.c.freelist = []) (hsrc : SrcOk st src) :
    AllocOk s live (__slab_alloc k s allowed src st) := by
  unfold __slab_alloc
  split
  · rename_i hc
    rw [hfl] at h
    exact InvG.slab_alloc_new_slab_ok hg _ st h hc hfl rfl hsrc
  · rename_i p hc
    obtain ⟨r1, r2⟩ := h.slab_alloc_redo_ok allowed hg hc
    split
    · rename_i st' object e
      rw [e] at r1
      exact r1
    · rename_i st' e
      rw [e] at r1 r2
      obtain ⟨c1, c2, c3, c4⟩ := r2 rfl
      have r1' : InvG s st' st'.c.freelist live none [] := r1
      rw [c2] at r1'
      exact InvG.slab_alloc_new_slab_ok hg _ st' r1' c1 c2 rfl
        (fun a ha hm => hsrc a ha (c4 _ hm))

/-- The function `kmem_cache_alloc` keeps the invariant, and an object it
returns was not handed out before. -/
theorem Inv.alloc_ok {s : kmem_cache} {src : PageSource} {r : Run} (h : Inv s r)
    (k : Kconfig) (allowed : Bool) (hg : Opened s) (hsrc : SrcOk r.st src) :
    AllocOk s r.live (kmem_cache_alloc k s allowed src r.st) := by
  unfold Inv at h
  unfold kmem_cache_alloc slab_alloc_node
  split
  · rename_i hfl
    exact h.slab_alloc_ok hg hfl hsrc
  · rename_i x next hfl
    rw [hfl] at h
    obtain ⟨p1, p2⟩ := h.pop
    exact ⟨p1.congr rfl rfl rfl rfl rfl, p2⟩

theorem Inv.of_fresh (s : kmem_cache) : Inv s fresh := by
  unfold Inv fresh
  refine ⟨List.nodup_nil, ?_, ?_, fun _ => rfl, List.nodup_nil, ?_, List.nodup_nil, ?_,
    List.nodup_nil, ?_, ?_, List.nodup_nil, ?_, ?_, ?_, rfl, List.nodup_nil, ?_, rfl, rfl⟩
  all_goals intro x hx
  all_goals simp at hx

/-- A well-formed call keeps the invariant. -/
theorem Inv.step_ok {k : Kconfig} {s : kmem_cache} {r : Run} (h : Inv s r) (hg : Opened s)
    (op : Op) (hop : OpOk r op) : Inv s (step k s r op) := by
  cases op with
  | alloc allowed src =>
    have h1 := h.alloc_ok k allowed hg hop
    rcases hr : (kmem_cache_alloc k s allowed src r.st).2 with _ | x
    · rw [step_alloc_none k s r allowed src hr]
      unfold AllocOk at h1
      rw [hr] at h1
      exact h1
    · rw [step_alloc_some k s r allowed src x hr]
      unfold AllocOk at h1
      rw [hr] at h1
      exact h1.1
  | free x => exact h.free_ok hg hop

/-- A well-formed sequence of calls keeps the invariant. -/
theorem Inv.run_ok {k : Kconfig} {s : kmem_cache} (hg : Opened s) : ∀ (ops : List Op) (r : Run),
    Inv s r → TraceOk k s r ops → Inv s (run k s r ops) := by
  intro ops
  induction ops with
  | nil => intro r h _; exact h
  | cons op ops ih =>
    intro r h ht
    exact ih _ (h.step_ok hg op ht.1) ht.2

theorem all_objects_length (st : State) :
    ((all_objects st).length : Int) = (st.slabs.map (fun p => ((st.mem p).objects : Int))).sum := by
  unfold all_objects
  induction st.slabs with
  | nil => rfl
  | cons a l ih =>
    simp only [List.flatMap_cons, List.length_append, List.length_map, List.length_range,
      List.map_cons, List.sum_cons, Nat.cast_add, ih]

theorem InvG.live_le_total {s : kmem_cache} {st : State} {cfl live : List Obj} {t : Option Nat}
    {d : List Nat} (h : InvG s st cfl live t d) : (live.length : Int) ≤ st.n.total_objects := by
  rw [h.total_objects, ← all_objects_length]
  have hsub : live ⊆ all_objects st := by
    intro x hx
    have := h.live_ok x hx
    unfold all_objects
    simp only [List.mem_flatMap, List.mem_map, List.mem_range]
    exact ⟨x.page, this.1, x.idx, this.2.1, rfl⟩
  exact_mod_cast (h.live_nodup.subperm hsub).length_le

/-- For a cache without debug flags whose slabs hold between 1 and
`MAX_OBJS_PER_PAGE` objects: after any sequence of `kmem_cache_alloc` and
`kmem_cache_free` calls on the freshly opened cache in which every freed
pointer is live, a pointer returned by the next `kmem_cache_alloc` is not live
at that moment. -/
theorem slab_alloc_never_live (k : Kconfig) (s : kmem_cache) (ho : Opened s) (ops : List Op)
    (ht : TraceOk k s fresh ops) (allowed : Bool) (src : PageSource)
    (hsrc : SrcOk (run k s fresh ops).st src) (x : Obj)
    (hx : (kmem_cache_alloc k s allowed src (run k s fresh ops).st).2 = some x) :
    x ∉ (run k s fresh ops).live := by
  have h := Inv.run_ok ho ops fresh (Inv.of_fresh s) ht
  have h1 := h.alloc_ok k allowed ho hsrc
  unfold AllocOk at h1
  rw [hx] at h1
  exact h1.2

theorem slab_alloc_never_live_witness :
    (kmem_cache_alloc rpi2 (open_cache rpi2 cache48) false {}
      (run rpi2 (open_cache rpi2 cache48) fresh trace3).st).2 = some ⟨1, 0⟩ ∧
    (⟨1, 0⟩ : Obj) ∉ (run rpi2 (open_cache rpi2 cache48) fresh trace3).live :=
  ⟨by decide!, slab_alloc_never_live rpi2 (open_cache rpi2 cache48) open_cache48_opened trace3
    (by decide!) false {} (by decide!) ⟨1, 0⟩ (by decide!)⟩

/-- For a cache without debug flags whose slabs hold between 1 and
`MAX_OBJS_PER_PAGE` objects: in every state reached from the freshly opened
cache by `kmem_cache_alloc` and well-formed `kmem_cache_free` calls, every slab
page has `inuse <= objects`, and `page->objects` is the object count of the
order the page was allocated at: that of `s->oo` or that of `s->min`. -/
theorem slab_page_counters (k : Kconfig) (s : kmem_cache) (ho : Opened s) (ops : List Op)
    (ht : TraceOk k s fresh ops) (p : Nat) (hp : p ∈ (run k s fresh ops).st.slabs) :
    0 ≤ ((run k s fresh ops).st.mem p).inuse ∧
    ((run k s fresh ops).st.mem p).inuse ≤ ((run k s fresh ops).st.mem p).objects ∧
    ((((run k s fresh ops).st.mem p).order = oo_order s.oo ∧
        ((run k s fresh ops).st.mem p).objects = oo_objects s.oo) ∨
      (((run k s fresh ops).st.mem p).order = oo_order s.min ∧
        ((run k s fresh ops).st.mem p).objects = oo_objects s.min)) := by
  have h := Inv.run_ok ho ops fresh (Inv.of_fresh s) ht
  have hwf := h.wf p hp
  refine ⟨Nat.zero_le _, ?_, ?_⟩
  · have := hwf.1; omega
  · rcases hwf.2.1 with ⟨e1, e2⟩ | ⟨e1, e2⟩
    · exact Or.inl ⟨e2, e1⟩
    · exact Or.inr ⟨e2, e1⟩

theorem slab_page_counters_witness :
    1 ∈ (run rpi2 (open_cache rpi2 cache48) fresh trace3).st.slabs ∧
    0 ≤ ((run rpi2 (open_cache rpi2 cache48) fresh trace3).st.mem 1).inuse ∧
    ((run rpi2 (open_cache rpi2 cache48) fresh trace3).st.mem 1).inuse ≤
      ((run rpi2 (open_cache rpi2 cache48) fresh trace3).st.mem 1).objects ∧
    ((((run rpi2 (open_cache rpi2 cache48) fresh trace3).st.mem 1).order =
          oo_order (open_cache rpi2 cache48).oo ∧
        ((run rpi2 (open_cache rpi2 cache48) fresh trace3).st.mem 1).objects =
          oo_objects (open_cache rpi2 cache48).oo) ∨
      (((run rpi2 (open_cache rpi2 cache48) fresh trace3).st.mem 1).order =
          oo_order (open_cache rpi2 cache48).min ∧
        ((run rpi2 (open_cache rpi2 cache48) fresh trace3).st.mem 1).objects =
          oo_objects (open_cache rpi2 cache48).min)) :=
  ⟨by decide!, slab_page_counters rpi2 (open_cache rpi2 cache48) open_cache48_opened trace3
    (by decide!) 1 (by decide!)⟩

/-- For a cache without debug flags whose slabs hold between 1 and
`MAX_OBJS_PER_PAGE` objects: in every reachable state the counter
`total_objects` of the node is the sum of `page->objects` over the slabs
`new_slab` produced and `discard_slab` has not released, `nr_slabs` is the
number of those slabs, and the number of live objects does not exceed
`total_objects`. -/
theorem node_slab_counters (k : Kconfig) (s : kmem_cache) (ho : Opened s) (ops : List Op)
    (ht : TraceOk k s fresh ops) :
    (run k s fresh ops).st.n.total_objects =
      ((run k s fresh ops).st.slabs.map
        (fun p => (((run k s fresh ops).st.mem p).objects : Int))).sum ∧
    (run k s fresh ops).st.n.nr_slabs = ((run k s fresh ops).st.slabs.length : Int) ∧
    ((run k s fresh ops).live.length : Int) ≤ (run k s fresh ops).st.n.total_objects := by
  have h := Inv.run_ok ho ops fresh (Inv.of_fresh s) ht
  exact ⟨h.total_objects, h.nr_slabs, h.live_le_total⟩

theorem node_slab_counters_witness :
    (run rpi2 (open_cache rpi2 cache16k) fresh ops16k).st.n.total_objects =
      ((run rpi2 (open_cache rpi2 cache16k) fresh ops16k).st.slabs.map
        (fun p => (((run rpi2 (open_cache rpi2 cache16k) fresh ops16k).st.mem p).objects :
          Int))).sum ∧
    (run rpi2 (open_cache rpi2 cache16k) fresh ops16k).st.n.nr_slabs =
      ((run rpi2 (open_cache rpi2 cache16k) fresh ops16k).st.slabs.length : Int) ∧
    ((run rpi2 (open_cache rpi2 cache16k) fresh ops16k).live.length : Int) ≤
      (run rpi2 (open_cache rpi2 cache16k) fresh ops16k).st.n.total_objects :=
  node_slab_counters rpi2 (open_cache rpi2 cache16k) (by unfold Opened; decide!) ops16k
    (by decide!)

/-! ## The order of a cache: how many objects it aims at, and when it fails -/

theorem flsAux_le (fuel : Nat) : ∀ (x n : Nat), x < 2 ^ n → flsAux fuel x ≤ n := by
  induction fuel with
  | zero => intro x n _; exact Nat.zero_le _
  | succ f ih =>
    intro x n h
    unfold flsAux
    split
    · exact Nat.zero_le _
    · rename_i hx
      cases n with
      | zero => simp at h; exact absurd h hx
      | succ n =>
        have : x / 2 < 2 ^ n := by
          rw [Nat.div_lt_iff_lt_mul (by decide)]
          rw [Nat.pow_succ] at h
          exact h
        have := ih (x / 2) n this
        omega

theorem flsAux_lt (fuel : Nat) : ∀ (x n : Nat), n < flsAux fuel x → 2 ^ n ≤ x := by
  induction fuel with
  | zero => intro x n h; simp [flsAux] at h
  | succ f ih =>
    intro x n h
    unfold flsAux at h
    split at h
    · simp at h
    · rename_i hx
      cases n with
      | zero => simp; omega
      | succ n =>
        have := ih (x / 2) n (by omega)
        rw [Nat.pow_succ]
        have := Nat.div_mul_le_self x 2
        omega

theorem flsAux_pow (fuel j : Nat) (h : j < fuel) : flsAux fuel (2 ^ j) = j + 1 := by
  induction fuel generalizing j with
  | zero => omega
  | succ f ih =>
    unfold flsAux
    have hp : 2 ^ j ≠ 0 := Nat.pos_iff_ne_zero.mp (Nat.pow_pos (by decide))
    rw [if_neg hp]
    cases j with
    | zero => cases f <;> simp [flsAux]
    | succ j =>
      rw [Nat.pow_succ, Nat.mul_div_cancel _ (by decide : 0 < 2)]
      rw [ih j (by omega)]

/-- C12 as stated fails: with `slub_min_objects = 0` and four CPUs the number
of objects `calculate_order` first tries to host is 16, not
`4 * (log2(4) + 1) = 12`. -/
theorem calculate_order_min_objects_4cpus :
    rpi2.slub_min_objects = 0 ∧ rpi2.nr_cpu_ids = 2 ^ 2 ∧
    order_objects rpi2 rpi2.slub_max_order 64 0 = 512 ∧
    calculate_order_min_objects rpi2 64 0 = 16 ∧
    calculate_order_min_objects rpi2 64 0 ≠
      min (4 * (2 + 1)) (order_objects rpi2 rpi2.slub_max_order 64 0) := by
  decide

/-- C12, amended: with `slub_min_objects = 0` and `nr_cpu_ids = 2 ^ j`, the
number of objects per slab `calculate_order` first tries to host is
`4 * (fls(nr_cpu_ids) + 1) = 4 * (j + 2)`, capped by the number of objects
that fit a block of order `slub_max_order`. -/
theorem calculate_order_min_objects_pow2 (k : Kconfig) (size reserved j : Nat)
    (hmin : k.slub_min_objects = 0) (hcpu : k.nr_cpu_ids = 2 ^ j) (hj : j < 31) :
    calculate_order_min_objects k size reserved =
      min (4 * (fls k.nr_cpu_ids + 1)) (order_objects k k.slub_max_order size reserved) ∧
    calculate_order_min_objects k size reserved =
      min (4 * (j + 2)) (order_objects k k.slub_max_order size reserved) := by
  have hf : fls k.nr_cpu_ids = j + 1 := by
    unfold fls
    rw [hcpu]
    exact flsAux_pow 32 j (by omega)
  unfold calculate_order_min_objects
  simp only [hmin, if_true, hf]
  exact ⟨trivial, trivial⟩

theorem calculate_order_min_objects_pow2_witness :
    calculate_order_min_objects rpi2 64 0 =
      min (4 * (fls rpi2.nr_cpu_ids + 1)) (order_objects rpi2 rpi2.slub_max_order 64 0) ∧
    calculate_order_min_objects rpi2 64 0 =
      min (4 * (2 + 2)) (order_objects rpi2 rpi2.slub_max_order 64 0) :=
  calculate_order_min_objects_pow2 rpi2 64 0 2 rfl rfl (by decide)

theorem PAGE_SIZE_shift (k : Kconfig) (o : Nat) : PAGE_SIZE k <<< o = 2 ^ (k.PAGE_SHIFT + o) := by
  unfold PAGE_SIZE
  rw [Nat.shiftLeft_eq, Nat.shiftLeft_eq, Nat.one_mul, Nat.pow_add]

theorem PAGE_SIZE_mono (k : Kconfig) {a b : Nat} (h : a ≤ b) :
    PAGE_SIZE k <<< a ≤ PAGE_SIZE k <<< b := by
  rw [PAGE_SIZE_shift, PAGE_SIZE_shift]
  exact Nat.pow_le_pow_right (by decide) (by omega)

theorem slab_order_loop_ge (k : Kconfig) (size mo frac res : Nat) :
    ∀ (fuel order : Nat), order ≤ slab_order_loop k size mo frac res fuel order := by
  intro fuel
  induction fuel with
  | zero => intro order; exact Nat.le_refl _
  | succ f ih =>
    intro order
    unfold slab_order_loop
    simp only []
    split
    · exact Nat.le_trans (Nat.le_succ _) (ih (order + 1))
    · split
      · exact Nat.le_refl _
      · exact Nat.le_trans (Nat.le_succ _) (ih (order + 1))

theorem slab_order_loop_le (k : Kconfig) (size mo frac res : Nat) :
    ∀ (fuel order : Nat), slab_order_loop k size mo frac res fuel order ≤ order + fuel := by
  intro fuel
  induction fuel with
  | zero => intro order; exact Nat.le_refl _
  | succ f ih =>
    intro order
    unfold slab_order_loop
    simp only []
    split
    · have := ih (order + 1); omega
    · split
      · omega
      · have := ih (order + 1); omega

theorem get_order_le (k : Kconfig) (x m : Nat) (h : x ≤ PAGE_SIZE k <<< m) (hx : 1 ≤ x) :
    get_order k x ≤ m := by
  have hs : (x - 1) >>> k.PAGE_SHIFT < 2 ^ m := by
    rw [Nat.shiftRight_eq_div_pow, Nat.div_lt_iff_lt_mul (Nat.pow_pos (by decide))]
    rw [PAGE_SIZE_shift, Nat.pow_add, Nat.mul_comm] at h
    omega
  unfold get_order fls fls64
  split <;> exact flsAux_le _ _ _ hs

theorem new_slab_chain_loop_frame (s : kmem_cache)
    (setup_object : Nat → (Nat → Nat) → (Nat → Nat)) (n : Nat)
    (hsetup : ∀ p m a, (a < p ∨ p + s.size ≤ a) → setup_object p m a = m a) :
    ∀ (fuel p idx : Nat) (mem : Nat → Nat) (a : Nat), a < p →
      new_slab_chain_loop s setup_object n fuel p idx mem a = mem a := by
  intro fuel
  induction fuel with
  | zero => intro p idx mem a _; rfl
  | succ f ih =>
    intro p idx mem a ha
    unfold new_slab_chain_loop
    split
    · simp only []
      rw [ih (p + s.size) (idx + 1) _ a (by omega)]
      have hne : a ≠ p + s.offset := by omega
      split <;> simp only [set_freepointer, if_neg hne] <;> exact hsetup p mem a (Or.inl ha)
    · rfl

/-- After the loop the free pointer of the object number `j` counted from `p`
is the next object, and `NULL` for the last one. -/
theorem new_slab_chain_loop_spec (s : kmem_cache)
    (setup_object : Nat → (Nat → Nat) → (Nat → Nat)) (n : Nat) (hoff : s.offset < s.size)
    (hsetup : ∀ p m a, (a < p ∨ p + s.size ≤ a) → setup_object p m a = m a) :
    ∀ (fuel p idx : Nat) (mem : Nat → Nat) (j : Nat), idx + fuel = n + 1 → j < fuel →
      get_freepointer s (new_slab_chain_loop s setup_object n fuel p idx mem) (p + j * s.size) =
        if idx + j < n then p + (j + 1) * s.size else NULL := by
  intro fuel
  induction fuel with
  | zero => intro p idx mem j _ hj; omega
  | succ f ih =>
    intro p idx mem j hfuel hj
    unfold new_slab_chain_loop
    rw [if_pos (by omega)]
    simp only []
    cases j with
    | zero =>
      unfold get_freepointer
      rw [Nat.zero_mul, Nat.add_zero,
        new_slab_chain_loop_frame s setup_object n hsetup f (p + s.size) (idx + 1) _ _ (by omega)]
      by_cases h : idx < n
      · simp [set_freepointer, h]
      · simp [set_freepointer, h]
    | succ j =>
      have := ih (p + s.size) (idx + 1) (if idx < n
          then set_freepointer s (setup_object p mem) p (p + s.size)
          else set_freepointer s (setup_object p mem) p NULL) j (by omega) (by omega)
      have e1 : p + (j + 1) * s.size = p + s.size + j * s.size := by
        rw [Nat.add_mul, Nat.one_mul]; omega
      have e2 : p + (j + 1 + 1) * s.size = p + s.size + (j + 1) * s.size := by
        rw [Nat.add_mul (j + 1) 1, Nat.one_mul]; omega
      rw [e1, e2, this]
      have e3 : idx + 1 + j = idx + (j + 1) := by omega
      rw [e3]

theorem freelist_walk_spec (s : kmem_cache) (mem : Nat → Nat) (start n : Nat)
    (hstart : start ≠ NULL)
    (hfp : ∀ j, j < n → get_freepointer s mem (start + j * s.size) =
      if j + 1 < n then start + (j + 1) * s.size else NULL) :
    ∀ (d i : Nat), i + d = n → ∀ fuel, d ≤ fuel →
      freelist_walk s mem fuel (if i < n then start + i * s.size else NULL) =
        (List.range' i d).map (fun t => start + t * s.size) := by
  intro d
  induction d with
  | zero =>
    intro i hi fuel _
    rw [if_neg (by omega)]
    cases fuel <;> simp [freelist_walk]
  | succ d ih =>
    intro i hi fuel hfuel
    rw [if_pos (by omega)]
    cases fuel with
    | zero => omega
    | succ fuel =>
      unfold freelist_walk
      have hne : start + i * s.size ≠ NULL := by
        unfold NULL at hstart ⊢
        omega
      rw [if_neg hne, hfp i (by omega), ih (i + 1) (by omega) fuel (by omega)]
      rfl

theorem slab_index_chain (s : kmem_cache) (start i : Nat) (hsize : 0 < s.size) :
    slab_index s (start + i * s.size) start = i := by
  unfold slab_index
  rw [Nat.add_sub_cancel_left, Nat.mul_div_cancel _ hsize]

/-- C13: when `new_slab` returns a page with `page->objects = n >= 1` whose
memory starts at `start`, following the free pointers from `page->freelist =
start` visits exactly `start, start + size, ..., start + (n - 1) * size` in
that order and ends there (the free pointer of the last object is `NULL`), and
the page has `inuse == n` and `frozen == 1`; the chain of the page in the
allocator state is this chain, each object named by its `slab_index`. -/
theorem new_slab_free_chain (s : kmem_cache)
    (setup_object : Nat → (Nat → Nat) → (Nat → Nat)) (mem : Nat → Nat) (start n : Nat)
    (hn : 1 ≤ n) (hstart : start ≠ NULL) (hoff : s.offset < s.size)
    (hsetup : ∀ p m a, (a < p ∨ p + s.size ≤ a) → setup_object p m a = m a) :
    (∀ fuel, n ≤ fuel →
      freelist_walk s (new_slab_chain s setup_object start n mem) fuel start =
        (List.range n).map (fun i => start + i * s.size)) ∧
    get_freepointer s (new_slab_chain s setup_object start n mem) (start + (n - 1) * s.size) =
      NULL ∧
    ∀ (src : PageSource) (st : State) (a : Nat × Bool), Opened s → src.got = some a →
      ((new_slab s src st).1.mem a.1).objects = n →
      (new_slab s src st).2 = some a.1 ∧
      ((new_slab s src st).1.mem a.1).inuse = n ∧
      ((new_slab s src st).1.mem a.1).frozen = true ∧
      ((new_slab s src st).1.mem a.1).freelist =
        (freelist_walk s (new_slab_chain s setup_object start n mem) n start).map
          (fun p => Obj.mk a.1 (slab_index s p start)) := by
  have hfp : ∀ j, j < n →
      get_freepointer s (new_slab_chain s setup_object start n mem) (start + j * s.size) =
        if j + 1 < n then start + (j + 1) * s.size else NULL := by
    intro j hj
    unfold new_slab_chain
    rw [new_slab_chain_loop_spec s setup_object n hoff hsetup n start 1 mem j (by omega) hj]
    rw [Nat.add_comm 1 j]
  have hwalk : ∀ fuel, n ≤ fuel →
      freelist_walk s (new_slab_chain s setup_object start n mem) fuel start =
        (List.range n).map (fun i => start + i * s.size) := by
    intro fuel hfuel
    have := freelist_walk_spec s _ start n hstart hfp n 0 (by omega) fuel hfuel
    rw [if_pos (by omega), Nat.zero_mul, Nat.add_zero] at this
    rw [this, List.range_eq_range']
  refine ⟨hwalk, ?_, ?_⟩
  · rw [hfp (n - 1) (by omega), if_neg (by omega)]
  · intro src st a ho hgot hobj
    obtain ⟨st1, oo, e1, _, e2, _⟩ := new_slab_spec s src st ho a hgot
    rw [e1] at hobj ⊢
    simp only [] at hobj ⊢
    rw [e2] at hobj ⊢
    simp only [] at hobj ⊢
    rw [hobj, hwalk n (Nat.le_refl _)]
    refine ⟨trivial, rfl, trivial, ?_⟩
    rw [List.map_map]
    apply List.map_congr_left
    intro i _
    simp only [Function.comp, slab_index_chain s start i (by omega)]

theorem new_slab_free_chain_witness :
    (∀ fuel, 85 ≤ fuel →
      freelist_walk (open_cache rpi2 cache48)
          (new_slab_chain (open_cache rpi2 cache48) (fun _ m => m) 4096 85 (fun _ => 7))
          fuel 4096 =
        (List.range 85).map (fun i => 4096 + i * (open_cache rpi2 cache48).size)) ∧
    get_freepointer (open_cache rpi2 cache48)
        (new_slab_chain (open_cache rpi2 cache48) (fun _ m => m) 4096 85 (fun _ => 7))
        (4096 + (85 - 1) * (open_cache rpi2 cache48).size) = NULL ∧
    ∀ (src : PageSource) (st : State) (a : Nat × Bool), Opened (open_cache rpi2 cache48) →
      src.got = some a →
      ((new_slab (open_cache rpi2 cache48) src st).1.mem a.1).objects = 85 →
      (new_slab (open_cache rpi2 cache48) src st).2 = some a.1 ∧
      ((new_slab (open_cache rpi2 cache48) src st).1.mem a.1).inuse = 85 ∧
      ((new_slab (open_cache rpi2 cache48) src st).1.mem a.1).frozen = true ∧
      ((new_slab (open_cache rpi2 cache48) src st).1.mem a.1).freelist =
        (freelist_walk (open_cache rpi2 cache48)
          (new_slab_chain (open_cache rpi2 cache48) (fun _ m => m) 4096 85 (fun _ => 7))
          85 4096).map
          (fun p => Obj.mk a.1 (slab_index (open_cache rpi2 cache48) p 4096)) :=
  new_slab_free_chain (open_cache rpi2 cache48) (fun _ m => m) (fun _ => 7) 4096 85
    (by decide) (by decide) (by decide) (fun _ _ _ _ => rfl)

/-- C14: the lock-based path of `__cmpxchg_double_slab`, entered with the page
lock free, returns true exactly when `page->freelist == freelist_old` and
`page->counters == counters_old`; on true `page->freelist` is `freelist_new`
and `frozen`, `inuse` and `objects` are those of `counters_new` (the rest of
the word is kept), on false the page is unchanged; and when `counters_new`
differs from `counters_old` only in these three fields, the value returned and
the page are those of the path through the native `cmpxchg_double`. -/
theorem cmpxchg_double_slab_lock_path (k : Kconfig) (s : kmem_cache) (page : slab_page)
    (freelist_old : Nat) (counters_old : slub_counters) (freelist_new : Nat)
    (counters_new : slub_counters)
    (hpath : (k.CONFIG_HAVE_CMPXCHG_DOUBLE && s.flags.__CMPXCHG_DOUBLE) = false)
    (hfree : page.PG_locked = false) :
    ((__cmpxchg_double_slab k s page freelist_old counters_old freelist_new counters_new).2 =
        true ↔ page.freelist = freelist_old ∧ page.counters = counters_old) ∧
    ((__cmpxchg_double_slab k s page freelist_old counters_old freelist_new counters_new).2 =
        true →
      (__cmpxchg_double_slab k s page freelist_old counters_old freelist_new counters_new).1 =
        { page with
          freelist := freelist_new,
          counters := { page.counters with
            frozen := counters_new.frozen, inuse := counters_new.inuse,
            objects := counters_new.objects } }) ∧
    ((__cmpxchg_double_slab k s page freelist_old counters_old freelist_new counters_new).2 =
        false →
      (__cmpxchg_double_slab k s page freelist_old counters_old freelist_new counters_new).1 =
        page) ∧
    (counters_new._count = counters_old._count →
      ∀ (k2 : Kconfig) (s2 : kmem_cache),
        (k2.CONFIG_HAVE_CMPXCHG_DOUBLE && s2.flags.__CMPXCHG_DOUBLE) = true →
        __cmpxchg_double_slab k2 s2 page freelist_old counters_old freelist_new counters_new =
          __cmpxchg_double_slab k s page freelist_old counters_old freelist_new counters_new) := by
  rcases page with ⟨fl, c, lk⟩
  simp only at hfree
  subst hfree
  unfold __cmpxchg_double_slab
  simp only [hpath, Bool.false_eq_true, if_false, slab_lock, slab_unlock, set_page_slub_counters]
  by_cases h : fl = freelist_old ∧ c = counters_old
  · rw [if_pos h]
    refine ⟨⟨fun _ => h, fun _ => rfl⟩, fun _ => rfl, fun e => absurd e (by simp), ?_⟩
    intro hc k2 s2 h2
    rw [if_pos h2]
    unfold cmpxchg_double
    rw [if_pos h]
    obtain ⟨h1, h3⟩ := h
    subst h1 h3
    rcases counters_new with ⟨a, b, f, d⟩
    simp only at hc
    subst hc
    rfl
  · rw [if_neg h]
    refine ⟨⟨fun e => absurd e (by simp), fun e => absurd e h⟩, fun e => absurd e (by simp),
      fun _ => rfl, ?_⟩
    intro _ k2 s2 h2
    rw [if_pos h2]
    unfold cmpxchg_double
    rw [if_neg h]

theorem cmpxchg_double_slab_lock_path_witness :
    ((__cmpxchg_double_slab rpi2 {}
        { freelist := 4096, counters := { inuse := 3, objects := 85, frozen := false, _count := 1 } }
        4096 { inuse := 3, objects := 85, frozen := false, _count := 1 }
        4144 { inuse := 2, objects := 85, frozen := true, _count := 1 }).2 = true ↔
      (4096 : Nat) = 4096 ∧
        ({ inuse := 3, objects := 85, frozen := false, _count := 1 } : slub_counters) =
          { inuse := 3, objects := 85, frozen := false, _count := 1 }) ∧
    (__cmpxchg_double_slab rpi2 {}
        { freelist := 4096, counters := { inuse := 3, objects := 85, frozen := false, _count := 1 } }
        4096 { inuse := 3, objects := 85, frozen := false, _count := 1 }
        4144 { inuse := 2, objects := 85, frozen := true, _count := 1 }) =
      ({ freelist := 4144,
         counters := { inuse := 2, objects := 85, frozen := true, _count := 1 } }, true) :=
  ⟨(cmpxchg_double_slab_lock_path rpi2 {}
      { freelist := 4096, counters := { inuse := 3, objects := 85, frozen := false, _count := 1 } }
      4096 { inuse := 3, objects := 85, frozen := false, _count := 1 }
      4144 { inuse := 2, objects := 85, frozen := true, _count := 1 } rfl rfl).1, by decide⟩

/-! ## Where `deactivate_slab` leaves the page -/

/-- C15: on one CPU `deactivate_slab(s, page, freelist)`, called with `k`
objects on the chain `freelist` (objects handed out from the page, so
`k <= page->inuse`), leaves the page unfrozen with `inuse` lowered by `k` and
with a free list of exactly the `k` objects and those of the old
`page->freelist`.  The page is discarded when `inuse` became 0 and
`n->nr_partial >= s->min_partial`; else, when its free list is not empty, it is
put on `n->partial`, at the tail if `page->freelist` was not `NULL` on entry
and at the head otherwise; else no list changes. -/
theorem deactivate_slab_outcome (s : kmem_cache) (st : State) (page : Nat)
    (freelist : List Obj) (h1 : freelist.length ≤ (st.mem page).inuse)
    (h2 : (st.mem page).inuse ≤ 65535) :
    ((deactivate_slab s st page freelist).mem page).frozen = false ∧
    ((deactivate_slab s st page freelist).mem page).inuse =
      (st.mem page).inuse - freelist.length ∧
    ((deactivate_slab s st page freelist).mem page).freelist =
      freelist.reverse ++ (st.mem page).freelist ∧
    (deactivate_slab s st page freelist).c = st.c ∧
    (if (st.mem page).inuse - freelist.length = 0 ∧ st.n.nr_partial ≥ s.min_partial then
      (deactivate_slab s st page freelist).slabs = st.slabs.erase page ∧
      (deactivate_slab s st page freelist).n.partial_ = st.n.partial_ ∧
      (deactivate_slab s st page freelist).n.nr_partial = st.n.nr_partial ∧
      (deactivate_slab s st page freelist).n.nr_slabs = st.n.nr_slabs - 1
    else if freelist.reverse ++ (st.mem page).freelist ≠ [] then
      (deactivate_slab s st page freelist).slabs = st.slabs ∧
      (deactivate_slab s st page freelist).n.partial_ =
        (if (st.mem page).freelist ≠ [] then st.n.partial_ ++ [page]
         else page :: st.n.partial_) ∧
      (deactivate_slab s st page freelist).n.nr_partial = st.n.nr_partial + 1 ∧
      (deactivate_slab s st page freelist).n.nr_slabs = st.n.nr_slabs
    else
      (deactivate_slab s st page freelist).slabs = st.slabs ∧
      (deactivate_slab s st page freelist).n = st.n) := by
  rw [deactivate_slab_eq s st page freelist h1 h2]
  have e1 : (deactivate_slab_page (st.mem page) freelist).inuse =
      (st.mem page).inuse - freelist.length := rfl
  have e2 : (deactivate_slab_page (st.mem page) freelist).freelist =
      freelist.reverse ++ (st.mem page).freelist := rfl
  rw [e1, e2]
  by_cases c1 : (st.mem page).inuse - freelist.length = 0 ∧ st.n.nr_partial ≥ s.min_partial
  · rw [if_pos c1, if_pos c1]
    simp [discard_slab, setPage, dec_slabs_node, deactivate_slab_page]
  · rw [if_neg c1, if_neg c1]
    by_cases c2 : freelist.reverse ++ (st.mem page).freelist ≠ []
    · rw [if_pos c2, if_pos c2]
      by_cases c3 : (st.mem page).freelist = []
      · simp [setPage, add_partial, deactivate_slab_page, c3]
      · simp [setPage, add_partial, deactivate_slab_page, c3]
    · rw [if_neg c2, if_neg c2]
      simp [setPage, deactivate_slab_page]

theorem deactivate_slab_outcome_witness :
    ((deactivate_slab (open_cache rpi2 cache48)
        (run rpi2 (open_cache rpi2 cache48) fresh trace3).st 1
        (run rpi2 (open_cache rpi2 cache48) fresh trace3).st.c.freelist).mem 1).frozen = false ∧
    ((deactivate_slab (open_cache rpi2 cache48)
        (run rpi2 (open_cache rpi2 cache48) fresh trace3).st 1
        (run rpi2 (open_cache rpi2 cache48) fresh trace3).st.c.freelist).mem 1).inuse = 1 ∧
    (deactivate_slab (open_cache rpi2 cache48)
        (run rpi2 (open_cache rpi2 cache48) fresh trace3).st 1
        (run rpi2 (open_cache rpi2 cache48) fresh trace3).st.c.freelist).n.partial_ = [1] :=
  ⟨(deactivate_slab_outcome (open_cache rpi2 cache48)
      (run rpi2 (open_cache rpi2 cache48) fresh trace3).st 1
      (run rpi2 (open_cache rpi2 cache48) fresh trace3).st.c.freelist
      (by decide!) (by decide!)).1, by decide!, by decide!⟩

theorem slab_free_unfrozen_eq (k : Kconfig) (s : kmem_cache) (st : State) (page : Nat) (x : Obj)
    (hfz : (st.mem page).frozen = false)
    (hcp : ¬ ( kmem_cache_has_cpu_partial k s = true ∧ (st.mem page).freelist = [])) :
    __slab_free k s st page x =
      if dec16 (st.mem page).inuse = 0 ∧ st.n.nr_partial ≥ s.min_partial then
        discard_slab
          (if (st.mem page).freelist ≠ [] then
            { setPage st page (slab_free_page (st.mem page) x) with
              n := remove_partial k st.n page }
          else setPage st page (slab_free_page (st.mem page) x)) page
      else if (st.mem page).freelist = [] then
        { setPage st page (slab_free_page (st.mem page) x) with
          n := add_partial st.n page true }
      else setPage st page (slab_free_page (st.mem page) x) := by
  unfold __slab_free
  simp only []
  by_cases c1 : dec16 (st.mem page).inuse = 0 ∧ st.n.nr_partial ≥ s.min_partial
  · by_cases c2 : (st.mem page).freelist = []
    · have hh : kmem_cache_has_cpu_partial k s = false := by
        cases h : kmem_cache_has_cpu_partial k s
        · rfl
        · exact absurd ⟨h, c2⟩ hcp
      simp [hfz, c1, c2, hh, slab_free_page]
    · simp [hfz, c1, c2, slab_free_page]
  · by_cases c2 : (st.mem page).freelist = []
    · have hh : kmem_cache_has_cpu_partial k s = false := by
        cases h : kmem_cache_has_cpu_partial k s
        · rfl
        · exact absurd ⟨h, c2⟩ hcp
      simp only [ge_iff_le] at c1
      simp [hfz, c1, c2, hh, slab_free_page]
    · simp only [ge_iff_le] at c1
      by_cases c3 : dec16 (st.mem page).inuse = 0
      · have c4 : ¬ s.min_partial ≤ st.n.nr_partial := fun h => c1 ⟨c3, h⟩
        simp [hfz, c2, c3, c4, slab_free_page]
      · simp [hfz, c2, c3, slab_free_page]

/-- The function `__slab_free` of a cache without debug flags, on a page that
is not frozen, the case of a cache with per-CPU partial support freeing into a
page without a free object apart (that page is frozen and goes to the per-CPU
partial list).  If the free brings `inuse` to 0 and
`n->nr_partial >= s->min_partial`, the page is taken off `n->partial` (when it
had a free object, so was on it) and discarded; otherwise, if the page had no
free object, it is added to the tail of `n->partial` and `nr_partial` grows by
one; in every other case no list changes.  The object is pushed on
`page->freelist` in all of them. -/
theorem slab_free_unfrozen_lists (k : Kconfig) (s : kmem_cache) (st : State) (page : Nat) (x : Obj)
    (hfz : (st.mem page).frozen = false)
    (hcp : ¬ ( kmem_cache_has_cpu_partial k s = true ∧ (st.mem page).freelist = [])) :
    (__slab_free k s st page x).c = st.c ∧
    ((__slab_free k s st page x).mem page).freelist = x :: (st.mem page).freelist ∧
    ((__slab_free k s st page x).mem page).inuse = dec16 (st.mem page).inuse ∧
    ((__slab_free k s st page x).mem page).frozen = false ∧
    (if dec16 (st.mem page).inuse = 0 ∧ st.n.nr_partial ≥ s.min_partial then
      (__slab_free k s st page x).slabs = st.slabs.erase page ∧
      (__slab_free k s st page x).n.nr_slabs = st.n.nr_slabs - 1 ∧
      (if (st.mem page).freelist ≠ [] then
        (__slab_free k s st page x).n.partial_ = st.n.partial_.erase page ∧
        (__slab_free k s st page x).n.nr_partial = dec_ulong k st.n.nr_partial
      else
        (__slab_free k s st page x).n.partial_ = st.n.partial_ ∧
        (__slab_free k s st page x).n.nr_partial = st.n.nr_partial)
    else if (st.mem page).freelist = [] then
      (__slab_free k s st page x).slabs = st.slabs ∧
      (__slab_free k s st page x).n.partial_ = st.n.partial_ ++ [page] ∧
      (__slab_free k s st page x).n.nr_partial = st.n.nr_partial + 1 ∧
      (__slab_free k s st page x).n.nr_slabs = st.n.nr_slabs
    else
      (__slab_free k s st page x).slabs = st.slabs ∧
      (__slab_free k s st page x).n = st.n) := by
  rw [slab_free_unfrozen_eq k s st page x hfz hcp]
  by_cases c1 : dec16 (st.mem page).inuse = 0 ∧ st.n.nr_partial ≥ s.min_partial
  · rw [if_pos c1, if_pos c1]
    by_cases c2 : (st.mem page).freelist = []
    · simp [c2, discard_slab, setPage, dec_slabs_node, slab_free_page]
    · simp [c2, discard_slab, setPage, dec_slabs_node, remove_partial, slab_free_page]
  · rw [if_neg c1, if_neg c1]
    by_cases c2 : (st.mem page).freelist = []
    · rw [if_pos c2, if_pos c2]
      simp [c2, setPage, add_partial, slab_free_page]
    · rw [if_neg c2, if_neg c2]
      simp [setPage, slab_free_page]

theorem put_cpu_partial_eq (k : Kconfig) (s : kmem_cache) (st : State) (page : Nat)
    (drain : Bool) (hk : k.CONFIG_SLUB_CPU_PARTIAL = true) (hcp : s.cpu_partial ≠ 0) :
    put_cpu_partial k s st page drain =
      cpu_partial_link (if cpu_partial_full s st drain then unfreeze_partials k s st else st)
        page := by
  unfold put_cpu_partial
  rw [if_pos hk]
  simp only []
  rw [if_neg hcp]
  rfl

theorem cpu_partial_full_nodrain (s : kmem_cache) (st : State) :
    cpu_partial_full s st false = false := by
  unfold cpu_partial_full
  split <;> rfl

theorem partial_pages_taken_le (half : Nat) :
    ∀ (l : List Nat) (acc : Nat), partial_pages_taken half l acc ≤ l.length := by
  intro l
  induction l with
  | nil => intro acc; exact Nat.le_refl _
  | cons f rest ih =>
    intro acc
    unfold partial_pages_taken
    split
    · simp
    · have := ih (acc + f)
      simp only [List.length_cons]
      omega

/-- The count `partial_pages_taken` is the least number of pages whose free
objects, added to `acc`, exceed `half`, or the length of the list. -/
theorem partial_pages_taken_spec (half : Nat) :
    ∀ (l : List Nat) (acc : Nat), acc ≤ half →
      (∀ j, j < partial_pages_taken half l acc → acc + (l.take j).sum ≤ half) ∧
      (partial_pages_taken half l acc = l.length ∨
        acc + (l.take (partial_pages_taken half l acc)).sum > half) := by
  intro l
  induction l with
  | nil =>
    intro acc _
    exact ⟨fun j hj => absurd hj (Nat.not_lt_zero _), Or.inl rfl⟩
  | cons f rest ih =>
    intro acc hacc
    unfold partial_pages_taken
    split
    · rename_i hgt
      refine ⟨?_, Or.inr ?_⟩
      · intro j hj
        have : j = 0 := by omega
        subst this
        simp only [List.take_zero, List.sum_nil]
        omega
      · simp only [List.take_succ_cons, List.take_zero, List.sum_cons, List.sum_nil]
        omega
    · rename_i hle
      obtain ⟨i1, i2⟩ := ih (acc + f) (by omega)
      refine ⟨?_, ?_⟩
      · intro j hj
        cases j with
        | zero => simp only [List.take_zero, List.sum_nil]; omega
        | succ j =>
          have := i1 j (by omega)
          simp only [List.take_succ_cons, List.sum_cons]
          omega
      · rcases i2 with e | e
        · exact Or.inl (by simp only [List.length_cons, e])
        · refine Or.inr ?_
          simp only [List.take_succ_cons, List.sum_cons]
          omega

theorem has_cpu_partial_true {k : Kconfig} {s : kmem_cache}
    (h : kmem_cache_has_cpu_partial k s = true) :
    (! kmem_cache_has_cpu_partial k s) = false := by
  rw [h]; rfl

/-- One pass of the loop of `get_partial_node` once an object has been found. -/
theorem get_partial_node_loop_more (k : Kconfig) (s : kmem_cache) (allowed : Bool)
    (object : List Obj) (hobj : object ≠ []) (hhas : kmem_cache_has_cpu_partial k s = true)
    (page : Nat) (rest : List Nat) (st : State) (acc : Nat)
    (hp : PartialPageOk st allowed page) (h1 : 1 ≤ acc) (h2 : acc ≤ s.cpu_partial / 2) :
    get_partial_node_loop k s allowed (page :: rest) st object (acc : Int) =
      if acc + count_free (st.mem page) > s.cpu_partial / 2 then
        (partial_page_more k st page, object)
      else get_partial_node_loop k s allowed rest (partial_page_more k st page) object
        ((acc + count_free (st.mem page) : Nat) : Int) := by
  obtain ⟨hfl, hin, hpf⟩ := hp
  have hk := has_cpu_partial_config hhas
  have hcp : s.cpu_partial ≠ 0 := by
    intro e; rw [e] at h2; simp at h2; omega
  have hav : (acc : Int) + (((st.mem page).objects : Int) - ((st.mem page).inuse : Int)) =
      ((acc + count_free (st.mem page) : Nat) : Int) := by
    unfold count_free; omega
  rw [get_partial_node_loop]
  simp only [hpf, Bool.not_true, Bool.false_eq_true, if_false, acquire_slab, hobj, decide_False,
    hav, has_cpu_partial_true hhas, Bool.false_or, decide_eq_true_eq]
  rw [if_neg hfl, put_cpu_partial_eq k s _ page false hk hcp, cpu_partial_full_nodrain]
  simp only [Bool.false_eq_true, if_false]
  by_cases hgt : acc + count_free (st.mem page) > s.cpu_partial / 2
  · rw [if_pos hgt, if_pos (by exact_mod_cast hgt)]
    rfl
  · rw [if_neg hgt, if_neg (by exact_mod_cast hgt)]
    rfl

theorem partial_page_more_spec (k : Kconfig) (st : State) (page : Nat) (rest : List Nat)
    (hl : st.n.partial_ = page :: rest) (hnr : st.n.nr_partial = (page :: rest).length) :
    (partial_page_more k st page).n.partial_ = rest ∧
    (partial_page_more k st page).n.nr_partial = rest.length ∧
    (partial_page_more k st page).c.partial_ = page :: st.c.partial_ ∧
    (partial_page_more k st page).c.page = st.c.page ∧
    ((partial_page_more k st page).mem page).frozen = true ∧
    (∀ q, q ≠ page → (partial_page_more k st page).mem q = st.mem q) := by
  refine ⟨?_, ?_, rfl, rfl, ?_, ?_⟩
  · simp [partial_page_more, cpu_partial_link, remove_partial, hl]
  · simp [partial_page_more, cpu_partial_link, remove_partial, dec_ulong, hnr]
  · simp [partial_page_more, cpu_partial_link, setPage]
  · intro q hq
    simp [partial_page_more, cpu_partial_link, setPage, hq]

theorem partial_page_ok_congr {st st' : State} {allowed : Bool} {q : Nat}
    (h : st'.mem q = st.mem q) (hq : PartialPageOk st allowed q) : PartialPageOk st' allowed q := by
  unfold PartialPageOk at hq ⊢
  rw [h]; exact hq

/-- The passes of the loop of `get_partial_node` after the first page: pages
go from `n->partial` to the front of `c->partial` until their free objects
exceed `s->cpu_partial / 2`. -/
theorem get_partial_node_loop_rest (k : Kconfig) (s : kmem_cache) (allowed : Bool)
    (object : List Obj) (hobj : object ≠ []) (hhas : kmem_cache_has_cpu_partial k s = true) :
    ∀ (rest : List Nat) (st : State) (acc : Nat),
      st.n.partial_ = rest → rest.Nodup → st.n.nr_partial = rest.length →
      (∀ q ∈ rest, PartialPageOk st allowed q) → 1 ≤ acc → acc ≤ s.cpu_partial / 2 →
      (get_partial_node_loop k s allowed rest st object (acc : Int)).2 = object ∧
      (get_partial_node_loop k s allowed rest st object (acc : Int)).1.n.partial_ =
        rest.drop (partial_pages_taken (s.cpu_partial / 2)
          (rest.map (fun q => count_free (st.mem q))) acc) ∧
      (get_partial_node_loop k s allowed rest st object (acc : Int)).1.n.nr_partial =
        rest.length - partial_pages_taken (s.cpu_partial / 2)
          (rest.map (fun q => count_free (st.mem q))) acc ∧
      (get_partial_node_loop k s allowed rest st object (acc : Int)).1.c.partial_ =
        (rest.take (partial_pages_taken (s.cpu_partial / 2)
          (rest.map (fun q => count_free (st.mem q))) acc)).reverse ++ st.c.partial_ ∧
      (get_partial_node_loop k s allowed rest st object (acc : Int)).1.c.page = st.c.page ∧
      (∀ q ∈ rest.take (partial_pages_taken (s.cpu_partial / 2)
          (rest.map (fun q => count_free (st.mem q))) acc),
        ((get_partial_node_loop k s allowed rest st object (acc : Int)).1.mem q).frozen = true) ∧
      (∀ q, q ∉ rest →
        (get_partial_node_loop k s allowed rest st object (acc : Int)).1.mem q = st.mem q) := by
  intro rest
  induction rest with
  | nil =>
    intro st acc hl _ hnr _ _ _
    refine ⟨rfl, ?_, ?_, ?_, rfl, ?_, fun _ _ => rfl⟩
    · exact hl
    · exact hnr
    · rfl
    · intro q hq; simp at hq
  | cons page rest ih =>
    intro st acc hl hnd hnr hok h1 h2
    have hnd' := List.nodup_cons.mp hnd
    have hp := hok page (List.mem_cons_self _ _)
    obtain ⟨m1, m2, m3, m4, m5, m6⟩ := partial_page_more_spec k st page rest hl hnr
    rw [get_partial_node_loop_more k s allowed object hobj hhas page rest st acc hp h1 h2]
    simp only [List.map_cons, partial_pages_taken]
    by_cases hgt : acc + count_free (st.mem page) > s.cpu_partial / 2
    · rw [if_pos hgt, if_pos hgt]
      refine ⟨rfl, m1, ?_, ?_, m4, ?_, ?_⟩
      · rw [m2]; simp
      · rw [m3]; rfl
      · intro q hq
        simp only [List.take_succ_cons, List.take_zero, List.mem_singleton] at hq
        rw [hq]; exact m5
      · intro q hq
        exact m6 q (fun e => hq (e ▸ List.mem_cons_self _ _))
    · rw [if_neg hgt, if_neg hgt]
      have hmap : rest.map (fun q => count_free ((partial_page_more k st page).mem q)) =
          rest.map (fun q => count_free (st.mem q)) := by
        apply List.map_congr_left
        intro q hq
        rw [m6 q (fun e => hnd'.1 (e ▸ hq))]
      have hok' : ∀ q ∈ rest, PartialPageOk (partial_page_more k st page) allowed q :=
        fun q hq => partial_page_ok_congr (m6 q (fun e => hnd'.1 (e ▸ hq)))
          (hok q (List.mem_cons_of_mem _ hq))
      have hc : count_free (st.mem page) ≥ 1 := by
        unfold count_free; have := hp.2.1; omega
      obtain ⟨i1, i2, i3, i4, i5, i6, i7⟩ := ih (partial_page_more k st page)
        (acc + count_free (st.mem page)) m1 hnd'.2 m2 hok' (by omega) (by omega)
      rw [hmap] at i2 i3 i4 i6
      refine ⟨i1, ?_, ?_, ?_, ?_, ?_, ?_⟩
      · rw [i2]; rfl
      · rw [i3]; simp
      · rw [i4, m3]; simp
      · rw [i5, m4]
      · intro q hq
        simp only [List.take_succ_cons, List.mem_cons] at hq
        rcases hq with e | hq
        · rw [e, i7 page hnd'.1]; exact m5
        · exact i6 q hq
      · intro q hq
        rw [i7 q (fun h => hq (List.mem_cons_of_mem _ h))]
        exact m6 q (fun e => hq (e ▸ List.mem_cons_self _ _))

theorem get_partial_node_first (k : Kconfig) (s : kmem_cache) (allowed : Bool) (st : State)
    (page : Nat) (rest : List Nat) (hl : st.n.partial_ = page :: rest)
    (hnr : st.n.nr_partial = (page :: rest).length) (hp : PartialPageOk st allowed page) :
    get_partial_node k s allowed st =
      if ! kmem_cache_has_cpu_partial k s ||
          decide (count_free (st.mem page) > s.cpu_partial / 2) then
        (partial_page_first k st page, (st.mem page).freelist)
      else get_partial_node_loop k s allowed rest (partial_page_first k st page)
        (st.mem page).freelist ((count_free (st.mem page) : Nat) : Int) := by
  obtain ⟨hfl, hin, hpf⟩ := hp
  have hav : (0 : Int) + (((st.mem page).objects : Int) - ((st.mem page).inuse : Int)) =
      ((count_free (st.mem page) : Nat) : Int) := by
    unfold count_free; omega
  unfold get_partial_node
  rw [if_neg (by rw [hnr]; simp), hl, get_partial_node_loop]
  simp only [hpf, Bool.not_true, Bool.false_eq_true, if_false, acquire_slab, decide_True,
    if_true, hav]
  rw [if_neg hfl]
  by_cases hb : (! kmem_cache_has_cpu_partial k s ||
      decide (count_free (st.mem page) > s.cpu_partial / 2)) = true
  · rw [if_pos hb, if_pos]
    · rfl
    · simp only [Bool.or_eq_true, Bool.not_eq_true', decide_eq_true_eq] at hb ⊢
      rcases hb with hb | hb
      · exact Or.inl hb
      · right
        omega
  · rw [if_neg hb, if_neg]
    · rfl
    · simp only [Bool.or_eq_true, Bool.not_eq_true', decide_eq_true_eq, not_or] at hb ⊢
      refine ⟨hb.1, ?_⟩
      have := hb.2
      omega

theorem partial_page_first_spec (k : Kconfig) (st : State) (page : Nat) (rest : List Nat)
    (hl : st.n.partial_ = page :: rest) (hnr : st.n.nr_partial = (page :: rest).length) :
    (partial_page_first k st page).n.partial_ = rest ∧
    (partial_page_first k st page).n.nr_partial = rest.length ∧
    (partial_page_first k st page).c.partial_ = st.c.partial_ ∧
    (partial_page_first k st page).c.page = some page ∧
    ((partial_page_first k st page).mem page).frozen = true ∧
    ((partial_page_first k st page).mem page).freelist = [] ∧
    ((partial_page_first k st page).mem page).inuse = (st.mem page).objects ∧
    (∀ q, q ≠ page → (partial_page_first k st page).mem q = st.mem q) := by
  refine ⟨?_, ?_, rfl, rfl, ?_, ?_, ?_, ?_⟩
  · simp [partial_page_first, remove_partial, hl]
  · simp [partial_page_first, remove_partial, dec_ulong, hnr]
  · simp [partial_page_first, setPage]
  · simp [partial_page_first, setPage]
  · simp [partial_page_first, setPage]
  · intro q hq
    simp [partial_page_first, setPage, hq]

theorem partial_pages_to_take_cons (k : Kconfig) (s : kmem_cache) (st : State)
    (page : Nat) (rest : List Nat) (hl : st.n.partial_ = page :: rest) :
    partial_pages_to_take k s st =
      if ! kmem_cache_has_cpu_partial k s ||
          decide (count_free (st.mem page) > s.cpu_partial / 2) then 1
      else partial_pages_taken (s.cpu_partial / 2)
        (rest.map (fun q => count_free (st.mem q))) (count_free (st.mem page)) + 1 := by
  unfold partial_pages_to_take
  rw [hl]
  cases hhas : kmem_cache_has_cpu_partial k s
  · simp
  · simp only [if_true, List.map_cons, partial_pages_taken, Nat.zero_add, Bool.not_true,
      Bool.false_or, decide_eq_true_eq]

/-- C18: on a non-empty node partial list whose pages the caller may use,
`get_partial_node` removes the first `k` pages, `k` being the least number of
pages whose free objects sum to more than `s->cpu_partial / 2` (the whole list
if there is none, and 1 without per-CPU partial support); the first page
becomes `c->page` with its free list returned, `freelist = NULL` and
`inuse = objects`, the others go on the per-CPU partial list, every removed
page is frozen and `n->nr_partial` decreases by `k`. -/
theorem get_partial_node_takes (k : Kconfig) (s : kmem_cache) (allowed : Bool) (st : State)
    (page : Nat) (rest : List Nat)
    (hl : st.n.partial_ = page :: rest) (hnd : st.n.partial_.Nodup)
    (hnr : st.n.nr_partial = st.n.partial_.length)
    (hok : ∀ q ∈ st.n.partial_, PartialPageOk st allowed q) :
    ( kmem_cache_has_cpu_partial k s = false → partial_pages_to_take k s st = 1) ∧
    ( kmem_cache_has_cpu_partial k s = true →
      (∀ j, j < partial_pages_to_take k s st →
        ((st.n.partial_.take j).map (fun q => count_free (st.mem q))).sum ≤
          s.cpu_partial / 2) ∧
      (partial_pages_to_take k s st = st.n.partial_.length ∨
        ((st.n.partial_.take (partial_pages_to_take k s st)).map
          (fun q => count_free (st.mem q))).sum > s.cpu_partial / 2)) ∧
    1 ≤ partial_pages_to_take k s st ∧
    partial_pages_to_take k s st ≤ st.n.partial_.length ∧
    ( get_partial_node k s allowed st).2 = (st.mem page).freelist ∧
    ( get_partial_node k s allowed st).1.c.page = some page ∧
    (( get_partial_node k s allowed st).1.mem page).freelist = [] ∧
    (( get_partial_node k s allowed st).1.mem page).inuse = (st.mem page).objects ∧
    (( get_partial_node k s allowed st).1.mem page).objects = (st.mem page).objects ∧
    ( get_partial_node k s allowed st).1.n.partial_ =
      st.n.partial_.drop (partial_pages_to_take k s st) ∧
    ( get_partial_node k s allowed st).1.n.nr_partial =
      st.n.nr_partial - partial_pages_to_take k s st ∧
    ( get_partial_node k s allowed st).1.c.partial_ =
      ((st.n.partial_.take (partial_pages_to_take k s st)).tail).reverse ++ st.c.partial_ ∧
    (∀ q ∈ st.n.partial_.take (partial_pages_to_take k s st),
      (( get_partial_node k s allowed st).1.mem q).frozen = true) := by
  have hpage : PartialPageOk st allowed page := hok page (by rw [hl]; simp)
  have hnr' : st.n.nr_partial = (page :: rest).length := by rw [hnr, hl]
  have hk1 : 1 ≤ partial_pages_to_take k s st := by
    rw [partial_pages_to_take_cons k s st page rest hl]
    split <;> omega
  have hk2 : partial_pages_to_take k s st ≤ st.n.partial_.length := by
    rw [partial_pages_to_take_cons k s st page rest hl, hl]
    have := partial_pages_taken_le (s.cpu_partial / 2)
      (rest.map (fun q => count_free (st.mem q))) (count_free (st.mem page))
    simp only [List.length_map] at this
    simp only [List.length_cons]
    split <;> omega
  have hspec : kmem_cache_has_cpu_partial k s = true →
      (∀ j, j < partial_pages_to_take k s st →
        ((st.n.partial_.take j).map (fun q => count_free (st.mem q))).sum ≤
          s.cpu_partial / 2) ∧
      (partial_pages_to_take k s st = st.n.partial_.length ∨
        ((st.n.partial_.take (partial_pages_to_take k s st)).map
          (fun q => count_free (st.mem q))).sum > s.cpu_partial / 2) := by
    intro hhas
    have e : partial_pages_to_take k s st = partial_pages_taken (s.cpu_partial / 2)
        (st.n.partial_.map (fun q => count_free (st.mem q))) 0 := by
      unfold partial_pages_to_take
      rw [if_pos hhas]
    obtain ⟨i1, i2⟩ := partial_pages_taken_spec (s.cpu_partial / 2)
      (st.n.partial_.map (fun q => count_free (st.mem q))) 0 (Nat.zero_le _)
    rw [← e] at i1 i2
    simp only [Nat.zero_add, List.length_map, ← List.map_take] at i1 i2
    exact ⟨i1, i2⟩
  have hfirst := get_partial_node_first k s allowed st page rest hl hnr' hpage
  obtain ⟨f1, f2, f3, f4, f5, f6, f7, f8⟩ := partial_page_first_spec k st page rest hl hnr'
  have hnd' : page ∉ rest ∧ rest.Nodup := by
    rw [hl] at hnd
    exact List.nodup_cons.mp hnd
  refine ⟨?_, hspec, hk1, hk2, ?_⟩
  · intro hhas
    unfold partial_pages_to_take
    rw [hhas]
    rfl
  by_cases hb : (! kmem_cache_has_cpu_partial k s ||
      decide (count_free (st.mem page) > s.cpu_partial / 2)) = true
  · rw [if_pos hb] at hfirst
    have e : partial_pages_to_take k s st = 1 := by
      rw [partial_pages_to_take_cons k s st page rest hl, if_pos hb]
    rw [hfirst, e, hl]
    refine ⟨rfl, f4, f6, f7, ?_, ?_, ?_, ?_, ?_⟩
    · simp [partial_page_first, setPage]
    · simpa using f1
    · rw [f2, hnr']
      simp
    · simpa using f3
    · intro q hq
      have : q = page := by simpa using hq
      rw [this]
      exact f5
  · rw [if_neg hb] at hfirst
    have e : partial_pages_to_take k s st = partial_pages_taken (s.cpu_partial / 2)
        (rest.map (fun q => count_free (st.mem q))) (count_free (st.mem page)) + 1 := by
      rw [partial_pages_to_take_cons k s st page rest hl, if_neg hb]
    simp only [Bool.or_eq_true, Bool.not_eq_true', decide_eq_true_eq, not_or,
      Bool.not_eq_false, Nat.not_lt] at hb
    obtain ⟨hhas, hle⟩ := hb
    have hcnt : 1 ≤ count_free (st.mem page) := by
      have := hpage.2.1
      unfold count_free
      omega
    have hmap : rest.map (fun q => count_free ((partial_page_first k st page).mem q)) =
        rest.map (fun q => count_free (st.mem q)) := by
      refine List.map_congr_left ?_
      intro q hq
      rw [f8 q (fun e => hnd'.1 (e ▸ hq))]
    have hok' : ∀ q ∈ rest, PartialPageOk (partial_page_first k st page) allowed q := by
      intro q hq
      refine partial_page_ok_congr (f8 q (fun e => hnd'.1 (e ▸ hq))) (hok q ?_)
      rw [hl]
      exact List.mem_cons_of_mem _ hq
    obtain ⟨r1, r2, r3, r4, r5, r6, r7⟩ :=
      get_partial_node_loop_rest k s allowed (st.mem page).freelist hpage.1 hhas rest
        (partial_page_first k st page) (count_free (st.mem page)) f1 hnd'.2 f2 hok' hcnt hle
    rw [hmap] at r2 r3 r4 r6
    rw [hfirst, e, hl]
    have hm := r7 page hnd'.1
    refine ⟨r1, ?_, ?_, ?_, ?_, ?_, ?_, ?_, ?_⟩
    · rw [r5, f4]
    · rw [hm, f6]
    · rw [hm, f7]
    · rw [hm]
      simp [partial_page_first, setPage]
    · rw [r2]
      simp
    · rw [r3, hnr']
      simp
    · rw [r4, f3]
      simp
    · intro q hq
      simp only [List.take_succ_cons, List.mem_cons] at hq
      rcases hq with hq | hq
      · rw [hq, hm]
        exact f5
      · exact r6 q hq

/-- The list `[1, 2, 3, 4]` of pages with 5, 7, 9 and 11 free objects and
`s->cpu_partial / 2 = 15`: three pages are taken, page 1 becomes the CPU slab,
pages 2 and 3 go on the per-CPU partial list. -/
theorem get_partial_node_takes_witness :
    partial_pages_to_take rpi2 (open_cache rpi2 cache48) partial4 = 3 ∧
    ( get_partial_node rpi2 (open_cache rpi2 cache48) true partial4).1.n.partial_ = [4] ∧
    ( get_partial_node rpi2 (open_cache rpi2 cache48) true partial4).1.c.partial_ = [3, 2] ∧
    ( get_partial_node rpi2 (open_cache rpi2 cache48) true partial4).1.n.nr_partial = 1 :=
  have h := get_partial_node_takes rpi2 (open_cache rpi2 cache48) true partial4 1 [2, 3, 4]
    rfl (by decide) rfl (by decide)
  ⟨by decide, h.2.2.2.2.2.2.2.2.2.1.trans (by decide), h.2.2.2.2.2.2.2.2.2.2.2.1.trans (by decide),
    h.2.2.2.2.2.2.2.2.2.2.1.trans (by decide)⟩

theorem chain_ok_congr {m m' : Nat → Page} :
    ∀ l : List Nat, (∀ q ∈ l, (m' q).pages = (m q).pages) → chain_ok m l → chain_ok m' l := by
  intro l
  induction l with
  | nil => intro _ _; trivial
  | cons p rest ih =>
    intro hq h
    refine ⟨?_, ih (fun q hq' => hq q (List.mem_cons_of_mem _ hq')) h.2⟩
    rw [hq p (List.mem_cons_self _ _)]
    exact h.1

theorem SameChain.same_refl (st : State) : SameChain st st := ⟨rfl, fun _ => rfl⟩

theorem SameChain.same_trans {a b c : State} (h1 : SameChain a b) (h2 : SameChain b c) :
    SameChain a c :=
  ⟨h2.1.trans h1.1, fun q => (h2.2 q).trans (h1.2 q)⟩

theorem ChainOk.same {st st' : State} (h : ChainOk st) (hs : SameChain st st') :
    ChainOk st' := by
  refine ⟨?_⟩
  rw [hs.1]
  exact chain_ok_congr _ (fun q _ => hs.2 q) h.ok

theorem ChainOk.nil {st : State} (h : st.c.partial_ = []) : ChainOk st := by
  refine ⟨?_⟩
  rw [h]
  trivial

theorem ChainOk.tail {st st' : State} {p : Nat} {next : List Nat} (h : ChainOk st)
    (hp : st.c.partial_ = p :: next) (hn : st'.c.partial_ = next)
    (hm : ∀ q, (st'.mem q).pages = (st.mem q).pages) : ChainOk st' := by
  have h := h.ok
  refine ⟨?_⟩
  rw [hp] at h
  rw [hn]
  exact chain_ok_congr _ (fun q _ => hm q) h.2

theorem ChainOk.pages {st : State} (h : ChainOk st) :
    cpu_partial_pages st = (st.c.partial_.length : Int) := by
  have h := h.ok
  unfold cpu_partial_pages
  cases hl : st.c.partial_ with
  | nil => rfl
  | cons p rest =>
    rw [hl] at h
    simp only [List.length_cons]
    rw [h.1]
    push_cast
    rfl

theorem ChainOk.link {st : State} {page : Nat} (h : ChainOk st) (hp : page ∉ st.c.partial_) :
    ChainOk (cpu_partial_link st page) := by
  have hpg := h.pages
  have h := h.ok
  refine ⟨⟨?_, chain_ok_congr _ ?_ h⟩⟩
  · simp [cpu_partial_link, setPage, hpg]
  · intro q hq
    have : q ≠ page := fun e => hp (e ▸ hq)
    simp [cpu_partial_link, setPage, this]

/-! ### What `unfreeze_partials` does to the pages of `c->partial` -/

theorem unfreeze_partials_loop_mem (s : kmem_cache) :
    ∀ (chain : List Nat) (st : State) (d : List Nat) (q : Nat),
      (unfreeze_partials_loop s chain st d).1.mem q =
        if q ∈ chain then { st.mem q with frozen := false } else st.mem q := by
  intro chain
  induction chain with
  | nil => intro st d q; simp [unfreeze_partials_loop]
  | cons p next ih =>
    intro st d q
    rw [unfreeze_partials_loop]
    simp only []
    split
    · rw [ih]
      by_cases h1 : q ∈ next
      · by_cases h2 : q = p
        · simp [h1, h2, setPage]
        · simp [h1, h2, setPage]
      · by_cases h2 : q = p
        · simp [h1, h2, setPage]
        · simp [h1, h2, setPage]
    · rw [ih]
      by_cases h1 : q ∈ next
      · by_cases h2 : q = p
        · simp [h1, h2, setPage]
        · simp [h1, h2, setPage]
      · by_cases h2 : q = p
        · simp [h1, h2, setPage]
        · simp [h1, h2, setPage]

theorem unfreeze_partials_loop_rest (s : kmem_cache) :
    ∀ (chain : List Nat) (st : State) (d : List Nat),
      (st.c.partial_ = chain → (unfreeze_partials_loop s chain st d).1.c.partial_ = []) ∧
      (unfreeze_partials_loop s chain st d).1.c.page = st.c.page ∧
      (unfreeze_partials_loop s chain st d).1.c.freelist = st.c.freelist ∧
      (unfreeze_partials_loop s chain st d).1.slabs = st.slabs ∧
      (∀ q ∈ st.n.partial_, q ∈ (unfreeze_partials_loop s chain st d).1.n.partial_) ∧
      (∀ q ∈ d, q ∈ (unfreeze_partials_loop s chain st d).2) ∧
      (∀ q ∈ chain, q ∈ (unfreeze_partials_loop s chain st d).1.n.partial_ ∨
        (q ∈ (unfreeze_partials_loop s chain st d).2 ∧ (st.mem q).inuse = 0 ∧
          s.min_partial ≤ (unfreeze_partials_loop s chain st d).1.n.nr_partial)) ∧
      st.n.nr_partial ≤ (unfreeze_partials_loop s chain st d).1.n.nr_partial := by
  intro chain
  induction chain with
  | nil =>
    intro st d
    refine ⟨fun h => h, rfl, rfl, rfl, fun _ h => h, fun _ h => h, ?_, Nat.le_refl _⟩
    intro q hq
    simp at hq
  | cons p next ih =>
    intro st d
    rw [unfreeze_partials_loop]
    simp only []
    split
    · rename_i hc
      obtain ⟨i1, i2, i3, i4, i5, i6, i7, i8⟩ := ih
        (setPage { st with c := { st.c with partial_ := next } } p
          { st.mem p with frozen := false }) (p :: d)
      refine ⟨fun _ => i1 rfl, i2, i3, i4, i5, fun q hq => i6 q (List.mem_cons_of_mem _ hq),
        ?_, i8⟩
      intro q hq
      by_cases hqn : q ∈ next
      · rcases i7 q hqn with h | h
        · exact Or.inl h
        · refine Or.inr ⟨h.1, ?_, h.2.2⟩
          have := h.2.1
          by_cases e : q = p
          · subst e
            simpa [setPage] using hc.1
          · simpa [setPage, e] using this
      · have e : q = p := by
          rcases List.mem_cons.mp hq with e | e
          · exact e
          · exact absurd e hqn
        subst e
        refine Or.inr ⟨i6 q (List.mem_cons_self _ _), ?_, ?_⟩
        · simpa [setPage] using hc.1
        · exact Nat.le_trans hc.2 i8
    · obtain ⟨i1, i2, i3, i4, i5, i6, i7, i8⟩ := ih
        { setPage { st with c := { st.c with partial_ := next } } p
            { st.mem p with frozen := false } with
          n := add_partial (setPage { st with c := { st.c with partial_ := next } } p
            { st.mem p with frozen := false }).n p true } d
      refine ⟨fun _ => i1 rfl, i2, i3, i4, ?_, i6, ?_, ?_⟩
      · intro q hq
        refine i5 q ?_
        simp [ add_partial, setPage, hq]
      · intro q hq
        by_cases hqn : q ∈ next
        · rcases i7 q hqn with h | h
          · exact Or.inl h
          · refine Or.inr ⟨h.1, ?_, h.2.2⟩
            have := h.2.1
            by_cases e : q = p
            · subst e
              simpa [setPage] using this
            · simpa [setPage, e] using this
        · have e : q = p := by
            rcases List.mem_cons.mp hq with e | e
            · exact e
            · exact absurd e hqn
          subst e
          refine Or.inl (i5 q ?_)
          simp [ add_partial, setPage]
      · refine Nat.le_trans ?_ i8
        show st.n.nr_partial ≤ st.n.nr_partial + 1
        omega

theorem discard_all_frame : ∀ (d : List Nat) (st : State),
    (d.foldl discard_slab st).mem = st.mem ∧ (d.foldl discard_slab st).c = st.c ∧
    (d.foldl discard_slab st).n.partial_ = st.n.partial_ ∧
    (d.foldl discard_slab st).n.nr_partial = st.n.nr_partial ∧
    (st.slabs.Nodup → ∀ q ∈ d, q ∉ (d.foldl discard_slab st).slabs) ∧
    (∀ q ∈ (d.foldl discard_slab st).slabs, q ∈ st.slabs) ∧
    (∀ q ∈ st.slabs, q ∉ d → q ∈ (d.foldl discard_slab st).slabs) := by
  intro d
  induction d with
  | nil =>
    intro st
    refine ⟨rfl, rfl, rfl, rfl, ?_, fun _ h => h, fun _ h _ => h⟩
    intro _ q hq
    simp at hq
  | cons p d ih =>
    intro st
    obtain ⟨i1, i2, i3, i4, i5, i6, i7⟩ := ih (discard_slab st p)
    simp only [List.foldl_cons]
    refine ⟨i1, i2, i3, i4, ?_, ?_, ?_⟩
    · intro hnd q hq
      have hnd' : (discard_slab st p).slabs.Nodup := hnd.erase p
      by_cases hqd : q ∈ d
      · exact i5 hnd' q hqd
      · have e : q = p := by
          rcases List.mem_cons.mp hq with e | e
          · exact e
          · exact absurd e hqd
        subst e
        intro hm
        have := i6 q hm
        exact (List.Nodup.mem_erase_iff hnd).mp this |>.1 rfl
    · intro q hq
      exact List.mem_of_mem_erase (i6 q hq)
    · intro q hq hqd
      refine i7 q ?_ (fun h => hqd (List.mem_cons_of_mem _ h))
      have : q ≠ p := fun e => hqd (e ▸ List.mem_cons_self _ _)
      exact (List.mem_erase_of_ne this).mpr hq

/-- The function `unfreeze_partials` empties `c->partial`; every page of the
list is unfrozen and is afterwards on `n->partial` or, being empty, discarded;
nothing else of a `struct page` changes. -/
theorem unfreeze_partials_spec (k : Kconfig) (s : kmem_cache) (st : State)
    (hk : k.CONFIG_SLUB_CPU_PARTIAL = true) :
    (unfreeze_partials k s st).c.partial_ = [] ∧
    (unfreeze_partials k s st).c.page = st.c.page ∧
    (unfreeze_partials k s st).c.freelist = st.c.freelist ∧
    (∀ q, (unfreeze_partials k s st).mem q =
      if q ∈ st.c.partial_ then { st.mem q with frozen := false } else st.mem q) ∧
    (∀ q ∈ st.n.partial_, q ∈ (unfreeze_partials k s st).n.partial_) ∧
    (st.slabs.Nodup → ∀ q ∈ st.c.partial_, q ∈ (unfreeze_partials k s st).n.partial_ ∨
      ((st.mem q).inuse = 0 ∧ s.min_partial ≤ (unfreeze_partials k s st).n.nr_partial ∧
        q ∉ (unfreeze_partials k s st).slabs)) ∧
    (∀ q ∈ (unfreeze_partials k s st).slabs, q ∈ st.slabs) := by
  obtain ⟨l1, l2, l3, l4, l5, _, l7, _⟩ := unfreeze_partials_loop_rest s st.c.partial_ st []
  obtain ⟨d1, d2, d3, d4, d5, d6, _⟩ := discard_all_frame
    (unfreeze_partials_loop s st.c.partial_ st []).2 (unfreeze_partials_loop s st.c.partial_ st []).1
  unfold unfreeze_partials
  rw [if_pos hk]
  simp only []
  refine ⟨?_, ?_, ?_, ?_, ?_, ?_, ?_⟩
  · rw [d2]; exact l1 rfl
  · rw [d2]; exact l2
  · rw [d2]; exact l3
  · intro q
    rw [d1]
    exact unfreeze_partials_loop_mem s st.c.partial_ st [] q
  · intro q hq
    rw [d3]
    exact l5 q hq
  · intro hnd q hq
    rcases l7 q hq with h | h
    · left
      rw [d3]
      exact h
    · right
      refine ⟨h.2.1, ?_, d5 ?_ q h.1⟩
      · rw [d4]
        exact h.2.2
      · rw [l4]
        exact hnd
  · intro q hq
    have := d6 q hq
    rw [l4] at this
    exact this

theorem unfreeze_partials_chain (k : Kconfig) (s : kmem_cache) (st : State) (h : ChainOk st) :
    ChainOk (unfreeze_partials k s st) := by
  by_cases hk : k.CONFIG_SLUB_CPU_PARTIAL = true
  · exact ChainOk.nil (unfreeze_partials_spec k s st hk).1
  · unfold unfreeze_partials
    rw [if_neg hk]
    exact h

theorem unfreeze_partials_sub (k : Kconfig) (s : kmem_cache) (st : State) :
    ∀ q ∈ (unfreeze_partials k s st).c.partial_, q ∈ st.c.partial_ := by
  by_cases hk : k.CONFIG_SLUB_CPU_PARTIAL = true
  · rw [(unfreeze_partials_spec k s st hk).1]
    intro q hq
    simp at hq
  · unfold unfreeze_partials
    rw [if_neg hk]
    exact fun _ h => h

theorem put_cpu_partial_unfold (k : Kconfig) (s : kmem_cache) (st : State) (page : Nat)
    (drain : Bool) (hk : k.CONFIG_SLUB_CPU_PARTIAL = true) :
    put_cpu_partial k s st page drain =
      if s.cpu_partial = 0 then
        unfreeze_partials k s (cpu_partial_link
          (if cpu_partial_full s st drain then unfreeze_partials k s st else st) page)
      else cpu_partial_link
        (if cpu_partial_full s st drain then unfreeze_partials k s st else st) page := by
  unfold put_cpu_partial
  rw [if_pos hk]
  rfl

/-- The function `put_cpu_partial` keeps the page counts of `c->partial`
right when the page is not on the list yet. -/
theorem put_cpu_partial_chain (k : Kconfig) (s : kmem_cache) (st : State) (page : Nat)
    (drain : Bool) (h : ChainOk st) (hp : page ∉ st.c.partial_) :
    ChainOk ( put_cpu_partial k s st page drain) ∧
    ∀ q ∈ ( put_cpu_partial k s st page drain).c.partial_, q = page ∨ q ∈ st.c.partial_ := by
  by_cases hk : k.CONFIG_SLUB_CPU_PARTIAL = true
  · have h1 : ChainOk (if cpu_partial_full s st drain then unfreeze_partials k s st else st) ∧
        ∀ q ∈ (if cpu_partial_full s st drain then unfreeze_partials k s st else st).c.partial_,
          q ∈ st.c.partial_ := by
      split
      · exact ⟨unfreeze_partials_chain k s st h, unfreeze_partials_sub k s st⟩
      · exact ⟨h, fun _ h => h⟩
    have h2 := h1.1.link (fun hm => hp (h1.2 page hm))
    have h3 : ∀ q ∈ (cpu_partial_link
        (if cpu_partial_full s st drain then unfreeze_partials k s st else st) page).c.partial_,
        q = page ∨ q ∈ st.c.partial_ := by
      intro q hq
      rcases List.mem_cons.mp hq with e | e
      · exact Or.inl e
      · exact Or.inr (h1.2 q e)
    rw [put_cpu_partial_unfold k s st page drain hk]
    split
    · exact ⟨unfreeze_partials_chain k s _ h2, fun q hq => h3 q (unfreeze_partials_sub k s _ q hq)⟩
    · exact ⟨h2, h3⟩
  · unfold put_cpu_partial
    rw [if_neg hk]
    exact ⟨h, fun q hq => Or.inr hq⟩

theorem deactivate_slab_drain_pages : ∀ (fl : List Obj) (pg : Page),
    (deactivate_slab_drain pg fl).1.pages = pg.pages := by
  intro fl
  induction fl with
  | nil => intro pg; rfl
  | cons a rest ih =>
    intro pg
    cases rest with
    | nil => rfl
    | cons b rest =>
      rw [deactivate_slab_drain]
      rw [ih]

theorem deactivate_slab_same (s : kmem_cache) (st : State) (page : Nat) (fl : List Obj) :
    SameChain st (deactivate_slab s st page fl) := by
  have hd := deactivate_slab_drain_pages fl (st.mem page)
  unfold deactivate_slab
  simp only []
  refine ⟨?_, ?_⟩
  · split_ifs <;> rfl
  · intro q
    by_cases e : q = page
    · subst e
      split_ifs <;> (simp only [discard_slab, setPage, if_true]; split <;> simp [hd])
    · split_ifs <;> simp [discard_slab, setPage, e]

theorem get_freelist_same (st : State) (page : Nat) : SameChain st (get_freelist st page).1 := by
  refine ⟨rfl, ?_⟩
  intro q
  by_cases e : q = page
  · subst e; simp [get_freelist, setPage]
  · simp [get_freelist, setPage, e]

theorem acquire_slab_same (k : Kconfig) (st : State) (page : Nat) (mode : Bool) :
    SameChain st (acquire_slab k st page mode).1 := by
  refine ⟨rfl, ?_⟩
  intro q
  by_cases e : q = page
  · subst e
    cases mode <;> simp [acquire_slab, setPage]
  · simp [acquire_slab, setPage, e]

theorem flush_slab_same (s : kmem_cache) (st : State) : SameChain st (flush_slab s st) := by
  unfold flush_slab
  split
  · exact SameChain.same_refl st
  · rename_i page _
    have := deactivate_slab_same s st page st.c.freelist
    exact ⟨this.1, this.2⟩

theorem new_slab_same (s : kmem_cache) (src : PageSource) (st : State) :
    SameChain st (new_slab s src st).1 := by
  unfold new_slab allocate_slab
  simp only []
  rcases h1 : src.pref with _ | a
  · rcases h2 : src.min with _ | a
    · exact ⟨rfl, fun _ => rfl⟩
    · refine ⟨rfl, ?_⟩
      intro q
      by_cases e : q = a.1
      · simp [setPage, e]
      · simp [setPage, e]
  · refine ⟨rfl, ?_⟩
    intro q
    by_cases e : q = a.1
    · simp [setPage, e]
    · simp [setPage, e]

theorem load_freelist_same (st : State) (fl : List Obj) :
    SameChain st (load_freelist st fl).1 := by
  cases fl with
  | nil => exact SameChain.same_refl st
  | cons x next => exact ⟨rfl, fun _ => rfl⟩

theorem slab_alloc_redo_same (s : kmem_cache) (allowed : Bool) (st : State) (page : Nat) :
    SameChain st (slab_alloc_redo s allowed st page).1 := by
  unfold slab_alloc_redo
  split
  · have := deactivate_slab_same s st page st.c.freelist
    exact ⟨this.1, this.2⟩
  · split
    · exact load_freelist_same st _
    · simp only []
      split
      · have := get_freelist_same st page
        exact ⟨this.1, this.2⟩
      · exact (get_freelist_same st page).same_trans (load_freelist_same _ _)

/-- The loop of `get_partial_node` keeps the page counts of `c->partial`
right: the pages it links are those of the node list, none of them on
`c->partial` yet. -/
theorem get_partial_node_loop_chain (k : Kconfig) (s : kmem_cache) (allowed : Bool) :
    ∀ (l : List Nat) (st : State) (object : List Obj) (available : Int),
      l.Nodup → (∀ q ∈ l, q ∉ st.c.partial_) → ChainOk st →
      ChainOk (get_partial_node_loop k s allowed l st object available).1 := by
  intro l
  induction l with
  | nil => intro st object available _ _ h; exact h
  | cons page rest ih =>
    intro st object available hnd hdis h
    have hnd' := List.nodup_cons.mp hnd
    have hrest : ∀ q ∈ rest, q ∉ st.c.partial_ := fun q hq => hdis q (List.mem_cons_of_mem _ hq)
    have hs1 := acquire_slab_same k st page (decide (object = []))
    have h1 : ChainOk (acquire_slab k st page (decide (object = []))).1 := h.same hs1
    have hp1 : page ∉ (acquire_slab k st page (decide (object = []))).1.c.partial_ := by
      rw [hs1.1]
      exact hdis page (List.mem_cons_self _ _)
    have key : ChainOk (if object = [] then
          { (acquire_slab k st page (decide (object = []))).1 with
            c := { (acquire_slab k st page (decide (object = []))).1.c with page := some page } }
        else put_cpu_partial k s (acquire_slab k st page (decide (object = []))).1 page false) ∧
        ∀ q ∈ rest, q ∉ (if object = [] then
          { (acquire_slab k st page (decide (object = []))).1 with
            c := { (acquire_slab k st page (decide (object = []))).1.c with page := some page } }
        else put_cpu_partial k s (acquire_slab k st page (decide (object = []))).1 page
          false).c.partial_ := by
      split
      · refine ⟨h1.same ⟨rfl, fun _ => rfl⟩, ?_⟩
        intro q hq
        exact hrest q hq
      · obtain ⟨c1, c2⟩ := put_cpu_partial_chain k s _ page false h1 hp1
        refine ⟨c1, ?_⟩
        intro q hq hm
        rcases c2 q hm with e | e
        · exact hnd'.1 (e ▸ hq)
        · rw [hs1.1] at e
          exact hrest q hq e
    rw [get_partial_node_loop]
    split
    · exact ih st object available hnd'.2 hrest h
    · simp only []
      split
      · exact h1
      · split
        · exact key.1
        · exact ih _ _ _ hnd'.2 key.2 key.1

theorem get_partial_chain {s : kmem_cache} {st : State} {live : List Obj}
    (h : InvG s st [] live none []) (k : Kconfig) (allowed : Bool)
    (hc : st.c.partial_ = []) (hch : ChainOk st) :
    ChainOk ( get_partial k s allowed st).1 := by
  unfold get_partial get_partial_node
  split
  · exact hch
  · refine get_partial_node_loop_chain k s allowed _ st [] 0 h.npart_nodup ?_ hch
    intro q _
    rw [hc]
    simp

theorem new_slab_objects_chain {s : kmem_cache} {st : State} {live : List Obj}
    (h : InvG s st [] live none []) (k : Kconfig) (allowed : Bool) (src : PageSource)
    (hc : st.c.partial_ = []) (hch : ChainOk st) :
    ChainOk (new_slab_objects k s allowed src st).1 := by
  have h1 := get_partial_chain h k allowed hc hch
  have h2 := new_slab_same s src ( get_partial k s allowed st).1
  unfold new_slab_objects
  simp only []
  split
  · exact h1
  · split
    · rename_i st' e
      rw [e] at h2
      exact h1.same h2
    · rename_i st' page e
      rw [e] at h2
      have h3 : ChainOk st' := h1.same h2
      have h4 : ChainOk (if st'.c.page.isSome = true then flush_slab s st' else st') := by
        split
        · exact h3.same (flush_slab_same s st')
        · exact h3
      refine h4.same ⟨rfl, ?_⟩
      intro q
      by_cases e : q = page
      · simp [setPage, e]
      · simp [setPage, e]

/-- The part of `__slab_alloc` from `new_slab` on keeps the page counts of
`c->partial` right. -/
theorem slab_alloc_new_slab_chain {k : Kconfig} {s : kmem_cache} {allowed : Bool}
    {src : PageSource} {live : List Obj} (hg : Opened s) : ∀ (chain : List Nat) (st : State),
    InvG s st [] live none [] → st.c.page = none → st.c.freelist = [] →
    st.c.partial_ = chain → SrcOk st src → ChainOk st →
    ChainOk (slab_alloc_new_slab k s allowed src chain st).1 := by
  intro chain
  induction chain with
  | nil =>
    intro st h _ _ hp _ hch
    have n1 := new_slab_objects_chain h k allowed src hp hch
    rw [slab_alloc_new_slab]
    simp only []
    split
    · exact n1
    · exact n1
    · rename_i object next page e1 e2
      split
      · exact n1.same (load_freelist_same _ _)
      · have := deactivate_slab_same s (new_slab_objects k s allowed src st).1 page next
        exact n1.same ⟨this.1, this.2⟩
  | cons p next ih =>
    intro st h hc hfl hp hsrc hch
    have h1 : InvG s
        { st with c := { st.c with page := some p, partial_ := next, freelist := [] } }
        ({ st with c := { st.c with page := some p, partial_ := next, freelist := [] } } :
          State).c.freelist live none [] := h.take_cpu_partial hc hp
    have c1 : ChainOk
        { st with c := { st.c with page := some p, partial_ := next, freelist := [] } } :=
      hch.tail hp rfl (fun _ => rfl)
    obtain ⟨r1, r2⟩ := h1.slab_alloc_redo_ok allowed hg rfl
    have c2 := c1.same (slab_alloc_redo_same s allowed
      { st with c := { st.c with page := some p, partial_ := next, freelist := [] } } p)
    rw [slab_alloc_new_slab]
    simp only []
    split
    · rename_i st' object e
      rw [e] at c2
      exact c2
    · rename_i st' e
      rw [e] at r1 r2 c2
      obtain ⟨d1, d2, d3, d4⟩ := r2 rfl
      have r1' : InvG s st' st'.c.freelist live none [] := r1
      rw [d2] at r1'
      exact ih st' r1' d1 d2 d3 (fun a ha hm => hsrc a ha (d4 _ hm)) c2

theorem slab_alloc_chain {k : Kconfig} {s : kmem_cache} {allowed : Bool}
    {src : PageSource} {st : State} {live : List Obj} (h : InvG s st st.c.freelist live none [])
    (hg : Opened s) (hfl : st.c.freelist = []) (hsrc : SrcOk st src) (hch : ChainOk st) :
    ChainOk (__slab_alloc k s allowed src st).1 := by
  unfold __slab_alloc
  split
  · rename_i hc
    rw [hfl] at h
    exact slab_alloc_new_slab_chain hg _ st h hc hfl rfl hsrc hch
  · rename_i p hc
    obtain ⟨r1, r2⟩ := h.slab_alloc_redo_ok allowed hg hc
    have c2 := hch.same (slab_alloc_redo_same s allowed st p)
    split
    · rename_i st' object e
      rw [e] at c2
      exact c2
    · rename_i st' e
      rw [e] at r1 r2 c2
      obtain ⟨d1, d2, d3, d4⟩ := r2 rfl
      have r1' : InvG s st' st'.c.freelist live none [] := r1
      rw [d2] at r1'
      exact slab_alloc_new_slab_chain hg _ st' r1' d1 d2 rfl
        (fun a ha hm => hsrc a ha (d4 _ hm)) c2

theorem kmem_cache_alloc_chain {s : kmem_cache} {src : PageSource} {r : Run} (h : Inv s r)
    (k : Kconfig) (allowed : Bool) (hg : Opened s) (hsrc : SrcOk r.st src)
    (hch : ChainOk r.st) : ChainOk (kmem_cache_alloc k s allowed src r.st).1 := by
  unfold Inv at h
  unfold kmem_cache_alloc slab_alloc_node
  split
  · rename_i hfl
    exact slab_alloc_chain h hg hfl hsrc hch
  · exact hch.same ⟨rfl, fun _ => rfl⟩

/-- The function `__slab_free` on a frozen page: the object goes onto
`page->freelist`, nothing else happens. -/
theorem slab_free_frozen_eq (k : Kconfig) (s : kmem_cache) (st : State) (page : Nat) (x : Obj)
    (hfz : (st.mem page).frozen = true) :
    __slab_free k s st page x =
      setPage st page { st.mem page with
        freelist := x :: (st.mem page).freelist, inuse := dec16 (st.mem page).inuse } := by
  unfold __slab_free
  simp [hfz]

/-- The function `__slab_free` on a page that is not frozen and has no free
object, in a cache with per-CPU partial support: the page is frozen and handed
to `put_cpu_partial`. -/
theorem slab_free_freeze_eq (k : Kconfig) (s : kmem_cache) (st : State) (page : Nat) (x : Obj)
    (hfz : (st.mem page).frozen = false) (hhas : kmem_cache_has_cpu_partial k s = true)
    (hfl : (st.mem page).freelist = []) :
    __slab_free k s st page x =
      put_cpu_partial k s (setPage st page { st.mem page with
        freelist := [x], inuse := dec16 (st.mem page).inuse, frozen := true }) page true := by
  unfold __slab_free
  simp [hfz, hhas, hfl]

theorem setPage_same (st : State) (page : Nat) (pg : Page)
    (hpg : pg.pages = (st.mem page).pages) : SameChain st (setPage st page pg) := by
  refine ⟨rfl, ?_⟩
  intro q
  by_cases e : q = page
  · simp [setPage, e, hpg]
  · simp [setPage, e]

theorem slab_free_chain {k : Kconfig} {s : kmem_cache} {st : State} {cfl live : List Obj}
    {t : Option Nat} {d : List Nat} (h : InvG s st cfl live t d) (page : Nat) (x : Obj)
    (hch : ChainOk st) : ChainOk (__slab_free k s st page x) := by
  cases hfz : (st.mem page).frozen
  · by_cases hcp : kmem_cache_has_cpu_partial k s = true ∧ (st.mem page).freelist = []
    · rw [slab_free_freeze_eq k s st page x hfz hcp.1 hcp.2]
      have hp : page ∉ st.c.partial_ := by
        intro hm
        have := (h.cpart page hm).2.1
        rw [hfz] at this
        exact Bool.noConfusion this
      exact (put_cpu_partial_chain k s (setPage st page { st.mem page with
        freelist := [x], inuse := dec16 (st.mem page).inuse, frozen := true }) page true
        (hch.same (setPage_same st page _ rfl)) hp).1
    · rw [slab_free_unfrozen_eq k s st page x hfz hcp]
      have h1 := hch.same (setPage_same st page (slab_free_page (st.mem page) x) rfl)
      split
      · refine h1.same ⟨?_, ?_⟩
        · split <;> rfl
        · intro q
          split <;> rfl
      · split
        · exact h1.same ⟨rfl, fun _ => rfl⟩
        · exact h1
  · rw [slab_free_frozen_eq k s st page x hfz]
    exact hch.same (setPage_same st page _ rfl)

theorem kmem_cache_free_chain {k : Kconfig} {s : kmem_cache} {r : Run} (h : Inv s r)
    (x : Obj) (hch : ChainOk r.st) : ChainOk (kmem_cache_free k s r.st x) := by
  unfold kmem_cache_free slab_free
  split
  · exact hch.same ⟨rfl, fun _ => rfl⟩
  · exact slab_free_chain h x.page x hch

theorem step_chain {k : Kconfig} {s : kmem_cache} {r : Run} (h : Inv s r) (hg : Opened s)
    (op : Op) (hop : OpOk r op) (hch : ChainOk r.st) : ChainOk (step k s r op).st := by
  cases op with
  | alloc allowed src =>
    have h1 := kmem_cache_alloc_chain h k allowed hg hop hch
    rcases hr : (kmem_cache_alloc k s allowed src r.st).2 with _ | x
    · rw [step_alloc_none k s r allowed src hr]
      exact h1
    · rw [step_alloc_some k s r allowed src x hr]
      exact h1
  | free x => exact kmem_cache_free_chain h x hch

/-- In every state a well-formed sequence of calls reaches, `page->pages` of
a page of `c->partial` is the length of the list from that page on. -/
theorem run_chain {k : Kconfig} {s : kmem_cache} (hg : Opened s) :
    ∀ (ops : List Op) (r : Run), Inv s r → ChainOk r.st → TraceOk k s r ops →
      ChainOk (run k s r ops).st := by
  intro ops
  induction ops with
  | nil => intro r _ hch _; exact hch
  | cons op ops ih =>
    intro r h hch ht
    exact ih _ (h.step_ok hg op ht.1) (step_chain h hg op ht.1 hch) ht.2

/-- The invariant does not depend on the tunables `cpu_partial` and
`min_partial` of the descriptor. -/
theorem InvG.cache_congr {s s1 : kmem_cache} {st : State} {cfl live : List Obj}
    {t : Option Nat} {d : List Nat} (h : InvG s st cfl live t d)
    (h1 : s1.oo = s.oo) (h2 : s1.min = s.min) : InvG s1 st cfl live t d :=
  { h with
    wf := fun p hp => by
      have := h.wf p hp
      unfold PageWf at this ⊢
      rw [h1, h2]
      exact this }

theorem Opened.opened_congr {s s1 : kmem_cache} (h : Opened s) (h0 : s1.flags = s.flags)
    (h1 : s1.oo = s.oo) (h2 : s1.min = s.min) : Opened s1 := by
  unfold Opened kmem_cache_debug at h ⊢
  rw [h0, h1, h2]
  exact h

/-- The function `flush_all` keeps the invariant and leaves the CPU without a
slab; with per-CPU partial lists built in, `c->partial` is empty. -/
theorem InvG.flush_all_ok {k : Kconfig} {s : kmem_cache} {st : State} {live : List Obj}
    (h : InvG s st st.c.freelist live none []) (hg : Opened s) :
    InvG s (flush_all k s st) [] live none [] ∧ (flush_all k s st).c.page = none ∧
    (flush_all k s st).c.freelist = [] ∧
    (k.CONFIG_SLUB_CPU_PARTIAL = true → (flush_all k s st).c.partial_ = []) := by
  have hflush : InvG s (if st.c.page.isSome then flush_slab s st else st) [] live none [] ∧
      (if st.c.page.isSome then flush_slab s st else st).c.page = none ∧
      (if st.c.page.isSome then flush_slab s st else st).c.freelist = [] ∧
      (if st.c.page.isSome then flush_slab s st else st).c.partial_ = st.c.partial_ := by
    by_cases hs : st.c.page.isSome = true
    · rw [if_pos hs]
      obtain ⟨p, hc⟩ := Option.isSome_iff_exists.mp hs
      obtain ⟨d1, d2, _, _⟩ := h.deactivate hg hc
        { deactivate_slab s st p st.c.freelist with
          c := { (deactivate_slab s st p st.c.freelist).c with
            tid := next_tid (deactivate_slab s st p st.c.freelist).c.tid,
            page := none, freelist := [] } } rfl rfl rfl rfl rfl
      have e : flush_slab s st = { deactivate_slab s st p st.c.freelist with
          c := { (deactivate_slab s st p st.c.freelist).c with
            tid := next_tid (deactivate_slab s st p st.c.freelist).c.tid,
            page := none, freelist := [] } } := by
        unfold flush_slab
        rw [hc]
      rw [e]
      exact ⟨d1, rfl, rfl, d2⟩
    · rw [if_neg hs]
      have hc : st.c.page = none := by
        rcases h' : st.c.page with _ | p
        · rfl
        · rw [h'] at hs
          simp at hs
      have e := h.cnone hc
      have h' := h
      rw [e] at h'
      exact ⟨h', hc, e, rfl⟩
  obtain ⟨f1, f2, f3, f4⟩ := hflush
  have hun : InvG s (__flush_cpu_slab k s st) [] live none [] ∧
      (__flush_cpu_slab k s st).c.page = none ∧ (__flush_cpu_slab k s st).c.freelist = [] ∧
      (k.CONFIG_SLUB_CPU_PARTIAL = true → (__flush_cpu_slab k s st).c.partial_ = []) := by
    unfold __flush_cpu_slab
    simp only []
    by_cases hk : k.CONFIG_SLUB_CPU_PARTIAL = true
    · obtain ⟨u1, u2, u3⟩ := f1.unfreeze hk
      exact ⟨u1, u3.cpage.trans f2, u3.cfl.trans f3, fun _ => u2⟩
    · unfold unfreeze_partials
      rw [if_neg hk]
      exact ⟨f1, f2, f3, fun e => absurd e hk⟩
  unfold flush_all
  split
  · exact hun
  · rename_i hh
    unfold has_cpu_slab at hh
    have hc : st.c.page = none := by
      rcases h' : st.c.page with _ | p
      · rfl
      · rw [h'] at hh
        simp at hh
    have hp : st.c.partial_ = [] := by
      rcases h' : st.c.partial_ with _ | ⟨p, l⟩
      · rfl
      · rw [h'] at hh
        simp at hh
    have e := h.cnone hc
    have h' := h
    rw [e] at h'
    exact ⟨h', hc, e, fun _ => hp⟩

theorem shrink_splice_length (promote : Nat → List Nat) :
    ∀ (n : Nat) (acc : List Nat),
      (shrink_splice promote n acc).length = promote_length promote n + acc.length := by
  intro n
  induction n with
  | zero => intro acc; simp [shrink_splice, promote_length]
  | succ i ih =>
    intro acc
    rw [shrink_splice, ih, promote_length, List.length_append]
    omega

theorem shrink_splice_mem (promote : Nat → List Nat) :
    ∀ (n : Nat) (acc : List Nat) (p : Nat),
      p ∈ shrink_splice promote n acc → p ∈ acc ∨ ∃ i, p ∈ promote i := by
  intro n
  induction n with
  | zero => intro acc p h; exact Or.inl h
  | succ i ih =>
    intro acc p h
    rw [shrink_splice] at h
    rcases ih _ p h with h1 | h1
    · rcases List.mem_append.mp h1 with h2 | h2
      · exact Or.inr ⟨i, h2⟩
      · exact Or.inl h2
    · exact Or.inr h1

theorem promote_length_update (promote : Nat → List Nat) (j p : Nat) :
    ∀ n : Nat, promote_length (fun i => if i = j then p :: promote i else promote i) n =
      promote_length promote n + (if j < n then 1 else 0) := by
  intro n
  induction n with
  | zero => simp [promote_length]
  | succ i ih =>
    rw [promote_length, promote_length, ih]
    by_cases h1 : i = j
    · subst h1
      simp
      omega
    · by_cases h2 : j < i
      · have h3 : j < i + 1 := by omega
        simp [h1, h2, h3]
        omega
      · have h3 : ¬ j < i + 1 := by omega
        simp [h1, h2, h3]

/-- The first loop of `__kmem_cache_shrink` does not hit the `BUG_ON` when
every page of the list has a free object, and sorts the pages as intended. -/
theorem shrink_loop_spec (k : Kconfig) (mem : Nat → Page) (orig : List Nat) :
    ∀ (rest : List Nat) (a : ShrinkLists), rest.Nodup →
      (∀ p ∈ rest, p ∈ orig ∧ (mem p).inuse < (mem p).objects) →
      ShrinkInv mem rest orig a →
      ∃ b, shrink_loop k mem rest a = some b ∧ ShrinkInv mem [] orig b := by
  intro rest
  induction rest with
  | nil => intro a _ _ h; exact ⟨a, rfl, h⟩
  | cons page rest ih =>
    intro a hnd hp h
    obtain ⟨i1, i2, i3, i4, i5, i6⟩ := h
    have hnd' := List.nodup_cons.mp hnd
    obtain ⟨ho, hlt⟩ := hp page (List.mem_cons_self _ _)
    have hrest : ∀ p ∈ rest, p ∈ orig ∧ (mem p).inuse < (mem p).objects :=
      fun p hp' => hp p (List.mem_cons_of_mem _ hp')
    have hfree : ¬ (((mem page).objects : Int) - ((mem page).inuse : Int) ≤ 0) := by omega
    rw [shrink_loop, if_neg hfree]
    by_cases c1 : ((mem page).objects : Int) - ((mem page).inuse : Int) = ((mem page).objects : Int)
    · rw [if_pos c1]
      have hz : (mem page).inuse = 0 := by omega
      refine ih _ hnd'.2 hrest ⟨i1, i2, ?_, ?_, ?_, ?_⟩
      · simp only [List.length_cons] at i3
        show dec_ulong k a.nr_partial =
          a.keep.length + promote_length a.promote SHRINK_PROMOTE_MAX + rest.length
        unfold dec_ulong
        rw [if_neg (by omega)]
        omega
      · refine List.nodup_cons.mpr ⟨?_, i4⟩
        intro hm
        exact (i5 page hm).1 (List.mem_cons_self _ _)
      · intro p hm
        rcases List.mem_cons.mp hm with e | e
        · subst e
          exact ⟨hnd'.1, ho, hz⟩
        · obtain ⟨j1, j2, j3⟩ := i5 p e
          exact ⟨fun hm' => j1 (List.mem_cons_of_mem _ hm'), j2, j3⟩
      · intro p hpo hpz
        rcases i6 p hpo hpz with e | e
        · exact Or.inl (List.mem_cons_of_mem _ e)
        · rcases List.mem_cons.mp e with e' | e'
          · subst e'
            exact Or.inl (List.mem_cons_self _ _)
          · exact Or.inr e'
    · rw [if_neg c1]
      have hnz : (mem page).inuse ≠ 0 := by omega
      have hdis : ∀ p ∈ a.discard, p ∉ rest ∧ p ∈ orig ∧ (mem p).inuse = 0 := by
        intro p hm
        obtain ⟨j1, j2, j3⟩ := i5 p hm
        exact ⟨fun hm' => j1 (List.mem_cons_of_mem _ hm'), j2, j3⟩
      have hall : ∀ p ∈ orig, (mem p).inuse = 0 → p ∈ a.discard ∨ p ∈ rest := by
        intro p hpo hpz
        rcases i6 p hpo hpz with e | e
        · exact Or.inl e
        · rcases List.mem_cons.mp e with e' | e'
          · subst e'
            exact absurd hpz hnz
          · exact Or.inr e'
      by_cases c2 : ((mem page).objects : Int) - ((mem page).inuse : Int) ≤
          (SHRINK_PROMOTE_MAX : Int)
      · rw [if_pos c2]
        refine ih _ hnd'.2 hrest ⟨i1, ?_, ?_, i4, hdis, hall⟩
        · intro i p hm
          simp only [] at hm
          split at hm
          · rcases List.mem_cons.mp hm with e | e
            · subst e
              exact ⟨hnz, ho⟩
            · exact i2 i p e
          · exact i2 i p hm
        · simp only [List.length_cons] at i3
          show a.nr_partial = a.keep.length + promote_length (fun i =>
            if i = (((mem page).objects : Int) - ((mem page).inuse : Int) - 1).toNat then
              page :: a.promote i else a.promote i) SHRINK_PROMOTE_MAX + rest.length
          rw [promote_length_update]
          have hj : (((mem page).objects : Int) - ((mem page).inuse : Int) - 1).toNat <
              SHRINK_PROMOTE_MAX := by
            unfold SHRINK_PROMOTE_MAX at c2 ⊢
            omega
          rw [if_pos hj]
          omega
      · rw [if_neg c2]
        refine ih _ hnd'.2 hrest ⟨?_, i2, ?_, i4, hdis, hall⟩
        · intro p hm
          rcases List.mem_append.mp hm with e | e
          · exact i1 p e
          · have : p = page := by simpa using e
            subst this
            exact ⟨hnz, ho⟩
        · simp only [List.length_cons] at i3
          show a.nr_partial = (a.keep ++ [page]).length +
            promote_length a.promote SHRINK_PROMOTE_MAX + rest.length
          simp only [List.length_append, List.length_singleton]
          omega

/-- Discarding distinct slabs keeps `nr_slabs` equal to the number of slabs. -/
theorem discard_all_count : ∀ (d : List Nat) (st : State), d.Nodup → (∀ p ∈ d, p ∈ st.slabs) →
    st.slabs.Nodup → st.n.nr_slabs = (st.slabs.length : Int) →
    (d.foldl discard_slab st).n.nr_slabs = ((d.foldl discard_slab st).slabs.length : Int) ∧
    (d.foldl discard_slab st).slabs.Nodup := by
  intro d
  induction d with
  | nil => intro st _ _ h1 h2; exact ⟨h2, h1⟩
  | cons p d ih =>
    intro st hnd hsub h1 h2
    have hnd' := List.nodup_cons.mp hnd
    have hp := hsub p (List.mem_cons_self _ _)
    simp only [List.foldl_cons]
    refine ih (discard_slab st p) hnd'.2 ?_ (h1.erase p) ?_
    · intro q hq
      have hne : q ≠ p := fun e => hnd'.1 (e ▸ hq)
      exact (List.mem_erase_of_ne hne).mpr (hsub q (List.mem_cons_of_mem _ hq))
    · show st.n.nr_slabs - 1 = ((st.slabs.erase p).length : Int)
      rw [List.length_erase_of_mem hp, h2]
      have : 1 ≤ st.slabs.length := List.length_pos_of_mem hp
      omega

/-- For a cache without debug flags whose slabs hold between 1 and
`MAX_OBJS_PER_PAGE` objects: in a state reached by a well-formed sequence of
calls, `__kmem_cache_shrink(s, deactivate)` does not hit its `BUG_ON`; afterwards no
page of the node partial list has `inuse == 0` (the pages that had were
discarded), `n->nr_partial` is the length of the list, the return value is 1
iff `slabs_node` is not 0, which is the number of slabs the cache still holds,
and 0 otherwise, and with `deactivate` both `s->cpu_partial` and
`s->min_partial` are 0. -/
theorem kmem_cache_shrink_result (k : Kconfig) (s : kmem_cache) (hg : Opened s)
    (ops : List Op) (ht : TraceOk k s fresh ops) (deactivate : Bool) :
    ∃ s1 st' ret,
      __kmem_cache_shrink k s (run k s fresh ops).st deactivate = some (s1, st', ret) ∧
      (∀ p ∈ st'.n.partial_, (st'.mem p).inuse ≠ 0) ∧
      (∀ p ∈ (flush_all k s1 (run k s fresh ops).st).n.partial_,
        ((flush_all k s1 (run k s fresh ops).st).mem p).inuse = 0 → p ∉ st'.slabs) ∧
      st'.n.nr_partial = st'.n.partial_.length ∧
      (ret = 1 ↔ slabs_node st' ≠ 0) ∧ (ret = 0 ↔ slabs_node st' = 0) ∧
      slabs_node st' = (st'.slabs.length : Int) ∧
      (deactivate = true → s1.cpu_partial = 0 ∧ s1.min_partial = 0) := by
  have h := Inv.run_ok hg ops fresh (Inv.of_fresh s) ht
  unfold Inv at h
  have hs : ∃ s1, s1 = (if deactivate = true then
      { s with cpu_partial := 0, min_partial := 0 } else s) ∧ s1.flags = s.flags ∧
      s1.oo = s.oo ∧ s1.min = s.min ∧
      (deactivate = true → s1.cpu_partial = 0 ∧ s1.min_partial = 0) := by
    refine ⟨_, rfl, ?_, ?_, ?_, ?_⟩
    · split <;> rfl
    · split <;> rfl
    · split <;> rfl
    · intro e
      rw [if_pos e]
      exact ⟨rfl, rfl⟩
  obtain ⟨s1, es, e0, e1, e2, e3⟩ := hs
  have hg' : Opened s1 := hg.opened_congr e0 e1 e2
  obtain ⟨f1, _, _, _⟩ := InvG.flush_all_ok (k := k) (h.cache_congr e1 e2) hg'
  have hpages : ∀ p ∈ (flush_all k s1 (run k s fresh ops).st).n.partial_,
      p ∈ (flush_all k s1 (run k s fresh ops).st).n.partial_ ∧
      ((flush_all k s1 (run k s fresh ops).st).mem p).inuse <
        ((flush_all k s1 (run k s fresh ops).st).mem p).objects := by
    intro p hp
    obtain ⟨n1, _, n3⟩ := f1.npart p hp
    have := (f1.wf p n1).1
    have : 0 < ((flush_all k s1 (run k s fresh ops).st).mem p).freelist.length :=
      List.length_pos.mpr n3
    exact ⟨hp, by omega⟩
  obtain ⟨b, hb, j1, j2, j3, j4, j5, j6⟩ := shrink_loop_spec k
    (flush_all k s1 (run k s fresh ops).st).mem
    (flush_all k s1 (run k s fresh ops).st).n.partial_
    (flush_all k s1 (run k s fresh ops).st).n.partial_
    { nr_partial := (flush_all k s1 (run k s fresh ops).st).n.nr_partial }
    f1.npart_nodup hpages
    ⟨fun p hp => absurd hp (List.not_mem_nil p), fun i p hp => absurd hp (List.not_mem_nil p),
      by
        show (flush_all k s1 (run k s fresh ops).st).n.nr_partial = _
        rw [f1.nr_partial]
        have : promote_length (fun _ => []) SHRINK_PROMOTE_MAX = 0 := rfl
        rw [this]
        simp,
      List.nodup_nil, fun p hp => absurd hp (List.not_mem_nil p), fun p hp _ => Or.inr hp⟩
  obtain ⟨d1, _, d3, d4, d5, _, _⟩ := discard_all_frame b.discard
    { flush_all k s1 (run k s fresh ops).st with
      n := { (flush_all k s1 (run k s fresh ops).st).n with
        partial_ := shrink_splice b.promote SHRINK_PROMOTE_MAX b.keep,
        nr_partial := b.nr_partial } }
  obtain ⟨c1, _⟩ := discard_all_count b.discard
    { flush_all k s1 (run k s fresh ops).st with
      n := { (flush_all k s1 (run k s fresh ops).st).n with
        partial_ := shrink_splice b.promote SHRINK_PROMOTE_MAX b.keep,
        nr_partial := b.nr_partial } } j4 (fun p hp => (f1.npart p (j5 p hp).2.1).1)
    f1.slabs_nodup f1.nr_slabs
  have hshrink : __kmem_cache_shrink k s (run k s fresh ops).st deactivate =
      some (s1, b.discard.foldl discard_slab
        { flush_all k s1 (run k s fresh ops).st with
          n := { (flush_all k s1 (run k s fresh ops).st).n with
            partial_ := shrink_splice b.promote SHRINK_PROMOTE_MAX b.keep,
            nr_partial := b.nr_partial } },
        if slabs_node (b.discard.foldl discard_slab
          { flush_all k s1 (run k s fresh ops).st with
            n := { (flush_all k s1 (run k s fresh ops).st).n with
              partial_ := shrink_splice b.promote SHRINK_PROMOTE_MAX b.keep,
              nr_partial := b.nr_partial } }) ≠ 0 then 1 else 0) := by
    unfold __kmem_cache_shrink
    simp only []
    rw [← es, hb]
  refine ⟨s1, _, _, hshrink, ?_, ?_, ?_, ?_, ?_, c1, e3⟩
  · intro p hp
    rw [d3] at hp
    rw [d1]
    rcases shrink_splice_mem _ _ _ p hp with e | ⟨i, e⟩
    · exact (j1 p e).1
    · exact (j2 i p e).1
  · intro p hp hz
    rcases j6 p hp hz with e | e
    · exact d5 f1.slabs_nodup p e
    · exact absurd e (List.not_mem_nil p)
  · rw [d3, d4]
    show b.nr_partial = _
    rw [j3, shrink_splice_length]
    simp
    omega
  · split <;> simp_all
  · split <;> simp_all

theorem kmem_cache_shrink_result_witness :
    Opened (open_cache rpi2 cache48) ∧ TraceOk rpi2 (open_cache rpi2 cache48) fresh trace3 ∧
    ∃ s1 st' ret,
      __kmem_cache_shrink rpi2 (open_cache rpi2 cache48)
        (run rpi2 (open_cache rpi2 cache48) fresh trace3).st true = some (s1, st', ret) ∧
      (∀ p ∈ st'.n.partial_, (st'.mem p).inuse ≠ 0) ∧
      (∀ p ∈ (flush_all rpi2 s1 (run rpi2 (open_cache rpi2 cache48) fresh trace3).st).n.partial_,
        ((flush_all rpi2 s1 (run rpi2 (open_cache rpi2 cache48) fresh trace3).st).mem p).inuse = 0 →
          p ∉ st'.slabs) ∧
      st'.n.nr_partial = st'.n.partial_.length ∧
      (ret = 1 ↔ slabs_node st' ≠ 0) ∧ (ret = 0 ↔ slabs_node st' = 0) ∧
      slabs_node st' = (st'.slabs.length : Int) ∧
      (true = true → s1.cpu_partial = 0 ∧ s1.min_partial = 0) :=
  ⟨open_cache48_opened, by decide!,
    kmem_cache_shrink_result rpi2 (open_cache rpi2 cache48) open_cache48_opened trace3
      (by decide!) true⟩

/-- The loop of `free_partial` discards the pages of the list with
`inuse == 0` and nothing else. -/
theorem free_partial_loop_spec (k : Kconfig) : ∀ (l : List Nat) (st : State),
    l.Nodup → st.slabs.Nodup → (∀ p ∈ l, p ∈ st.slabs ∧ p ∈ st.n.partial_) →
    st.n.nr_slabs = (st.slabs.length : Int) → st.n.partial_.Nodup →
    st.n.nr_partial = st.n.partial_.length →
    ( free_partial_loop k l st).mem = st.mem ∧ ( free_partial_loop k l st).c = st.c ∧
    ( free_partial_loop k l st).slabs.Nodup ∧
    ( free_partial_loop k l st).n.nr_slabs = (( free_partial_loop k l st).slabs.length : Int) ∧
    (∀ q ∈ st.slabs, (st.mem q).inuse ≠ 0 → q ∈ ( free_partial_loop k l st).slabs) ∧
    (∀ q ∈ l, (st.mem q).inuse = 0 → q ∉ ( free_partial_loop k l st).slabs ∧
      q ∉ ( free_partial_loop k l st).n.partial_) ∧
    (∀ q ∈ ( free_partial_loop k l st).slabs, q ∈ st.slabs) ∧
    (∀ q ∈ ( free_partial_loop k l st).n.partial_, q ∈ st.n.partial_) ∧
    ( free_partial_loop k l st).n.nr_partial = ( free_partial_loop k l st).n.partial_.length := by
  intro l
  induction l with
  | nil =>
    intro st _ h1 _ h2 _ h3
    refine ⟨rfl, rfl, h1, h2, fun _ h _ => h, ?_, fun _ h => h, fun _ h => h, h3⟩
    intro q hq
    exact absurd hq (List.not_mem_nil q)
  | cons p l ih =>
    intro st hnd h1 hsub h2 hpn h3
    have hnd' := List.nodup_cons.mp hnd
    obtain ⟨hp1, hp2⟩ := hsub p (List.mem_cons_self _ _)
    rw [ free_partial_loop]
    by_cases hz : (st.mem p).inuse = 0
    · rw [if_pos hz]
      have hne : ∀ q ∈ l, q ≠ p := fun q hq e => hnd'.1 (e ▸ hq)
      obtain ⟨i1, i2, i3, i4, i5, i6, i7, i8, i9⟩ :=
        ih (discard_slab { st with n := remove_partial k st.n p } p) hnd'.2 (h1.erase p)
          (fun q hq => ⟨(List.mem_erase_of_ne (hne q hq)).mpr
              (hsub q (List.mem_cons_of_mem _ hq)).1,
            (List.mem_erase_of_ne (hne q hq)).mpr (hsub q (List.mem_cons_of_mem _ hq)).2⟩)
          (by
            show st.n.nr_slabs - 1 = ((st.slabs.erase p).length : Int)
            rw [List.length_erase_of_mem hp1, h2]
            have : 1 ≤ st.slabs.length := List.length_pos_of_mem hp1
            omega)
          (hpn.erase p)
          (by
            show dec_ulong k st.n.nr_partial = (st.n.partial_.erase p).length
            rw [List.length_erase_of_mem hp2, h3]
            have : 1 ≤ st.n.partial_.length := List.length_pos_of_mem hp2
            unfold dec_ulong
            rw [if_neg (by omega)])
      refine ⟨i1, i2, i3, i4, ?_, ?_, ?_, ?_, i9⟩
      · intro q hq hnz
        refine i5 q ?_ hnz
        have : q ≠ p := fun e => hnz (e ▸ hz)
        exact (List.mem_erase_of_ne this).mpr hq
      · intro q hq hqz
        rcases List.mem_cons.mp hq with e | e
        · subst e
          refine ⟨fun hm => ?_, fun hm => ?_⟩
          · exact ((List.Nodup.mem_erase_iff h1).mp (i7 q hm)).1 rfl
          · exact ((List.Nodup.mem_erase_iff hpn).mp (i8 q hm)).1 rfl
        · exact i6 q e hqz
      · intro q hq
        exact List.mem_of_mem_erase (i7 q hq)
      · intro q hq
        exact List.mem_of_mem_erase (i8 q hq)
    · rw [if_neg hz]
      obtain ⟨i1, i2, i3, i4, i5, i6, i7, i8, i9⟩ := ih st hnd'.2 h1
        (fun q hq => hsub q (List.mem_cons_of_mem _ hq)) h2 hpn h3
      refine ⟨i1, i2, i3, i4, i5, ?_, i7, i8, i9⟩
      intro q hq hqz
      rcases List.mem_cons.mp hq with e | e
      · subst e
        exact absurd hqz hz
      · exact i6 q e hqz

/-- For a cache without debug flags whose slabs hold between 1 and
`MAX_OBJS_PER_PAGE` objects: in a state reached by a well-formed sequence of
calls, `kmem_cache_close` returns 0 only if, after `flush_all` and after the partial
slabs with `inuse == 0` are discarded, `n->nr_partial` is 0 and the cache holds
no slab; while an object is still handed out it returns 1 and frees neither
the per-CPU structure nor the node structures. -/
theorem kmem_cache_close_result (k : Kconfig) (s : kmem_cache) (hg : Opened s)
    (ops : List Op) (ht : TraceOk k s fresh ops) :
    (kmem_cache_close k s (run k s fresh ops).st).st =
      free_partial k (flush_all k s (run k s fresh ops).st) ∧
    (∀ p ∈ (flush_all k s (run k s fresh ops).st).n.partial_,
      ((flush_all k s (run k s fresh ops).st).mem p).inuse = 0 →
        p ∉ (kmem_cache_close k s (run k s fresh ops).st).st.slabs ∧
        p ∉ (kmem_cache_close k s (run k s fresh ops).st).st.n.partial_) ∧
    ((kmem_cache_close k s (run k s fresh ops).st).ret = 0 ∨
      (kmem_cache_close k s (run k s fresh ops).st).ret = 1) ∧
    ((kmem_cache_close k s (run k s fresh ops).st).ret = 0 →
      (kmem_cache_close k s (run k s fresh ops).st).st.n.nr_partial = 0 ∧
      (kmem_cache_close k s (run k s fresh ops).st).st.n.partial_ = [] ∧
      slabs_node (kmem_cache_close k s (run k s fresh ops).st).st = 0 ∧
      (kmem_cache_close k s (run k s fresh ops).st).st.slabs = []) ∧
    ((run k s fresh ops).live ≠ [] →
      (kmem_cache_close k s (run k s fresh ops).st).ret = 1 ∧
      (kmem_cache_close k s (run k s fresh ops).st).cpu_slab_freed = false ∧
      (kmem_cache_close k s (run k s fresh ops).st).nodes_freed = false ∧
      ∀ x ∈ (run k s fresh ops).live,
        x.page ∈ (kmem_cache_close k s (run k s fresh ops).st).st.slabs) := by
  have h := Inv.run_ok hg ops fresh (Inv.of_fresh s) ht
  unfold Inv at h
  obtain ⟨f1, _, _, _⟩ := InvG.flush_all_ok (k := k) h hg
  obtain ⟨i1, _, _, i4, i5, i6, _, _, i9⟩ := free_partial_loop_spec k
    (flush_all k s (run k s fresh ops).st).n.partial_ (flush_all k s (run k s fresh ops).st)
    f1.npart_nodup f1.slabs_nodup (fun p hp => ⟨(f1.npart p hp).1, hp⟩) f1.nr_slabs
    f1.npart_nodup f1.nr_partial
  have hst : (kmem_cache_close k s (run k s fresh ops).st).st =
      free_partial k (flush_all k s (run k s fresh ops).st) := by
    unfold kmem_cache_close
    simp only []
    split <;> rfl
  have hlive : ∀ x ∈ (run k s fresh ops).live,
      x.page ∈ ( free_partial k (flush_all k s (run k s fresh ops).st)).slabs := by
    intro x hx
    have := (f1.inuse_pos hg hx).1
    exact i5 x.page (f1.live_ok x hx).1 (by omega)
  have hret : ((kmem_cache_close k s (run k s fresh ops).st).ret = 0 ∧
        (kmem_cache_close k s (run k s fresh ops).st).cpu_slab_freed = true ∧
        (kmem_cache_close k s (run k s fresh ops).st).nodes_freed = true ∧
        ( free_partial k (flush_all k s (run k s fresh ops).st)).n.nr_partial = 0 ∧
        slabs_node ( free_partial k (flush_all k s (run k s fresh ops).st)) = 0) ∨
      ((kmem_cache_close k s (run k s fresh ops).st).ret = 1 ∧
        (kmem_cache_close k s (run k s fresh ops).st).cpu_slab_freed = false ∧
        (kmem_cache_close k s (run k s fresh ops).st).nodes_freed = false ∧
        (( free_partial k (flush_all k s (run k s fresh ops).st)).n.nr_partial ≠ 0 ∨
          slabs_node ( free_partial k (flush_all k s (run k s fresh ops).st)) ≠ 0)) := by
    unfold kmem_cache_close
    simp only []
    split
    · rename_i hc
      exact Or.inr ⟨rfl, rfl, rfl, hc⟩
    · rename_i hc
      simp only [not_or, not_not] at hc
      exact Or.inl ⟨rfl, rfl, rfl, hc.1, hc.2⟩
  refine ⟨hst, ?_, ?_, ?_, ?_⟩
  · intro p hp hz
    rw [hst]
    exact i6 p hp hz
  · rcases hret with e | e
    · exact Or.inl e.1
    · exact Or.inr e.1
  · intro e0
    rcases hret with e | e
    · rw [hst]
      have hlen : ( free_partial k (flush_all k s (run k s fresh ops).st)).slabs.length = 0 := by
        have := e.2.2.2.2
        unfold slabs_node at this
        have h4 : ( free_partial k (flush_all k s (run k s fresh ops).st)).n.nr_slabs =
            (( free_partial k (flush_all k s (run k s fresh ops).st)).slabs.length : Int) := i4
        omega
      have hpl : ( free_partial k (flush_all k s (run k s fresh ops).st)).n.partial_.length = 0 := by
        have h9 : ( free_partial k (flush_all k s (run k s fresh ops).st)).n.nr_partial =
            ( free_partial k (flush_all k s (run k s fresh ops).st)).n.partial_.length := i9
        rw [← h9]
        exact e.2.2.2.1
      exact ⟨e.2.2.2.1, List.length_eq_zero.mp hpl, e.2.2.2.2, List.length_eq_zero.mp hlen⟩
    · rw [e.1] at e0
      exact absurd e0 (by decide)
  · intro hl
    obtain ⟨x, hx⟩ := List.exists_mem_of_ne_nil _ hl
    have hm := hlive x hx
    rcases hret with e | e
    · exfalso
      have := e.2.2.2.2
      unfold slabs_node at this
      have h4 : ( free_partial k (flush_all k s (run k s fresh ops).st)).n.nr_slabs =
          (( free_partial k (flush_all k s (run k s fresh ops).st)).slabs.length : Int) := i4
      have : 1 ≤ ( free_partial k (flush_all k s (run k s fresh ops).st)).slabs.length :=
        List.length_pos_of_mem hm
      omega
    · refine ⟨e.1, e.2.1, e.2.2.1, ?_⟩
      rw [hst]
      exact hlive

theorem kmem_cache_close_result_witness :
    (run rpi2 (open_cache rpi2 cache48) fresh trace3).live ≠ [] ∧
    (kmem_cache_close rpi2 (open_cache rpi2 cache48)
      (run rpi2 (open_cache rpi2 cache48) fresh trace3).st).ret = 1 ∧
    (kmem_cache_close rpi2 (open_cache rpi2 cache48)
      (run rpi2 (open_cache rpi2 cache48) fresh trace3).st).cpu_slab_freed = false :=
  have h := kmem_cache_close_result rpi2 (open_cache rpi2 cache48) open_cache48_opened trace3
    (by decide!)
  ⟨by decide!, (h.2.2.2.2 (by decide!)).1, (h.2.2.2.2 (by decide!)).2.1⟩

/-- C17 as stated fails in two ways.  After `__kmem_cache_shrink(s, true)` the
cache still supports per-CPU partial caching but has `s->cpu_partial == 0`:
`__slab_free` into the full, unfrozen page 1 leaves the page unfrozen on the
node partial list and the per-CPU partial list empty.  And in the state the
calls of `ops32k_drain` lead to, the head of the per-CPU partial list has
`pobjects > s->cpu_partial`; `__slab_free` into page 13 drains the list, but
its pages 10, 11 and 12 are discarded and the node partial list stays as it
was. -/
theorem slab_free_cpu_partial_unfrozen :
    (__kmem_cache_shrink rpi2 (open_cache rpi2 cache16k)
      (run rpi2 (open_cache rpi2 cache16k) fresh ops16k_full).st true).isSome = true ∧
    kmem_cache_has_cpu_partial rpi2 shrunk16k.1 = true ∧
    kmem_cache.cpu_partial shrunk16k.1 = 0 ∧
    (shrunk16k.2.mem 1).frozen = false ∧ (shrunk16k.2.mem 1).freelist = [] ∧
    1 ∈ shrunk16k.2.slabs ∧ shrunk16k.2.n.partial_ = [] ∧
    ((__slab_free rpi2 shrunk16k.1 shrunk16k.2 1 ⟨1, 0⟩).mem 1).frozen = false ∧
    (__slab_free rpi2 shrunk16k.1 shrunk16k.2 1 ⟨1, 0⟩).c.partial_ = [] ∧
    (__slab_free rpi2 shrunk16k.1 shrunk16k.2 1 ⟨1, 0⟩).n.partial_ = [1] ∧
    TraceOk rpi2 (open_cache rpi2 cache32k) fresh ops32k_drain ∧
    (⟨13, 0⟩ : Obj) ∈ (run rpi2 (open_cache rpi2 cache32k) fresh ops32k_drain).live ∧
    kmem_cache_has_cpu_partial rpi2 (open_cache rpi2 cache32k) = true ∧
    kmem_cache.cpu_partial (open_cache rpi2 cache32k) = 2 ∧
    ((run rpi2 (open_cache rpi2 cache32k) fresh ops32k_drain).st.mem 13).frozen = false ∧
    ((run rpi2 (open_cache rpi2 cache32k) fresh ops32k_drain).st.mem 13).freelist = [] ∧
    (run rpi2 (open_cache rpi2 cache32k) fresh ops32k_drain).st.c.partial_ = [12, 11, 10] ∧
    ((run rpi2 (open_cache rpi2 cache32k) fresh ops32k_drain).st.mem 12).pobjects = 3 ∧
    (__slab_free rpi2 (open_cache rpi2 cache32k)
      (run rpi2 (open_cache rpi2 cache32k) fresh ops32k_drain).st 13 ⟨13, 0⟩).c.partial_ = [13] ∧
    (__slab_free rpi2 (open_cache rpi2 cache32k)
      (run rpi2 (open_cache rpi2 cache32k) fresh ops32k_drain).st 13 ⟨13, 0⟩).n.partial_ =
      (run rpi2 (open_cache rpi2 cache32k) fresh ops32k_drain).st.n.partial_ ∧
    (∀ q ∈ [10, 11, 12],
      q ∈ (run rpi2 (open_cache rpi2 cache32k) fresh ops32k_drain).st.slabs ∧
      q ∉ (__slab_free rpi2 (open_cache rpi2 cache32k)
        (run rpi2 (open_cache rpi2 cache32k) fresh ops32k_drain).st 13 ⟨13, 0⟩).n.partial_ ∧
      q ∉ (__slab_free rpi2 (open_cache rpi2 cache32k)
        (run rpi2 (open_cache rpi2 cache32k) fresh ops32k_drain).st 13 ⟨13, 0⟩).slabs) := by
  decide!

theorem cpu_partial_link_spec (st : State) (page : Nat) :
    (cpu_partial_link st page).c.partial_ = page :: st.c.partial_ ∧
    (cpu_partial_link st page).n = st.n ∧ (cpu_partial_link st page).slabs = st.slabs ∧
    ((cpu_partial_link st page).mem page).frozen = (st.mem page).frozen ∧
    ((cpu_partial_link st page).mem page).freelist = (st.mem page).freelist ∧
    ((cpu_partial_link st page).mem page).inuse = (st.mem page).inuse ∧
    ((cpu_partial_link st page).mem page).objects = (st.mem page).objects ∧
    ((cpu_partial_link st page).mem page).pages = cpu_partial_pages st + 1 ∧
    ((cpu_partial_link st page).mem page).pobjects =
      cpu_partial_pobjects st + (((st.mem page).objects : Int) - ((st.mem page).inuse : Int)) ∧
    (∀ q, q ≠ page → (cpu_partial_link st page).mem q = st.mem q) := by
  refine ⟨rfl, rfl, rfl, ?_, ?_, ?_, ?_, ?_, ?_, ?_⟩
  · simp [cpu_partial_link, setPage]
  · simp [cpu_partial_link, setPage]
  · simp [cpu_partial_link, setPage]
  · simp [cpu_partial_link, setPage]
  · simp [cpu_partial_link, setPage]
  · simp [cpu_partial_link, setPage]
  · intro q hq
    simp [cpu_partial_link, setPage, hq]

/-- The state of the per-CPU partial list does not depend on a page that is
not on it. -/
theorem cpu_partial_setPage (s : kmem_cache) (st : State) (page : Nat) (pg : Page)
    (hp : page ∉ st.c.partial_) (drain : Bool) :
    cpu_partial_full s (setPage st page pg) drain = cpu_partial_full s st drain ∧
    cpu_partial_pobjects (setPage st page pg) = cpu_partial_pobjects st ∧
    cpu_partial_pages (setPage st page pg) = cpu_partial_pages st := by
  unfold cpu_partial_full cpu_partial_pobjects cpu_partial_pages
  rcases hl : st.c.partial_ with _ | ⟨head, rest⟩
  · have e : (setPage st page pg).c.partial_ = [] := hl
    rw [e]
    exact ⟨rfl, rfl, rfl⟩
  · have e : (setPage st page pg).c.partial_ = head :: rest := hl
    have hne : head ≠ page := by
      intro e'
      rw [hl, e'] at hp
      exact hp (List.mem_cons_self _ _)
    rw [e]
    simp [setPage, hne]

theorem slab_free_unfrozen_stays (k : Kconfig) (s : kmem_cache) (st : State) (page : Nat)
    (x : Obj) (hfz : (st.mem page).frozen = false)
    (hcp : ¬ ( kmem_cache_has_cpu_partial k s = true ∧ (st.mem page).freelist = [])) :
    ((__slab_free k s st page x).mem page).frozen = false := by
  rw [slab_free_unfrozen_eq k s st page x hfz hcp]
  by_cases c1 : dec16 (st.mem page).inuse = 0 ∧ st.n.nr_partial ≥ s.min_partial
  · rw [if_pos c1]
    by_cases c2 : (st.mem page).freelist = []
    · simp [c2, discard_slab, setPage, slab_free_page]
    · simp [c2, discard_slab, setPage, slab_free_page]
  · rw [if_neg c1]
    by_cases c2 : (st.mem page).freelist = []
    · rw [if_pos c2]
      simp [setPage, slab_free_page]
    · rw [if_neg c2]
      simp [setPage, slab_free_page]

/-- C17, amended: in a state reached by a well-formed sequence of calls, for a
cache that supports per-CPU partial caching and has `s->cpu_partial != 0`,
`__slab_free` of an object into a page that is not frozen and has an empty
free list freezes the page and makes it the head of the per-CPU partial list.
Without a drain the node is untouched, `page->pages` is the length of the
previous list plus 1 and `page->pobjects` the previous head's `pobjects` (0
without a head) plus `objects - inuse`.  If the previous head's `pobjects`
exceeded `s->cpu_partial`, the page becomes the only entry and every page of
the previous list is unfrozen and is on the node partial list or, having
`inuse == 0` with `n->nr_partial >= s->min_partial`, discarded.  For a cache
without such support the page is not frozen. -/
theorem slab_free_freezes (k : Kconfig) (s : kmem_cache) (hg : Opened s) (ops : List Op)
    (ht : TraceOk k s fresh ops) (st : State) (hst : st = (run k s fresh ops).st)
    (page : Nat) (x : Obj) (hfz : (st.mem page).frozen = false)
    (hfl : (st.mem page).freelist = []) :
    ( kmem_cache_has_cpu_partial k s = true → s.cpu_partial ≠ 0 →
      ((__slab_free k s st page x).mem page).frozen = true ∧
      ((__slab_free k s st page x).mem page).freelist = [x] ∧
      ((__slab_free k s st page x).mem page).inuse = dec16 (st.mem page).inuse ∧
      (cpu_partial_full s st true = false →
        (__slab_free k s st page x).c.partial_ = page :: st.c.partial_ ∧
        (__slab_free k s st page x).n = st.n ∧
        (__slab_free k s st page x).slabs = st.slabs ∧
        ((__slab_free k s st page x).mem page).pages = (st.c.partial_.length : Int) + 1 ∧
        ((__slab_free k s st page x).mem page).pobjects =
          cpu_partial_pobjects st +
            ((((__slab_free k s st page x).mem page).objects : Int) -
              (((__slab_free k s st page x).mem page).inuse : Int))) ∧
      (cpu_partial_full s st true = true →
        (__slab_free k s st page x).c.partial_ = [page] ∧
        ((__slab_free k s st page x).mem page).pages = 1 ∧
        ((__slab_free k s st page x).mem page).pobjects =
          ((((__slab_free k s st page x).mem page).objects : Int) -
            (((__slab_free k s st page x).mem page).inuse : Int)) ∧
        ∀ q ∈ st.c.partial_,
          ((__slab_free k s st page x).mem q).frozen = false ∧
          (q ∈ (__slab_free k s st page x).n.partial_ ∨
            ((st.mem q).inuse = 0 ∧ s.min_partial ≤ (__slab_free k s st page x).n.nr_partial ∧
              q ∉ (__slab_free k s st page x).slabs)))) ∧
    ( kmem_cache_has_cpu_partial k s = false →
      ((__slab_free k s st page x).mem page).frozen = false) := by
  have h := Inv.run_ok hg ops fresh (Inv.of_fresh s) ht
  have hch := run_chain hg ops fresh (Inv.of_fresh s) (ChainOk.nil rfl) ht
  unfold Inv at h
  rw [← hst] at h hch
  have hp : page ∉ st.c.partial_ := by
    intro hm
    have := (h.cpart page hm).2.1
    rw [hfz] at this
    exact Bool.noConfusion this
  refine ⟨?_, ?_⟩
  · intro hhas hcp
    have hk := has_cpu_partial_config hhas
    obtain ⟨e1, e2, e3⟩ := cpu_partial_setPage s st page { st.mem page with
      freelist := [x], inuse := dec16 (st.mem page).inuse, frozen := true } hp true
    have hch1 : ChainOk (setPage st page { st.mem page with
        freelist := [x], inuse := dec16 (st.mem page).inuse, frozen := true }) :=
      hch.same (setPage_same st page _ rfl)
    have hm1 : (setPage st page { st.mem page with
        freelist := [x], inuse := dec16 (st.mem page).inuse, frozen := true }).mem page =
        { st.mem page with
          freelist := [x], inuse := dec16 (st.mem page).inuse, frozen := true } := by
      simp [setPage]
    have hm2 : ∀ q, q ≠ page → (setPage st page { st.mem page with
        freelist := [x], inuse := dec16 (st.mem page).inuse, frozen := true }).mem q =
        st.mem q := by
      intro q hq
      simp [setPage, hq]
    rw [slab_free_freeze_eq k s st page x hfz hhas hfl,
      put_cpu_partial_eq k s _ page true hk hcp, e1]
    by_cases hfull : cpu_partial_full s st true = true
    · rw [if_pos hfull]
      obtain ⟨u1, _, _, u4, _, u6, _⟩ := unfreeze_partials_spec k s (setPage st page
        { st.mem page with
          freelist := [x], inuse := dec16 (st.mem page).inuse, frozen := true }) hk
      obtain ⟨l1, l2, l3, l4, l5, l6, l7, l8, l9, l10⟩ := cpu_partial_link_spec
        (unfreeze_partials k s (setPage st page { st.mem page with
          freelist := [x], inuse := dec16 (st.mem page).inuse, frozen := true })) page
      have u4' : ∀ q, (unfreeze_partials k s (setPage st page { st.mem page with
          freelist := [x], inuse := dec16 (st.mem page).inuse, frozen := true })).mem q =
          if q ∈ st.c.partial_ then
            { (setPage st page { st.mem page with
              freelist := [x], inuse := dec16 (st.mem page).inuse, frozen := true }).mem q with
              frozen := false }
          else (setPage st page { st.mem page with
            freelist := [x], inuse := dec16 (st.mem page).inuse, frozen := true }).mem q := u4
      have hup : (unfreeze_partials k s (setPage st page { st.mem page with
          freelist := [x], inuse := dec16 (st.mem page).inuse, frozen := true })).mem page =
          { st.mem page with
            freelist := [x], inuse := dec16 (st.mem page).inuse, frozen := true } := by
        rw [u4' page, if_neg hp, hm1]
      have hpg : cpu_partial_pages (unfreeze_partials k s (setPage st page { st.mem page with
          freelist := [x], inuse := dec16 (st.mem page).inuse, frozen := true })) = 0 := by
        unfold cpu_partial_pages
        rw [u1]
      have hpo : cpu_partial_pobjects (unfreeze_partials k s (setPage st page
          { st.mem page with
            freelist := [x], inuse := dec16 (st.mem page).inuse, frozen := true })) = 0 := by
        unfold cpu_partial_pobjects
        rw [u1]
      refine ⟨?_, ?_, ?_, fun e => absurd hfull (by rw [e]; exact Bool.false_ne_true), fun _ => ?_⟩
      · rw [l4, hup]
      · rw [l5, hup]
      · rw [l6, hup]
      · refine ⟨?_, ?_, ?_, ?_⟩
        · rw [l1, u1]
        · rw [l8, hpg]
          rfl
        · rw [l9, hpo, l7, l6]
          simp
        · intro q hq
          have hne : q ≠ page := fun e => hp (e ▸ hq)
          rw [l10 q hne, u4' q, if_pos hq, l2, l3]
          refine ⟨rfl, ?_⟩
          rcases u6 h.slabs_nodup q hq with a | a
          · exact Or.inl a
          · refine Or.inr ⟨?_, a.2⟩
            have := a.1
            rw [hm2 q hne] at this
            exact this
    · rw [if_neg hfull]
      obtain ⟨l1, l2, l3, l4, l5, l6, l7, l8, l9, l10⟩ := cpu_partial_link_spec
        (setPage st page { st.mem page with
          freelist := [x], inuse := dec16 (st.mem page).inuse, frozen := true }) page
      refine ⟨?_, ?_, ?_, fun _ => ?_, fun e => absurd e hfull⟩
      · rw [l4, hm1]
      · rw [l5, hm1]
      · rw [l6, hm1]
      · refine ⟨l1, l2, l3, ?_, ?_⟩
        · rw [l8, hch1.pages]
          rfl
        · rw [l9, e2, l7, l6]
  · intro hhas
    refine slab_free_unfrozen_stays k s st page x hfz ?_
    intro hc
    rw [hhas] at hc
    exact Bool.false_ne_true hc.1

/-- The two objects of slab 1 of the 16 KiB cache are handed out and a third
allocation has moved the CPU to slab 2: freeing an object of slab 1 freezes
the page and makes it the per-CPU partial list. -/
theorem slab_free_freezes_witness :
    ((__slab_free rpi2 (open_cache rpi2 cache16k)
      (run rpi2 (open_cache rpi2 cache16k) fresh
        (ops16k_full ++ [Op.alloc false { pref := some (2, false) }])).st 1 ⟨1, 0⟩).mem 1).frozen =
      true ∧
    (__slab_free rpi2 (open_cache rpi2 cache16k)
      (run rpi2 (open_cache rpi2 cache16k) fresh
        (ops16k_full ++ [Op.alloc false { pref := some (2, false) }])).st 1 ⟨1, 0⟩).c.partial_ =
      [1] :=
  ⟨((slab_free_freezes rpi2 (open_cache rpi2 cache16k) (by unfold Opened; decide!)
      (ops16k_full ++ [Op.alloc false { pref := some (2, false) }]) (by decide!) _ rfl 1 ⟨1, 0⟩
      (by decide!) (by decide!)).1 (by decide!) (by decide!)).1, by decide!⟩

/-- In a state kept by the invariant every page of the node partial list is
unfrozen and has a free object. -/
theorem InvG.npart_free {s : kmem_cache} {st : State} {cfl live : List Obj} {t : Option Nat}
    {d : List Nat} (h : InvG s st cfl live t d) {p : Nat} (hp : p ∈ st.n.partial_) :
    (st.mem p).frozen = false ∧ (st.mem p).inuse < (st.mem p).objects ∧
    (st.mem p).freelist ≠ [] := by
  obtain ⟨n1, n2, n3⟩ := h.npart p hp
  have h1 := (h.wf p n1).1
  have h2 : 0 < (st.mem p).freelist.length := List.length_pos.mpr n3
  exact ⟨n2, by omega, n3⟩

/-- The first loop of `__kmem_cache_shrink` passes its `BUG_ON` on a list of
pages that all have a free object. -/
theorem shrink_loop_some (k : Kconfig) (mem : Nat → Page) :
    ∀ (rest : List Nat) (a : ShrinkLists),
      (∀ p ∈ rest, (mem p).inuse < (mem p).objects) →
      (shrink_loop k mem rest a).isSome = true := by
  intro rest
  induction rest with
  | nil => intro a _; rfl
  | cons page rest ih =>
    intro a hp
    have hlt := hp page (List.mem_cons_self _ _)
    have hrest : ∀ p ∈ rest, (mem p).inuse < (mem p).objects :=
      fun p hp' => hp p (List.mem_cons_of_mem _ hp')
    have hfree : ¬ (((mem page).objects : Int) - ((mem page).inuse : Int) ≤ 0) := by omega
    rw [shrink_loop, if_neg hfree]
    split
    · exact ih _ hrest
    · split
      · exact ih _ hrest
      · exact ih _ hrest

/-- For a cache without debug flags whose slabs hold between 1 and
`MAX_OBJS_PER_PAGE` objects: in every state a well-formed sequence of calls
reaches, every page of the node partial list has `frozen == 0`, `inuse < objects` and a non-empty
free list; the same holds of the list `__kmem_cache_shrink` walks after
`flush_all`, so `BUG_ON(free <= 0)` does not fire and the function returns. -/
theorem node_partial_has_free_object (k : Kconfig) (s : kmem_cache) (hg : Opened s)
    (ops : List Op) (ht : TraceOk k s fresh ops) :
    (∀ p ∈ (run k s fresh ops).st.n.partial_,
      ((run k s fresh ops).st.mem p).frozen = false ∧
      ((run k s fresh ops).st.mem p).inuse < ((run k s fresh ops).st.mem p).objects ∧
      ((run k s fresh ops).st.mem p).freelist ≠ []) ∧
    (∀ p ∈ (flush_all k s (run k s fresh ops).st).n.partial_,
      ((flush_all k s (run k s fresh ops).st).mem p).frozen = false ∧
      (0 : Int) < (((flush_all k s (run k s fresh ops).st).mem p).objects : Int) -
        (((flush_all k s (run k s fresh ops).st).mem p).inuse : Int) ∧
      ((flush_all k s (run k s fresh ops).st).mem p).freelist ≠ []) ∧
    (∀ deactivate : Bool,
      (__kmem_cache_shrink k s (run k s fresh ops).st deactivate).isSome = true) := by
  have h := Inv.run_ok hg ops fresh (Inv.of_fresh s) ht
  unfold Inv at h
  refine ⟨fun p hp => h.npart_free hp, ?_, ?_⟩
  · obtain ⟨f1, _, _, _⟩ := InvG.flush_all_ok (k := k) h hg
    intro p hp
    obtain ⟨a1, a2, a3⟩ := f1.npart_free hp
    exact ⟨a1, by omega, a3⟩
  · intro deactivate
    have hs : ∃ s1, s1 = (if deactivate = true then
        { s with cpu_partial := 0, min_partial := 0 } else s) ∧ s1.flags = s.flags ∧
        s1.oo = s.oo ∧ s1.min = s.min := by
      refine ⟨_, rfl, ?_, ?_, ?_⟩
      · split <;> rfl
      · split <;> rfl
      · split <;> rfl
    obtain ⟨s1, es, e0, e1, e2⟩ := hs
    obtain ⟨f1, _, _, _⟩ := InvG.flush_all_ok (k := k) (h.cache_congr e1 e2)
      (hg.opened_congr e0 e1 e2)
    have hl := shrink_loop_some k (flush_all k s1 (run k s fresh ops).st).mem
      (flush_all k s1 (run k s fresh ops).st).n.partial_
      { nr_partial := (flush_all k s1 (run k s fresh ops).st).n.nr_partial }
      (fun p hp => (f1.npart_free hp).2.1)
    unfold __kmem_cache_shrink
    simp only []
    rw [← es]
    rcases hb : shrink_loop k (flush_all k s1 (run k s fresh ops).st).mem
      (flush_all k s1 (run k s fresh ops).st).n.partial_
      { nr_partial := (flush_all k s1 (run k s fresh ops).st).n.nr_partial } with _ | b
    · rw [hb] at hl
      exact absurd hl (by decide)
    · rfl

theorem node_partial_has_free_object_witness :
    ((run rpi2 (open_cache rpi2 cache16k) fresh ops16k).st.mem 2).inuse <
      ((run rpi2 (open_cache rpi2 cache16k) fresh ops16k).st.mem 2).objects ∧
    (__kmem_cache_shrink rpi2 (open_cache rpi2 cache16k)
      (run rpi2 (open_cache rpi2 cache16k) fresh ops16k).st false).isSome = true :=
  have h := node_partial_has_free_object rpi2 (open_cache rpi2 cache16k)
    (by unfold Opened; decide!) ops16k (by decide!)
  ⟨(h.1 2 (by decide!)).2.1, h.2.2 false⟩

/-- The loop of `slab_order` stops at the first order, from `order` on, that
holds `min_objects` objects and wastes at most the given fraction. -/
theorem slab_order_loop_least (k : Kconfig) (size mo frac res : Nat) :
    ∀ (fuel order : Nat),
      (slab_order_loop k size mo frac res fuel order < order + fuel →
        mo * size + res ≤ PAGE_SIZE k <<< slab_order_loop k size mo frac res fuel order ∧
        slab_waste k (slab_order_loop k size mo frac res fuel order) size res ≤
          (PAGE_SIZE k <<< slab_order_loop k size mo frac res fuel order) / frac) ∧
      (∀ o, order ≤ o → o < slab_order_loop k size mo frac res fuel order →
        ¬ (mo * size + res ≤ PAGE_SIZE k <<< o ∧
          slab_waste k o size res ≤ (PAGE_SIZE k <<< o) / frac)) := by
  intro fuel
  induction fuel with
  | zero =>
    intro order
    refine ⟨fun h => ?_, fun o h1 h2 => ?_⟩
    · simp [slab_order_loop] at h
    · simp only [slab_order_loop] at h2
      omega
  | succ fuel ih =>
    intro order
    obtain ⟨i1, i2⟩ := ih (order + 1)
    rw [slab_order_loop]
    by_cases c1 : PAGE_SIZE k <<< order < mo * size + res
    · rw [if_pos c1]
      refine ⟨fun h => i1 (by omega), fun o h1 h2 => ?_⟩
      by_cases e : o = order
      · subst e
        intro hc
        omega
      · exact i2 o (by omega) h2
    · rw [if_neg c1]
      by_cases c2 : (PAGE_SIZE k <<< order - res) % size ≤ PAGE_SIZE k <<< order / frac
      · rw [if_pos c2]
        refine ⟨fun _ => ⟨by omega, c2⟩, fun o h1 h2 => ?_⟩
        omega
      · rw [if_neg c2]
        refine ⟨fun h => i1 (by omega), fun o h1 h2 => ?_⟩
        by_cases e : o = order
        · subst e
          intro hc
          exact c2 hc.2
        · exact i2 o (by omega) h2

/-- An order below the one `slab_order` starts its loop with gives a block too
small for `min_objects` objects. -/
theorem slab_order_start_small (k : Kconfig) (size mo o : Nat) (hm : 1 ≤ mo * size)
    (ho : o < fls (mo * size - 1) - k.PAGE_SHIFT) : PAGE_SIZE k <<< o < mo * size := by
  have h1 : k.PAGE_SHIFT + o < flsAux 32 (mo * size - 1) := by
    unfold fls at ho
    omega
  have h2 := flsAux_lt 32 _ _ h1
  rw [PAGE_SIZE_shift]
  omega

/-- C25: for `size > 0`, `min_objects >= 1`, `fract_leftover >= 1` and
`order_objects(slub_min_order, size, reserved) <= MAX_OBJS_PER_PAGE`, an order
`r <= max_order` returned by `slab_order` gives a block of at least
`min_objects * size + reserved` bytes whose waste is at most the block size
divided by `fract_leftover`, no order from `slub_min_order` up to `r` does,
and with `min_objects = 1` and `fract_leftover = 1` it is the smallest order
from `slub_min_order` on whose block fits one object and the reserved bytes. -/
theorem slab_order_least (k : Kconfig) (size mo maxo frac res r : Nat) (hsize : 0 < size)
    (hmo : 1 ≤ mo) (hfrac : 1 ≤ frac)
    (hobj : order_objects k k.slub_min_order size res ≤ MAX_OBJS_PER_PAGE)
    (hr : slab_order k size mo maxo frac res = (r : Int)) (hle : r ≤ maxo) :
    mo * size + res ≤ PAGE_SIZE k <<< r ∧
    slab_waste k r size res ≤ (PAGE_SIZE k <<< r) / frac ∧
    k.slub_min_order ≤ r ∧
    (∀ o, k.slub_min_order ≤ o → o < r →
      ¬ (mo * size + res ≤ PAGE_SIZE k <<< o ∧
        slab_waste k o size res ≤ (PAGE_SIZE k <<< o) / frac)) ∧
    (mo = 1 → frac = 1 →
      size + res ≤ PAGE_SIZE k <<< r ∧
      ∀ o, k.slub_min_order ≤ o → size + res ≤ PAGE_SIZE k <<< o → r ≤ o) := by
  have hB : ¬ order_objects k k.slub_min_order size res > MAX_OBJS_PER_PAGE := by omega
  have hm : 1 ≤ mo * size := Nat.mul_pos hmo hsize
  unfold slab_order at hr
  simp only [] at hr
  rw [if_neg hB] at hr
  have hr' : slab_order_loop k size mo frac res
      (maxo + 1 - max k.slub_min_order (fls (mo * size - 1) - k.PAGE_SHIFT))
      (max k.slub_min_order (fls (mo * size - 1) - k.PAGE_SHIFT)) = r := by
    exact_mod_cast hr
  obtain ⟨l1, l2⟩ := slab_order_loop_least k size mo frac res
    (maxo + 1 - max k.slub_min_order (fls (mo * size - 1) - k.PAGE_SHIFT))
    (max k.slub_min_order (fls (mo * size - 1) - k.PAGE_SHIFT))
  have hge := slab_order_loop_ge k size mo frac res
    (maxo + 1 - max k.slub_min_order (fls (mo * size - 1) - k.PAGE_SHIFT))
    (max k.slub_min_order (fls (mo * size - 1) - k.PAGE_SHIFT))
  rw [hr'] at l1 l2 hge
  obtain ⟨a1, a2⟩ := l1 (by omega)
  have hmin : ∀ o, k.slub_min_order ≤ o → o < r →
      ¬ (mo * size + res ≤ PAGE_SIZE k <<< o ∧
        slab_waste k o size res ≤ (PAGE_SIZE k <<< o) / frac) := by
    intro o h1 h2
    by_cases hs : max k.slub_min_order (fls (mo * size - 1) - k.PAGE_SHIFT) ≤ o
    · exact l2 o hs h2
    · intro hc
      have := slab_order_start_small k size mo o hm (by omega)
      omega
  refine ⟨a1, a2, by omega, hmin, ?_⟩
  intro e1 e2
  subst e1 e2
  rw [Nat.one_mul] at a1
  refine ⟨a1, ?_⟩
  intro o h1 h2
  by_contra hlt
  refine hmin o h1 (by omega) ⟨by rw [Nat.one_mul]; exact h2, ?_⟩
  rw [Nat.div_one]
  unfold slab_waste
  exact Nat.le_trans (Nat.mod_le _ _) (Nat.sub_le _ _)

/-- For objects of 700 bytes and at least 5 of them per slab, `slab_order`
with a waste of at most 1/16 returns order 1 on the board's configuration:
order 0 holds 5 objects but wastes 596 bytes. -/
theorem slab_order_least_witness :
    slab_order rpi2 700 5 3 16 0 = 1 ∧
    5 * 700 + 0 ≤ PAGE_SIZE rpi2 <<< 1 ∧
    slab_waste rpi2 1 700 0 ≤ (PAGE_SIZE rpi2 <<< 1) / 16 ∧
    slab_waste rpi2 0 700 0 = 596 :=
  have h := slab_order_least rpi2 700 5 3 16 0 1 (by decide) (by decide) (by decide)
    (by decide) (by decide) (by decide)
  ⟨by decide, h.1, h.2.1, by decide⟩

theorem flsAux_gt (fuel : Nat) : ∀ x : Nat, x < 2 ^ fuel → x < 2 ^ flsAux fuel x := by
  induction fuel with
  | zero =>
    intro x hx
    simp only [pow_zero] at hx
    simp only [flsAux, pow_zero]
    exact hx
  | succ fuel ih =>
    intro x hx
    unfold flsAux
    split
    · rename_i h0
      rw [h0]
      exact Nat.one_pos
    · have h1 : x / 2 < 2 ^ fuel := by
        rw [Nat.pow_succ] at hx
        omega
      have h2 := ih (x / 2) h1
      rw [Nat.pow_succ]
      omega

theorem TID_STEP_preempt_spec (k : Kconfig) (n : Nat) (h1 : 1 ≤ n)
    (h2 : n ≤ 2 ^ 31) :
    n ≤ TID_STEP_preempt n ∧ TID_STEP_preempt n ∣ 2 ^ BITS_PER_LONG k ∧
    0 < TID_STEP_preempt n := by
  have hw : 31 ≤ BITS_PER_LONG k := by
    unfold BITS_PER_LONG
    split <;> omega
  have hx : n - 1 < 2 ^ 31 := by omega
  have h64 : n - 1 < 2 ^ 64 :=
    Nat.lt_of_lt_of_le hx (Nat.pow_le_pow_right (by decide) (by omega))
  have hgt := flsAux_gt 64 (n - 1) h64
  have hle := flsAux_le 64 (n - 1) 31 hx
  unfold TID_STEP_preempt roundup_pow_of_two
  rw [Nat.one_shiftLeft]
  refine ⟨by omega, ?_, Nat.pos_pow_of_pos _ (by decide)⟩
  exact Nat.pow_dvd_pow 2 (by omega)

theorem tid_to_cpu_next (k : Kconfig) (n : Nat) (h1 : 1 ≤ n)
    (h2 : n ≤ 2 ^ 31) (t : Nat) :
    tid_to_cpu n (next_tid_preempt k n t) = tid_to_cpu n t := by
  obtain ⟨_, hd, _⟩ := TID_STEP_preempt_spec k n h1 h2
  unfold tid_to_cpu next_tid_preempt
  rw [Nat.mod_mod_of_dvd _ hd, Nat.add_mod_right]

/-- C28: with `TID_STEP = roundup_pow_of_two(CONFIG_NR_CPUS)` for at most
`2^31` CPUs and arithmetic modulo the width of `unsigned long`, `next_tid` keeps `tid_to_cpu`, also when
the addition wraps; every transaction id reached from `init_tid(cpu)` maps back
to `cpu`, and the transaction ids of two different CPUs are never equal. -/
theorem next_tid_keeps_cpu (k : Kconfig) (CONFIG_NR_CPUS : Nat) (h1 : 1 ≤ CONFIG_NR_CPUS)
    (h2 : CONFIG_NR_CPUS ≤ 2 ^ 31) :
    CONFIG_NR_CPUS ≤ TID_STEP_preempt CONFIG_NR_CPUS ∧
    (∀ t, tid_to_cpu CONFIG_NR_CPUS (next_tid_preempt k CONFIG_NR_CPUS t) =
      tid_to_cpu CONFIG_NR_CPUS t) ∧
    (∀ cpu j, cpu < TID_STEP_preempt CONFIG_NR_CPUS →
      tid_to_cpu CONFIG_NR_CPUS (tid_after k CONFIG_NR_CPUS cpu j) = cpu) ∧
    (∀ cpu1 cpu2 i j, cpu1 < TID_STEP_preempt CONFIG_NR_CPUS →
      cpu2 < TID_STEP_preempt CONFIG_NR_CPUS → cpu1 ≠ cpu2 →
      tid_after k CONFIG_NR_CPUS cpu1 i ≠ tid_after k CONFIG_NR_CPUS cpu2 j) := by
  obtain ⟨hn, _, _⟩ := TID_STEP_preempt_spec k CONFIG_NR_CPUS h1 h2
  have hcpu : ∀ cpu j, cpu < TID_STEP_preempt CONFIG_NR_CPUS →
      tid_to_cpu CONFIG_NR_CPUS (tid_after k CONFIG_NR_CPUS cpu j) = cpu := by
    intro cpu j hc
    induction j with
    | zero =>
      unfold tid_after tid_to_cpu init_tid
      exact Nat.mod_eq_of_lt hc
    | succ j ih =>
      rw [tid_after, tid_to_cpu_next k CONFIG_NR_CPUS h1 h2]
      exact ih
  refine ⟨hn, tid_to_cpu_next k CONFIG_NR_CPUS h1 h2, hcpu, ?_⟩
  intro cpu1 cpu2 i j c1 c2 hne he
  have e1 := hcpu cpu1 i c1
  have e2 := hcpu cpu2 j c2
  rw [he, e2] at e1
  exact hne e1.symm

/-- Four CPUs on the 32-bit board: the transaction id `2^32 - 3` of CPU 1 is
followed by 1, which still maps to CPU 1. -/
theorem next_tid_keeps_cpu_witness :
    TID_STEP_preempt 4 = 4 ∧ next_tid_preempt rpi2 4 (2 ^ 32 - 3) = 1 ∧
    tid_to_cpu 4 (next_tid_preempt rpi2 4 (2 ^ 32 - 3)) = tid_to_cpu 4 (2 ^ 32 - 3) :=
  ⟨by decide, by decide,
    (next_tid_keeps_cpu rpi2 4 (by decide) (by decide)).2.1 (2 ^ 32 - 3)⟩

/-! ## The packed order and object count of an accepted cache -/

/-- A packed word whose object count is below `2^16` gives back the order and
the count it was made of. -/
theorem oo_make_exact (k : Kconfig) (order size reserved : Nat)
    (h : order_objects k order size reserved < 2 ^ 16) :
    oo_order (oo_make k order size reserved) = order ∧
    oo_objects (oo_make k order size reserved) = order_objects k order size reserved := by
  constructor
  · unfold oo_order oo_make OO_SHIFT
    simp only []
    rw [Nat.shiftRight_eq_div_pow, Nat.shiftLeft_eq, Nat.mul_comm,
      Nat.mul_add_div (by decide), Nat.div_eq_of_lt h, Nat.add_zero]
  · unfold oo_objects oo_make OO_MASK OO_SHIFT
    simp only []
    rw [show (1 <<< 16) - 1 = 2 ^ 16 - 1 by decide, Nat.and_pow_two_sub_one_eq_mod,
      Nat.shiftLeft_eq, Nat.mul_comm, Nat.mul_add_mod]
    exact Nat.mod_eq_of_lt h

theorem calculate_order_fraction_le (k : Kconfig) (size res mo : Nat) :
    ∀ l r, calculate_order_fraction k size res mo l = some r → r ≤ (k.slub_max_order : Int) := by
  intro l
  induction l with
  | nil => intro r hr; simp [calculate_order_fraction] at hr
  | cons frac rest ih =>
    intro r hr
    unfold calculate_order_fraction at hr
    simp only [] at hr
    split at hr
    · rename_i hle
      have : slab_order k size mo k.slub_max_order frac res = r := by simpa using hr
      rw [← this]
      exact hle
    · exact ih r hr

theorem calculate_order_search_le (k : Kconfig) (size res : Nat) :
    ∀ n r, calculate_order_search k size res n = some r → r ≤ (k.slub_max_order : Int) := by
  intro n
  induction n with
  | zero => intro r hr; simp [calculate_order_search] at hr
  | succ n ih =>
    intro r hr
    unfold calculate_order_search at hr
    split at hr
    · split at hr
      · rename_i o ho
        have : o = r := by simpa using hr
        rw [← this]
        exact calculate_order_fraction_le k size res (n + 1) _ o ho
      · exact ih r hr
    · simp at hr

/-- The value `calculate_order` returns is an order up to `slub_max_order`, or
the value of its last call of `slab_order`, below `MAX_ORDER`, or `-ENOSYS`. -/
theorem calculate_order_cases (k : Kconfig) (size res : Nat) :
    calculate_order k size res ≤ (k.slub_max_order : Int) ∨
    (calculate_order k size res = slab_order k size 1 k.MAX_ORDER 1 res ∧
      slab_order k size 1 k.MAX_ORDER 1 res < (k.MAX_ORDER : Int)) ∨
    calculate_order k size res = -ENOSYS := by
  unfold calculate_order
  split
  · rename_i r hr
    exact Or.inl (calculate_order_search_le k size res _ r hr)
  · simp only []
    split
    · rename_i h
      exact Or.inl h
    · split
      · rename_i h
        exact Or.inr (Or.inl ⟨rfl, h⟩)
      · exact Or.inr (Or.inr rfl)

/-- With `min_objects = 1` and `fract_leftover = 1`, no order from
`slub_min_order` up to the one `slab_order` returns gives a block for one
object and the reserved bytes. -/
theorem slab_order_one_least (k : Kconfig) (size maxo res r : Nat) (hsize : 0 < size)
    (hobj : order_objects k k.slub_min_order size res ≤ MAX_OBJS_PER_PAGE)
    (hr : slab_order k size 1 maxo 1 res = (r : Int)) :
    ∀ o, k.slub_min_order ≤ o → o < r → PAGE_SIZE k <<< o < size + res := by
  have hB : ¬ order_objects k k.slub_min_order size res > MAX_OBJS_PER_PAGE := by omega
  unfold slab_order at hr
  simp only [] at hr
  rw [if_neg hB] at hr
  have hr' : slab_order_loop k size 1 1 res
      (maxo + 1 - max k.slub_min_order (fls (1 * size - 1) - k.PAGE_SHIFT))
      (max k.slub_min_order (fls (1 * size - 1) - k.PAGE_SHIFT)) = r := by
    exact_mod_cast hr
  obtain ⟨_, l2⟩ := slab_order_loop_least k size 1 1 res
    (maxo + 1 - max k.slub_min_order (fls (1 * size - 1) - k.PAGE_SHIFT))
    (max k.slub_min_order (fls (1 * size - 1) - k.PAGE_SHIFT))
  rw [hr'] at l2
  intro o hs2 ho
  by_cases hs : fls (1 * size - 1) - k.PAGE_SHIFT ≤ o
  · have := l2 o (by omega) ho
    by_contra hc
    refine this ⟨by rw [Nat.one_mul]; omega, ?_⟩
    rw [Nat.div_one]
    unfold slab_waste
    exact Nat.le_trans (Nat.mod_le _ _) (Nat.sub_le _ _)
  · have := slab_order_start_small k size 1 o (by omega) (by omega)
    omega

/-- What `calculate_sizes(s, -1)` leaves in a descriptor it accepts. -/
theorem calculate_sizes_accepted (k : Kconfig) (s : kmem_cache)
    (hret : (calculate_sizes k s (-1)).2 ≠ 0) :
    (calculate_sizes k s (-1)).1.size =
      ALIGN (calculate_sizes_object k s).2 s.align ∧
    (calculate_sizes k s (-1)).1.reserved = s.reserved ∧
    0 ≤ calculate_order k (calculate_sizes k s (-1)).1.size s.reserved ∧
    (calculate_sizes k s (-1)).1.oo =
      oo_make k (calculate_order k (calculate_sizes k s (-1)).1.size s.reserved).toNat
        (calculate_sizes k s (-1)).1.size s.reserved ∧
    (calculate_sizes k s (-1)).1.min =
      oo_make k (get_order k (calculate_sizes k s (-1)).1.size)
        (calculate_sizes k s (-1)).1.size s.reserved ∧
    oo_objects (calculate_sizes k s (-1)).1.oo ≠ 0 := by
  obtain ⟨_, _, h3, h4⟩ := calculate_sizes_object_spec k s
  unfold calculate_sizes at hret ⊢
  simp only [h3, h4] at hret ⊢
  generalize (calculate_sizes_object k s).2 = sz at hret ⊢
  generalize (calculate_sizes_object k s).1 = s1 at h3 h4 hret ⊢
  generalize ALIGN sz s.align = size at hret ⊢
  have hord : (if (-1 : Int) ≥ 0 then (-1 : Int) else calculate_order k size s.reserved) =
      calculate_order k size s.reserved := rfl
  rw [hord] at hret ⊢
  by_cases hneg : calculate_order k size s.reserved < 0
  · rw [if_pos hneg] at hret
    exact absurd rfl hret
  · rw [if_neg hneg] at hret ⊢
    simp only [] at hret ⊢
    have hnn : 0 ≤ calculate_order k size s.reserved := by omega
    split at hret
    · rename_i hc
      have hz : oo_objects (oo_make k (calculate_order k size s.reserved).toNat size
          s.reserved) ≠ 0 := by
        intro e
        split at hret
        · rename_i e'
          exact hret rfl
        · rename_i e'
          exact e' e
      rw [if_pos hc]
      exact ⟨rfl, rfl, hnn, rfl, rfl, hz⟩
    · rename_i hc
      have hz : oo_objects (oo_make k (calculate_order k size s.reserved).toNat size
          s.reserved) ≠ 0 := by
        intro e
        split at hret
        · rename_i e'
          exact hret rfl
        · rename_i e'
          exact e' e
      rw [if_neg hc]
      exact ⟨rfl, rfl, hnn, rfl, rfl, hz⟩

/-- The size `calculate_sizes` arrives at holds a pointer: it is a non-zero
multiple of `sizeof(void *)`. -/
theorem calculate_sizes_size_ge (k : Kconfig) (s : kmem_cache) (hobj : 1 ≤ s.object_size)
    (halign : ∃ j, s.align = 2 ^ j) :
    sizeof_ptr k ≤ ALIGN (calculate_sizes_object k s).2 s.align := by
  obtain ⟨j, hj⟩ := halign
  obtain ⟨i, hi⟩ := sizeof_ptr_pow k
  obtain ⟨_, h2, _, _⟩ := calculate_sizes_object_spec k s
  have h5 : 1 ≤ (calculate_sizes_object k s).2 := by
    have ha := ALIGN_ge s.object_size i
    unfold calculate_sizes_object
    simp only []
    rw [hi]
    split <;> split <;> split <;> split <;> omega
  rw [hj]
  have h6 := ALIGN_ge (calculate_sizes_object k s).2 j
  have h7 : sizeof_ptr k ≤ (calculate_sizes_object k s).2 := Nat.le_of_dvd (by omega) h2
  omega

/-- The order `calculate_order` returns with 4 KiB pages, `slub_min_order = 0`
and `slub_max_order = 3` gives a slab of at most 8192 objects when an object
takes at least 4 bytes and at most a page is reserved. -/
theorem calculate_order_objects_le (k : Kconfig) (hps : k.PAGE_SHIFT = 12)
    (hmin : k.slub_min_order = 0) (hmax : k.slub_max_order = 3) (size res order : Nat)
    (hsize : 4 ≤ size) (hres : res ≤ PAGE_SIZE k)
    (hr : calculate_order k size res = (order : Int)) :
    order_objects k order size res ≤ 8192 := by
  have hP : PAGE_SIZE k = 4096 := by
    unfold PAGE_SIZE
    rw [hps]
    rfl
  have hdiv : ∀ a, a ≤ 32768 → (a - res) / size ≤ 8192 := by
    intro a ha
    have h1 : (a - res) / size ≤ (a - res) / 4 := Nat.div_le_div_left hsize (by decide)
    omega
  have hB : order_objects k k.slub_min_order size res ≤ MAX_OBJS_PER_PAGE := by
    unfold order_objects MAX_OBJS_PER_PAGE
    rw [hmin, PAGE_SIZE_shift, hps]
    have := hdiv (2 ^ (12 + 0)) (by decide)
    omega
  rcases calculate_order_cases k size res with c | c | c
  · rw [hr, hmax] at c
    have ho : order ≤ 3 := by exact_mod_cast c
    unfold order_objects
    rw [PAGE_SIZE_shift, hps]
    refine hdiv _ ?_
    have : 2 ^ (12 + order) ≤ 2 ^ (12 + 3) := Nat.pow_le_pow_right (by decide) (by omega)
    exact this
  · rw [hr] at c
    have hl := slab_order_one_least k size k.MAX_ORDER res order (by omega) hB c.1.symm
    unfold order_objects
    rw [PAGE_SIZE_shift, hps]
    rcases Nat.eq_zero_or_pos order with e | e
    · rw [e]
      exact hdiv _ (by decide)
    · have h1 := hl (order - 1) (by omega) (by omega)
      rw [PAGE_SIZE_shift, hps] at h1
      have h2 : 2 ^ (12 + order) = 2 * 2 ^ (12 + (order - 1)) := by
        rw [show 12 + order = (12 + (order - 1)) + 1 by omega, Nat.pow_succ, Nat.mul_comm]
      rw [hP] at hres
      have h3 : 2 ^ (12 + order) - res < size * 1027 := by omega
      have := Nat.div_lt_of_lt_mul h3
      omega
  · rw [hr] at c
    unfold ENOSYS at c
    omega

/-- C29: with 4 KiB pages, `slub_min_order = 0` and `slub_max_order = 3`, for
a cache of objects of at least one byte and a power-of-two alignment that
`calculate_sizes(s, -1)` accepts, the packed word `s->oo` gives back the order
`calculate_order` returned and the count `order_objects` of that order, and
the count is at most `MAX_OBJS_PER_PAGE`. -/
theorem oo_word_exact (k : Kconfig) (hps : k.PAGE_SHIFT = 12) (hmin : k.slub_min_order = 0)
    (hmax : k.slub_max_order = 3) (s : kmem_cache) (hobj : 1 ≤ s.object_size)
    (halign : ∃ j, s.align = 2 ^ j) (hres : s.reserved ≤ PAGE_SIZE k)
    (hret : (calculate_sizes k s (-1)).2 ≠ 0) :
    ∃ order : Nat,
      calculate_order k (calculate_sizes k s (-1)).1.size (calculate_sizes k s (-1)).1.reserved =
        (order : Int) ∧
      oo_order (calculate_sizes k s (-1)).1.oo = order ∧
      oo_objects (calculate_sizes k s (-1)).1.oo =
        order_objects k order (calculate_sizes k s (-1)).1.size
          (calculate_sizes k s (-1)).1.reserved ∧
      order_objects k order (calculate_sizes k s (-1)).1.size
        (calculate_sizes k s (-1)).1.reserved ≤ MAX_OBJS_PER_PAGE := by
  obtain ⟨a1, a2, a3, a4, _, _⟩ := calculate_sizes_accepted k s hret
  have hsz := calculate_sizes_size_ge k s hobj halign
  rw [← a1] at hsz
  have h4 : 4 ≤ (calculate_sizes k s (-1)).1.size := by
    have : 4 ≤ sizeof_ptr k := by
      unfold sizeof_ptr
      split <;> omega
    omega
  have hr : calculate_order k (calculate_sizes k s (-1)).1.size s.reserved =
      ((calculate_order k (calculate_sizes k s (-1)).1.size s.reserved).toNat : Int) :=
    (Int.toNat_of_nonneg a3).symm
  have hle := calculate_order_objects_le k hps hmin hmax _ _ _ h4 hres hr
  obtain ⟨e1, e2⟩ := oo_make_exact k
    (calculate_order k (calculate_sizes k s (-1)).1.size s.reserved).toNat
    (calculate_sizes k s (-1)).1.size s.reserved (by omega)
  refine ⟨(calculate_order k (calculate_sizes k s (-1)).1.size s.reserved).toNat, ?_, ?_, ?_, ?_⟩
  · rw [a2]
    exact hr
  · rw [a4]
    exact e1
  · rw [a4, a2]
    exact e2
  · rw [a2]
    unfold MAX_OBJS_PER_PAGE
    omega

/-- The cache of 48-byte objects on the board: order 0 and 85 objects. -/
theorem oo_word_exact_witness :
    oo_order (calculate_sizes rpi2 cache48 (-1)).1.oo = 0 ∧
    oo_objects (calculate_sizes rpi2 cache48 (-1)).1.oo = 85 ∧
    ∃ order : Nat,
      calculate_order rpi2 (calculate_sizes rpi2 cache48 (-1)).1.size
        (calculate_sizes rpi2 cache48 (-1)).1.reserved = (order : Int) ∧
      oo_order (calculate_sizes rpi2 cache48 (-1)).1.oo = order ∧
      oo_objects (calculate_sizes rpi2 cache48 (-1)).1.oo =
        order_objects rpi2 order (calculate_sizes rpi2 cache48 (-1)).1.size
          (calculate_sizes rpi2 cache48 (-1)).1.reserved ∧
      order_objects rpi2 order (calculate_sizes rpi2 cache48 (-1)).1.size
        (calculate_sizes rpi2 cache48 (-1)).1.reserved ≤ MAX_OBJS_PER_PAGE :=
  ⟨by decide, by decide,
    oo_word_exact rpi2 rfl rfl rfl cache48 (by decide) ⟨3, by decide⟩ (by decide) (by decide)⟩

/-! ## The minimum order of a cache -/

theorem get_order_ge (k : Kconfig) (x : Nat) (hx : x ≤ 2 ^ (k.PAGE_SHIFT + 32)) :
    x ≤ PAGE_SIZE k <<< get_order k x := by
  have hs : (x - 1) >>> k.PAGE_SHIFT < 2 ^ 32 := by
    rw [Nat.shiftRight_eq_div_pow, Nat.div_lt_iff_lt_mul (Nat.pow_pos (by decide))]
    rw [Nat.pow_add, Nat.mul_comm] at hx
    have : 0 < 2 ^ 32 * 2 ^ k.PAGE_SHIFT := Nat.mul_pos (by decide) (Nat.pow_pos (by decide))
    omega
  have h64 : (x - 1) >>> k.PAGE_SHIFT < 2 ^ 64 := Nat.lt_trans hs (by decide)
  have key : ∀ f, (x - 1) >>> k.PAGE_SHIFT < 2 ^ f → x ≤ 2 ^ (k.PAGE_SHIFT + f) := by
    intro f hf
    rw [Nat.shiftRight_eq_div_pow, Nat.div_lt_iff_lt_mul (Nat.pow_pos (by decide))] at hf
    rw [Nat.pow_add, Nat.mul_comm]
    omega
  rw [PAGE_SIZE_shift]
  unfold get_order fls fls64
  split
  · exact key _ (flsAux_gt 64 _ h64)
  · exact key _ (flsAux_gt 32 _ hs)

/-- With 4 KiB pages, `slub_min_order = 0`, `slub_max_order = 3` and
`MAX_ORDER <= 32`, the minimum configuration `s->min` of an accepted cache is
not larger than `s->oo`; with no reserved bytes it holds an object. -/
theorem calculate_sizes_min_le (k : Kconfig) (hps : k.PAGE_SHIFT = 12)
    (hmin : k.slub_min_order = 0) (hmax : k.slub_max_order = 3) (hmo : k.MAX_ORDER ≤ 32)
    (s : kmem_cache) (hobj : 1 ≤ s.object_size) (halign : ∃ j, s.align = 2 ^ j)
    (hres : s.reserved ≤ PAGE_SIZE k) (hret : (calculate_sizes k s (-1)).2 ≠ 0) :
    oo_order (calculate_sizes k s (-1)).1.min ≤ oo_order (calculate_sizes k s (-1)).1.oo ∧
    oo_objects (calculate_sizes k s (-1)).1.min ≤ oo_objects (calculate_sizes k s (-1)).1.oo ∧
    (s.reserved = 0 → 1 ≤ oo_objects (calculate_sizes k s (-1)).1.min) := by
  obtain ⟨a1, a2, a3, a4, a5, a6⟩ := calculate_sizes_accepted k s hret
  have hsz := calculate_sizes_size_ge k s hobj halign
  rw [← a1] at hsz
  have h4 : 4 ≤ (calculate_sizes k s (-1)).1.size := by
    have : 4 ≤ sizeof_ptr k := by
      unfold sizeof_ptr
      split <;> omega
    omega
  have hr : calculate_order k (calculate_sizes k s (-1)).1.size s.reserved =
      ((calculate_order k (calculate_sizes k s (-1)).1.size s.reserved).toNat : Int) :=
    (Int.toNat_of_nonneg a3).symm
  have hle := calculate_order_objects_le k hps hmin hmax _ _ _ h4 hres hr
  rw [a4] at a6 ⊢
  rw [a5]
  generalize (calculate_sizes k s (-1)).1.size = size at *
  generalize hord : (calculate_order k size s.reserved).toNat = order at *
  obtain ⟨e1, e2⟩ := oo_make_exact k order size s.reserved (by omega)
  rw [e2] at a6
  have hord32 : order < 32 := by
    rcases calculate_order_cases k size s.reserved with c | c | c
    · rw [hr, hmax] at c
      have : order ≤ 3 := by exact_mod_cast c
      omega
    · rw [← c.1, hr] at c
      have : order < k.MAX_ORDER := by exact_mod_cast c.2
      omega
    · rw [hr] at c
      unfold ENOSYS at c
      omega
  have hfit : size + s.reserved ≤ PAGE_SIZE k <<< order := by
    unfold order_objects at a6
    have h1 : 0 < (PAGE_SIZE k <<< order - s.reserved) / size := Nat.pos_of_ne_zero a6
    have h2 := (Nat.le_div_iff_mul_le (by omega : 0 < size)).mp h1
    omega
  have hgo : get_order k size ≤ order := get_order_le k size order (by omega) (by omega)
  have hmono : PAGE_SIZE k <<< get_order k size ≤ PAGE_SIZE k <<< order := PAGE_SIZE_mono k hgo
  have hobjs : order_objects k (get_order k size) size s.reserved ≤
      order_objects k order size s.reserved := by
    unfold order_objects
    exact Nat.div_le_div_right (by omega)
  obtain ⟨m1, m2⟩ := oo_make_exact k (get_order k size) size s.reserved (by omega)
  rw [e1, e2, m1, m2]
  refine ⟨hgo, hobjs, ?_⟩
  intro h0
  have hbig : size ≤ 2 ^ (k.PAGE_SHIFT + 32) := by
    rw [PAGE_SIZE_shift] at hfit
    have : 2 ^ (k.PAGE_SHIFT + order) ≤ 2 ^ (k.PAGE_SHIFT + 32) :=
      Nat.pow_le_pow_right (by decide) (by omega)
    omega
  have hge := get_order_ge k size hbig
  unfold order_objects
  rw [h0, Nat.sub_zero]
  exact (Nat.le_div_iff_mul_le (by omega : 0 < size)).mpr (by omega)

/-! ## The debug checks: what the byte scans find and repair -/

theorem memchr_inv_none (mem : Nat → Nat) (c : Nat) :
    ∀ (bytes start : Nat), memchr_inv mem start c bytes = none ↔
      ∀ a, start ≤ a → a < start + bytes → mem a = c % 256 := by
  intro bytes
  induction bytes with
  | zero =>
    intro start
    simp only [memchr_inv, true_iff]
    intro a h1 h2
    omega
  | succ n ih =>
    intro start
    rw [memchr_inv]
    by_cases h : mem start = c % 256
    · rw [if_neg (by simpa using h), ih]
      constructor
      · intro hh a h1 h2
        by_cases ha : a = start
        · rw [ha]; exact h
        · exact hh a (by omega) (by omega)
      · intro hh a h1 h2
        exact hh a (by omega) (by omega)
    · rw [if_pos h]
      constructor
      · intro hh; cases hh
      · intro hh
        exact absurd (hh start (le_refl _) (by omega)) h

theorem memchr_inv_some (mem : Nat → Nat) (c : Nat) :
    ∀ (bytes start fault : Nat), memchr_inv mem start c bytes = some fault →
      start ≤ fault ∧ fault < start + bytes ∧ mem fault ≠ c % 256 ∧
        ∀ a, start ≤ a → a < fault → mem a = c % 256 := by
  intro bytes
  induction bytes with
  | zero =>
    intro start fault h
    simp [memchr_inv] at h
  | succ n ih =>
    intro start fault h
    rw [memchr_inv] at h
    by_cases hs : mem start = c % 256
    · rw [if_neg (by simpa using hs)] at h
      obtain ⟨h1, h2, h3, h4⟩ := ih (start + 1) fault h
      refine ⟨by omega, by omega, h3, ?_⟩
      intro a ha1 ha2
      by_cases ha : a = start
      · rw [ha]; exact hs
      · exact h4 a (by omega) ha2
    · rw [if_pos hs] at h
      cases h
      exact ⟨le_refl _, by omega, hs, fun a h1 h2 => by omega⟩

theorem fault_end_spec (mem : Nat → Nat) (value fault : Nat) :
    ∀ n : Nat, fault ≤ fault_end mem value fault n ∧ fault_end mem value fault n ≤ fault + n ∧
      ∀ a, fault_end mem value fault n ≤ a → a < fault + n → mem a = value := by
  intro n
  induction n with
  | zero =>
    refine ⟨le_refl _, le_refl _, ?_⟩
    intro a h1 h2
    simp only [fault_end] at h1
    omega
  | succ m ih =>
    rw [fault_end]
    by_cases h : mem (fault + m) = value
    · rw [if_pos h]
      refine ⟨ih.1, by have := ih.2.1; omega, ?_⟩
      intro a h1 h2
      by_cases ha : a = fault + m
      · rw [ha]; exact h
      · exact ih.2.2 a h1 (by omega)
    · rw [if_neg h]
      refine ⟨by omega, by omega, ?_⟩
      intro a h1 h2
      omega

/-- What `check_bytes_and_report` leaves: every byte of the range it was
given holds the value, every other byte is as before, and it returns 1 exactly
when nothing had to be repaired. -/
theorem check_bytes_and_report_spec (mem : Nat → Nat) (start value bytes : Nat)
    (hv : value < 256) :
    (∀ a, start ≤ a → a < start + bytes →
      (check_bytes_and_report mem start value bytes).1 a = value) ∧
    (∀ a, (a < start ∨ start + bytes ≤ a) →
      (check_bytes_and_report mem start value bytes).1 a = mem a) ∧
    ((check_bytes_and_report mem start value bytes).2 = true ↔
      ∀ a, start ≤ a → a < start + bytes → mem a = value) ∧
    ((check_bytes_and_report mem start value bytes).2 = true →
      (check_bytes_and_report mem start value bytes).1 = mem) := by
  have hm : value % 256 = value := Nat.mod_eq_of_lt hv
  unfold check_bytes_and_report
  rcases h : memchr_inv mem start value bytes with _ | fault
  · have hall := (memchr_inv_none mem value bytes start).1 h
    rw [hm] at hall
    exact ⟨hall, fun a _ => rfl, ⟨fun _ => hall, fun _ => rfl⟩, fun _ => rfl⟩
  · obtain ⟨h1, h2, h3, h4⟩ := memchr_inv_some mem value bytes start fault h
    rw [hm] at h3 h4
    obtain ⟨e1, e2, e3⟩ := fault_end_spec mem value fault (start + bytes - fault)
    simp only [restore_bytes, memset, hm]
    refine ⟨?_, ?_, ⟨fun hh => (by cases hh), fun hh => absurd (hh fault h1 h2) h3⟩,
      fun hh => (by cases hh)⟩
    · intro a ha1 ha2
      split
      · rfl
      · rename_i hn
        by_cases hlt : a < fault
        · exact h4 a ha1 hlt
        · exact e3 a (by omega) (by omega)
    · intro a ha
      split
      · rename_i hin
        omega
      · rfl

/-- A scan that finds nothing changes nothing. -/
theorem check_bytes_and_report_clean (mem : Nat → Nat) (start value bytes : Nat)
    (hv : value < 256) (h : ∀ a, start ≤ a → a < start + bytes → mem a = value) :
    check_bytes_and_report mem start value bytes = (mem, true) := by
  obtain ⟨_, _, h3, h4⟩ := check_bytes_and_report_spec mem start value bytes hv
  have h2 := h3.2 h
  exact Prod.ext (h4 h2) h2

theorem on_freelist_loop_links (k : Kconfig) (s : kmem_cache) (page : debug_page)
    (search : Nat) :
    ∀ (left : Nat) (mem : Nat → Nat) (fp object nr : Nat),
      (on_freelist_loop k s page search left mem fp object nr).links ≤ nr + left := by
  intro left
  induction left with
  | zero => intro mem fp object nr; simp [on_freelist_loop, FreelistWalk.links]
  | succ n ih =>
    intro mem fp object nr
    rw [on_freelist_loop]
    split
    · split
      · simp [FreelistWalk.links]
      · split
        · split <;> simp [FreelistWalk.links]
        · have := ih mem (get_freepointer_bytes k s mem fp) fp (nr + 1)
          omega
    · simp [FreelistWalk.links]

/-- The function `on_freelist` follows at most `page->objects + 1` free
pointers, whatever the chain looks like. -/
theorem on_freelist_links_le (k : Kconfig) (s : kmem_cache) (page : debug_page)
    (mem : Nat → Nat) (search : Nat) :
    on_freelist_links k s page mem search ≤ page.objects + 1 := by
  have := on_freelist_loop_links k s page search (page.objects + 1) mem page.freelist NULL 0
  unfold on_freelist_links
  omega

/-- C22: when `alloc_debug_processing` finds the slab or the object
inconsistent (`check_slab` fails, the object is not a valid object address of
the page, or `check_object` fails) and the page is a slab page, it returns 0
and leaves `page->inuse == page->objects` and `page->freelist == NULL`; for a
debug cache `__slab_alloc` then goes to `new_slab` for another slab instead of
handing out the object. -/
theorem alloc_debug_processing_rejects (k : Kconfig) (s : kmem_cache) (page : debug_page)
    (mem : Nat → Nat) (object addr : Nat) (record : Nat → Nat) (pfmemalloc_ok : Bool)
    (hslab : page.PageSlab = true) (hdebug : kmem_cache_debug s = true)
    (hbad : (check_slab k s page mem).2 = false ∨ check_valid_pointer s page object = false ∨
      (check_object k s page (check_slab k s page mem).1 object SLUB_RED_INACTIVE).2 = false) :
    (alloc_debug_processing k s page mem object addr record).2 = false ∧
    (alloc_debug_processing k s page mem object addr record).1.page.inuse =
      (alloc_debug_processing k s page mem object addr record).1.page.objects ∧
    (alloc_debug_processing k s page mem object addr record).1.page.freelist = NULL ∧
    (slab_alloc_got_slab k s page mem object addr record pfmemalloc_ok).2 = SlabAllocNext.new_slab ∧
    (slab_alloc_got_slab k s page mem object addr record pfmemalloc_ok).1.page =
      (alloc_debug_processing k s page mem object addr record).1.page := by
  have key : (alloc_debug_processing k s page mem object addr record).2 = false ∧
      (alloc_debug_processing k s page mem object addr record).1.page =
        { page with inuse := page.objects, freelist := NULL } := by
    unfold alloc_debug_processing
    simp only [hslab, if_true]
    by_cases h1 : (check_slab k s page mem).2 = false
    · simp [h1]
    · have h1t : (check_slab k s page mem).2 = true := by simpa using h1
      by_cases h2 : check_valid_pointer s page object = false
      · simp [h1t, h2]
      · have h2t : check_valid_pointer s page object = true := by simpa using h2
        have h3 : (check_object k s page (check_slab k s page mem).1 object
            SLUB_RED_INACTIVE).2 = false := by
          rcases hbad with h | h | h
          · exact absurd h h1
          · exact absurd h h2
          · exact h
        simp [h1t, h2t, h3]
  refine ⟨key.1, by rw [key.2], by rw [key.2], ?_, ?_⟩
  · unfold slab_alloc_got_slab
    simp [hdebug, key.1]
  · unfold slab_alloc_got_slab
    simp [hdebug, key.1]

/-- The claim C22 on a fresh slab of `cache_poison` whose free list points
into the middle of an object. -/
theorem alloc_debug_processing_rejects_witness :
    (alloc_debug_processing rpi2 cache_poison
      { address := 0x10000, freelist := 0x10001, inuse := 102, objects := 102, frozen := true }
      (fun _ => POISON_INUSE) 0x10001 0xc0de (fun _ => 0)).2 = false ∧
    (alloc_debug_processing rpi2 cache_poison
      { address := 0x10000, freelist := 0x10001, inuse := 102, objects := 102, frozen := true }
      (fun _ => POISON_INUSE) 0x10001 0xc0de (fun _ => 0)).1.page.freelist = NULL ∧
    (slab_alloc_got_slab rpi2 cache_poison
      { address := 0x10000, freelist := 0x10001, inuse := 102, objects := 102, frozen := true }
      (fun _ => POISON_INUSE) 0x10001 0xc0de (fun _ => 0) true).2 = SlabAllocNext.new_slab :=
  have h := alloc_debug_processing_rejects rpi2 cache_poison
    { address := 0x10000, freelist := 0x10001, inuse := 102, objects := 102, frozen := true }
    (fun _ => POISON_INUSE) 0x10001 0xc0de (fun _ => 0) true rfl (by decide)
    (Or.inr (Or.inl (by decide)))
  ⟨h.1, h.2.2.1, h.2.2.2.1⟩

/-- C27, evaluated: on a slab of 102 objects whose free chain runs in a cycle
of two objects, `on_freelist` stops after following 103 free pointers, which is
`page->objects + 1`, and stores `page->objects - nr = -1` in the 16-bit field:
it leaves `page->inuse == 65535`, above `page->objects == 102`, a state that
`check_slab` rejects. -/
theorem on_freelist_cycle_inuse :
    on_freelist_links rpi2 cache_poison page_cycle mem_cycle 0x10050 = 103 ∧
    (on_freelist rpi2 cache_poison page_cycle mem_cycle 0x10050).2 = false ∧
    (on_freelist rpi2 cache_poison page_cycle mem_cycle 0x10050).1.page.objects = 102 ∧
    (on_freelist rpi2 cache_poison page_cycle mem_cycle 0x10050).1.page.inuse = 65535 ∧
    (check_slab rpi2 cache_poison
      (on_freelist rpi2 cache_poison page_cycle mem_cycle 0x10050).1.page mem_cycle).2 = false := by
  decide

theorem load_bytes_congr (m1 m2 : Nat → Nat) :
    ∀ (n a : Nat), (∀ x, a ≤ x → x < a + n → m1 x = m2 x) →
      load_bytes m1 a n = load_bytes m2 a n := by
  intro n
  induction n with
  | zero => intro a _; rfl
  | succ m ih =>
    intro a h
    rw [load_bytes, load_bytes, h a (le_refl _) (by omega),
      ih (a + 1) (fun x h1 h2 => h x (by omega) (by omega))]

theorem get_freepointer_bytes_congr (k : Kconfig) (s : kmem_cache) (m1 m2 : Nat → Nat)
    (c : Nat) (h : ∀ x, c + s.offset ≤ x → x < c + s.offset + sizeof_ptr k → m1 x = m2 x) :
    get_freepointer_bytes k s m1 c = get_freepointer_bytes k s m2 c :=
  load_bytes_congr m1 m2 (sizeof_ptr k) (c + s.offset) h

theorem ChainAt.chain_congr (k : Kconfig) (s : kmem_cache) (m1 m2 : Nat → Nat) :
    ∀ (chain : List Nat) (fp : Nat), ChainAt k s m1 chain fp →
      (∀ c ∈ chain, ∀ x, c + s.offset ≤ x → x < c + s.offset + sizeof_ptr k → m1 x = m2 x) →
      ChainAt k s m2 chain fp := by
  intro chain
  induction chain with
  | nil => intro fp h _; exact h
  | cons c cs ih =>
    intro fp h hm
    obtain ⟨h1, h2, h3⟩ := h
    refine ⟨h1, h2, ?_⟩
    rw [← get_freepointer_bytes_congr k s m1 m2 c (hm c (List.mem_cons_self _ _))]
    exact ih _ h3 (fun d hd => hm d (List.mem_cons_of_mem _ hd))

theorem ValidObj.check (s : kmem_cache) (page : debug_page) (c : Nat) (hsz : 0 < s.size)
    (h : ValidObj s page c) : check_valid_pointer s page c = true := by
  obtain ⟨i, hi, rfl⟩ := h
  unfold check_valid_pointer
  split
  · rfl
  · have h1 : i * s.size < page.objects * s.size := Nat.mul_lt_mul_of_pos_right hi hsz
    have h2 : (page.address + i * s.size - page.address) % s.size = 0 := by
      rw [Nat.add_sub_cancel_left]; exact Nat.mul_mod_left _ _
    simp only [h2]
    rw [if_neg]
    intro hh
    rcases hh with hh | hh | hh
    · omega
    · have : page.address + i * s.size ≥ page.address + page.objects * s.size := hh
      omega
    · exact hh rfl

/-- Two object slots of a slab do not overlap, and an object's own slot
starts at its address. -/
theorem ValidObj.slot_disjoint (s : kmem_cache) (page : debug_page) (a b : Nat)
    (ha : ValidObj s page a) (hb : ValidObj s page b) (hne : a ≠ b) :
    a + s.size ≤ b ∨ b + s.size ≤ a := by
  obtain ⟨i, _, rfl⟩ := ha
  obtain ⟨j, _, rfl⟩ := hb
  rcases Nat.lt_trichotomy i j with h | h | h
  · left
    have : (i + 1) * s.size ≤ j * s.size := Nat.mul_le_mul_right _ h
    rw [Nat.add_mul, Nat.one_mul] at this
    omega
  · exact absurd (by rw [h]) hne
  · right
    have : (j + 1) * s.size ≤ i * s.size := Nat.mul_le_mul_right _ h
    rw [Nat.add_mul, Nat.one_mul] at this
    omega

theorem ValidObj.slot_end (s : kmem_cache) (page : debug_page) (a : Nat)
    (ha : ValidObj s page a) :
    page.address ≤ a ∧ a + s.size ≤ page.address + page.objects * s.size := by
  obtain ⟨i, hi, rfl⟩ := ha
  have : (i + 1) * s.size ≤ page.objects * s.size := Nat.mul_le_mul_right _ hi
  rw [Nat.add_mul, Nat.one_mul] at this
  omega

/-- Distinct objects of a slab are at most `page->objects` many. -/
theorem ValidObj.length_le (s : kmem_cache) (page : debug_page) (hsz : 0 < s.size)
    (l : List Nat) (hv : ∀ c ∈ l, ValidObj s page c) (hn : l.Nodup) :
    l.length ≤ page.objects := by
  have hinj : ∀ a ∈ l, ∀ b ∈ l, (a - page.address) / s.size = (b - page.address) / s.size →
      a = b := by
    intro a ha b hb hab
    obtain ⟨i, _, rfl⟩ := hv a ha
    obtain ⟨j, _, rfl⟩ := hv b hb
    rw [Nat.add_sub_cancel_left, Nat.add_sub_cancel_left, Nat.mul_div_cancel _ hsz,
      Nat.mul_div_cancel _ hsz] at hab
    rw [hab]
  have hnd : (l.map (fun c => (c - page.address) / s.size)).Nodup :=
    List.Nodup.map_on hinj hn
  have hsub : (l.map (fun c => (c - page.address) / s.size)).toFinset ⊆
      Finset.range page.objects := by
    intro x hx
    rw [List.mem_toFinset, List.mem_map] at hx
    obtain ⟨c, hc, rfl⟩ := hx
    obtain ⟨i, hi, rfl⟩ := hv c hc
    rw [Finset.mem_range, Nat.add_sub_cancel_left, Nat.mul_div_cancel _ hsz]
    exact hi
  have hcard := Finset.card_le_card hsub
  rw [List.toFinset_card_of_nodup hnd, List.length_map, Finset.card_range] at hcard
  exact hcard

/-- The loop of `on_freelist` on a well-formed chain that does not hold the
object searched for: it reaches `NULL` after one pass per free object and
changes nothing. -/
theorem on_freelist_loop_chain (k : Kconfig) (s : kmem_cache) (page : debug_page)
    (search : Nat) (hsz : 0 < s.size) (mem : Nat → Nat) :
    ∀ (chain : List Nat) (left fp object nr : Nat), ChainAt k s mem chain fp →
      (∀ c ∈ chain, ValidObj s page c) → search ∉ chain → chain.length < left →
      on_freelist_loop k s page search left mem fp object nr =
        FreelistWalk.done mem (nr + chain.length) := by
  intro chain
  induction chain with
  | nil =>
    intro left fp object nr h _ _ hl
    have hfp : fp = NULL := h
    obtain ⟨m, rfl⟩ : ∃ m, left = m + 1 := ⟨left - 1, by simp at hl; omega⟩
    rw [on_freelist_loop, if_neg (by simp [hfp])]
    rfl
  | cons c cs ih =>
    intro left fp object nr h hv hs hl
    obtain ⟨h1, h2, h3⟩ := h
    obtain ⟨m, rfl⟩ : ∃ m, left = m + 1 := ⟨left - 1, by simp at hl; omega⟩
    have hne : c ≠ search := fun e => hs (by rw [← e]; exact List.mem_cons_self _ _)
    have hvc := ValidObj.check s page c hsz (hv c (List.mem_cons_self _ _))
    rw [on_freelist_loop, h1, if_pos h2, if_neg hne, hvc]
    simp only [Bool.not_true, Bool.false_eq_true, if_false]
    rw [ih m _ c (nr + 1) h3 (fun d hd => hv d (List.mem_cons_of_mem _ hd))
      (fun hd => hs (List.mem_cons_of_mem _ hd)) (by simp at hl; omega)]
    simp only [List.length_cons]
    congr 1
    omega

/-- The loop of `on_freelist` on a well-formed chain that holds the object
searched for: it finds it. -/
theorem on_freelist_loop_found (k : Kconfig) (s : kmem_cache) (page : debug_page)
    (search : Nat) (hsz : 0 < s.size) (mem : Nat → Nat) :
    ∀ (chain : List Nat) (left fp object nr : Nat), ChainAt k s mem chain fp →
      (∀ c ∈ chain, ValidObj s page c) → search ∈ chain → chain.length ≤ left →
      ∃ n, on_freelist_loop k s page search left mem fp object nr = FreelistWalk.found n := by
  intro chain
  induction chain with
  | nil => intro left fp object nr _ _ hs _; cases hs
  | cons c cs ih =>
    intro left fp object nr h hv hs hl
    obtain ⟨h1, h2, h3⟩ := h
    obtain ⟨m, rfl⟩ : ∃ m, left = m + 1 := ⟨left - 1, by simp at hl; omega⟩
    rw [on_freelist_loop, h1, if_pos h2]
    by_cases hc : c = search
    · rw [if_pos hc]
      exact ⟨nr, rfl⟩
    · rw [if_neg hc, ValidObj.check s page c hsz (hv c (List.mem_cons_self _ _))]
      simp only [Bool.not_true, Bool.false_eq_true, if_false]
      have hs2 : search ∈ cs := by
        rcases List.mem_cons.1 hs with e | e
        · exact absurd e.symm hc
        · exact e
      exact ih m _ c (nr + 1) h3 (fun d hd => hv d (List.mem_cons_of_mem _ hd)) hs2
        (by simp at hl; omega)

/-- With the slab padding intact `slab_pad_check` changes nothing. -/
theorem slab_pad_check_clean (k : Kconfig) (s : kmem_cache) (page : debug_page)
    (mem : Nat → Nat) (hpad : PaddingIntact k s page mem) :
    slab_pad_check k s page mem = (mem, true) := by
  unfold slab_pad_check
  split
  · rfl
  · simp only []
    split
    · rfl
    · have hnone : memchr_inv mem
          (page.address + ((PAGE_SIZE k <<< page.compound_order) - s.reserved) -
            ((PAGE_SIZE k <<< page.compound_order) - s.reserved) % s.size)
          POISON_INUSE (((PAGE_SIZE k <<< page.compound_order) - s.reserved) % s.size) = none := by
        rw [memchr_inv_none]
        intro a h1 h2
        have hdm := Nat.div_add_mod ((PAGE_SIZE k <<< page.compound_order) - s.reserved) s.size
        have hml := Nat.mod_le ((PAGE_SIZE k <<< page.compound_order) - s.reserved) s.size
        have hc : s.size * (((PAGE_SIZE k <<< page.compound_order) - s.reserved) / s.size) =
            order_objects k page.compound_order s.size s.reserved * s.size := by
          unfold order_objects; exact Nat.mul_comm _ _
        exact hpad a (by omega) (by omega)
      rw [hnone]

/-- On a slab page whose counters are in range and whose padding is intact,
`check_slab` succeeds and changes nothing. -/
theorem check_slab_clean (k : Kconfig) (s : kmem_cache) (page : debug_page) (mem : Nat → Nat)
    (hslab : page.PageSlab = true)
    (hobj : page.objects ≤ order_objects k page.compound_order s.size s.reserved)
    (hinuse : page.inuse ≤ page.objects) (hpad : PaddingIntact k s page mem) :
    check_slab k s page mem = (mem, true) := by
  unfold check_slab
  rw [hslab, slab_pad_check_clean k s page mem hpad]
  simp only [Bool.not_true, Bool.false_eq_true, if_false]
  rw [if_neg (by omega), if_neg (by omega)]

/-- On a well-formed slab `on_freelist` does not find an object that is not on
the free chain, and changes nothing. -/
theorem on_freelist_absent (k : Kconfig) (s : kmem_cache) (page : debug_page)
    (mem : Nat → Nat) (search : Nat) (hsz : 0 < s.size) (chain : List Nat)
    (hchain : ChainAt k s mem chain page.freelist) (hv : ∀ c ∈ chain, ValidObj s page c)
    (hs : search ∉ chain) (hnn : search ≠ NULL)
    (hobj : page.objects =
      min (order_objects k page.compound_order s.size s.reserved) MAX_OBJS_PER_PAGE)
    (hinuse : page.inuse + chain.length = page.objects) :
    on_freelist k s page mem search = ({ page := page, mem := mem }, false) := by
  unfold on_freelist
  rw [on_freelist_loop_chain k s page search hsz mem chain (page.objects + 1) page.freelist
    NULL 0 hchain hv hs (by omega)]
  simp only []
  have h1 : (if order_objects k page.compound_order s.size s.reserved > MAX_OBJS_PER_PAGE
      then MAX_OBJS_PER_PAGE else order_objects k page.compound_order s.size s.reserved) =
      page.objects := by
    rw [hobj]
    split
    · rw [Nat.min_eq_right (by omega)]
    · rw [Nat.min_eq_left (by omega)]
  rw [h1]
  simp only [ne_eq, not_true_eq_false, if_false, Nat.zero_add]
  rw [if_neg]
  · simp [hnn]
  · intro hh
    apply hh
    omega

/-- On a well-formed slab `on_freelist` finds an object of the free chain, and
changes nothing. -/
theorem on_freelist_present (k : Kconfig) (s : kmem_cache) (page : debug_page)
    (mem : Nat → Nat) (search : Nat) (hsz : 0 < s.size) (chain : List Nat)
    (hchain : ChainAt k s mem chain page.freelist) (hv : ∀ c ∈ chain, ValidObj s page c)
    (hs : search ∈ chain) (hlen : chain.length ≤ page.objects) :
    on_freelist k s page mem search = ({ page := page, mem := mem }, true) := by
  unfold on_freelist
  obtain ⟨n, hn⟩ := on_freelist_loop_found k s page search hsz mem chain (page.objects + 1)
    page.freelist NULL 0 hchain hv hs (by omega)
  rw [hn]

/-- With `SLAB_RED_ZONE`, a byte of the red zone that differs from the
expected value makes `check_object` return 0 right after the red zone has been
scanned and restored. -/
theorem check_object_red_zone_fault (k : Kconfig) (s : kmem_cache) (page : debug_page)
    (mem : Nat → Nat) (object val : Nat) (hrz : s.flags.SLAB_RED_ZONE = true) (hval : val < 256)
    (hbyte : ∃ a, object + s.object_size ≤ a ∧ a < object + s.inuse ∧ mem a ≠ val) :
    check_object k s page mem object val =
      ((check_bytes_and_report mem (object + s.object_size) val (s.inuse - s.object_size)).1,
        false) := by
  obtain ⟨a, h1, h2, h3⟩ := hbyte
  have hf : (check_bytes_and_report mem (object + s.object_size) val
      (s.inuse - s.object_size)).2 = false := by
    rcases hb : (check_bytes_and_report mem (object + s.object_size) val
      (s.inuse - s.object_size)).2 with _ | _
    · rfl
    · exact absurd ((check_bytes_and_report_spec mem _ val _ hval).2.2.1.1 hb a h1 (by omega)) h3
  unfold check_object
  simp only [hrz, if_true, hf, Bool.not_false]

/-- The function `free_debug_processing` on a well-formed slab, for an object
of the slab that is not on the free chain: it returns the node and leaves the
`struct page` as it was. -/
theorem free_debug_processing_accepts (k : Kconfig) (s : kmem_cache) (sp : Nat)
    (page : debug_page) (mem : Nat → Nat) (object addr : Nat) (record : Nat → Nat)
    (chain : List Nat) (hsz : 0 < s.size) (hslab : page.PageSlab = true)
    (hcache : page.slab_cache = sp) (haddr : 0 < page.address)
    (hobj : page.objects =
      min (order_objects k page.compound_order s.size s.reserved) MAX_OBJS_PER_PAGE)
    (hchain : ChainAt k s mem chain page.freelist) (hv : ∀ c ∈ chain, ValidObj s page c)
    (hinuse : page.inuse + chain.length = page.objects) (hpad : PaddingIntact k s page mem)
    (hB : ValidObj s page object) (hBc : object ∉ chain) :
    (free_debug_processing k s sp page mem object addr record).2 = true ∧
    (free_debug_processing k s sp page mem object addr record).1.page = page := by
  have hnn : object ≠ NULL := by
    obtain ⟨i, _, rfl⟩ := hB
    unfold NULL
    omega
  unfold free_debug_processing
  rw [check_slab_clean k s page mem hslab (by rw [hobj]; exact Nat.min_le_left _ _) (by omega)
    hpad, ValidObj.check s page object hsz hB]
  simp only [Bool.not_true, Bool.false_eq_true, if_false]
  rw [on_freelist_absent k s page mem object hsz chain hchain hv hBc hnn hobj hinuse]
  simp only [Bool.not_true, Bool.false_eq_true, if_false]
  split
  · exact ⟨rfl, rfl⟩
  · rw [if_neg (by simp [hcache])]
    exact ⟨rfl, rfl⟩

/-- The function `free_debug_processing` on a well-formed slab with intact
padding, for an object that is on the free chain: it returns `NULL`, and
`__slab_free` leaves the slab, its memory and the node lists as they were. -/
theorem free_debug_processing_rejects_listed (k : Kconfig) (s : kmem_cache) (sp : Nat)
    (st : DebugState) (pg object addr : Nat) (record : Nat → Nat)
    (chain : List Nat) (hsz : 0 < s.size) (hslab : st.page.PageSlab = true)
    (hobj : st.page.objects ≤ order_objects k st.page.compound_order s.size s.reserved)
    (hchain : ChainAt k s st.mem chain st.page.freelist)
    (hv : ∀ c ∈ chain, ValidObj s st.page c)
    (hinuse : st.page.inuse + chain.length = st.page.objects)
    (hpad : PaddingIntact k s st.page st.mem) (hx : object ∈ chain) :
    free_debug_processing k s sp st.page st.mem object addr record =
      ({ page := st.page, mem := st.mem }, false) ∧
    __slab_free_debug k s sp st pg object addr record = st := by
  have h1 : free_debug_processing k s sp st.page st.mem object addr record =
      ({ page := st.page, mem := st.mem }, false) := by
    unfold free_debug_processing
    rw [check_slab_clean k s st.page st.mem hslab hobj (by omega) hpad,
      ValidObj.check s st.page object hsz (hv object hx)]
    simp only [Bool.not_true, Bool.false_eq_true, if_false]
    rw [on_freelist_present k s st.page st.mem object hsz chain hchain hv hx (by omega)]
    rfl
  refine ⟨h1, ?_⟩
  unfold __slab_free_debug
  rw [h1]
  rfl

/-- After `free_debug_processing` has let the free through on a slab with at
least two objects in use, `__slab_free` makes the object the head of the free
list and takes one off `page->inuse`. -/
theorem slab_free_debug_links (k : Kconfig) (s : kmem_cache) (sp : Nat) (st : DebugState)
    (pg x addr : Nat) (record : Nat → Nat)
    (h1 : (free_debug_processing k s sp st.page st.mem x addr record).2 = true)
    (h2 : (free_debug_processing k s sp st.page st.mem x addr record).1.page = st.page)
    (hlo : 2 ≤ st.page.inuse) (hhi : st.page.inuse ≤ 65535) :
    (__slab_free_debug k s sp st pg x addr record).page.freelist = x ∧
    (__slab_free_debug k s sp st pg x addr record).page.inuse + 1 = st.page.inuse := by
  have hd : dec16 st.page.inuse = st.page.inuse - 1 := dec16_pos _ (by omega) hhi
  have hnz : ¬ (st.page.inuse - 1 = 0) := by omega
  unfold __slab_free_debug
  simp only [h1, h2, Bool.not_true, Bool.false_eq_true, if_false, hd]
  split
  · refine ⟨rfl, ?_⟩
    show st.page.inuse - 1 + 1 = st.page.inuse
    omega
  · rw [if_neg (fun h => hnz h.1)]
    split
    · refine ⟨rfl, ?_⟩
      show st.page.inuse - 1 + 1 = st.page.inuse
      omega
    · refine ⟨rfl, ?_⟩
      show st.page.inuse - 1 + 1 = st.page.inuse
      omega

/-- C23: for a cache with `SLAB_RED_ZONE` (and `SLAB_POISON`), on a
well-formed slab, if a byte of the red zone `[A + object_size, A + inuse)` of
an allocated object `A` differs from `SLUB_RED_ACTIVE`, then
`check_object(s, page, A, SLUB_RED_ACTIVE)` returns 0 and leaves every byte of
that red zone equal to `SLUB_RED_ACTIVE`; freeing another allocated object `B`
of the page afterwards succeeds: `free_debug_processing` returns the node, and
`__slab_free` makes `B` the head of the page's free list and takes one off
`page->inuse`. -/
theorem red_zone_restored_then_free (k : Kconfig) (s : kmem_cache) (sp : Nat)
    (page : debug_page) (mem : Nat → Nat) (A B addr pg : Nat) (record : Nat → Nat)
    (n : kmem_cache_node) (full : List Nat) (chain : List Nat)
    (hrz : s.flags.SLAB_RED_ZONE = true)
    (hsz : 0 < s.size) (hin : s.inuse ≤ s.size) (hos : s.offset + sizeof_ptr k ≤ s.size)
    (hslab : page.PageSlab = true) (hcache : page.slab_cache = sp) (haddr : 0 < page.address)
    (hobj : page.objects =
      min (order_objects k page.compound_order s.size s.reserved) MAX_OBJS_PER_PAGE)
    (hchain : ChainAt k s mem chain page.freelist) (hv : ∀ c ∈ chain, ValidObj s page c)
    (hnd : chain.Nodup) (hinuse : page.inuse + chain.length = page.objects)
    (hpad : PaddingIntact k s page mem)
    (hA : ValidObj s page A) (hAc : A ∉ chain)
    (hbyte : ∃ a, A + s.object_size ≤ a ∧ a < A + s.inuse ∧ mem a ≠ SLUB_RED_ACTIVE)
    (hB : ValidObj s page B) (hBc : B ∉ chain) (hAB : B ≠ A) :
    (check_object k s page mem A SLUB_RED_ACTIVE).2 = false ∧
    (∀ a, A + s.object_size ≤ a → a < A + s.inuse →
      (check_object k s page mem A SLUB_RED_ACTIVE).1 a = SLUB_RED_ACTIVE) ∧
    (free_debug_processing k s sp page (check_object k s page mem A SLUB_RED_ACTIVE).1
      B addr record).2 = true ∧
    (__slab_free_debug k s sp
      { page := page, mem := (check_object k s page mem A SLUB_RED_ACTIVE).1, n := n,
        full := full } pg B addr record).page.freelist = B ∧
    (__slab_free_debug k s sp
      { page := page, mem := (check_object k s page mem A SLUB_RED_ACTIVE).1, n := n,
        full := full } pg B addr record).page.inuse + 1 = page.inuse := by
  have hval : SLUB_RED_ACTIVE < 256 := by decide
  have hco := check_object_red_zone_fault k s page mem A SLUB_RED_ACTIVE hrz hval hbyte
  obtain ⟨a0, ha1, ha2, _⟩ := hbyte
  have hlen : A + s.object_size + (s.inuse - s.object_size) = A + s.inuse := by omega
  obtain ⟨hs1, hs2, _, _⟩ := check_bytes_and_report_spec mem (A + s.object_size)
    SLUB_RED_ACTIVE (s.inuse - s.object_size) hval
  rw [hlen] at hs1 hs2
  rw [hco]
  simp only []
  generalize (check_bytes_and_report mem (A + s.object_size) SLUB_RED_ACTIVE
    (s.inuse - s.object_size)).1 = mem1 at hs1 hs2
  -- the free chain and the slab padding are outside the red zone of `A`
  have hchain1 : ChainAt k s mem1 chain page.freelist := by
    refine ChainAt.chain_congr k s mem mem1 chain page.freelist hchain ?_
    intro c hc x hx1 hx2
    have hne : c ≠ A := fun e => hAc (e ▸ hc)
    rw [hs2 x]
    rcases ValidObj.slot_disjoint s page c A (hv c hc) hA hne with h | h
    · left; omega
    · right; omega
  have hAe := ValidObj.slot_end s page A hA
  have hle : page.objects ≤ order_objects k page.compound_order s.size s.reserved := by
    rw [hobj]; exact Nat.min_le_left _ _
  have hpad1 : PaddingIntact k s page mem1 := by
    intro a h1 h2
    rw [hs2 a, hpad a h1 h2]
    right
    have : page.objects * s.size ≤
        order_objects k page.compound_order s.size s.reserved * s.size :=
      Nat.mul_le_mul_right _ hle
    omega
  have hacc := free_debug_processing_accepts k s sp page mem1 B addr record chain hsz hslab
    hcache haddr hobj hchain1 hv hinuse hpad1 hB hBc
  -- two objects of the slab are allocated
  have hcount : (A :: B :: chain).length ≤ page.objects := by
    apply ValidObj.length_le s page hsz
    · intro c hc
      rcases List.mem_cons.1 hc with e | hc
      · rw [e]; exact hA
      · rcases List.mem_cons.1 hc with e | hc
        · rw [e]; exact hB
        · exact hv c hc
    · refine List.nodup_cons.2 ⟨?_, List.nodup_cons.2 ⟨hBc, hnd⟩⟩
      intro hm
      rcases List.mem_cons.1 hm with e | hm
      · exact hAB e.symm
      · exact hAc hm
  simp only [List.length_cons] at hcount
  have hmax : page.objects ≤ MAX_OBJS_PER_PAGE := by
    rw [hobj]; exact Nat.min_le_right _ _
  have hmaxv : MAX_OBJS_PER_PAGE = 32767 := rfl
  have hlinks := slab_free_debug_links k s sp
    { page := page, mem := mem1, n := n, full := full } pg B addr record hacc.1 hacc.2
    (by show 2 ≤ page.inuse; omega) (by show page.inuse ≤ 65535; omega)
  exact ⟨trivial, hs1, hacc.1, hlinks.1, hlinks.2⟩

/-- The claim C23 on a slab of `cache_red`: the red zone of the first object
is damaged, the second object is freed afterwards. -/
theorem red_zone_restored_then_free_witness :
    cache_red.flags.SLAB_POISON = true ∧
    mem_red 0x10020 ≠ SLUB_RED_ACTIVE ∧
    (check_object rpi2 cache_red page_red mem_red 0x10000 SLUB_RED_ACTIVE).2 = false ∧
    (check_object rpi2 cache_red page_red mem_red 0x10000 SLUB_RED_ACTIVE).1 0x10020 =
      SLUB_RED_ACTIVE ∧
    (__slab_free_debug rpi2 cache_red 1
      { page := page_red,
        mem := (check_object rpi2 cache_red page_red mem_red 0x10000 SLUB_RED_ACTIVE).1,
        n := { nr_partial := 1, partial_ := [7], nr_slabs := 1, total_objects := 85 },
        full := [] } 7 0x10030 0xc0de (fun _ => 0)).page.freelist = 0x10030 ∧
    (__slab_free_debug rpi2 cache_red 1
      { page := page_red,
        mem := (check_object rpi2 cache_red page_red mem_red 0x10000 SLUB_RED_ACTIVE).1,
        n := { nr_partial := 1, partial_ := [7], nr_slabs := 1, total_objects := 85 },
        full := [] } 7 0x10030 0xc0de (fun _ => 0)).page.inuse + 1 = 84 :=
  have h := red_zone_restored_then_free rpi2 cache_red 1 page_red mem_red 0x10000 0x10030
    0xc0de 7 (fun _ => 0)
    { nr_partial := 1, partial_ := [7], nr_slabs := 1, total_objects := 85 } [] [0x10060]
    (by decide) (by decide) (by decide) (by decide) rfl rfl (by decide) (by decide)
    ⟨rfl, by decide,
      (by show get_freepointer_bytes rpi2 cache_red mem_red 0x10060 = NULL; decide)⟩
    (by
      intro c hc
      rw [List.mem_singleton] at hc
      exact ⟨2, by decide, by rw [hc]; decide⟩)
    (by decide) (by decide)
    (by
      intro a h1 h2
      have h3 : 0x10ff0 ≤ a := h1
      simp only [mem_red, if_pos h3])
    ⟨0, by decide, by decide⟩ (by decide) ⟨0x10020, by decide, by decide, by decide⟩
    ⟨1, by decide, by decide⟩ (by decide) (by decide)
  ⟨by decide, by decide, h.1, h.2.1 0x10020 (by decide) (by decide), h.2.2.2.1, h.2.2.2.2⟩

/-- C21, evaluated: a slab of 102 objects of a `SLAB_POISON` cache has a
well-formed free chain of three objects (the last object of the slab, then
the first, then the second) and 99 objects in use, and one byte of its slab
padding has been overwritten.  The first object is freed a second time.
`slab_pad_check` restores the 16 bytes below the moved `end`, which covers the
free pointer of the last object; `on_freelist` then finds that pointer
corrupt, cuts the chain there and does not reach the object.
`free_debug_processing` returns the node, and `__slab_free` makes the object
the head of the free list and leaves `page->inuse` at 100. -/
theorem double_free_accepted_after_padding_fault :
    kmem_cache_debug cache_poison = true ∧
    ChainAt rpi2 cache_poison mem_padding_hit [0x10fc8, 0x10000, 0x10028]
      page_padding_hit.freelist ∧
    page_padding_hit.inuse + 3 = page_padding_hit.objects ∧
    (on_freelist rpi2 cache_poison page_padding_hit mem_padding_hit 0x10000).2 = true ∧
    get_freepointer_bytes rpi2 cache_poison
      (check_slab rpi2 cache_poison page_padding_hit mem_padding_hit).1 0x10fc8 = 0x5a5a5a5a ∧
    (free_debug_processing rpi2 cache_poison 1 page_padding_hit mem_padding_hit 0x10000 0xc0de
      (fun _ => 0)).2 = true ∧
    (__slab_free_debug rpi2 cache_poison 1 state_padding_hit 7 0x10000 0xc0de
      (fun _ => 0)).page.freelist = 0x10000 ∧
    (__slab_free_debug rpi2 cache_poison 1 state_padding_hit 7 0x10000 0xc0de
      (fun _ => 0)).page.inuse = 100 ∧
    get_freepointer_bytes rpi2 cache_poison
      (__slab_free_debug rpi2 cache_poison 1 state_padding_hit 7 0x10000 0xc0de
        (fun _ => 0)).mem 0x10000 = 0x10fc8 ∧
    get_freepointer_bytes rpi2 cache_poison
      (__slab_free_debug rpi2 cache_poison 1 state_padding_hit 7 0x10000 0xc0de
        (fun _ => 0)).mem 0x10fc8 = NULL :=
  ⟨by decide,
    ⟨rfl, by decide, by decide, by decide, by decide, by decide,
      (by show get_freepointer_bytes rpi2 cache_poison mem_padding_hit 0x10028 = NULL; decide)⟩,
    by decide, by decide, by decide, by decide, by decide, by decide, by decide, by decide⟩

theorem memblock_new_region_base (cfg : MemblockConfig) (b s : Nat) (nid : Int) (f : Nat) :
    (memblock_new_region cfg b s nid f).base = b := by
  unfold memblock_new_region memblock_set_region_node
  split <;> rfl

theorem memblock_new_region_size (cfg : MemblockConfig) (b s : Nat) (nid : Int) (f : Nat) :
    (memblock_new_region cfg b s nid f).size = s := by
  unfold memblock_new_region memblock_set_region_node
  split <;> rfl

/-- The function `memblock_insert_region` at the index where the regions `pre`
end: the new region stands between `pre` and the rest. -/
theorem memblock_insert_region_at (cfg : MemblockConfig) (type : memblock_type)
    (pre suf : List memblock_region) (base size : Nat) (nid : Int) (flags : Nat)
    (h : type.regions = pre ++ suf) :
    (memblock_insert_region cfg type pre.length base size nid flags).regions =
      pre ++ memblock_new_region cfg base size nid flags :: suf ∧
    (memblock_insert_region cfg type pre.length base size nid flags).total_size =
      (type.total_size + size) % 2 ^ cfg.phys_addr_bits := by
  unfold memblock_insert_region
  simp [h]

theorem Covers_nil (a : Nat) : ¬ Covers [] a := by
  rintro ⟨r, hr, _⟩
  cases hr

theorem Covers_cons (r : memblock_region) (l : List memblock_region) (a : Nat) :
    Covers (r :: l) a ↔ region_covers r a ∨ Covers l a := by
  unfold Covers
  simp only [List.mem_cons, exists_eq_or_imp]

theorem sum_sizes_cons (r : memblock_region) (l : List memblock_region) :
    sum_sizes (r :: l) = r.size + sum_sizes l := by
  unfold sum_sizes
  simp only [List.map_cons, List.sum_cons]

theorem add_mod_mod_left (t x d M : Nat) : ((t + x) % M + d) % M = (t + (x + d)) % M := by
  rw [Nat.add_mod, Nat.mod_mod, ← Nat.add_mod, Nat.add_assoc]

/-- The lines after the loop of `memblock_add_range`, in the inserting pass. -/
theorem memblock_add_range_rest_spec (cfg : MemblockConfig) (e : Nat) (nid : Int) (flags : Nat)
    (l : List memblock_region) (b n t : Nat) (hl : OrderedRegions l)
    (hend : ∀ r ∈ l, e ≤ r.base) (ht : t < 2 ^ cfg.phys_addr_bits) :
    LoopSpec cfg e l b t (memblock_add_range_rest cfg true e nid flags l b n t) := by
  unfold memblock_add_range_rest
  by_cases hb : b < e
  · simp only [hb, if_true]
    refine ⟨?_, ?_, ?_, ?_, ?_⟩
    · intro x hx
      rcases List.mem_cons.1 hx with h | h
      · right
        rw [h, memblock_new_region_base, memblock_new_region_size]
        omega
      · exact Or.inl h
    · refine List.pairwise_cons.2 ⟨?_, hl⟩
      intro r hr
      rw [memblock_new_region_base, memblock_new_region_size]
      have := hend r hr
      omega
    · intro a
      rw [Covers_cons]
      unfold region_covers
      rw [memblock_new_region_base, memblock_new_region_size]
      by_cases hP : Covers l a
      · simp only [hP, or_true, true_or]
      · simp only [hP, or_false, false_or]
        omega
    · intro r hr
      exact List.mem_cons_of_mem _ hr
    · refine ⟨e - b, ?_, rfl⟩
      rw [sum_sizes_cons, memblock_new_region_size]
      omega
  · simp only [hb, if_false]
    refine ⟨fun x hx => Or.inl hx, hl, ?_, fun r hr => hr, ⟨0, rfl, ?_⟩⟩
    · intro a
      constructor
      · exact fun h => Or.inl h
      · rintro (h | h)
        · exact h
        · omega
    · exact (Nat.mod_eq_of_lt ht).symm

/-- The inserting pass of `memblock_add_range` from any index on: the regions
stay in order, the old ones are kept, what is left of the new range is filled
in, and `total_size` follows. -/
theorem memblock_add_range_loop_spec (cfg : MemblockConfig) (e : Nat) (nid : Int) (flags : Nat) :
    ∀ (l : List memblock_region) (b n t : Nat), OrderedRegions l →
      (∀ r ∈ l, r.base + r.size < 2 ^ cfg.phys_addr_bits) → b ≤ e →
      t < 2 ^ cfg.phys_addr_bits →
      LoopSpec cfg e l b t (memblock_add_range_loop cfg true e nid flags l b n t) := by
  intro l
  induction l with
  | nil =>
    intro b n t hl _ _ ht
    rw [memblock_add_range_loop]
    exact memblock_add_range_rest_spec cfg e nid flags [] b n t hl (fun r hr => by cases hr) ht
  | cons r rest ih =>
    intro b n t hl hrange hbe ht
    have hM : 0 < 2 ^ cfg.phys_addr_bits := Nat.pow_pos (by decide)
    have hrend : (r.base + r.size) % 2 ^ cfg.phys_addr_bits = r.base + r.size :=
      Nat.mod_eq_of_lt (hrange r (List.mem_cons_self _ _))
    obtain ⟨hr1, hrest⟩ := List.pairwise_cons.1 hl
    have hrange2 : ∀ x ∈ rest, x.base + x.size < 2 ^ cfg.phys_addr_bits :=
      fun x hx => hrange x (List.mem_cons_of_mem _ hx)
    rw [memblock_add_range_loop]
    simp only [hrend]
    by_cases h1 : r.base ≥ e
    · rw [if_pos h1]
      refine memblock_add_range_rest_spec cfg e nid flags (r :: rest) b n t hl ?_ ht
      intro x hx
      rcases List.mem_cons.1 hx with h | h
      · rw [h]; exact h1
      · have := hr1 x h
        omega
    · rw [if_neg h1]
      by_cases h2 : r.base + r.size ≤ b
      · rw [if_pos h2]
        have s := ih b n t hrest hrange2 hbe ht
        refine ⟨?_, ?_, ?_, ?_, ?_⟩
        · intro x hx
          rcases List.mem_cons.1 hx with h | h
          · exact Or.inl (h ▸ List.mem_cons_self _ _)
          · rcases s.shape x h with h | h
            · exact Or.inl (List.mem_cons_of_mem _ h)
            · exact Or.inr h
        · refine List.pairwise_cons.2 ⟨?_, s.ordered⟩
          intro x hx
          rcases s.shape x hx with h | h
          · exact hr1 x h
          · omega
        · intro a
          show Covers (r :: _) a ↔ _
          rw [Covers_cons, Covers_cons, s.covers a]
          unfold region_covers
          by_cases hP : Covers rest a
          · simp only [hP, or_true, true_or]
          · simp only [hP, or_false, false_or]
        · intro x hx
          rcases List.mem_cons.1 hx with h | h
          · exact h ▸ List.mem_cons_self _ _
          · exact List.mem_cons_of_mem _ (s.keeps x h)
        · obtain ⟨d, hd1, hd2⟩ := s.total
          refine ⟨d, ?_, hd2⟩
          show sum_sizes (r :: _) = _
          rw [sum_sizes_cons, sum_sizes_cons, hd1]
          omega
      · rw [if_neg h2]
        have hmin : min (r.base + r.size) e ≤ e := Nat.min_le_right _ _
        have hmin2 : b ≤ min (r.base + r.size) e := by
          rw [Nat.le_min]; omega
        have hmin3 : min (r.base + r.size) e = r.base + r.size ∨ min (r.base + r.size) e = e := by
          rcases Nat.le_total (r.base + r.size) e with h | h
          · exact Or.inl (Nat.min_eq_left h)
          · exact Or.inr (Nat.min_eq_right h)
        by_cases h3 : r.base > b
        · rw [if_pos h3]
          simp only [if_true]
          have s := ih (min (r.base + r.size) e) (n + 1)
            ((t + (r.base - b)) % 2 ^ cfg.phys_addr_bits) hrest hrange2 hmin
            (Nat.mod_lt _ hM)
          refine ⟨?_, ?_, ?_, ?_, ?_⟩
          · intro x hx
            rcases List.mem_cons.1 hx with h | h
            · right
              rw [h, memblock_new_region_base, memblock_new_region_size]
              omega
            · rcases List.mem_cons.1 h with h | h
              · exact Or.inl (h ▸ List.mem_cons_self _ _)
              · rcases s.shape x h with h | h
                · exact Or.inl (List.mem_cons_of_mem _ h)
                · right; omega
          · refine List.pairwise_cons.2 ⟨?_, List.pairwise_cons.2 ⟨?_, s.ordered⟩⟩
            · intro x hx
              rw [memblock_new_region_base, memblock_new_region_size]
              rcases List.mem_cons.1 hx with h | h
              · rw [h]; omega
              · rcases s.shape x h with h | h
                · have := hr1 x h
                  omega
                · omega
            · intro x hx
              rcases s.shape x hx with h | h
              · exact hr1 x h
              · omega
          · intro a
            show Covers (_ :: r :: _) a ↔ _
            rw [Covers_cons, Covers_cons, Covers_cons, s.covers a]
            unfold region_covers
            rw [memblock_new_region_base, memblock_new_region_size]
            by_cases hP : Covers rest a
            · simp only [hP, or_true, true_or]
            · simp only [hP, or_false, false_or]
              omega
          · intro x hx
            rcases List.mem_cons.1 hx with h | h
            · exact List.mem_cons_of_mem _ (h ▸ List.mem_cons_self _ _)
            · exact List.mem_cons_of_mem _ (List.mem_cons_of_mem _ (s.keeps x h))
          · obtain ⟨d, hd1, hd2⟩ := s.total
            refine ⟨(r.base - b) + d, ?_, ?_⟩
            · show sum_sizes (_ :: r :: _) = _
              rw [sum_sizes_cons, sum_sizes_cons, sum_sizes_cons, hd1, memblock_new_region_size]
              omega
            · show AddRangePass.total_size _ = _
              rw [← add_mod_mod_left]
              exact hd2
        · rw [if_neg h3]
          have s := ih (min (r.base + r.size) e) n t hrest hrange2 hmin ht
          refine ⟨?_, ?_, ?_, ?_, ?_⟩
          · intro x hx
            rcases List.mem_cons.1 hx with h | h
            · exact Or.inl (h ▸ List.mem_cons_self _ _)
            · rcases s.shape x h with h | h
              · exact Or.inl (List.mem_cons_of_mem _ h)
              · right; omega
          · refine List.pairwise_cons.2 ⟨?_, s.ordered⟩
            intro x hx
            rcases s.shape x hx with h | h
            · exact hr1 x h
            · omega
          · intro a
            show Covers (r :: _) a ↔ _
            rw [Covers_cons, Covers_cons, s.covers a]
            unfold region_covers
            by_cases hP : Covers rest a
            · simp only [hP, or_true, true_or]
            · simp only [hP, or_false, false_or]
              omega
          · intro x hx
            rcases List.mem_cons.1 hx with h | h
            · exact h ▸ List.mem_cons_self _ _
            · exact List.mem_cons_of_mem _ (s.keeps x h)
          · obtain ⟨d, hd1, hd2⟩ := s.total
            refine ⟨d, ?_, hd2⟩
            show sum_sizes (r :: _) = _
            rw [sum_sizes_cons, sum_sizes_cons, hd1]
            omega

theorem HasAttr_cons (cfg : MemblockConfig) (r : memblock_region) (l : List memblock_region)
    (a : Nat) (nid : Int) (flags : Nat) :
    HasAttr cfg (r :: l) a nid flags ↔
      (region_covers r a ∧ memblock_get_region_node cfg r = nid ∧ r.flags = flags) ∨
        HasAttr cfg l a nid flags := by
  unfold HasAttr
  simp only [List.mem_cons, exists_eq_or_imp]

theorem SameStart.same_start_refl (cfg : MemblockConfig) (a : memblock_region) :
    SameStart cfg a a := ⟨rfl, rfl, rfl, le_refl _⟩

theorem MergeSpec.of_short (cfg : MemblockConfig) (l : List memblock_region)
    (hl : OrderedRegions l) (hrange : ∀ r ∈ l, r.base + r.size < 2 ^ cfg.phys_addr_bits)
    (hlen : l.length ≤ 1) : MergeSpec cfg l l := by
  refine ⟨hl, hrange, fun _ _ _ => Iff.rfl, ?_, rfl,
    fun x hx => ⟨x, hx, SameStart.same_start_refl cfg x⟩,
    fun x hx => ⟨x, hx, SameStart.same_start_refl cfg x⟩⟩
  unfold MinimalRegions
  match l, hlen with
  | [], _ => exact List.chain'_nil
  | [x], _ => exact List.chain'_singleton x
  | _ :: _ :: _, h => simp at h

theorem memblock_merge_regions_loop_short (cfg : MemblockConfig) (left : Nat)
    (l : List memblock_region) (hlen : l.length ≤ 1) :
    memblock_merge_regions_loop cfg left l = l := by
  match l, hlen with
  | [], _ => cases left <;> rfl
  | [x], _ => cases left <;> rfl
  | _ :: _ :: _, h => simp at h

/-- The loop of `memblock_merge_regions`, given enough passes for the regions
it starts from: it keeps the order, the addresses covered with their node and
flags, and the sum of the sizes, and leaves no two neighbours that abut with
equal node and flags. -/
theorem memblock_merge_regions_loop_spec (cfg : MemblockConfig) :
    ∀ (left : Nat) (l : List memblock_region), OrderedRegions l →
      (∀ r ∈ l, r.base + r.size < 2 ^ cfg.phys_addr_bits) → l.length ≤ left + 1 →
      MergeSpec cfg l (memblock_merge_regions_loop cfg left l) := by
  intro left
  induction left with
  | zero =>
    intro l hl hrange hlen
    rw [memblock_merge_regions_loop_short cfg 0 l (by omega)]
    exact MergeSpec.of_short cfg l hl hrange (by omega)
  | succ m ih =>
    intro l hl hrange hlen
    match l, hl, hrange, hlen with
    | [], hl, hrange, _ =>
      rw [memblock_merge_regions_loop_short cfg _ [] (by simp)]
      exact MergeSpec.of_short cfg [] hl hrange (by simp)
    | [x], hl, hrange, _ =>
      rw [memblock_merge_regions_loop_short cfg _ [x] (by simp)]
      exact MergeSpec.of_short cfg [x] hl hrange (by simp)
    | this :: next :: rest, hl, hrange, hlen =>
      have hthis : (this.base + this.size) % 2 ^ cfg.phys_addr_bits = this.base + this.size :=
        Nat.mod_eq_of_lt (hrange this (List.mem_cons_self _ _))
      have hnextr : next.base + next.size < 2 ^ cfg.phys_addr_bits :=
        hrange next (List.mem_cons_of_mem _ (List.mem_cons_self _ _))
      obtain ⟨ho1, ho2⟩ := List.pairwise_cons.1 hl
      obtain ⟨ho3, ho4⟩ := List.pairwise_cons.1 ho2
      have hlen2 : rest.length + 1 ≤ m + 1 := by
        simp only [List.length_cons] at hlen
        omega
      rw [memblock_merge_regions_loop]
      simp only [hthis]
      by_cases hc : this.base + this.size ≠ next.base ∨
          memblock_get_region_node cfg this ≠ memblock_get_region_node cfg next ∨
          this.flags ≠ next.flags
      · rw [if_pos hc]
        have s := ih (next :: rest) ho2 (fun r hr => hrange r (List.mem_cons_of_mem _ hr))
          (by simpa using hlen2)
        refine ⟨?_, ?_, ?_, ?_, ?_, ?_, ?_⟩
        · refine List.pairwise_cons.2 ⟨?_, s.ordered⟩
          intro x hx
          obtain ⟨y, hy, hy1, _⟩ := s.starts x hx
          have hy5 := ho1 y hy
          omega
        · intro r hr
          rcases List.mem_cons.1 hr with h | h
          · rw [h]; exact hrange this (List.mem_cons_self _ _)
          · exact s.range r h
        · intro a nid flags
          rw [HasAttr_cons, HasAttr_cons cfg this, s.covers]
        · unfold MinimalRegions
          rw [List.chain'_cons']
          refine ⟨?_, s.minimal⟩
          intro x hx
          obtain ⟨y, hy, hy1, hy2, hy3, _⟩ := s.first x hx
          have hyn : y = next := by
            simp only [List.head?_cons, Option.some.injEq] at hy
            exact hy.symm
          rw [hyn] at hy1 hy2 hy3
          rw [← hy1, ← hy2, ← hy3]
          intro hh
          rcases hc with h | h | h
          · exact h hh.1
          · exact h hh.2.1
          · exact h hh.2.2
        · rw [sum_sizes_cons, sum_sizes_cons this, s.total]
        · intro x hx
          rcases List.mem_cons.1 hx with h | h
          · exact ⟨this, List.mem_cons_self _ _, h ▸ SameStart.same_start_refl cfg this⟩
          · obtain ⟨y, hy, hs⟩ := s.starts x h
            exact ⟨y, List.mem_cons_of_mem _ hy, hs⟩
        · intro x hx
          simp only [List.head?_cons, Option.some.injEq] at hx
          exact ⟨this, rfl, hx ▸ SameStart.same_start_refl cfg this⟩
      · rw [if_neg hc]
        have hc1 : this.base + this.size = next.base := by
          by_contra h; exact hc (Or.inl h)
        have hc2 : memblock_get_region_node cfg this = memblock_get_region_node cfg next := by
          by_contra h; exact hc (Or.inr (Or.inl h))
        have hc3 : this.flags = next.flags := by
          by_contra h; exact hc (Or.inr (Or.inr h))
        have hsz : (this.size + next.size) % 2 ^ cfg.phys_addr_bits = this.size + next.size :=
          Nat.mod_eq_of_lt (by omega)
        rw [hsz]
        have hnode : memblock_get_region_node cfg { this with size := this.size + next.size } =
            memblock_get_region_node cfg this := rfl
        have s := ih ({ this with size := this.size + next.size } :: rest)
          (by
            refine List.pairwise_cons.2 ⟨?_, ho4⟩
            intro x hx
            have hx3 := ho3 x hx
            show this.base + (this.size + next.size) ≤ x.base
            omega)
          (by
            intro r hr
            rcases List.mem_cons.1 hr with h | h
            · rw [h]
              show this.base + (this.size + next.size) < _
              omega
            · exact hrange r (List.mem_cons_of_mem _ (List.mem_cons_of_mem _ h)))
          (by simpa using hlen2)
        refine ⟨s.ordered, s.range, ?_, s.minimal, ?_, ?_, ?_⟩
        · intro a nid flags
          rw [s.covers, HasAttr_cons, HasAttr_cons, HasAttr_cons, hnode]
          unfold region_covers
          show (((this.base ≤ a ∧ a < this.base + (this.size + next.size)) ∧ _ ∧
            this.flags = flags) ∨ _) ↔ _
          rw [← hc2, ← hc3, ← hc1]
          by_cases hP : HasAttr cfg rest a nid flags
          · simp only [hP, or_true]
          · simp only [hP, or_false]
            by_cases hN : memblock_get_region_node cfg this = nid ∧ this.flags = flags
            · simp only [hN, and_true, true_and]
              omega
            · have hN2 : ¬ (memblock_get_region_node cfg this = nid ∧ this.flags = flags) := hN
              constructor
              · intro h; exact absurd h.2 hN2
              · rintro (h | h)
                · exact absurd h.2 hN2
                · exact absurd h.2 hN2
        · rw [s.total, sum_sizes_cons, sum_sizes_cons, sum_sizes_cons]
          show this.size + next.size + _ = _
          omega
        · intro x hx
          obtain ⟨y, hy, hs⟩ := s.starts x hx
          rcases List.mem_cons.1 hy with h | h
          · refine ⟨this, List.mem_cons_self _ _, ?_⟩
            rw [h] at hs
            obtain ⟨e1, e2, e3, e4⟩ := hs
            refine ⟨e1, e2, e3, ?_⟩
            have e5 : this.size + next.size ≤ x.size := e4
            omega
          · exact ⟨y, List.mem_cons_of_mem _ (List.mem_cons_of_mem _ h), hs⟩
        · intro x hx
          obtain ⟨y, hy, hs⟩ := s.first x hx
          simp only [List.head?_cons, Option.some.injEq] at hy
          refine ⟨this, rfl, ?_⟩
          rw [← hy] at hs
          obtain ⟨e1, e2, e3, e4⟩ := hs
          refine ⟨e1, e2, e3, ?_⟩
          have e5 : this.size + next.size ≤ x.size := e4
          omega

theorem Covers_iff_HasAttr (cfg : MemblockConfig) (l : List memblock_region) (a : Nat) :
    Covers l a ↔ ∃ nid flags, HasAttr cfg l a nid flags := by
  constructor
  · rintro ⟨r, hr, hc⟩
    exact ⟨_, _, r, hr, hc, rfl, rfl⟩
  · rintro ⟨_, _, r, hr, hc, _, _⟩
    exact ⟨r, hr, hc⟩

/-- Regions in order between `lo` and `hi` have sizes that add up to at most
`hi - lo`. -/
theorem sum_sizes_le (l : List memblock_region) :
    ∀ (lo hi : Nat), OrderedRegions l → (∀ r ∈ l, lo ≤ r.base) →
      (∀ r ∈ l, r.base + r.size ≤ hi) → lo ≤ hi → lo + sum_sizes l ≤ hi := by
  induction l with
  | nil => intro lo hi _ _ _ h; simpa [sum_sizes] using h
  | cons r rest ih =>
    intro lo hi hl hlo hhi _
    obtain ⟨h1, h2⟩ := List.pairwise_cons.1 hl
    have h3 := ih (r.base + r.size) hi h2 h1 (fun x hx => hhi x (List.mem_cons_of_mem _ hx))
      (hhi r (List.mem_cons_self _ _))
    have h4 := hlo r (List.mem_cons_self _ _)
    rw [sum_sizes_cons]
    omega

/-- Regions of positive size that are sorted by base and pairwise disjoint
end where or before each later one starts. -/
theorem OrderedRegions.of_sorted (l : List memblock_region)
    (hpos : ∀ r ∈ l, 0 < r.size) (hsorted : l.Pairwise (fun a b => a.base ≤ b.base))
    (hdisj : l.Pairwise (fun a b => ∀ x, ¬ (region_covers a x ∧ region_covers b x))) :
    OrderedRegions l := by
  unfold OrderedRegions
  induction l with
  | nil => exact List.Pairwise.nil
  | cons r rest ih =>
    obtain ⟨s1, s2⟩ := List.pairwise_cons.1 hsorted
    obtain ⟨d1, d2⟩ := List.pairwise_cons.1 hdisj
    refine List.pairwise_cons.2 ⟨?_, ih (fun x hx => hpos x (List.mem_cons_of_mem _ hx)) s2 d2⟩
    intro x hx
    by_contra hlt
    have hb := s1 x hx
    have hp := hpos x (List.mem_cons_of_mem _ hx)
    exact d1 x hx x.base ⟨⟨hb, by omega⟩, ⟨le_refl _, by omega⟩⟩

theorem OrderedRegions.sorted (l : List memblock_region) (h : OrderedRegions l) :
    l.Pairwise (fun a b => a.base ≤ b.base) := by
  unfold OrderedRegions at h
  exact List.Pairwise.imp (fun {a b} (hab : a.base + a.size ≤ b.base) => by omega) h

theorem OrderedRegions.disjoint (l : List memblock_region) (h : OrderedRegions l) :
    l.Pairwise (fun a b => ∀ x, ¬ (region_covers a x ∧ region_covers b x)) := by
  unfold OrderedRegions at h
  exact List.Pairwise.imp (fun {a b} (hab : a.base + a.size ≤ b.base) x hx => by
    have h1 := hx.1.2
    have h2 := hx.2.1
    omega) h

/-- C24: for a `memblock_type` whose regions are sorted by base, pairwise
disjoint and minimal, with `total_size` the sum of their sizes, a call
`memblock_add_range(type, base, size, nid, flags)` that returns 0 without
growing the array leaves the regions sorted by base and pairwise disjoint,
covering exactly the addresses covered before plus `[base, base + size)` with
`size` capped by `memblock_cap_size`; every address covered before keeps its
node and flags; no two neighbouring regions abut with equal node and flags;
`total_size` is the sum of the region sizes; and the regions have positive
size and end below the top of the address space, as assumed of the old ones. -/
theorem memblock_add_range_keeps_regions (cfg : MemblockConfig) (type type1 : memblock_type)
    (base size : Nat) (nid : Int) (flags : Nat)
    (hbase : base < 2 ^ cfg.phys_addr_bits)
    (hpos : (∀ r ∈ type.regions, 0 < r.size) ∨ type.regions.length = 1)
    (hrange : ∀ r ∈ type.regions, r.base + r.size < 2 ^ cfg.phys_addr_bits)
    (hsorted : type.regions.Pairwise (fun a b => a.base ≤ b.base))
    (hdisj : type.regions.Pairwise (fun a b => ∀ x, ¬ (region_covers a x ∧ region_covers b x)))
    (hmin : MinimalRegions cfg type.regions)
    (htotal : type.total_size = sum_sizes type.regions)
    (hret : memblock_add_range cfg type base size nid flags = some (type1, 0)) :
    type1.regions.Pairwise (fun a b => a.base ≤ b.base) ∧
    type1.regions.Pairwise (fun a b => ∀ x, ¬ (region_covers a x ∧ region_covers b x)) ∧
    (∀ a, Covers type1.regions a ↔
      Covers type.regions a ∨ (base ≤ a ∧ a < base + memblock_cap_size cfg base size)) ∧
    (∀ a nid1 flags1, HasAttr cfg type.regions a nid1 flags1 →
      HasAttr cfg type1.regions a nid1 flags1) ∧
    MinimalRegions cfg type1.regions ∧
    type1.total_size = sum_sizes type1.regions ∧
    ((∀ r ∈ type1.regions, 0 < r.size) ∨ type1.regions.length = 1) ∧
    (∀ r ∈ type1.regions, r.base + r.size < 2 ^ cfg.phys_addr_bits) := by
  have hM : 0 < 2 ^ cfg.phys_addr_bits := Nat.pow_pos (by decide)
  have hcap : base + memblock_cap_size cfg base size < 2 ^ cfg.phys_addr_bits := by
    have : memblock_cap_size cfg base size ≤ PHYS_ADDR_MAX cfg - base := Nat.min_le_right _ _
    unfold PHYS_ADDR_MAX at this
    omega
  have hend : (base + memblock_cap_size cfg base size) % 2 ^ cfg.phys_addr_bits =
      base + memblock_cap_size cfg base size := Nat.mod_eq_of_lt hcap
  unfold memblock_add_range at hret
  simp only [hend] at hret
  by_cases hs0 : memblock_cap_size cfg base size = 0
  · rw [if_pos hs0] at hret
    have ht : type = type1 := by
      have := Option.some.inj hret
      exact (Prod.mk.inj this).1
    subst ht
    refine ⟨hsorted, hdisj, ?_, fun _ _ _ h => h, hmin, htotal, hpos, hrange⟩
    intro a
    constructor
    · exact fun h => Or.inl h
    · rintro (h | h)
      · exact h
      · omega
  · rw [if_neg hs0] at hret
    rcases hreg : type.regions with _ | ⟨first, others⟩
    · rw [hreg] at hret
      cases hret
    · rw [hreg] at hret
      simp only [] at hret
      by_cases hf : first.size = 0
      · rw [if_pos hf] at hret
        have ht := (Prod.mk.inj (Option.some.inj hret)).1
        have hothers : others = [] := by
          rcases hpos with h | h
          · have := h first (by rw [hreg]; exact List.mem_cons_self _ _)
            omega
          · rw [hreg] at h
            simp only [List.length_cons, Nat.add_eq_right, List.length_eq_zero] at h
            exact h
        subst hothers
        have hold : ∀ a, ¬ Covers [first] a := by
          intro a hc
          obtain ⟨r, hr, h1, h2⟩ := hc
          rw [List.mem_singleton] at hr
          rw [hr] at h1
          rw [hr, hf] at h2
          omega
        have hb : (memblock_set_region_node cfg
            { first with base := base, size := memblock_cap_size cfg base size, flags := flags }
            nid).base = base := by
          unfold memblock_set_region_node; split <;> rfl
        have hsz : (memblock_set_region_node cfg
            { first with base := base, size := memblock_cap_size cfg base size, flags := flags }
            nid).size = memblock_cap_size cfg base size := by
          unfold memblock_set_region_node; split <;> rfl
        rw [← ht]
        refine ⟨List.pairwise_singleton _ _, List.pairwise_singleton _ _, ?_, ?_,
          List.chain'_singleton _, ?_, Or.inr rfl, ?_⟩
        · intro a
          show Covers [_] a ↔ _
          rw [Covers_cons]
          unfold region_covers
          rw [hb, hsz]
          constructor
          · rintro (h | h)
            · exact Or.inr h
            · exact absurd h (Covers_nil a)
          · rintro (h | h)
            · exact absurd h (hold a)
            · exact Or.inl h
        · intro a nid1 flags1 h
          exact absurd ((Covers_iff_HasAttr cfg _ a).2 ⟨nid1, flags1, h⟩) (hold a)
        · show memblock_cap_size cfg base size = sum_sizes [_]
          rw [sum_sizes_cons, hsz]
          rfl
        · intro r hr
          rw [List.mem_singleton] at hr
          rw [hr, hb, hsz]
          exact hcap
      · rw [if_neg hf] at hret
        by_cases hroom : memblock_type.cnt type +
            (memblock_add_range_loop cfg false (base + memblock_cap_size cfg base size) nid flags
              (first :: others) base 0 type.total_size).nr_new > type.max
        · rw [if_pos hroom] at hret
          cases hret
        · rw [if_neg hroom] at hret
          have ht := (Prod.mk.inj (Option.some.inj hret)).1
          -- the old regions are in order
          have hpos1 : ∀ r ∈ first :: others, 0 < r.size := by
            rcases hpos with h | h
            · rw [hreg] at h; exact h
            · rw [hreg] at h
              simp only [List.length_cons, Nat.add_eq_right, List.length_eq_zero] at h
              intro r hr
              rw [h, List.mem_singleton] at hr
              rw [hr]
              omega
          rw [hreg] at hrange hsorted hdisj htotal
          have hord := OrderedRegions.of_sorted _ hpos1 hsorted hdisj
          have hsum : sum_sizes (first :: others) < 2 ^ cfg.phys_addr_bits := by
            have := sum_sizes_le (first :: others) 0 (2 ^ cfg.phys_addr_bits - 1) hord
              (fun _ _ => Nat.zero_le _) (fun r hr => by have := hrange r hr; omega) (by omega)
            omega
          -- the inserting pass
          have s := memblock_add_range_loop_spec cfg (base + memblock_cap_size cfg base size)
            nid flags (first :: others) base 0 type.total_size hord hrange (by omega)
            (by rw [htotal]; exact hsum)
          generalize memblock_add_range_loop cfg true (base + memblock_cap_size cfg base size)
            nid flags (first :: others) base 0 type.total_size = pass at s ht
          have hprange : ∀ r ∈ pass.regions, r.base + r.size < 2 ^ cfg.phys_addr_bits := by
            intro r hr
            rcases s.shape r hr with h | h
            · exact hrange r h
            · omega
          have hppos : ∀ r ∈ pass.regions, 0 < r.size := by
            intro r hr
            rcases s.shape r hr with h | h
            · exact hpos1 r h
            · exact h.2.1
          have hpsum : sum_sizes pass.regions < 2 ^ cfg.phys_addr_bits := by
            have := sum_sizes_le pass.regions 0 (2 ^ cfg.phys_addr_bits - 1) s.ordered
              (fun _ _ => Nat.zero_le _) (fun r hr => by have := hprange r hr; omega) (by omega)
            omega
          -- the merge
          have m := memblock_merge_regions_loop_spec cfg (pass.regions.length - 1) pass.regions
            s.ordered hprange (by omega)
          have hregs : type1.regions =
              memblock_merge_regions_loop cfg (pass.regions.length - 1) pass.regions := by
            rw [← ht]; rfl
          have htot : type1.total_size = pass.total_size := by
            rw [← ht]; rfl
          rw [hregs, htot]
          refine ⟨OrderedRegions.sorted _ m.ordered, OrderedRegions.disjoint _ m.ordered, ?_, ?_,
            m.minimal, ?_, Or.inl ?_, m.range⟩
          · intro a
            rw [Covers_iff_HasAttr cfg, ← s.covers a, Covers_iff_HasAttr cfg pass.regions]
            constructor
            · rintro ⟨n1, f1, h⟩
              exact ⟨n1, f1, (m.covers a n1 f1).1 h⟩
            · rintro ⟨n1, f1, h⟩
              exact ⟨n1, f1, (m.covers a n1 f1).2 h⟩
          · intro a nid1 flags1 h
            rw [m.covers]
            obtain ⟨r, hr, hc⟩ := h
            exact ⟨r, s.keeps r hr, hc⟩
          · obtain ⟨d, hd1, hd2⟩ := s.total
            rw [m.total, hd2, htotal, ← hd1]
            exact Nat.mod_eq_of_lt hpsum
          · intro x hx
            obtain ⟨y, hy, _, _, _, h4⟩ := m.starts x hx
            have := hppos y hy
            omega

/-- The claim C24 for the range `[0x6000, 0x10000)` with flags 1 added to
`memblock_two`: the part `[0x8000, 0x10000)` is inserted between the two
regions, which keep their flags, and nothing is merged. -/
theorem memblock_add_range_keeps_regions_witness :
    memblock_add_range {} memblock_two 0x6000 0xa000 0 1 =
      some ({ total_size := 0xd000,
              regions := [{ base := 0x4000, size := 0x4000 },
                          { base := 0x8000, size := 0x8000, flags := 1 },
                          { base := 0x10000, size := 0x1000 }] }, 0) ∧
    (∀ a, Covers [{ base := 0x4000, size := 0x4000 },
                  { base := 0x8000, size := 0x8000, flags := 1 },
                  { base := 0x10000, size := 0x1000 }] a ↔
      Covers memblock_two.regions a ∨
        (0x6000 ≤ a ∧ a < 0x6000 + memblock_cap_size {} 0x6000 0xa000)) ∧
    (∀ a nid1 flags1, HasAttr {} memblock_two.regions a nid1 flags1 →
      HasAttr {} [{ base := 0x4000, size := 0x4000 },
                  { base := 0x8000, size := 0x8000, flags := 1 },
                  { base := 0x10000, size := 0x1000 }] a nid1 flags1) :=
  have h := memblock_add_range_keeps_regions {} memblock_two
    { total_size := 0xd000,
      regions := [{ base := 0x4000, size := 0x4000 },
                  { base := 0x8000, size := 0x8000, flags := 1 },
                  { base := 0x10000, size := 0x1000 }] }
    0x6000 0xa000 0 1 (by decide) (Or.inl (by decide)) (by decide) (by decide)
    (OrderedRegions.disjoint _ (by unfold OrderedRegions; decide)) (List.chain'_pair.2 (by decide))
    (by decide) (by decide)
  ⟨by decide, h.2.2.1, h.2.2.2.1⟩

/-- `kmem_cache_open` accepts `cache8` under `boot_order6`: 8-byte objects,
slabs of order 6 with 32768 objects, and a minimum order 0 with 512. -/
theorem open_cache8_accepted :
    (kmem_cache_open boot_order6 cache8 {} true true).map Prod.snd = some 0 ∧
    kmem_cache_open boot_order6 cache8 {} true true =
      some (open_cache boot_order6 cache8, 0) ∧
    kmem_cache_debug (open_cache boot_order6 cache8) = false ∧
    (open_cache boot_order6 cache8).size = 8 ∧
    kmem_cache.min_partial (open_cache boot_order6 cache8) = 5 ∧
    kmem_cache.cpu_partial (open_cache boot_order6 cache8) = 30 ∧
    oo_order (open_cache boot_order6 cache8).oo = 6 ∧
    oo_objects (open_cache boot_order6 cache8).oo = 32768 ∧
    oo_order (open_cache boot_order6 cache8).min = 0 ∧
    oo_objects (open_cache boot_order6 cache8).min = 512 ∧
    slab_order boot_order6 8 20000 6 16 0 = 6 ∧
    order_objects boot_order6 6 8 0 = 32768 ∧
    MAX_OBJS_PER_PAGE < order_objects boot_order6 6 8 0 := by
  decide

/-- C1, evaluated on `cache8` under `boot_order6`: `new_slab` leaves
`page->objects == 0`, sets no free pointer and hands out the first object of
the block with the chain behind it as the block held it.  After the two
allocations of `ops_stale` the objects `(1, 0)` and `(2, 0)` are live and
`c->freelist` is the address found in the second block, and the third
`kmem_cache_alloc` returns `(1, 0)`, which is live. -/
theorem slab_alloc_returns_live_object :
    TraceOk boot_order6 (open_cache boot_order6 cache8) fresh ops_stale ∧
    (run boot_order6 (open_cache boot_order6 cache8) fresh ops_stale).live = [⟨2, 0⟩, ⟨1, 0⟩] ∧
    ((run boot_order6 (open_cache boot_order6 cache8) fresh ops_stale).st.mem 2).objects = 0 ∧
    (run boot_order6 (open_cache boot_order6 cache8) fresh ops_stale).st.c.page = some 2 ∧
    (run boot_order6 (open_cache boot_order6 cache8) fresh ops_stale).st.c.freelist = [⟨1, 0⟩] ∧
    SrcOk (run boot_order6 (open_cache boot_order6 cache8) fresh ops_stale).st {} ∧
    (kmem_cache_alloc boot_order6 (open_cache boot_order6 cache8) false {}
      (run boot_order6 (open_cache boot_order6 cache8) fresh ops_stale).st).2 = some ⟨1, 0⟩ ∧
    (⟨1, 0⟩ : Obj) ∈ (run boot_order6 (open_cache boot_order6 cache8) fresh ops_stale).live := by
  decide

/-- C2, evaluated on `cache8` under `boot_order6`: the slab of the first
allocation was obtained at the preferred order, 6, and its `page->objects` is
0, neither the 32768 of `s->oo` nor the 512 of `s->min`; after the free of
`ops_order6` that page has `inuse == 65535` with `objects == 0`. -/
theorem slab_page_objects_wraps :
    TraceOk boot_order6 (open_cache boot_order6 cache8) fresh ops_order6 ∧
    oo_objects (open_cache boot_order6 cache8).oo = 32768 ∧
    oo_objects (open_cache boot_order6 cache8).min = 512 ∧
    1 ∈ (run boot_order6 (open_cache boot_order6 cache8) fresh (ops_order6.take 1)).st.slabs ∧
    ((run boot_order6 (open_cache boot_order6 cache8) fresh (ops_order6.take 1)).st.mem 1).order
      = 6 ∧
    ((run boot_order6 (open_cache boot_order6 cache8) fresh (ops_order6.take 1)).st.mem 1).objects
      = 0 ∧
    1 ∈ (run boot_order6 (open_cache boot_order6 cache8) fresh ops_order6).st.slabs ∧
    ((run boot_order6 (open_cache boot_order6 cache8) fresh ops_order6).st.mem 1).objects = 0 ∧
    ((run boot_order6 (open_cache boot_order6 cache8) fresh ops_order6).st.mem 1).inuse = 65535 ∧
    ¬ ((run boot_order6 (open_cache boot_order6 cache8) fresh ops_order6).st.mem 1).inuse ≤
      ((run boot_order6 (open_cache boot_order6 cache8) fresh ops_order6).st.mem 1).objects := by
  decide

/-- C5, evaluated on `cache8` under `boot_order6`: after the first allocation
of `ops_order6` one object is live, the node counts one slab, and
`inc_slabs_node` has added `page->objects == 0` to `total_objects`: the live
objects exceed `total_objects`. -/
theorem live_objects_exceed_total :
    TraceOk boot_order6 (open_cache boot_order6 cache8) fresh (ops_order6.take 1) ∧
    (run boot_order6 (open_cache boot_order6 cache8) fresh (ops_order6.take 1)).live = [⟨1, 0⟩] ∧
    (run boot_order6 (open_cache boot_order6 cache8) fresh (ops_order6.take 1)).st.slabs = [1] ∧
    (run boot_order6 (open_cache boot_order6 cache8) fresh (ops_order6.take 1)).st.n.nr_slabs
      = 1 ∧
    (run boot_order6 (open_cache boot_order6 cache8) fresh
      (ops_order6.take 1)).st.n.total_objects = 0 ∧
    ¬ (((run boot_order6 (open_cache boot_order6 cache8) fresh (ops_order6.take 1)).live.length
        : Int) ≤
      (run boot_order6 (open_cache boot_order6 cache8) fresh
        (ops_order6.take 1)).st.n.total_objects) := by
  decide

/-- C19, evaluated on `cache8` under `boot_order6`: after the three calls of
`ops_order6` page 1 is frozen on the per-CPU partial list with
`inuse == 65535` and `objects == 0`; `flush_all` moves it to `n->partial`, and
the loop of `__kmem_cache_shrink` finds `free = 0 - 65535` there and stops at
`BUG_ON(free <= 0)`, with either value of `deactivate`: the function does not
return. -/
theorem kmem_cache_shrink_hits_bug_on :
    TraceOk boot_order6 (open_cache boot_order6 cache8) fresh ops_order6 ∧
    (run boot_order6 (open_cache boot_order6 cache8) fresh ops_order6).st.c.partial_ = [1] ∧
    ((run boot_order6 (open_cache boot_order6 cache8) fresh ops_order6).st.mem 1).frozen = true ∧
    ((run boot_order6 (open_cache boot_order6 cache8) fresh ops_order6).st.mem 1).inuse = 65535 ∧
    ((run boot_order6 (open_cache boot_order6 cache8) fresh ops_order6).st.mem 1).objects = 0 ∧
    __kmem_cache_shrink boot_order6 (open_cache boot_order6 cache8)
      (run boot_order6 (open_cache boot_order6 cache8) fresh ops_order6).st false = none ∧
    __kmem_cache_shrink boot_order6 (open_cache boot_order6 cache8)
      (run boot_order6 (open_cache boot_order6 cache8) fresh ops_order6).st true = none :=
  ⟨by decide, by decide, by decide, by decide, by decide,
    Option.isNone_iff_eq_none.mp (by decide), Option.isNone_iff_eq_none.mp (by decide)⟩

/-- C26, evaluated on `cache8` under `boot_order6`: after one allocation and
the free of its object the CPU slab, page 1, has `inuse == 0`, `objects == 0`
and the object on `c->freelist`; `flush_all`, the first step of
`__kmem_cache_shrink`, has `deactivate_slab` give the object back and
decrement `inuse` to 65535, and the page is put on `n->partial`, unfrozen, with
`inuse > objects`.  For that page `free = objects - inuse` is negative and the
loop of `__kmem_cache_shrink` ends in `BUG_ON(free <= 0)`. -/
theorem node_partial_page_overfull :
    TraceOk boot_order6 (open_cache boot_order6 cache8) fresh
      [Op.alloc false { pref := some (1, false) }, Op.free ⟨1, 0⟩] ∧
    (flush_all boot_order6 (open_cache boot_order6 cache8)
      (run boot_order6 (open_cache boot_order6 cache8) fresh
        [Op.alloc false { pref := some (1, false) }, Op.free ⟨1, 0⟩]).st).n.partial_ = [1] ∧
    ((flush_all boot_order6 (open_cache boot_order6 cache8)
      (run boot_order6 (open_cache boot_order6 cache8) fresh
        [Op.alloc false { pref := some (1, false) }, Op.free ⟨1, 0⟩]).st).mem 1).frozen
      = false ∧
    ((flush_all boot_order6 (open_cache boot_order6 cache8)
      (run boot_order6 (open_cache boot_order6 cache8) fresh
        [Op.alloc false { pref := some (1, false) }, Op.free ⟨1, 0⟩]).st).mem 1).freelist
      = [⟨1, 0⟩] ∧
    ((flush_all boot_order6 (open_cache boot_order6 cache8)
      (run boot_order6 (open_cache boot_order6 cache8) fresh
        [Op.alloc false { pref := some (1, false) }, Op.free ⟨1, 0⟩]).st).mem 1).inuse
      = 65535 ∧
    ((flush_all boot_order6 (open_cache boot_order6 cache8)
      (run boot_order6 (open_cache boot_order6 cache8) fresh
        [Op.alloc false { pref := some (1, false) }, Op.free ⟨1, 0⟩]).st).mem 1).objects = 0 ∧
    shrink_loop boot_order6
      (flush_all boot_order6 (open_cache boot_order6 cache8)
        (run boot_order6 (open_cache boot_order6 cache8) fresh
          [Op.alloc false { pref := some (1, false) }, Op.free ⟨1, 0⟩]).st).mem [1]
      { nr_partial := 1 } = none ∧
    __kmem_cache_shrink boot_order6 (open_cache boot_order6 cache8)
      (run boot_order6 (open_cache boot_order6 cache8) fresh
        [Op.alloc false { pref := some (1, false) }, Op.free ⟨1, 0⟩]).st false = none :=
  ⟨by decide, by decide, by decide, by decide, by decide, by decide,
    Option.isNone_iff_eq_none.mp (by decide), Option.isNone_iff_eq_none.mp (by decide)⟩

/-- C20, evaluated on `cache8` under `boot_order6`: `__kmem_cache_shrink(s,
true)` on the fresh cache sets `s->min_partial` to 0; the next
`kmem_cache_alloc` takes a slab, page 1, with `inuse == 0` and
`objects == 0` and hands out its first object.  `kmem_cache_close` then has
`flush_all` deactivate that page; with `inuse == 0` and
`n->nr_partial >= s->min_partial` it is discarded, no slab is left, and the
function returns 0 and frees the per-CPU and the node structures while the
object is live. -/
theorem kmem_cache_close_frees_live_slab :
    (__kmem_cache_shrink boot_order6 (open_cache boot_order6 cache8) fresh.st true).isSome
      = true ∧
    kmem_cache.min_partial shrunk_order6.1 = 0 ∧ shrunk_order6.2.slabs = [] ∧
    oo_objects shrunk_order6.1.oo = 32768 ∧
    TraceOk boot_order6 shrunk_order6.1 { st := shrunk_order6.2 }
      [Op.alloc false { pref := some (1, false) }] ∧
    (run boot_order6 shrunk_order6.1 { st := shrunk_order6.2 }
      [Op.alloc false { pref := some (1, false) }]).live = [⟨1, 0⟩] ∧
    (run boot_order6 shrunk_order6.1 { st := shrunk_order6.2 }
      [Op.alloc false { pref := some (1, false) }]).st.slabs = [1] ∧
    (run boot_order6 shrunk_order6.1 { st := shrunk_order6.2 }
      [Op.alloc false { pref := some (1, false) }]).st.c.page = some 1 ∧
    ((run boot_order6 shrunk_order6.1 { st := shrunk_order6.2 }
      [Op.alloc false { pref := some (1, false) }]).st.mem 1).inuse = 0 ∧
    ((run boot_order6 shrunk_order6.1 { st := shrunk_order6.2 }
      [Op.alloc false { pref := some (1, false) }]).st.mem 1).objects = 0 ∧
    (kmem_cache_close boot_order6 shrunk_order6.1
      (run boot_order6 shrunk_order6.1 { st := shrunk_order6.2 }
        [Op.alloc false { pref := some (1, false) }]).st).ret = 0 ∧
    (kmem_cache_close boot_order6 shrunk_order6.1
      (run boot_order6 shrunk_order6.1 { st := shrunk_order6.2 }
        [Op.alloc false { pref := some (1, false) }]).st).cpu_slab_freed = true ∧
    (kmem_cache_close boot_order6 shrunk_order6.1
      (run boot_order6 shrunk_order6.1 { st := shrunk_order6.2 }
        [Op.alloc false { pref := some (1, false) }]).st).nodes_freed = true ∧
    (kmem_cache_close boot_order6 shrunk_order6.1
      (run boot_order6 shrunk_order6.1 { st := shrunk_order6.2 }
        [Op.alloc false { pref := some (1, false) }]).st).st.slabs = [] := by
  decide

/-- C3 as stated fails.  By design: in the state the fourteen well-formed
calls of `ops16k` lead to, slab 1 is on the node partial list with
`inuse == 0`.  And on `cache8` under `boot_order6`, whose slabs have
`page->objects == 0`: after the calls of `ops_order6`, `flush_all` puts page 1
on the node partial list with `inuse == 65535`, above `objects`. -/
theorem node_partial_holds_empty_slab :
    (TraceOk rpi2 (open_cache rpi2 cache16k) fresh ops16k ∧
    1 ∈ (run rpi2 (open_cache rpi2 cache16k) fresh ops16k).st.n.partial_ ∧
    ((run rpi2 (open_cache rpi2 cache16k) fresh ops16k).st.mem 1).inuse = 0 ∧
    ((run rpi2 (open_cache rpi2 cache16k) fresh ops16k).st.mem 1).objects = 2 ∧
    ¬ (∀ p ∈ (run rpi2 (open_cache rpi2 cache16k) fresh ops16k).st.n.partial_,
        ((run rpi2 (open_cache rpi2 cache16k) fresh ops16k).st.mem p).frozen = false ∧
        0 < ((run rpi2 (open_cache rpi2 cache16k) fresh ops16k).st.mem p).inuse ∧
        ((run rpi2 (open_cache rpi2 cache16k) fresh ops16k).st.mem p).inuse <
          ((run rpi2 (open_cache rpi2 cache16k) fresh ops16k).st.mem p).objects)) ∧
    (TraceOk boot_order6 (open_cache boot_order6 cache8) fresh ops_order6 ∧
    oo_objects (open_cache boot_order6 cache8).oo = 32768 ∧
    (flush_all boot_order6 (open_cache boot_order6 cache8)
      (run boot_order6 (open_cache boot_order6 cache8) fresh ops_order6).st).n.partial_ = [1] ∧
    ((flush_all boot_order6 (open_cache boot_order6 cache8)
      (run boot_order6 (open_cache boot_order6 cache8) fresh ops_order6).st).mem 1).frozen
      = false ∧
    ((flush_all boot_order6 (open_cache boot_order6 cache8)
      (run boot_order6 (open_cache boot_order6 cache8) fresh ops_order6).st).mem 1).inuse
      = 65535 ∧
    ((flush_all boot_order6 (open_cache boot_order6 cache8)
      (run boot_order6 (open_cache boot_order6 cache8) fresh ops_order6).st).mem 1).objects
      = 0 ∧
    ¬ (∀ p ∈ (flush_all boot_order6 (open_cache boot_order6 cache8)
          (run boot_order6 (open_cache boot_order6 cache8) fresh ops_order6).st).n.partial_,
        ((flush_all boot_order6 (open_cache boot_order6 cache8)
          (run boot_order6 (open_cache boot_order6 cache8) fresh ops_order6).st).mem p).inuse <
        ((flush_all boot_order6 (open_cache boot_order6 cache8)
          (run boot_order6 (open_cache boot_order6 cache8) fresh ops_order6).st).mem
            p).objects)) :=
  ⟨by decide!, by decide⟩

/-- C3, amended: for a cache without debug flags whose slabs hold at least
one and at most `MAX_OBJS_PER_PAGE` objects at both of its orders, in every
state reached between two calls, and in the state `flush_all` makes of it,
every page on the node partial list `n->partial` has `frozen == 0` and
`inuse < objects`; `inuse` may be 0. -/
theorem node_partial_unfrozen (k : Kconfig) (s : kmem_cache) (ho : Opened s) (ops : List Op)
    (ht : TraceOk k s fresh ops) :
    (∀ p ∈ (run k s fresh ops).st.n.partial_,
      ((run k s fresh ops).st.mem p).frozen = false ∧
      0 ≤ ((run k s fresh ops).st.mem p).inuse ∧
      ((run k s fresh ops).st.mem p).inuse < ((run k s fresh ops).st.mem p).objects) ∧
    (∀ p ∈ (flush_all k s (run k s fresh ops).st).n.partial_,
      ((flush_all k s (run k s fresh ops).st).mem p).frozen = false ∧
      0 ≤ ((flush_all k s (run k s fresh ops).st).mem p).inuse ∧
      ((flush_all k s (run k s fresh ops).st).mem p).inuse <
        ((flush_all k s (run k s fresh ops).st).mem p).objects) := by
  have h := Inv.run_ok ho ops fresh (Inv.of_fresh s) ht
  unfold Inv at h
  constructor
  · intro p hp
    obtain ⟨a1, a2, _⟩ := h.npart_free hp
    exact ⟨a1, Nat.zero_le _, a2⟩
  · obtain ⟨f1, _, _, _⟩ := InvG.flush_all_ok (k := k) h ho
    intro p hp
    obtain ⟨a1, a2, _⟩ := f1.npart_free hp
    exact ⟨a1, Nat.zero_le _, a2⟩

theorem node_partial_unfrozen_witness :
    Opened (open_cache rpi2 cache16k) ∧
    TraceOk rpi2 (open_cache rpi2 cache16k) fresh ops16k ∧
    2 ∈ (run rpi2 (open_cache rpi2 cache16k) fresh ops16k).st.n.partial_ ∧
    ((run rpi2 (open_cache rpi2 cache16k) fresh ops16k).st.mem 2).frozen = false ∧
    0 ≤ ((run rpi2 (open_cache rpi2 cache16k) fresh ops16k).st.mem 2).inuse ∧
    ((run rpi2 (open_cache rpi2 cache16k) fresh ops16k).st.mem 2).inuse <
      ((run rpi2 (open_cache rpi2 cache16k) fresh ops16k).st.mem 2).objects :=
  ⟨by unfold Opened; decide!, by decide!, by decide!,
    (node_partial_unfrozen rpi2 (open_cache rpi2 cache16k) (by unfold Opened; decide!)
      ops16k (by decide!)).1 2 (by decide!)⟩

theorem on_freelist_frozen (k : Kconfig) (s : kmem_cache) (page : debug_page) (mem : Nat → Nat)
    (search : Nat) : (on_freelist k s page mem search).1.page.frozen = page.frozen := by
  unfold on_freelist
  split
  · rfl
  · rfl
  · simp only []
    split <;> split <;> split <;> rfl

/-- The checks of `free_debug_processing` leave `page->frozen` alone. -/
theorem free_debug_processing_frozen (k : Kconfig) (s : kmem_cache) (sp : Nat)
    (page : debug_page) (mem : Nat → Nat) (object addr : Nat) (record : Nat → Nat) :
    (free_debug_processing k s sp page mem object addr record).1.page.frozen = page.frozen := by
  have h := on_freelist_frozen k s page (check_slab k s page mem).1 object
  unfold free_debug_processing
  simp only []
  split
  · rfl
  · split
    · rfl
    · split
      · exact h
      · split
        · exact h
        · split
          · exact h
          · exact h

/-- The function `__slab_free` for a cache with debug flags, on a page that is
not frozen.  A free that `free_debug_processing` rejects changes no list and
discards nothing.  A free it lets through is made on the page as the checks
left it: the object becomes the head of `page->freelist` and `inuse` goes down
by one; if `inuse` becomes 0 and `n->nr_partial >= s->min_partial` the page is
taken off `n->partial` (when it had a free object) or off `n->full` and
discarded; otherwise, if it had no free object, it leaves `n->full` for the
tail of `n->partial` and `nr_partial` grows by one; in every other case no
list changes. -/
theorem slab_free_debug_lists (k : Kconfig) (s : kmem_cache) (sp : Nat) (st : DebugState)
    (pg x addr : Nat) (record : Nat → Nat) (hfz : st.page.frozen = false) :
    ((free_debug_processing k s sp st.page st.mem x addr record).2 = false →
      (__slab_free_debug k s sp st pg x addr record).n = st.n ∧
      (__slab_free_debug k s sp st pg x addr record).full = st.full ∧
      (__slab_free_debug k s sp st pg x addr record).page =
        (free_debug_processing k s sp st.page st.mem x addr record).1.page ∧
      (__slab_free_debug k s sp st pg x addr record).mem =
        (free_debug_processing k s sp st.page st.mem x addr record).1.mem) ∧
    ((free_debug_processing k s sp st.page st.mem x addr record).2 = true →
      (__slab_free_debug k s sp st pg x addr record).page.freelist = x ∧
      (__slab_free_debug k s sp st pg x addr record).page.inuse =
        dec16 (free_debug_processing k s sp st.page st.mem x addr record).1.page.inuse ∧
      (__slab_free_debug k s sp st pg x addr record).page.frozen = false ∧
      (if dec16 (free_debug_processing k s sp st.page st.mem x addr record).1.page.inuse = 0 ∧
          st.n.nr_partial ≥ s.min_partial then
        (__slab_free_debug k s sp st pg x addr record).n.nr_slabs = st.n.nr_slabs - 1 ∧
        (s.flags.SLAB_DESTROY_BY_RCU = false →
          (__slab_free_debug k s sp st pg x addr record).page.PageSlab = false) ∧
        (if (free_debug_processing k s sp st.page st.mem x addr record).1.page.freelist ≠ NULL
        then
          (__slab_free_debug k s sp st pg x addr record).n.partial_ = st.n.partial_.erase pg ∧
          (__slab_free_debug k s sp st pg x addr record).n.nr_partial =
            dec_ulong k st.n.nr_partial ∧
          (__slab_free_debug k s sp st pg x addr record).full = st.full
        else
          (__slab_free_debug k s sp st pg x addr record).n.partial_ = st.n.partial_ ∧
          (__slab_free_debug k s sp st pg x addr record).n.nr_partial = st.n.nr_partial ∧
          (__slab_free_debug k s sp st pg x addr record).full = remove_full s st.full pg)
      else if (free_debug_processing k s sp st.page st.mem x addr record).1.page.freelist = NULL
      then
        (__slab_free_debug k s sp st pg x addr record).n.partial_ = st.n.partial_ ++ [pg] ∧
        (__slab_free_debug k s sp st pg x addr record).n.nr_partial = st.n.nr_partial + 1 ∧
        (__slab_free_debug k s sp st pg x addr record).n.nr_slabs = st.n.nr_slabs ∧
        (__slab_free_debug k s sp st pg x addr record).full = remove_full s st.full pg
      else
        (__slab_free_debug k s sp st pg x addr record).n = st.n ∧
        (__slab_free_debug k s sp st pg x addr record).full = st.full)) := by
  have hf := free_debug_processing_frozen k s sp st.page st.mem x addr record
  rw [hfz] at hf
  generalize hr : free_debug_processing k s sp st.page st.mem x addr record = r at hf
  constructor
  · intro h
    unfold __slab_free_debug
    simp [hr, h]
  · intro h
    unfold __slab_free_debug
    simp only [hr, h, Bool.not_true, Bool.false_eq_true, if_false, hf, Bool.and_true]
    by_cases c1 : dec16 r.1.page.inuse = 0 ∧ st.n.nr_partial ≥ s.min_partial
    · by_cases c2 : r.1.page.freelist = NULL
      · by_cases c3 : s.flags.SLAB_DESTROY_BY_RCU = true
        · simp [c1, c2, c3, discard_slab_debug, dec_slabs_node]
        · simp [c1, c2, c3, discard_slab_debug, dec_slabs_node]
      · by_cases c3 : s.flags.SLAB_DESTROY_BY_RCU = true
        · simp [c1, c2, c3, discard_slab_debug, dec_slabs_node, remove_partial]
        · simp [c1, c2, c3, discard_slab_debug, dec_slabs_node, remove_partial]
    · by_cases c2 : r.1.page.freelist = NULL
      · by_cases c3 : dec16 r.1.page.inuse = 0
        · have c4 : ¬ s.min_partial ≤ st.n.nr_partial := fun h => c1 ⟨c3, h⟩
          simp [c2, c3, c4, add_partial]
        · simp [c2, c3, add_partial]
      · by_cases c3 : dec16 r.1.page.inuse = 0
        · have c4 : ¬ s.min_partial ≤ st.n.nr_partial := fun h => c1 ⟨c3, h⟩
          simp [c2, c3, c4]
        · simp [c2, c3]

/-- C16 as stated fails, in two ways.  On a cache with per-CPU partial
support: in the state the calls of `ops32k` lead to, page 11 is not frozen,
freeing its only object brings `inuse` to 0 and
`n->nr_partial >= s->min_partial`, yet `__slab_free` does not discard the
page; it had no free object, so it is frozen and put on the per-CPU partial
list.  On a cache with debug flags, which has no per-CPU partial support: the
full slab `page_full` is not frozen and has no free object, the pointer
`0x10004` is not the start of an object, `free_debug_processing` rejects the
free, and `__slab_free` returns without adding the page to `n->partial`. -/
theorem slab_free_single_object_slab :
    (TraceOk rpi2 (open_cache rpi2 cache32k) fresh ops32k ∧
    (⟨11, 0⟩ : Obj) ∈ (run rpi2 (open_cache rpi2 cache32k) fresh ops32k).live ∧
    ((run rpi2 (open_cache rpi2 cache32k) fresh ops32k).st.mem 11).frozen = false ∧
    ((run rpi2 (open_cache rpi2 cache32k) fresh ops32k).st.mem 11).inuse = 1 ∧
    (run rpi2 (open_cache rpi2 cache32k) fresh ops32k).st.n.nr_partial ≥
      kmem_cache.min_partial (open_cache rpi2 cache32k) ∧
    11 ∈ (run rpi2 (open_cache rpi2 cache32k) fresh ops32k).st.slabs ∧
    ((__slab_free rpi2 (open_cache rpi2 cache32k)
      (run rpi2 (open_cache rpi2 cache32k) fresh ops32k).st 11 ⟨11, 0⟩).mem 11).inuse = 0 ∧
    11 ∈ (__slab_free rpi2 (open_cache rpi2 cache32k)
      (run rpi2 (open_cache rpi2 cache32k) fresh ops32k).st 11 ⟨11, 0⟩).slabs ∧
    ((__slab_free rpi2 (open_cache rpi2 cache32k)
      (run rpi2 (open_cache rpi2 cache32k) fresh ops32k).st 11 ⟨11, 0⟩).mem 11).frozen = true ∧
    (__slab_free rpi2 (open_cache rpi2 cache32k)
      (run rpi2 (open_cache rpi2 cache32k) fresh ops32k).st 11 ⟨11, 0⟩).c.partial_ = [11, 10]) ∧
    (kmem_cache_debug cache_poison = true ∧
    kmem_cache_has_cpu_partial rpi2 cache_poison = false ∧
    state_full.page.frozen = false ∧ state_full.page.freelist = NULL ∧
    dec16 state_full.page.inuse ≠ 0 ∧ state_full.n.partial_ = [] ∧
    check_valid_pointer cache_poison page_full 0x10004 = false ∧
    (free_debug_processing rpi2 cache_poison 1 page_full mem_full 0x10004 0 (fun _ => 0)).2
      = false ∧
    (__slab_free_debug rpi2 cache_poison 1 state_full 7 0x10004 0 (fun _ => 0)).n.partial_
      = [] ∧
    kmem_cache_node.nr_partial
      (__slab_free_debug rpi2 cache_poison 1 state_full 7 0x10004 0 (fun _ => 0)).n = 0 ∧
    (__slab_free_debug rpi2 cache_poison 1 state_full 7 0x10004 0 (fun _ => 0)).page.freelist
      = NULL ∧
    (__slab_free_debug rpi2 cache_poison 1 state_full 7 0x10004 0 (fun _ => 0)).page.inuse
      = 102) :=
  ⟨by decide!, by decide⟩

/-- C16, amended: `__slab_free` on a page that is not frozen.  For a cache
without debug flags, the case of a cache with per-CPU partial support freeing
into a page without a free object apart (that page is frozen and goes to the
per-CPU partial list): if the free brings `inuse` to 0 and
`n->nr_partial >= s->min_partial`, the page is taken off `n->partial` (when it
had a free object, so was on it) and discarded; otherwise, if the page had no
free object, it is added to the tail of `n->partial` and `nr_partial` grows by
one; in every other case no list changes.  For a cache with debug flags, which
has no per-CPU partial support: a free that `free_debug_processing` rejects
changes no list and discards nothing; for a free it lets through, on the page
as the checks left it, the same three cases hold, the page leaving `n->full`
when it had no free object. -/
theorem slab_free_unfrozen :
    (∀ (k : Kconfig) (s : kmem_cache) (st : State) (page : Nat) (x : Obj),
      kmem_cache_debug s = false → (st.mem page).frozen = false →
      ¬ ( kmem_cache_has_cpu_partial k s = true ∧ (st.mem page).freelist = []) →
      (__slab_free k s st page x).c = st.c ∧
      ((__slab_free k s st page x).mem page).freelist = x :: (st.mem page).freelist ∧
      ((__slab_free k s st page x).mem page).inuse = dec16 (st.mem page).inuse ∧
      ((__slab_free k s st page x).mem page).frozen = false ∧
      (if dec16 (st.mem page).inuse = 0 ∧ st.n.nr_partial ≥ s.min_partial then
        (__slab_free k s st page x).slabs = st.slabs.erase page ∧
        (__slab_free k s st page x).n.nr_slabs = st.n.nr_slabs - 1 ∧
        (if (st.mem page).freelist ≠ [] then
          (__slab_free k s st page x).n.partial_ = st.n.partial_.erase page ∧
          (__slab_free k s st page x).n.nr_partial = dec_ulong k st.n.nr_partial
        else
          (__slab_free k s st page x).n.partial_ = st.n.partial_ ∧
          (__slab_free k s st page x).n.nr_partial = st.n.nr_partial)
      else if (st.mem page).freelist = [] then
        (__slab_free k s st page x).slabs = st.slabs ∧
        (__slab_free k s st page x).n.partial_ = st.n.partial_ ++ [page] ∧
        (__slab_free k s st page x).n.nr_partial = st.n.nr_partial + 1 ∧
        (__slab_free k s st page x).n.nr_slabs = st.n.nr_slabs
      else
        (__slab_free k s st page x).slabs = st.slabs ∧
        (__slab_free k s st page x).n = st.n)) ∧
    (∀ (k : Kconfig) (s : kmem_cache) (sp : Nat) (st : DebugState) (pg x addr : Nat)
      (record : Nat → Nat),
      kmem_cache_debug s = true → st.page.frozen = false →
      ((free_debug_processing k s sp st.page st.mem x addr record).2 = false →
        (__slab_free_debug k s sp st pg x addr record).n = st.n ∧
        (__slab_free_debug k s sp st pg x addr record).full = st.full ∧
        (__slab_free_debug k s sp st pg x addr record).page =
          (free_debug_processing k s sp st.page st.mem x addr record).1.page ∧
        (__slab_free_debug k s sp st pg x addr record).mem =
          (free_debug_processing k s sp st.page st.mem x addr record).1.mem) ∧
      ((free_debug_processing k s sp st.page st.mem x addr record).2 = true →
        (__slab_free_debug k s sp st pg x addr record).page.freelist = x ∧
        (__slab_free_debug k s sp st pg x addr record).page.inuse =
          dec16 (free_debug_processing k s sp st.page st.mem x addr record).1.page.inuse ∧
        (__slab_free_debug k s sp st pg x addr record).page.frozen = false ∧
        (if dec16 (free_debug_processing k s sp st.page st.mem x addr record).1.page.inuse = 0 ∧
            st.n.nr_partial ≥ s.min_partial then
          (__slab_free_debug k s sp st pg x addr record).n.nr_slabs = st.n.nr_slabs - 1 ∧
          (s.flags.SLAB_DESTROY_BY_RCU = false →
            (__slab_free_debug k s sp st pg x addr record).page.PageSlab = false) ∧
          (if (free_debug_processing k s sp st.page st.mem x addr record).1.page.freelist ≠ NULL
          then
            (__slab_free_debug k s sp st pg x addr record).n.partial_ = st.n.partial_.erase pg ∧
            (__slab_free_debug k s sp st pg x addr record).n.nr_partial =
              dec_ulong k st.n.nr_partial ∧
            (__slab_free_debug k s sp st pg x addr record).full = st.full
          else
            (__slab_free_debug k s sp st pg x addr record).n.partial_ = st.n.partial_ ∧
            (__slab_free_debug k s sp st pg x addr record).n.nr_partial = st.n.nr_partial ∧
            (__slab_free_debug k s sp st pg x addr record).full = remove_full s st.full pg)
        else if (free_debug_processing k s sp st.page st.mem x addr record).1.page.freelist = NULL
        then
          (__slab_free_debug k s sp st pg x addr record).n.partial_ = st.n.partial_ ++ [pg] ∧
          (__slab_free_debug k s sp st pg x addr record).n.nr_partial = st.n.nr_partial + 1 ∧
          (__slab_free_debug k s sp st pg x addr record).n.nr_slabs = st.n.nr_slabs ∧
          (__slab_free_debug k s sp st pg x addr record).full = remove_full s st.full pg
        else
          (__slab_free_debug k s sp st pg x addr record).n = st.n ∧
          (__slab_free_debug k s sp st pg x addr record).full = st.full))) :=
  ⟨fun k s st page x _ hfz hcp => slab_free_unfrozen_lists k s st page x hfz hcp,
   fun k s sp st pg x addr record _ hfz => slab_free_debug_lists k s sp st pg x addr record hfz⟩

/-- A full, unfrozen page of two objects of a cache without debug flags and
without per-CPU partial lists: freeing one object puts the page on the node
partial list.  The full slab `page_full` of the cache `cache_poison`: the free
of its first object passes the checks, `inuse` goes from 102 to 101, and the
page is put on the node partial list. -/
theorem slab_free_unfrozen_witness :
    (((__slab_free { rpi2 with CONFIG_SLUB_CPU_PARTIAL := false } (open_cache rpi2 cache16k)
        { mem := fun _ => { inuse := 2, objects := 2 }, slabs := [1] } 1 ⟨1, 0⟩).mem 1).inuse =
      dec16 2 ∧
    (__slab_free { rpi2 with CONFIG_SLUB_CPU_PARTIAL := false } (open_cache rpi2 cache16k)
        { mem := fun _ => { inuse := 2, objects := 2 }, slabs := [1] } 1 ⟨1, 0⟩).n.partial_ =
      [1]) ∧
    ((free_debug_processing rpi2 cache_poison 1 state_full.page state_full.mem 0x10000 0
        (fun _ => 0)).2 = true ∧
    (__slab_free_debug rpi2 cache_poison 1 state_full 7 0x10000 0 (fun _ => 0)).page.inuse =
      dec16 (free_debug_processing rpi2 cache_poison 1 state_full.page state_full.mem 0x10000 0
        (fun _ => 0)).1.page.inuse ∧
    (__slab_free_debug rpi2 cache_poison 1 state_full 7 0x10000 0 (fun _ => 0)).page.inuse
      = 101 ∧
    (__slab_free_debug rpi2 cache_poison 1 state_full 7 0x10000 0 (fun _ => 0)).n.partial_
      = [7]) :=
  ⟨⟨(slab_free_unfrozen.1 { rpi2 with CONFIG_SLUB_CPU_PARTIAL := false }
      (open_cache rpi2 cache16k)
      { mem := fun _ => { inuse := 2, objects := 2 }, slabs := [1] } 1 ⟨1, 0⟩ (by decide) rfl
      (by decide)).2.2.1, by decide⟩,
   ⟨by decide,
    ((slab_free_unfrozen.2 rpi2 cache_poison 1 state_full 7 0x10000 0 (fun _ => 0) (by decide)
      rfl).2 (by decide)).2.1, by decide, by decide⟩⟩

/-! ## The minimum order of a cache, for every setting of the boot parameters -/

/-- What `kmem_cache_open` does after `calculate_sizes` has accepted the
cache leaves the geometry alone; without `need_reserve_slab_rcu` no byte is
reserved. -/
theorem kmem_cache_open_geometry (k : Kconfig) (hrcu : k.need_reserve_slab_rcu = false)
    (a : kmem_cache) (flags : SlabFlags) (nodes_ok cpus_ok : Bool) (s : kmem_cache) (ret : Int)
    (hopen : kmem_cache_open k a flags nodes_ok cpus_ok = some (s, ret))
    (hacc : (calculate_sizes k { a with flags := flags, reserved := 0 } (-1)).2 ≠ 0) :
    s.reserved = (calculate_sizes k { a with flags := flags, reserved := 0 } (-1)).1.reserved ∧
    s.oo = (calculate_sizes k { a with flags := flags, reserved := 0 } (-1)).1.oo ∧
    s.min = (calculate_sizes k { a with flags := flags, reserved := 0 } (-1)).1.min ∧
    s.size = (calculate_sizes k { a with flags := flags, reserved := 0 } (-1)).1.size ∧
    kmem_cache_debug s =
      kmem_cache_debug (calculate_sizes k { a with flags := flags, reserved := 0 } (-1)).1 := by
  unfold kmem_cache_open at hopen
  rw [hrcu] at hopen
  have e : (if (false && flags.SLAB_DESTROY_BY_RCU) = true then
      ({ flags := flags, min_partial := a.min_partial, size := a.size,
         object_size := a.object_size, offset := a.offset, cpu_partial := a.cpu_partial,
         oo := a.oo, max := a.max, min := a.min, allocflags := a.allocflags, inuse := a.inuse,
         align := a.align, reserved := sizeof_rcu_head k, ctor := a.ctor } : kmem_cache)
      else { a with flags := flags, reserved := 0 }) = { a with flags := flags, reserved := 0 } :=
    rfl
  dsimp only at hopen
  rw [e] at hopen
  generalize calculate_sizes k { a with flags := flags, reserved := 0 } (-1) = c at *
  rw [if_neg hacc] at hopen
  by_cases hx : (k.CONFIG_HAVE_CMPXCHG_DOUBLE && !kmem_cache_debug c.1) = true
  · simp only [hx, if_true] at hopen
    split at hopen
    · simp only [Option.some.injEq, Prod.mk.injEq] at hopen
      rw [← hopen.1]
      exact ⟨rfl, rfl, rfl, rfl, rfl⟩
    · split at hopen
      · exact absurd hopen (by simp)
      · simp only [Option.some.injEq, Prod.mk.injEq] at hopen
        rw [← hopen.1]
        exact ⟨rfl, rfl, rfl, rfl, rfl⟩
  · simp only [hx, if_false] at hopen
    split at hopen
    · simp only [Option.some.injEq, Prod.mk.injEq] at hopen
      rw [← hopen.1]
      exact ⟨rfl, rfl, rfl, rfl, rfl⟩
    · split at hopen
      · exact absurd hopen (by simp)
      · simp only [Option.some.injEq, Prod.mk.injEq] at hopen
        rw [← hopen.1]
        exact ⟨rfl, rfl, rfl, rfl, rfl⟩

/-- The function `calculate_sizes` sets no debug flag and clears none. -/
theorem calculate_sizes_debug (k : Kconfig) (s : kmem_cache) (forced_order : Int) :
    kmem_cache_debug (calculate_sizes k s forced_order).1 = kmem_cache_debug s := by
  have h1 : kmem_cache_debug (calculate_sizes_object k s).1 = kmem_cache_debug s := by
    unfold calculate_sizes_object
    dsimp only
    split <;> rfl
  have h2 : (calculate_sizes k s forced_order).1.flags = (calculate_sizes_object k s).1.flags := by
    unfold calculate_sizes
    dsimp only
    split_ifs <;> rfl
  rw [← h1]
  unfold kmem_cache_debug
  rw [h2]

/-- With 4 KiB pages and the boot parameters at their defaults
(`slub_min_order = 0`, `slub_max_order = 3`), every cache without debug flags
that `kmem_cache_open` sets up and `calculate_sizes` accepts is one the
invariant covers: its slabs hold between 1 and `MAX_OBJS_PER_PAGE` objects at
both orders.  The cache `cache8` under `boot_order6` shows that this is not so
for every value of the boot parameters. -/
theorem Opened.of_kmem_cache_open (k : Kconfig) (hps : k.PAGE_SHIFT = 12)
    (hmin : k.slub_min_order = 0) (hmax : k.slub_max_order = 3) (hmo : k.MAX_ORDER ≤ 32)
    (hrcu : k.need_reserve_slab_rcu = false)
    (a : kmem_cache) (flags : SlabFlags) (nodes_ok cpus_ok : Bool)
    (hobj : 1 ≤ a.object_size) (halign : ∃ j, a.align = 2 ^ j)
    (hd : kmem_cache_debug { a with flags := flags } = false)
    (s : kmem_cache) (ret : Int)
    (hopen : kmem_cache_open k a flags nodes_ok cpus_ok = some (s, ret))
    (hacc : (calculate_sizes k { a with flags := flags, reserved := 0 } (-1)).2 ≠ 0) :
    Opened s := by
  obtain ⟨_, g2, g3, _, g5⟩ := kmem_cache_open_geometry k hrcu a flags nodes_ok cpus_ok s ret
    hopen hacc
  have hP : (0 : Nat) ≤ PAGE_SIZE k := Nat.zero_le _
  obtain ⟨m1, m2, m3⟩ := calculate_sizes_min_le k hps hmin hmax hmo
    { a with flags := flags, reserved := 0 } hobj halign hP hacc
  obtain ⟨order, _, _, w3, w4⟩ := oo_word_exact k hps hmin hmax
    { a with flags := flags, reserved := 0 } hobj halign hP hacc
  obtain ⟨_, _, _, _, _, c6⟩ :=
    calculate_sizes_accepted k { a with flags := flags, reserved := 0 } hacc
  have hdbg : kmem_cache_debug s = false := by
    rw [g5, calculate_sizes_debug]
    exact hd
  have h1 := m3 rfl
  rw [w3] at m2 c6
  unfold Opened
  rw [g2, g3, w3]
  refine ⟨hdbg, Nat.pos_of_ne_zero c6, w4, h1, ?_⟩
  omega

theorem open_cache48_opened_from_open :
    Opened (open_cache rpi2 cache48) :=
  Opened.of_kmem_cache_open rpi2 rfl rfl rfl (by decide) rfl cache48 {} true true (by decide)
    ⟨3, by decide⟩ (by decide) (open_cache rpi2 cache48) 0 (by decide) (by decide)

/-- The descriptor of `cache8` under `boot_order6` is not one of them. -/
theorem open_cache8_not_opened : ¬ Opened (open_cache boot_order6 cache8) := by
  unfold Opened
  decide

end Slub
